import Mathlib

/-!
# DemonReda (erraid / tadmor): a verification development

Shallow embedding of the scheduler, the framed protocol, the task store and
the executor of the `erraid` daemon, followed by the theorems that settle the
properties stated for them.

Conventions of the embedding

* C integers are `Nat` (unsigned) or `Int` (signed); a width is written out as
  `% 2 ^ w` wherever the code can wrap.
* C strings and byte buffers are `List Nat`, one entry per byte (a value below
  256); the terminating NUL is implicit.
* A function that returns `-1` on failure returns `none` here, unless its
  integer result is itself data (as in `scheduler_next_occurrence`).
* The operating system (local time, the file system, child processes, the
  allocator) is an explicit argument of the functions that use it.
-/

namespace Erraid

/-! ## Data model (`include/common.h`) -/

/-- The bytes of a string literal. -/
def str (s : String) : List Nat := s.toList.map Char.toNat

def ERRAID_MAX_COMMAND_ARGS : Nat := 16

def ERRAID_MAX_TASK_COMMANDS : Nat := 16

def ERRAID_MAX_STDIO_SNAPSHOT : Nat := 65536

def ERRAID_STDIO_SNAPSHOT_COUNT : Nat := 5

def ERRAID_PIPE_MESSAGE_LIMIT : Nat := 4096

def ERRAID_MAGIC : Nat := 0x44495245

def ERRAID_PROTO_VERSION : Nat := 0x01

/-- The enumeration `task_type_t`. -/
inductive task_type_t where
  | TASK_TYPE_SIMPLE
  | TASK_TYPE_SEQUENCE
  | TASK_TYPE_ABSTRACT
  deriving DecidableEq, Repr

/-- The struct `schedule_t`: `minute_mask` is a `uint64_t`, `hour_mask` a
`uint32_t`, `weekday_mask` a `uint8_t`. -/
structure schedule_t where
  minute_mask : Nat
  hour_mask : Nat
  weekday_mask : Nat
  enabled : Bool
  deriving DecidableEq, Repr

/-- The struct `command_t`: `argv` without its terminating NULL; `argc` is the
length of the list. -/
structure command_t where
  argv : List (List Nat)
  deriving DecidableEq, Repr

/-- The struct `task_t`; `command_count` is the length of `commands`. -/
structure task_t where
  task_id : Nat
  type : task_type_t
  commands : List command_t
  schedule : schedule_t
  last_run_epoch : Int
  deriving DecidableEq, Repr

/-! ## Scheduler (`src/shared/scheduler.c`) -/

/-- The three fields of `struct tm` that the scheduler reads. -/
structure tm where
  tm_min : Int
  tm_hour : Int
  tm_wday : Int
  deriving DecidableEq, Repr

/-- Embeds `is_minute_allowed`. -/
def is_minute_allowed (schedule : schedule_t) (minute : Int) : Bool :=
  if minute < 0 ∨ minute ≥ 60 then false
  else (schedule.minute_mask >>> minute.toNat) &&& 1 != 0

/-- Embeds `is_hour_allowed`. -/
def is_hour_allowed (schedule : schedule_t) (hour : Int) : Bool :=
  if hour < 0 ∨ hour ≥ 24 then false
  else (schedule.hour_mask >>> hour.toNat) &&& 1 != 0

/-- Embeds `is_weekday_allowed`. -/
def is_weekday_allowed (schedule : schedule_t) (weekday : Int) : Bool :=
  if weekday < 0 ∨ weekday ≥ 7 then false
  else (schedule.weekday_mask >>> weekday.toNat) &&& 1 != 0

/-- The constant `max_iterations` of `scheduler_next_occurrence`. -/
def max_iterations : Nat := 366 * 24 * 60

/-- The `for` loop of `scheduler_next_occurrence`: `remaining` is
`max_iterations - iterations`, `current` the probed epoch. `localtime_r`
returns `none` where the C function returns NULL. -/
def next_occurrence_loop (localtime_r : Int → Option tm) (schedule : schedule_t) :
    Nat → Int → Int
  | 0, _ => -1
  | remaining + 1, current =>
    match localtime_r current with
    | none => -1
    | some tm_local =>
      if !is_weekday_allowed schedule tm_local.tm_wday then
        next_occurrence_loop localtime_r schedule remaining (current + 60)
      else if !is_hour_allowed schedule tm_local.tm_hour then
        next_occurrence_loop localtime_r schedule remaining (current + 60)
      else if !is_minute_allowed schedule tm_local.tm_min then
        next_occurrence_loop localtime_r schedule remaining (current + 60)
      else current

/-- Embeds `scheduler_next_occurrence`; the result `-1` is the code's "none".
Epochs are mathematical integers: the probes stay inside `int64_t` as long as
`from_epoch` is at least `60 * (max_iterations + 1)` below `INT64_MAX`, and the
C arithmetic is undefined beyond. -/
def scheduler_next_occurrence (localtime_r : Int → Option tm) (schedule : schedule_t)
    (from_epoch : Int) : Int :=
  if !schedule.enabled then -1
  else
    let from_epoch := if from_epoch < 0 then 0 else from_epoch
    let start_epoch := from_epoch - Int.tmod from_epoch 60 + 60
    next_occurrence_loop localtime_r schedule max_iterations start_epoch

/-- A local-time decomposition for a zone at a fixed offset `off` (in seconds)
from UTC: 1 January 1970 was a Thursday (weekday 4). -/
def utc_offset_localtime (off : Int) (t : Int) : tm :=
  let s := t + off
  { tm_min := (s % 3600) / 60
    tm_hour := (s % 86400) / 3600
    tm_wday := (s / 86400 + 4) % 7 }

/-- The civil year (proleptic Gregorian) of the day number `z`, counted from
1 January 1970. -/
def year_of_days (z : Int) : Int :=
  let z := z + 719468
  let era := z / 146097
  let doe := z % 146097
  let yoe := (doe - doe / 1460 + doe / 36524 - doe / 146096) / 365
  let doy := doe - (365 * yoe + yoe / 4 - yoe / 100)
  let mp := (5 * doy + 2) / 153
  if mp < 10 then yoe + era * 400 else yoe + era * 400 + 1

/-- The C library's `localtime_r` in a zone at a fixed offset `off` from UTC:
the field `tm_year` is an `int` counting from 1900, and the call returns NULL
(`none`, errno EOVERFLOW) when the year of the local time does not fit. -/
def fixed_offset_localtime_r (off : Int) (t : Int) : Option tm :=
  let tm_year := year_of_days ((t + off) / 86400) - 1900
  if tm_year < -2147483648 ∨ 2147483647 < tm_year then none
  else some (utc_offset_localtime off t)

/-- The schedule with every minute, hour and weekday allowed. -/
def schedule_always : schedule_t :=
  { minute_mask := 0xFFFFFFFFFFFFFFF, hour_mask := 0xFFFFFF, weekday_mask := 0x7F,
    enabled := true }

/-! ### Specification-side notions for the scheduler -/

/-- Bit `v` of `mask` is set; a negative `v` names no bit. -/
def bit_set (mask : Nat) (v : Int) : Prop := 0 ≤ v ∧ mask.testBit v.toNat = true

instance (mask : Nat) (v : Int) : Decidable (bit_set mask v) := by
  unfold bit_set; infer_instance

/-- The fire-time predicate of the data model, for an enabled schedule: the
minute, hour and weekday of `t` all have their bit set. -/
def spec_fire_time (lt : Int → tm) (s : schedule_t) (t : Int) : Prop :=
  bit_set s.minute_mask (lt t).tm_min ∧ bit_set s.hour_mask (lt t).tm_hour ∧
    bit_set s.weekday_mask (lt t).tm_wday

instance (lt : Int → tm) (s : schedule_t) (t : Int) : Decidable (spec_fire_time lt s t) := by
  unfold spec_fire_time; infer_instance

/-- The fields of a `struct tm` are in the ranges POSIX gives them. -/
def tm_in_range (x : tm) : Prop :=
  0 ≤ x.tm_min ∧ x.tm_min < 60 ∧ 0 ≤ x.tm_hour ∧ x.tm_hour < 24 ∧ 0 ≤ x.tm_wday ∧ x.tm_wday < 7

/-- The search window of `scheduler_next_occurrence`: the minute-aligned epochs
after `from_epoch`, up to the horizon. -/
def in_window (from_epoch t : Int) : Prop :=
  from_epoch < t ∧ t % 60 = 0 ∧ t ≤ (from_epoch - from_epoch % 60) + 60 * (366 * 24 * 60)

/-- The probe at `current` is a hit: local time is defined there and the three
tests of the loop body pass. -/
def probe_hit (localtime_r : Int → Option tm) (s : schedule_t) (current : Int) : Prop :=
  ∃ x, localtime_r current = some x ∧ is_weekday_allowed s x.tm_wday = true ∧
    is_hour_allowed s x.tm_hour = true ∧ is_minute_allowed s x.tm_min = true

/-- The probe at `current` is a miss: local time is defined there and one of
the three tests of the loop body fails. -/
def probe_miss (localtime_r : Int → Option tm) (s : schedule_t) (current : Int) : Prop :=
  ∃ x, localtime_r current = some x ∧ ¬ (is_weekday_allowed s x.tm_wday = true ∧
    is_hour_allowed s x.tm_hour = true ∧ is_minute_allowed s x.tm_min = true)

/-- The schedule of the exactness scenario: minute 4, hour 1, Monday. -/
def schedule_monday_0104 : schedule_t :=
  { minute_mask := 0x000000000000010, hour_mask := 0x000002, weekday_mask := 0x02,
    enabled := true }

/-! ## Framed protocol (`src/shared/proto.c`) -/

/-- The `errno` values the embedded code sets or tests. -/
inductive Errno where
  | EINVAL | EPROTO | EOVERFLOW | ENOSPC | EIOERR | EPIPE | ENXIO | EAGAIN | ENOMEM | ENOENT
  | ENOTDIR | ENAMETOOLONG | E2BIG | EMSGSIZE | ENOTEMPTY | EEXIST | EACCES | EISDIR
  deriving DecidableEq, Repr

/-- Equality of results is decidable. -/
instance instDecidableEqExcept {ε α : Type} [DecidableEq ε] [DecidableEq α] :
    DecidableEq (Except ε α)
  | .ok a, .ok b =>
    if h : a = b then isTrue (by rw [h]) else isFalse (fun h1 => h (by cases h1; rfl))
  | .error a, .error b =>
    if h : a = b then isTrue (by rw [h]) else isFalse (fun h1 => h (by cases h1; rfl))
  | .ok _, .error _ => isFalse (fun h => by cases h)
  | .error _, .ok _ => isFalse (fun h => by cases h)

/-- The packed struct `message_header_t`: `magic` and `payload_length` are
`uint32_t`, `version` and `type` are `uint8_t`, `reserved` is a `uint16_t`. -/
structure message_header_t where
  magic : Nat
  version : Nat
  type : Nat
  reserved : Nat
  payload_length : Nat
  deriving DecidableEq, Repr

/-- The struct `proto_message_t`; `payload` is the array `char payload[4096]`. -/
structure proto_message_t where
  header : message_header_t
  payload : List Nat
  deriving DecidableEq, Repr

/-- `memcpy(dst + pos, data, |data|)` on a buffer held as a list. -/
def buf_store (dst : List Nat) (pos : Nat) (data : List Nat) : List Nat :=
  dst.take pos ++ data ++ dst.drop (pos + data.length)

/-- The four bytes of a `uint32_t` in memory, least significant first. -/
def le32 (n : Nat) : List Nat :=
  [n % 256, n / 256 % 256, n / 65536 % 256, n / 16777216 % 256]

/-- The two bytes of a `uint16_t` in memory, least significant first. -/
def le16 (n : Nat) : List Nat := [n % 256, n / 256 % 256]

/-- The 12 bytes of a `message_header_t` in memory (packed, little-endian). -/
def header_bytes (h : message_header_t) : List Nat :=
  le32 h.magic ++ [h.version % 256, h.type % 256] ++ le16 h.reserved ++ le32 h.payload_length

/-- The `message_header_t` held by 12 bytes of memory. -/
def header_of_bytes (b : List Nat) : message_header_t :=
  { magic := b.getD 0 0 + 256 * b.getD 1 0 + 65536 * b.getD 2 0 + 16777216 * b.getD 3 0
    version := b.getD 4 0
    type := b.getD 5 0
    reserved := b.getD 6 0 + 256 * b.getD 7 0
    payload_length :=
      b.getD 8 0 + 256 * b.getD 9 0 + 65536 * b.getD 10 0 + 16777216 * b.getD 11 0 }

/-- The reading end of a pipe: the bytes still to come, then end-of-file. -/
abbrev rfd := List Nat

/-- The writing end of a pipe: what was written so far, how many more bytes it
accepts, and the `errno` of the `write` that fails once `room` is used up. -/
structure wfd where
  written : List Nat
  room : Nat
  err : Errno
  deriving DecidableEq, Repr

/-- Embeds `read_exact`: the loop reads until `length` bytes are stored in
`dst` or `read` returns 0 (end-of-file, `EIOERR`). Returns the result, the
destination buffer and the rest of the stream. -/
def read_exact (fd : rfd) (dst : List Nat) (length : Nat) :
    Except Errno Unit × List Nat × rfd :=
  if length ≤ fd.length then (.ok (), buf_store dst 0 (fd.take length), fd.drop length)
  else (.error .EIOERR, buf_store dst 0 fd, [])

/-- Embeds `write_exact`: the loop writes until all of `buffer` is written or a
`write` fails. -/
def write_exact (fd : wfd) (buffer : List Nat) : Except Errno Unit × wfd :=
  if buffer.length ≤ fd.room then
    (.ok (), { fd with written := fd.written ++ buffer, room := fd.room - buffer.length })
  else (.error fd.err, { fd with written := fd.written ++ buffer.take fd.room, room := 0 })

/-- Embeds `proto_pack`; `json_payload` is `none` for a NULL pointer. The
message `out_msg` is what the caller's buffer held before. -/
def proto_pack (type : Nat) (json_payload : Option (List Nat)) (payload_len : Nat)
    (out_msg : proto_message_t) : Except Errno proto_message_t :=
  if payload_len > ERRAID_PIPE_MESSAGE_LIMIT - 1 then .error .ENOSPC
  else
    let header : message_header_t :=
      { magic := ERRAID_MAGIC, version := ERRAID_PROTO_VERSION, type := type % 256,
        reserved := 0, payload_length := payload_len % 2 ^ 32 }
    let payload :=
      match json_payload with
      | some src => if payload_len > 0 then buf_store out_msg.payload 0 (src.take payload_len)
                    else out_msg.payload
      | none => out_msg.payload
    .ok { header := header, payload := payload.set payload_len 0 }

/-- Embeds `proto_validate_header`. -/
def proto_validate_header (header : message_header_t) : Except Errno Unit :=
  if header.magic ≠ ERRAID_MAGIC then .error .EPROTO
  else if header.version ≠ ERRAID_PROTO_VERSION then .error .EPROTO
  else if header.payload_length ≥ ERRAID_PIPE_MESSAGE_LIMIT then .error .EOVERFLOW
  else .ok ()

/-- Embeds `proto_read_message`: returns the result, the contents of `out_msg`
afterwards and the rest of the stream. -/
def proto_read_message (fd : rfd) (out_msg : proto_message_t) :
    Except Errno Unit × proto_message_t × rfd :=
  match read_exact fd (header_bytes out_msg.header) 12 with
  | (.error e, hb, fd1) => (.error e, { out_msg with header := header_of_bytes hb }, fd1)
  | (.ok (), hb, fd1) =>
    let msg1 : proto_message_t := { out_msg with header := header_of_bytes hb }
    match proto_validate_header msg1.header with
    | .error e => (.error e, msg1, fd1)
    | .ok () =>
      let payload_len := msg1.header.payload_length
      if payload_len > 0 then
        match read_exact fd1 msg1.payload payload_len with
        | (.error e, pb, fd2) => (.error e, { msg1 with payload := pb }, fd2)
        | (.ok (), pb, fd2) => (.ok (), { msg1 with payload := pb.set payload_len 0 }, fd2)
      else (.ok (), { msg1 with payload := msg1.payload.set payload_len 0 }, fd1)

/-- Embeds `proto_write_message`. -/
def proto_write_message (fd : wfd) (msg : proto_message_t) : Except Errno Unit × wfd :=
  match proto_validate_header msg.header with
  | .error e => (.error e, fd)
  | .ok () =>
    match write_exact fd (header_bytes msg.header) with
    | (.error e, fd1) => (.error e, fd1)
    | (.ok (), fd1) =>
      if msg.header.payload_length > 0 then
        write_exact fd1 (msg.payload.take msg.header.payload_length)
      else (.ok (), fd1)

/-! ## Executor (`src/erraid/executor.c`) -/

/-- The variables `(*buffer, *length, *capacity, *truncated)` that
`append_buffer` works on: `buffer` is `none` for a NULL pointer, and `*length`
is the number of bytes held. -/
structure capture_t where
  buffer : Option (List Nat)
  capacity : Nat
  truncated : Bool
  deriving DecidableEq, Repr

/-- The bytes held by a capture buffer. -/
def capture_t.bytes (b : capture_t) : List Nat := b.buffer.getD []

/-- The variable `*length` of a capture buffer. -/
def capture_t.length (b : capture_t) : Nat := b.bytes.length

/-- The loop `while (new_cap < need) new_cap *= 2` of `append_buffer`. -/
def grow_capacity : Nat → Nat → Nat → Nat
  | 0, new_cap, _ => new_cap
  | fuel + 1, new_cap, need =>
    if new_cap < need then grow_capacity fuel (new_cap * 2) need else new_cap

/-- Embeds `append_buffer`; `realloc_ok n` says whether `realloc` to `n` bytes
succeeds. `data` is `none` for a NULL pointer, and `data_len` bytes of it are
offered. The `truncated` pointer is never NULL in the callers. -/
def append_buffer (realloc_ok : Nat → Bool) (b : capture_t) (data : Option (List Nat))
    (data_len : Nat) (limit : Nat) : Option capture_t :=
  match data with
  | none => some b
  | some src =>
    if data_len = 0 then some b
    else if limit > 0 ∧ b.length ≥ limit then some { b with truncated := true }
    else
      let clip : Bool := decide (limit > 0 ∧ b.length + data_len > limit)
      let copy_len := if clip then limit - b.length else data_len
      let truncated := if clip then true else b.truncated
      if copy_len = 0 then some { b with truncated := truncated }
      else if b.capacity < b.length + data_len + 1 then
        let new_cap := grow_capacity (b.length + copy_len + 1)
          (if b.capacity = 0 then data_len + 1 else b.capacity) (b.length + copy_len + 1)
        if realloc_ok new_cap then
          some { buffer := some (b.bytes ++ src.take copy_len), capacity := new_cap,
                 truncated := truncated }
        else none
      else
        some { buffer := some (b.bytes ++ src.take copy_len), capacity := b.capacity,
               truncated := truncated }

/-- What one call of `read` on a pipe gives: some bytes (at most the 4096 asked
for; no bytes means end-of-file), an interruption (`EINTR`), or an error. When
the list of results is used up, `read` returns 0 (end-of-file). -/
inductive read_result where
  | data (chunk : List Nat)
  | eintr
  | error
  deriving DecidableEq, Repr

/-- The `for (;;)` loop of `read_fd_into_buffer`. -/
def read_fd_loop (realloc_ok : Nat → Bool) (limit : Nat) :
    List read_result → capture_t → Option capture_t
  | [], b => some b
  | .eintr :: rest, b => read_fd_loop realloc_ok limit rest b
  | .error :: _, _ => none
  | .data chunk :: rest, b =>
    if chunk.length = 0 then some b
    else
      let remaining := if limit > b.length then limit - b.length else 0
      let copy_len :=
        if limit > 0 then (if remaining < chunk.length then remaining else chunk.length)
        else chunk.length
      match append_buffer realloc_ok b (some chunk) copy_len limit with
      | none => none
      | some b1 =>
        let b2 : capture_t :=
          if limit > 0 ∧ b1.length ≥ limit ∧ !b1.truncated then { b1 with truncated := true }
          else b1
        read_fd_loop realloc_ok limit rest b2

/-- Embeds `read_fd_into_buffer`: `fd` is the list of results of the successive
`read` calls; `buffer`, `length` and `truncated` are the caller's variables. -/
def read_fd_into_buffer (realloc_ok : Nat → Bool) (fd : List read_result)
    (buffer : Option (List Nat)) (truncated : Bool) (limit : Nat) : Option capture_t :=
  let capacity := match buffer with
    | some bytes => bytes.length + 1
    | none => 0
  match read_fd_loop realloc_ok limit fd { buffer := buffer, capacity := capacity,
                                           truncated := truncated } with
  | none => none
  | some b =>
    match b.buffer with
    | some _ => some b
    | none => if realloc_ok 1 then some { b with buffer := some [], capacity := 1 } else none

/-- How `waitpid` reports the end of a child. -/
inductive wait_status where
  | exited (code : Int)
  | signaled (sig : Int)
  | other (status : Int)
  deriving DecidableEq, Repr

/-- A child process seen from the parent: what the two pipes deliver, and the
status `waitpid` returns (`none` when `waitpid` fails). -/
structure child_t where
  stdout_pipe : List read_result
  stderr_pipe : List read_result
  wait : Option wait_status
  deriving DecidableEq, Repr

/-- The system under the executor: `spawn` is `pipe`, `pipe`, `fork` and the
`execvp` of the child (`none` when a pipe or the fork fails); `realloc_ok` is
the allocator. -/
structure exec_sys where
  spawn : command_t → Option child_t
  realloc_ok : Nat → Bool

/-- The outputs of `run_single_command`. -/
structure command_result_t where
  status : Int
  stdout_buf : List Nat
  stdout_truncated : Bool
  stderr_buf : List Nat
  stderr_truncated : Bool
  deriving DecidableEq, Repr

/-- Embeds `run_single_command`. -/
def run_single_command (sys : exec_sys) (command : command_t) : Option command_result_t :=
  if command.argv.length = 0 then none
  else
    match sys.spawn command with
    | none => none
    | some child =>
      let out := read_fd_into_buffer sys.realloc_ok child.stdout_pipe none false
        ERRAID_MAX_STDIO_SNAPSHOT
      let err := match out with
        | some _ => read_fd_into_buffer sys.realloc_ok child.stderr_pipe none false
            ERRAID_MAX_STDIO_SNAPSHOT
        | none => none
      match out, err, child.wait with
      | some o, some e, some w =>
        some { status := match w with
                 | .exited code => code
                 | .signaled sig => 128 + sig
                 | .other status => status
               stdout_buf := o.bytes, stdout_truncated := o.truncated
               stderr_buf := e.bytes, stderr_truncated := e.truncated }
      | _, _, _ => none

/-- The struct `executor_result_t`; a buffer is `none` for a NULL pointer and
its length field is the length of the list. -/
structure executor_result_t where
  stdout_buf : Option (List Nat)
  stderr_buf : Option (List Nat)
  status : Int
  stdout_truncated : Bool
  stderr_truncated : Bool
  deriving DecidableEq, Repr

/-- The field `stdout_len`. -/
def executor_result_t.stdout_len (r : executor_result_t) : Nat := (r.stdout_buf.getD []).length

/-- The field `stderr_len`. -/
def executor_result_t.stderr_len (r : executor_result_t) : Nat := (r.stderr_buf.getD []).length

/-- The local variables of `executor_run_task` across its loop, with the field
`result->status`. -/
structure run_state_t where
  out : capture_t
  err : capture_t
  status : Int
  deriving DecidableEq, Repr

/-- The `for` loop of `executor_run_task` over the commands still to run:
`none` when a command or an append fails. -/
def run_commands_loop (sys : exec_sys) (type : task_type_t) :
    List command_t → run_state_t → Except run_state_t run_state_t
  | [], st => .ok st
  | command :: rest, st =>
    match run_single_command sys command with
    | none => .error st
    | some r =>
      let out0 : capture_t := { st.out with truncated := r.stdout_truncated }
      let err0 : capture_t := { st.err with truncated := r.stderr_truncated }
      match append_buffer sys.realloc_ok out0 (some r.stdout_buf) r.stdout_buf.length
          ERRAID_MAX_STDIO_SNAPSHOT with
      | none => .error st
      | some out1 =>
        match append_buffer sys.realloc_ok err0 (some r.stderr_buf) r.stderr_buf.length
            ERRAID_MAX_STDIO_SNAPSHOT with
        | none => .error st
        | some err1 =>
          let st1 : run_state_t := { out := out1, err := err1, status := r.status }
          if type = .TASK_TYPE_SIMPLE then .ok st1
          else run_commands_loop sys type rest st1

/-- The value of `*result` after `memset(result, 0, sizeof(*result))`. -/
def executor_result_zero : executor_result_t :=
  { stdout_buf := none, stderr_buf := none, status := 0, stdout_truncated := false,
    stderr_truncated := false }

/-- Embeds `executor_run_task`: the first component is `true` for the return
value 0 and `false` for -1; the second is `*result` afterwards. -/
def executor_run_task (sys : exec_sys) (task : task_t) : Bool × executor_result_t :=
  if task.commands.length = 0 then (true, { executor_result_zero with status := 0 })
  else
    match run_commands_loop sys task.type task.commands
        { out := { buffer := none, capacity := 0, truncated := false }
          err := { buffer := none, capacity := 0, truncated := false }
          status := 0 } with
    | .error st => (false, { executor_result_zero with status := st.status })
    | .ok st =>
      (true, { stdout_buf := st.out.buffer, stderr_buf := st.err.buffer, status := st.status
               stdout_truncated := st.out.truncated, stderr_truncated := st.err.truncated })

/-! ### Specification-side notions for the executor -/

/-- The bytes a pipe delivers: the concatenation of the chunks read. -/
def stream_bytes : List read_result → List Nat
  | [] => []
  | .data chunk :: rest => chunk ++ stream_bytes rest
  | .eintr :: rest => stream_bytes rest
  | .error :: rest => stream_bytes rest

/-- A pipe that delivers non-empty chunks up to end-of-file, possibly with
interruptions, and no error. -/
def stream_clean : List read_result → Prop
  | [] => True
  | .data chunk :: rest => chunk ≠ [] ∧ stream_clean rest
  | .eintr :: rest => stream_clean rest
  | .error :: _ => False

/-- The commands `executor_run_task` runs: the first one only for SIMPLE. -/
def executed_commands (task : task_t) : List command_t :=
  if task.type = .TASK_TYPE_SIMPLE then task.commands.take 1 else task.commands

/-- The stdout capture of one command (empty when the command fails to run). -/
def command_stdout (sys : exec_sys) (command : command_t) : List Nat :=
  match run_single_command sys command with
  | some r => r.stdout_buf
  | none => []

/-- The stderr capture of one command (empty when the command fails to run). -/
def command_stderr (sys : exec_sys) (command : command_t) : List Nat :=
  match run_single_command sys command with
  | some r => r.stderr_buf
  | none => []

/-- A system in which a command runs to its end: the pipes and the fork
succeed, both pipes deliver their bytes without error and `waitpid` succeeds. -/
def command_runs (sys : exec_sys) (command : command_t) : Prop :=
  command.argv ≠ [] ∧
  ∃ child, sys.spawn command = some child ∧ stream_clean child.stdout_pipe ∧
    stream_clean child.stderr_pipe ∧ child.wait.isSome = true

/-- The commands the loop of `executor_run_task` runs out of those still to
run: the first one only for SIMPLE. -/
def executed_of (type : task_type_t) (commands : List command_t) : List command_t :=
  if type = .TASK_TYPE_SIMPLE then commands.take 1 else commands

/-- A system in which `/bin/echo A` and `/bin/echo B` print their argument and
exit with status 0; every other command fails to spawn. -/
def echo_sys : exec_sys :=
  { spawn := fun command =>
      if command.argv = [str "/bin/echo", str "A"] then
        some { stdout_pipe := [.data (str "A\n")], stderr_pipe := [], wait := some (.exited 0) }
      else if command.argv = [str "/bin/echo", str "B"] then
        some { stdout_pipe := [.eintr, .data (str "B"), .data (str "\n")], stderr_pipe := [],
               wait := some (.exited 0) }
      else none
    realloc_ok := fun _ => true }

/-- A SEQUENCE task that runs `/bin/echo A` and then `/bin/echo B`. -/
def echo_task : task_t :=
  { task_id := 1, type := .TASK_TYPE_SEQUENCE
    commands := [⟨[str "/bin/echo", str "A"]⟩, ⟨[str "/bin/echo", str "B"]⟩]
    schedule := schedule_always, last_run_epoch := -1 }

/-! ## C library (`ctype.h`, `stdlib.h`, `stdio.h`), on 64-bit `long` -/

/-- The function `isspace` of the C locale. -/
def isspace (c : Nat) : Bool := c = 32 || (9 ≤ c && c ≤ 13)

/-- The value of a byte as a digit, for bases up to 36. -/
def digit_value (c : Nat) : Option Nat :=
  if 48 ≤ c ∧ c ≤ 57 then some (c - 48)
  else if 97 ≤ c ∧ c ≤ 122 then some (c - 97 + 10)
  else if 65 ≤ c ∧ c ≤ 90 then some (c - 65 + 10)
  else none

/-- The digit loop of the `strto*` family: accumulates the digits of the base
at the head of the string. Returns the value, the number of digits and the
rest of the string. -/
def scan_digits (base : Nat) : List Nat → Nat → Nat → Nat × Nat × List Nat
  | [], acc, k => (acc, k, [])
  | c :: cs, acc, k =>
    match digit_value c with
    | some d => if d < base then scan_digits base cs (acc * base + d) (k + 1) else (acc, k, c :: cs)
    | none => (acc, k, c :: cs)

/-- The outcome of a `strto*` call: the value, the string at `*endptr`, whether
a conversion was made (`endptr != nptr`) and whether `errno` is `ERANGE`. -/
structure strto_t (α : Type) where
  value : α
  rest : List Nat
  converted : Bool
  erange : Bool
  deriving DecidableEq, Repr

/-- The optional sign of the subject sequence of a `strto*` call: whether it
is a minus sign, and the string after it. -/
def strto_sign (s1 : List Nat) : Bool × List Nat :=
  match s1 with
  | 45 :: t => (true, t)
  | 43 :: t => (false, t)
  | _ => (false, s1)

/-- The optional `0x`/`0X` of a `strto*` call in base 16: it is skipped only
when a hexadecimal digit follows. -/
def strto_prefix (base : Nat) (s2 : List Nat) : List Nat :=
  match s2 with
  | 48 :: x :: d :: t =>
    if base = 16 ∧ (x = 120 ∨ x = 88) ∧ (match digit_value d with
        | some v => decide (v < 16)
        | none => false) = true
    then d :: t else s2
  | _ => s2

/-- The subject sequence of a `strto*` call: white space is skipped, then an
optional sign, then for base 16 an optional `0x`/`0X`, then the digits.
Returns the sign, the magnitude, the number of digits and the rest. -/
def strto_scan (nptr : List Nat) (base : Nat) : Bool × Nat × Nat × List Nat :=
  let s1 := nptr.dropWhile isspace
  let sg := strto_sign s1
  let s3 := strto_prefix base sg.2
  let r := scan_digits base s3 0 0
  (sg.1, r.1, r.2.1, r.2.2)

/-- The function `strtoull` (and `strtoul`): `unsigned long long` has 64 bits. -/
def strtoull (nptr : List Nat) (base : Nat) : strto_t Nat :=
  let (neg, v, k, rest) := strto_scan nptr base
  if k = 0 then { value := 0, rest := nptr, converted := false, erange := false }
  else if v > 2 ^ 64 - 1 then
    { value := 2 ^ 64 - 1, rest := rest, converted := true, erange := true }
  else
    { value := if neg then (2 ^ 64 - v) % 2 ^ 64 else v, rest := rest, converted := true,
      erange := false }

/-- The function `strtoll` (and `strtol`): `long long` has 64 bits. -/
def strtoll (nptr : List Nat) (base : Nat) : strto_t Int :=
  let (neg, v, k, rest) := strto_scan nptr base
  if k = 0 then { value := 0, rest := nptr, converted := false, erange := false }
  else if neg then
    if v > 2 ^ 63 then { value := -(2 ^ 63), rest := rest, converted := true, erange := true }
    else { value := -(v : Int), rest := rest, converted := true, erange := false }
  else
    if v > 2 ^ 63 - 1 then
      { value := 2 ^ 63 - 1, rest := rest, converted := true, erange := true }
    else { value := (v : Int), rest := rest, converted := true, erange := false }

/-- The byte of the digit `d < 16`, upper case as `%X` prints it. -/
def digit_byte (d : Nat) : Nat := if d < 10 then 48 + d else 55 + d

/-- The digits of `n` in `base`, most significant first, in front of `acc`; the
first argument bounds the number of digits. -/
def digits_aux (base : Nat) : Nat → Nat → List Nat → List Nat
  | 0, _, acc => acc
  | fuel + 1, n, acc =>
    if n / base = 0 then digit_byte (n % base) :: acc
    else digits_aux base fuel (n / base) (digit_byte (n % base) :: acc)

/-- The conversion `%llu` (and `%zu`, `%u`) of `printf`, for a 64-bit value. -/
def fmt_llu (n : Nat) : List Nat := digits_aux 10 64 (n % 2 ^ 64) []

/-- The conversion `%lld` (and `%d`) of `printf`. -/
def fmt_lld (n : Int) : List Nat :=
  if n < 0 then 45 :: digits_aux 10 64 n.natAbs [] else digits_aux 10 64 n.natAbs []

/-- The conversion `%0<width>llX` (and `%0<width>X`) of `printf`: upper-case
hexadecimal, padded with zeros on the left to `width` characters. -/
def fmt_0X (width : Nat) (n : Nat) : List Nat :=
  let d := digits_aux 16 64 (n % 2 ^ 64) []
  List.replicate (width - d.length) 48 ++ d

/-! ## Task store: text of a task file (`src/shared/storage.c`) -/

/-- Embeds `trim_whitespace`: the bytes `<= ' '` at both ends are dropped. -/
def trim_whitespace (s : List Nat) : List Nat :=
  ((s.dropWhile (fun c => decide (c ≤ 32))).reverse.dropWhile (fun c => decide (c ≤ 32))).reverse

/-- Embeds `parse_uint64` of storage.c. -/
def parse_uint64 (line : List Nat) : Option Nat :=
  let r := strtoull line 10
  if r.erange ∨ r.converted = false ∨ trim_whitespace r.rest ≠ [] then none
  else some r.value

/-- Embeds `parse_int64` of storage.c. -/
def parse_int64 (line : List Nat) : Option Int :=
  let r := strtoll line 10
  if r.erange ∨ r.converted = false ∨ trim_whitespace r.rest ≠ [] then none
  else some r.value

/-- Embeds `parse_hex64`. -/
def parse_hex64 (line : List Nat) : Option Nat :=
  let r := strtoull line 16
  if r.erange ∨ r.converted = false ∨ trim_whitespace r.rest ≠ [] then none
  else some r.value

/-- Embeds `parse_hex32`: the value is cast to `uint32_t`. -/
def parse_hex32 (line : List Nat) : Option Nat :=
  (parse_hex64 line).map (fun tmp => tmp % 2 ^ 32)

/-- Embeds `parse_hex8`: the value is cast to `uint8_t`. -/
def parse_hex8 (line : List Nat) : Option Nat :=
  (parse_hex64 line).map (fun tmp => tmp % 2 ^ 8)

/-- Embeds `parse_json_string` of storage.c: the cursor is just after the
opening quote; returns the string and the cursor after the closing quote.
`buffer` holds the bytes collected so far. -/
def parse_json_string : List Nat → List Nat → Option (List Nat × List Nat)
  | [], _ => none
  | ch :: p, buffer =>
    if ch = 34 then some (buffer, p)
    else if ch = 92 then
      match p with
      | [] => none
      | esc :: p1 =>
        if esc = 34 then parse_json_string p1 (buffer ++ [34])
        else if esc = 92 then parse_json_string p1 (buffer ++ [92])
        else if esc = 110 then parse_json_string p1 (buffer ++ [10])
        else if esc = 114 then parse_json_string p1 (buffer ++ [13])
        else if esc = 116 then parse_json_string p1 (buffer ++ [9])
        else none
    else parse_json_string p (buffer ++ [ch])

/-- The `while (1)` loop of `parse_command_line`: `p` is the cursor, `argv` the
elements stored so far. Every turn that goes on consumes a byte, so the length
of the line bounds the number of turns (`fuel`). Returns `argv` and the cursor
after the loop. -/
def parse_command_loop : Nat → List Nat → List (List Nat) → Option (List (List Nat) × List Nat)
  | 0, _, _ => none
  | fuel + 1, p, argv =>
    match p.dropWhile isspace with
    | [] => none
    | c :: p1 =>
      if c = 93 then some (argv, p1)
      else if c ≠ 34 then none
      else
        match parse_json_string p1 [] with
        | none => none
        | some (element, p2) =>
          match p2.dropWhile isspace with
          | [] => none
          | d :: p3 =>
            if d = 44 then parse_command_loop fuel p3 (argv ++ [element])
            else if d = 93 then parse_command_loop fuel p3 (argv ++ [element])
            else none

/-- Embeds `parse_command_line`. -/
def parse_command_line (line : List Nat) : Option command_t :=
  match line.dropWhile isspace with
  | [] => none
  | c :: p =>
    if c ≠ 91 then none
    else
      match parse_command_loop (line.length + 1) p [] with
      | none => none
      | some (argv, p1) =>
        if p1.dropWhile isspace ≠ [] then none else some { argv := argv }

/-- The line-splitting loop of `parse_task_file`: at most `fuel` lines, each
trimmed; the text ends at its end (the NUL of the C string). -/
def split_lines : Nat → List Nat → List (List Nat)
  | 0, _ => []
  | _ + 1, [] => []
  | fuel + 1, c :: s =>
    let line := (c :: s).takeWhile (fun b => decide (b ≠ 10))
    match (c :: s).dropWhile (fun b => decide (b ≠ 10)) with
    | [] => [trim_whitespace line]
    | _ :: rest => trim_whitespace line :: split_lines fuel rest

/-- The loop of `parse_task_file` over the command lines: `count` commands are
read from the lines that follow; returns them and the lines left. -/
def parse_command_lines : Nat → List (List Nat) → Option (List command_t × List (List Nat))
  | 0, lines => some ([], lines)
  | _ + 1, [] => none
  | count + 1, line :: lines =>
    match parse_command_line line with
    | none => none
    | some command =>
      match parse_command_lines count lines with
      | none => none
      | some (commands, rest) => some (command :: commands, rest)

/-- Embeds `parse_task_file`; `buffer` is the C string read from the file. -/
def parse_task_file (buffer : List Nat) : Option task_t :=
  let lines := split_lines 128 buffer
  if lines.length < 8 then none
  else
    match lines with
    | l0 :: l1 :: l2 :: rest =>
      match parse_uint64 l0 with
      | none => none
      | some task_id =>
        let type : Option task_type_t :=
          if l1 = str "SIMPLE" then some .TASK_TYPE_SIMPLE
          else if l1 = str "SEQUENCE" then some .TASK_TYPE_SEQUENCE
          else if l1 = str "ABSTRACT" then some .TASK_TYPE_ABSTRACT
          else none
        match type with
        | none => none
        | some type =>
          match parse_uint64 l2 with
          | none => none
          | some command_count =>
            match parse_command_lines command_count rest with
            | none => none
            | some (commands, rest1) =>
              match rest1 with
              | m0 :: m1 :: m2 :: m3 :: m4 :: _ =>
                match parse_hex64 m0, parse_hex32 m1, parse_hex8 m2, parse_uint64 m3,
                    parse_int64 m4 with
                | some minute_mask, some hour_mask, some weekday_mask, some _, some last_run =>
                  some { task_id := task_id, type := type, commands := commands
                         schedule := { minute_mask := minute_mask, hour_mask := hour_mask
                                       weekday_mask := weekday_mask
                                       enabled := decide (type ≠ .TASK_TYPE_ABSTRACT) }
                         last_run_epoch := last_run }
                | _, _, _, _, _ => none
              | _ => none
    | _ => none

/-- The inner loop of `write_command_line_fd` over the bytes of one argument:
`buffer` holds the `pos` bytes written so far into `char buffer[4096]`. -/
def write_arg_bytes : List Nat → List Nat → Option (List Nat)
  | [], buffer => some buffer
  | ch :: arg, buffer =>
    if ch = 34 ∨ ch = 92 then
      if buffer.length + 2 ≥ 4096 then none else write_arg_bytes arg (buffer ++ [92, ch])
    else if ch = 10 then
      if buffer.length + 2 ≥ 4096 then none else write_arg_bytes arg (buffer ++ [92, 110])
    else if ch = 13 then
      if buffer.length + 2 ≥ 4096 then none else write_arg_bytes arg (buffer ++ [92, 114])
    else if ch = 9 then
      if buffer.length + 2 ≥ 4096 then none else write_arg_bytes arg (buffer ++ [92, 116])
    else
      if buffer.length + 1 ≥ 4096 then none else write_arg_bytes arg (buffer ++ [ch])

/-- The outer loop of `write_command_line_fd` over the arguments; `first` says
whether `i == 0`. -/
def write_args : List (List Nat) → Bool → List Nat → Option (List Nat)
  | [], _, buffer => some buffer
  | arg :: rest, first, buffer =>
    let b1 := if first then buffer else buffer ++ [44]
    match write_arg_bytes arg (b1 ++ [34]) with
    | none => none
    | some b2 => if b2.length + 2 ≥ 4096 then none else write_args rest false (b2 ++ [34])

/-- Embeds `write_command_line_fd`: the bytes it hands to `write_all_fd`, or
`none` where it fails with `ENOSPC`. -/
def write_command_line_fd (command : command_t) : Option (List Nat) :=
  match write_args command.argv true [91] with
  | none => none
  | some b => if b.length + 2 ≥ 4096 then none else some (b ++ [93, 10])

/-- The command lines `write_task_file` writes, one per command. -/
def write_command_lines : List command_t → Option (List Nat)
  | [] => some []
  | command :: rest =>
    match write_command_line_fd command, write_command_lines rest with
    | some l, some ls => some (l ++ ls)
    | _, _ => none

/-- The bytes `write_task_file` writes to the temporary file when no system
call fails; `none` where a command line does not fit its buffer. -/
def write_task_file_text (task : task_t) : Option (List Nat) :=
  match write_command_lines task.commands with
  | none => none
  | some command_lines =>
    some (fmt_llu task.task_id ++ [10] ++
      (match task.type with
        | .TASK_TYPE_SIMPLE => str "SIMPLE"
        | .TASK_TYPE_SEQUENCE => str "SEQUENCE"
        | .TASK_TYPE_ABSTRACT => str "ABSTRACT") ++ [10] ++
      fmt_llu task.commands.length ++ [10] ++
      command_lines ++
      fmt_0X 15 task.schedule.minute_mask ++ [10] ++
      fmt_0X 6 (task.schedule.hour_mask &&& 0xFFFFFF) ++ [10] ++
      fmt_0X 2 (task.schedule.weekday_mask &&& 0x7F) ++ [10] ++
      str "0\n" ++
      fmt_lld task.last_run_epoch ++ [10])

/-- A SIMPLE task that runs `/bin/true` at every minute. -/
def task_true : task_t :=
  { task_id := 1, type := .TASK_TYPE_SIMPLE, commands := [⟨[str "/bin/true"]⟩]
    schedule := schedule_always, last_run_epoch := -1 }

/-! ## Paths (`src/shared/utils.c`) and the file system -/

/-- The constant `PATH_MAX`. -/
def PATH_MAX : Nat := 4096

/-- Embeds `utils_join_path` for a buffer of `buflen` bytes: `none` where it
fails with `ENAMETOOLONG`. -/
def utils_join_path (a b : List Nat) (buflen : Nat) : Option (List Nat) :=
  let b1 := b.dropWhile (fun c => decide (c = 47))
  let need_sep : Bool := decide (a.length > 0 ∧ a.getLast? ≠ some 47)
  let total_len := a.length + (if need_sep then 1 else 0) + b1.length
  if total_len + 1 > buflen then none
  else some (a ++ (if need_sep then [47] else []) ++ b1)

/-- Embeds `utils_join_path3`. -/
def utils_join_path3 (a b c : List Nat) (buflen : Nat) : Option (List Nat) :=
  match utils_join_path a b PATH_MAX with
  | none => none
  | some tmp => utils_join_path tmp c buflen

/-- A node of the file system: a regular file with its content, or a
directory. -/
inductive node_t where
  | file (content : List Nat)
  | dir
  deriving DecidableEq, Repr

/-- The file system: its nodes by path. The order of the list is the order in
which `readdir` returns the entries of a directory. -/
abbrev fs_t := List (List Nat × node_t)

/-- The node at a path. -/
def fs_find (fs : fs_t) (path : List Nat) : Option node_t :=
  match fs with
  | [] => none
  | e :: rest => if e.1 = path then some e.2 else fs_find rest path

/-- The path of the directory that holds `path`: what precedes the last `/`. -/
def parent_path (path : List Nat) : List Nat :=
  ((path.reverse.dropWhile (fun c => decide (c ≠ 47))).drop 1).reverse

/-- The last component of a path: what follows the last `/`. -/
def base_name (path : List Nat) : List Nat :=
  (path.reverse.takeWhile (fun c => decide (c ≠ 47))).reverse

/-- The file system without the node at `path`. -/
def fs_remove (fs : fs_t) (path : List Nat) : fs_t :=
  fs.filter (fun e => decide (e.1 ≠ path))

/-- The file system with the node `n` at `path`, in place when the path
exists and as the last entry otherwise. -/
def fs_put (fs : fs_t) (path : List Nat) (n : node_t) : fs_t :=
  match fs_find fs path with
  | some _ => fs.map (fun e => (e.1, if e.1 = path then n else e.2))
  | none => fs ++ [(path, n)]

/-- The call `stat(path)`. -/
def sys_stat (fs : fs_t) (path : List Nat) : Except Errno node_t :=
  match fs_find fs path with
  | some n => .ok n
  | none => .error .ENOENT

/-- The call `access(path, F_OK) == 0`. -/
def sys_access (fs : fs_t) (path : List Nat) : Bool := (fs_find fs path).isSome

/-- The call `mkdir(path)`. -/
def sys_mkdir (fs : fs_t) (path : List Nat) : Except Errno fs_t :=
  match fs_find fs path with
  | some _ => .error .EEXIST
  | none =>
    match fs_find fs (parent_path path) with
    | some .dir => .ok (fs ++ [(path, .dir)])
    | some (.file _) => .error .ENOTDIR
    | none => .error .ENOENT

/-- The call `open(path, O_CREAT | ...)` for writing, with `O_TRUNC` when
`trunc` is set: the file is created empty when it is absent. -/
def sys_open_creat (fs : fs_t) (path : List Nat) (trunc : Bool) : Except Errno fs_t :=
  match fs_find fs path with
  | some (.file _) => .ok (if trunc then fs_put fs path (.file []) else fs)
  | some .dir => .error .EISDIR
  | none =>
    match fs_find fs (parent_path path) with
    | some .dir => .ok (fs ++ [(path, .file [])])
    | some (.file _) => .error .ENOTDIR
    | none => .error .ENOENT

/-- The content of the regular file at `path`, as `open(path, O_RDONLY)`
followed by reads to the end gives it. -/
def sys_read_file (fs : fs_t) (path : List Nat) : Except Errno (List Nat) :=
  match fs_find fs path with
  | some (.file content) => .ok content
  | some .dir => .error .EISDIR
  | none => .error .ENOENT

/-- The call `unlink(path)`. -/
def sys_unlink (fs : fs_t) (path : List Nat) : Except Errno fs_t :=
  match fs_find fs path with
  | some (.file _) => .ok (fs_remove fs path)
  | some .dir => .error .EISDIR
  | none => .error .ENOENT

/-- The call `rmdir(path)`: the directory must hold no entry. -/
def sys_rmdir (fs : fs_t) (path : List Nat) : Except Errno fs_t :=
  match fs_find fs path with
  | some .dir =>
    if fs.any (fun e => decide (parent_path e.1 = path ∧ e.1 ≠ path)) then .error .ENOTEMPTY
    else .ok (fs_remove fs path)
  | some (.file _) => .error .ENOTDIR
  | none => .error .ENOENT

/-- The call `rename(old, new)` for a regular file `old`: an existing regular
file at `new` is replaced. -/
def sys_rename (fs : fs_t) (old new : List Nat) : Except Errno fs_t :=
  match fs_find fs old with
  | none => .error .ENOENT
  | some .dir => .error .EINVAL
  | some (.file content) =>
    match fs_find fs new with
    | some .dir => .error .EISDIR
    | some (.file _) =>
      if old = new then .ok fs else .ok (fs_put (fs_remove fs old) new (.file content))
    | none =>
      match fs_find fs (parent_path new) with
      | some .dir => .ok (fs_put (fs_remove fs old) new (.file content))
      | some (.file _) => .error .ENOTDIR
      | none => .error .ENOENT

/-- The names `opendir(path)` and `readdir` give, without `.` and `..`; `none`
where `opendir` fails. -/
def sys_readdir (fs : fs_t) (path : List Nat) : Except Errno (List (List Nat)) :=
  match fs_find fs path with
  | some .dir =>
    .ok ((fs.filter (fun e => decide (parent_path e.1 = path ∧ e.1 ≠ path))).map
      (fun e => base_name e.1))
  | some (.file _) => .error .ENOTDIR
  | none => .error .ENOENT

/-- The struct `storage_paths_t`. -/
structure storage_paths_t where
  root_dir : List Nat
  tasks_dir : List Nat
  logs_dir : List Nat
  state_dir : List Nat
  pipes_dir : List Nat
  deriving DecidableEq, Repr

/-! ## Task store: files and directories (`src/shared/storage.c`) -/

/-- The file system after a call whose result the code ignores: the new one
when the call succeeded, the old one when it failed. -/
def keep_on_error (r : Except Errno fs_t) (old : fs_t) : fs_t :=
  match r with
  | .ok fs1 => fs1
  | .error _ => old

/-- Embeds `ensure_directory`. -/
def ensure_directory (fs : fs_t) (path : List Nat) : Except Errno fs_t :=
  match sys_stat fs path with
  | .ok .dir => .ok fs
  | .ok (.file _) => .error .ENOTDIR
  | .error _ => sys_mkdir fs path

/-- The struct `snapshot_entry_t`. -/
structure snapshot_entry_t where
  name : List Nat
  epoch : Int
  counter : Nat
  deriving DecidableEq, Repr

/-- Embeds `build_snapshot_name` for a buffer of `size` bytes. -/
def build_snapshot_name (size : Nat) (epoch : Int) (counter : Nat) (ext : List Nat) :
    Option (List Nat) :=
  let name :=
    if counter = 0 then str "snapshot-" ++ fmt_lld epoch ++ [46] ++ ext
    else str "snapshot-" ++ fmt_lld epoch ++ [45] ++ fmt_llu (counter % 2 ^ 32) ++ [46] ++ ext
  if name.length ≥ size then none else some name

/-- The string at `strrchr(name, '.')`, dot included; `none` when the name has
no dot. -/
def strrchr_dot (name : List Nat) : Option (List Nat) :=
  if 46 ∈ name then some (46 :: (name.reverse.takeWhile (fun c => decide (c ≠ 46))).reverse)
  else none

/-- Embeds `parse_snapshot_filename`: the epoch and the counter of a name
`snapshot-<epoch>[-<counter>].<ext>`. -/
def parse_snapshot_filename (name ext : List Nat) : Option (Int × Nat) :=
  if name.take 9 ≠ str "snapshot-" then none
  else
    match strrchr_dot name with
    | none => none
    | some dot =>
      if dot.drop 1 ≠ ext then none
      else
        let cursor := name.drop 9
        let r := strtoll cursor 10
        if r.erange ∨ r.converted = false then none
        else
          match r.rest with
          | 45 :: after =>
            let c := strtoull after 10
            if c.erange ∨ c.converted = false then none
            else if c.rest ≠ dot then none
            else some (r.value, c.value % 2 ^ 32)
          | endptr => if endptr ≠ dot then none else some (r.value, 0)

/-- The sign of `strcmp(a, b)`: bytes compare as `unsigned char`. -/
def strcmp : List Nat → List Nat → Int
  | [], [] => 0
  | [], _ :: _ => -1
  | _ :: _, [] => 1
  | x :: xs, y :: ys => if x < y then -1 else if y < x then 1 else strcmp xs ys

/-- The conversion `(int)` of an `unsigned`. -/
def int_of_unsigned (u : Nat) : Int := if u % 2 ^ 32 < 2 ^ 31 then u % 2 ^ 32 else u % 2 ^ 32 - 2 ^ 32

/-- Embeds `snapshot_compare_desc`. -/
def snapshot_compare_desc (sa sb : snapshot_entry_t) : Int :=
  if sa.epoch ≠ sb.epoch then (if sb.epoch > sa.epoch then 1 else -1)
  else if sa.counter ≠ sb.counter then int_of_unsigned sb.counter - int_of_unsigned sa.counter
  else strcmp sa.name sb.name

/-- The order `qsort` is given: `sa` may stand before `sb`. -/
def snapshot_before (sa sb : snapshot_entry_t) : Prop := snapshot_compare_desc sa sb ≤ 0

instance : DecidableRel snapshot_before := fun sa sb => by
  unfold snapshot_before; infer_instance

/-- The call `qsort(entries, count, ..., snapshot_compare_desc)`: the entries in
an order that agrees with the comparison (insertion sort; every sorting
algorithm gives the same array when no two entries compare equal). -/
def qsort_snapshots (entries : List snapshot_entry_t) : List snapshot_entry_t :=
  entries.insertionSort snapshot_before

/-- The `readdir` loop of `prune_snapshots`: the entries whose name does not
start with a dot and parses as a snapshot name for `ext`. -/
def collect_snapshots (names : List (List Nat)) (ext : List Nat) : List snapshot_entry_t :=
  names.filterMap (fun d_name =>
    if d_name.head? = some 46 then none
    else
      match parse_snapshot_filename d_name ext with
      | none => none
      | some (epoch, counter) => some { name := d_name, epoch := epoch, counter := counter })

/-- The loop of `prune_snapshots` that unlinks the entries from index 5 on: a
name whose path does not fit is skipped and the result of `unlink` is
ignored. -/
def unlink_snapshots (fs : fs_t) (log_dir : List Nat) : List snapshot_entry_t → fs_t
  | [] => fs
  | e :: rest =>
    let fs1 := match utils_join_path log_dir e.name PATH_MAX with
      | none => fs
      | some path => keep_on_error (sys_unlink fs path) fs
    unlink_snapshots fs1 log_dir rest

/-- Embeds `prune_snapshots`. -/
def prune_snapshots (fs : fs_t) (log_dir ext : List Nat) : Except Errno fs_t :=
  match sys_readdir fs log_dir with
  | .error .ENOENT => .ok fs
  | .error e => .error e
  | .ok names =>
    let entries := collect_snapshots names ext
    if entries.length ≤ ERRAID_STDIO_SNAPSHOT_COUNT then .ok fs
    else
      .ok (unlink_snapshots fs log_dir
        ((qsort_snapshots entries).drop ERRAID_STDIO_SNAPSHOT_COUNT))

/-- The `while (counter < 1000)` loop of `rotate_stdio_snapshot`; `remaining`
is `1000 - counter`. Returns the file system and the counter after the loop. -/
def rotate_loop (fs : fs_t) (log_dir base_path ext : List Nat) (epoch : Int) :
    Nat → Nat → Except Errno (fs_t × Nat)
  | 0, counter => .ok (fs, counter)
  | remaining + 1, counter =>
    match build_snapshot_name 64 epoch counter ext with
    | none => .error .ENAMETOOLONG
    | some snapshot_name =>
      match utils_join_path log_dir snapshot_name PATH_MAX with
      | none => .error .ENAMETOOLONG
      | some snapshot_path =>
        if !sys_access fs snapshot_path then
          match sys_rename fs base_path snapshot_path with
          | .error e => .error e
          | .ok fs1 => .ok (fs1, counter)
        else rotate_loop fs log_dir base_path ext epoch remaining (counter + 1)

/-- Embeds `rotate_stdio_snapshot`: the result and the file system afterwards. -/
def rotate_stdio_snapshot (fs : fs_t) (log_dir base_filename ext : List Nat) (epoch : Int) :
    Except Errno Unit × fs_t :=
  match utils_join_path log_dir base_filename PATH_MAX with
  | none => (.error .ENAMETOOLONG, fs)
  | some base_path =>
    match sys_stat fs base_path with
    | .error .ENOENT => (.ok (), fs)
    | .error e => (.error e, fs)
    | .ok (.file []) => (.ok (), fs)
    | .ok _ =>
      match rotate_loop fs log_dir base_path ext epoch 1000 0 with
      | .error e => (.error e, fs)
      | .ok (fs1, counter) =>
        let fs2 := if counter ≥ 1000 then keep_on_error (sys_unlink fs1 base_path) fs1 else fs1
        match prune_snapshots fs2 log_dir ext with
        | .error e => (.error e, fs2)
        | .ok fs3 => (.ok (), fs3)

/-- The struct `task_run_entry_t`. -/
structure task_run_entry_t where
  epoch : Int
  status : Int
  stdout_len : Nat
  stderr_len : Nat
  deriving DecidableEq, Repr

/-- Opens a file with `O_WRONLY | O_CREAT | O_TRUNC` and writes `data` to it,
as `storage_append_history` does for `last.stdout` and `last.stderr`: nothing
is written for a NULL buffer or a zero length. -/
def write_stdio_file (fs : fs_t) (path : List Nat) (buf : Option (List Nat)) (len : Nat) :
    Except Errno fs_t :=
  match sys_open_creat fs path true with
  | .error e => .error e
  | .ok fs1 =>
    match buf with
    | some data => if len > 0 then .ok (fs_put fs1 path (.file (data.take len))) else .ok fs1
    | none => .ok fs1

/-- The history line `"%lld %d %zu %zu\n"` of `storage_append_history`. -/
def history_line (entry : task_run_entry_t) (stdout_len stderr_len : Nat) : List Nat :=
  fmt_lld entry.epoch ++ [32] ++ fmt_lld entry.status ++ [32] ++
    fmt_llu stdout_len ++ [32] ++ fmt_llu stderr_len ++ [10]

/-- The end of `storage_append_history`: the line is appended to `history.log`
(opened with `O_APPEND | O_CREAT`). -/
def append_history_line (fs : fs_t) (log_dir : List Nat) (line : List Nat) :
    Except Errno Unit × fs_t :=
  match utils_join_path log_dir (str "history.log") PATH_MAX with
  | none => (.error .ENAMETOOLONG, fs)
  | some history_path =>
    match sys_open_creat fs history_path false with
    | .error e => (.error e, fs)
    | .ok fs1 =>
      if line.length ≥ 128 then (.error .EINVAL, fs1)
      else
        match sys_read_file fs1 history_path with
        | .error e => (.error e, fs1)
        | .ok old => (.ok (), fs_put fs1 history_path (.file (old ++ line)))

/-- Embeds `storage_append_history`: the result and the file system
afterwards. -/
def storage_append_history (fs : fs_t) (paths : storage_paths_t) (task_id : Nat)
    (entry : task_run_entry_t) (stdout_buf : Option (List Nat)) (stdout_len : Nat)
    (stderr_buf : Option (List Nat)) (stderr_len : Nat) : Except Errno Unit × fs_t :=
  let idbuf := fmt_llu task_id
  if idbuf.length ≥ 32 then (.error .ENAMETOOLONG, fs)
  else
    match utils_join_path paths.logs_dir idbuf PATH_MAX with
    | none => (.error .ENAMETOOLONG, fs)
    | some log_dir =>
      match ensure_directory fs log_dir with
      | .error e => (.error e, fs)
      | .ok fs1 =>
        match rotate_stdio_snapshot fs1 log_dir (str "last.stdout") (str "stdout") entry.epoch with
        | (.error e, fs2) => (.error e, fs2)
        | (.ok (), fs2) =>
          match rotate_stdio_snapshot fs2 log_dir (str "last.stderr") (str "stderr")
              entry.epoch with
          | (.error e, fs3) => (.error e, fs3)
          | (.ok (), fs3) =>
            match utils_join_path log_dir (str "last.stdout") PATH_MAX,
                utils_join_path log_dir (str "last.stderr") PATH_MAX with
            | some stdout_path, some stderr_path =>
              match write_stdio_file fs3 stdout_path stdout_buf stdout_len with
              | .error e => (.error e, fs3)
              | .ok fs4 =>
                match write_stdio_file fs4 stderr_path stderr_buf stderr_len with
                | .error e => (.error e, fs4)
                | .ok fs5 =>
                  append_history_line fs5 log_dir (history_line entry stdout_len stderr_len)
            | _, _ => (.error .ENAMETOOLONG, fs3)

/-- Embeds `storage_remove_task`. The results of the last three `unlink` calls
and of `rmdir` are ignored, as in the source. -/
def storage_remove_task (fs : fs_t) (paths : storage_paths_t) (task_id : Nat) :
    Except Errno Unit × fs_t :=
  let filename := fmt_llu task_id ++ str ".task"
  if filename.length ≥ 64 then (.error .ENAMETOOLONG, fs)
  else
    match utils_join_path paths.tasks_dir filename PATH_MAX with
    | none => (.error .ENAMETOOLONG, fs)
    | some task_path =>
      match sys_unlink fs task_path with
      | .error e => (.error e, fs)
      | .ok fs1 =>
        let idbuf := fmt_llu task_id
        if idbuf.length ≥ 32 then (.error .EINVAL, fs1)
        else
          match utils_join_path paths.logs_dir idbuf PATH_MAX with
          | none => (.error .ENAMETOOLONG, fs1)
          | some log_dir =>
            match utils_join_path log_dir (str "history.log") PATH_MAX,
                utils_join_path log_dir (str "last.stdout") PATH_MAX,
                utils_join_path log_dir (str "last.stderr") PATH_MAX with
            | some history_path, some stdout_path, some stderr_path =>
              let fs2 := keep_on_error (sys_unlink fs1 history_path) fs1
              let fs3 := keep_on_error (sys_unlink fs2 stdout_path) fs2
              let fs4 := keep_on_error (sys_unlink fs3 stderr_path) fs3
              let fs5 := keep_on_error (sys_rmdir fs4 log_dir) fs4
              (.ok (), fs5)
            | _, _, _ => (.error .ENAMETOOLONG, fs1)

/-- Embeds `storage_allocate_task_id`: the identifier allocated (or the error)
and the file system afterwards. -/
def storage_allocate_task_id (fs : fs_t) (paths : storage_paths_t) :
    Except Errno Nat × fs_t :=
  match utils_join_path paths.tasks_dir (str "next_id") PATH_MAX with
  | none => (.error .ENAMETOOLONG, fs)
  | some id_path =>
    match sys_open_creat fs id_path false with
    | .error e => (.error e, fs)
    | .ok fs1 =>
      match sys_read_file fs1 id_path with
      | .error e => (.error e, fs1)
      | .ok content =>
        let buffer := (content.take 63).takeWhile (fun c => decide (c ≠ 0))
        let parsed : Option Nat :=
          if (content.take 63).length > 0 then parse_uint64 buffer else some 1
        match parsed with
        | none => (.error .EINVAL, fs1)
        | some next_id =>
          let allocated := next_id
          let next_id := (next_id + 1) % 2 ^ 64
          (.ok allocated, fs_put fs1 id_path (.file (fmt_llu next_id ++ [10])))

/-- Embeds `has_suffix`. -/
def has_suffix (name suffix : List Nat) : Bool :=
  if name.length < suffix.length then false
  else name.drop (name.length - suffix.length) = suffix

/-- Embeds `write_task_file`. The temporary path is what `utils_join_path`
makes of the final path and `.tmp`. -/
def write_task_file (fs : fs_t) (task : task_t) (final_path : List Nat) :
    Except Errno Unit × fs_t :=
  match utils_join_path final_path (str ".tmp") PATH_MAX with
  | none => (.error .ENAMETOOLONG, fs)
  | some tmp_path =>
    match sys_open_creat fs tmp_path true with
    | .error e => (.error e, fs)
    | .ok fs1 =>
      match write_task_file_text task with
      | none => (.error .ENOSPC, keep_on_error (sys_unlink fs1 tmp_path) fs1)
      | some text =>
        let fs2 := fs_put fs1 tmp_path (.file text)
        match sys_rename fs2 tmp_path final_path with
        | .error e => (.error e, keep_on_error (sys_unlink fs2 tmp_path) fs2)
        | .ok fs3 => (.ok (), fs3)

/-- Embeds `storage_write_task`. -/
def storage_write_task (fs : fs_t) (paths : storage_paths_t) (task : task_t) :
    Except Errno Unit × fs_t :=
  let filename := fmt_llu task.task_id ++ str ".task"
  if filename.length ≥ 64 then (.error .ENAMETOOLONG, fs)
  else
    match utils_join_path paths.tasks_dir filename PATH_MAX with
    | none => (.error .ENAMETOOLONG, fs)
    | some final_path => write_task_file fs task final_path

/-- The `readdir` loop of `storage_load_tasks` over the names still to come. -/
def load_tasks_loop (fs : fs_t) (tasks_dir : List Nat) :
    List (List Nat) → Except Errno (List task_t)
  | [] => .ok []
  | d_name :: rest =>
    if d_name = str "next_id" then load_tasks_loop fs tasks_dir rest
    else if !has_suffix d_name (str ".task") then load_tasks_loop fs tasks_dir rest
    else
      match utils_join_path tasks_dir d_name PATH_MAX with
      | none => .error .ENAMETOOLONG
      | some path =>
        match sys_read_file fs path with
        | .error e => .error e
        | .ok file_buffer =>
          match parse_task_file (file_buffer.takeWhile (fun c => decide (c ≠ 0))) with
          | none => .error .EINVAL
          | some task =>
            match load_tasks_loop fs tasks_dir rest with
            | .error e => .error e
            | .ok tasks => .ok (task :: tasks)

/-- Embeds `storage_load_tasks`. -/
def storage_load_tasks (fs : fs_t) (paths : storage_paths_t) : Except Errno (List task_t) :=
  match sys_readdir fs paths.tasks_dir with
  | .error e => .error e
  | .ok names => load_tasks_loop fs paths.tasks_dir names

/-- The storage paths `build_paths` derives from the root `/run`. -/
def run_paths : storage_paths_t :=
  { root_dir := str "/run", tasks_dir := str "/run/tasks", logs_dir := str "/run/logs"
    state_dir := str "/run/state", pipes_dir := str "/run/pipes" }

/-- A store just initialised: the five directories and nothing else. -/
def fresh_fs : fs_t :=
  [(str "/run", .dir), (str "/run/tasks", .dir), (str "/run/logs", .dir),
   (str "/run/state", .dir), (str "/run/pipes", .dir)]

/-- A store that holds task 1 with the logs of two runs: the task file, the
history, the last output and one rotated snapshot. -/
def fs_task_with_snapshot : fs_t :=
  fresh_fs ++
  [(str "/run/tasks/next_id", .file (str "2\n")),
   (str "/run/tasks/1.task", .file (str "1\nSIMPLE\n1\n[\"/bin/date\"]\nFFFFFFFFFFFFFFF\nFFFFFF\n7F\n0\n120\n")),
   (str "/run/logs/1", .dir),
   (str "/run/logs/1/snapshot-120.stdout", .file (str "first\n")),
   (str "/run/logs/1/last.stdout", .file (str "second\n")),
   (str "/run/logs/1/last.stderr", .file []),
   (str "/run/logs/1/history.log", .file (str "60 0 6 0\n120 0 7 0\n"))]

/-! ### Specification-side notions for the task store -/

/-- The value stored in `tasks/next_id`: 1 when the file is absent or empty;
`none` when the file does not hold a number. -/
def stored_next_id (fs : fs_t) (paths : storage_paths_t) : Option Nat :=
  match utils_join_path paths.tasks_dir (str "next_id") PATH_MAX with
  | none => none
  | some id_path =>
    match fs_find fs id_path with
    | none => some 1
    | some .dir => none
    | some (.file content) =>
      if (content.take 63).length > 0 then
        parse_uint64 ((content.take 63).takeWhile (fun c => decide (c ≠ 0)))
      else some 1

/-- An operation on the store: an identifier allocation or the removal of a
task. -/
inductive store_op where
  | allocate
  | remove (task_id : Nat)
  deriving DecidableEq, Repr

/-- Runs a sequence of store operations; returns the results of the
allocations, in order, and the file system afterwards. -/
def run_store_ops (paths : storage_paths_t) : List store_op → fs_t → List (Except Errno Nat) × fs_t
  | [], fs => ([], fs)
  | .allocate :: ops, fs =>
    let r := storage_allocate_task_id fs paths
    let rest := run_store_ops paths ops r.2
    (r.1 :: rest.1, rest.2)
  | .remove task_id :: ops, fs =>
    run_store_ops paths ops (storage_remove_task fs paths task_id).2

/-- The snapshot entry `prune_snapshots` makes of a directory entry name, if
any. -/
def snapshot_entry_of (ext d_name : List Nat) : Option snapshot_entry_t :=
  if d_name.head? = some 46 then none
  else
    match parse_snapshot_filename d_name ext with
    | none => none
    | some (epoch, counter) => some { name := d_name, epoch := epoch, counter := counter }

/-- The snapshot files for `ext` that the directory `log_dir` holds, as
`prune_snapshots` sees them. -/
def snapshot_files (fs : fs_t) (log_dir ext : List Nat) : List snapshot_entry_t :=
  (fs.filter (fun e => decide (parent_path e.1 = log_dir ∧ e.1 ≠ log_dir))).filterMap
    (fun e => snapshot_entry_of ext (base_name e.1))

/-- The entries of the directory `log_dir` are regular files. -/
def dir_holds_files (fs : fs_t) (log_dir : List Nat) : Prop :=
  ∀ e ∈ fs, parent_path e.1 = log_dir → e.1 ≠ log_dir → e.2 ≠ .dir

instance (fs : fs_t) (log_dir : List Nat) : Decidable (dir_holds_files fs log_dir) := by
  unfold dir_holds_files; infer_instance

/-- Every path of the file system is shorter than `PATH_MAX`. -/
def paths_fit (fs : fs_t) : Prop := ∀ e ∈ fs, e.1.length < PATH_MAX

instance (fs : fs_t) : Decidable (paths_fit fs) := by
  unfold paths_fit; infer_instance

/-- The log directory `d` is in order: it is a directory, its entries are
regular files and every path of the file system fits `PATH_MAX`. -/
def log_dir_ok (fs : fs_t) (d : List Nat) : Prop :=
  fs_find fs d = some .dir ∧ dir_holds_files fs d ∧ paths_fit fs

/-- The log directory of task 1 in the store `/run`. -/
def log_dir_one : List Nat := str "/run/logs/1"

/-! ## Daemon: request parsing (`src/erraid/daemon.c`) -/

/-- Embeds `skip_ws`. -/
def skip_ws (p : List Nat) : List Nat := p.dropWhile isspace

/-- The loop of `parse_json_string_token` after the opening quote: `buffer`
holds the bytes collected so far. Returns the string and the cursor after the
closing quote. -/
def parse_json_string_token_loop : List Nat → List Nat → Option (List Nat × List Nat)
  | [], _ => none
  | ch :: p, buffer =>
    if ch = 34 then some (buffer, p)
    else if ch = 92 then
      match p with
      | [] => none
      | esc :: p1 =>
        if esc = 34 then parse_json_string_token_loop p1 (buffer ++ [34])
        else if esc = 92 then parse_json_string_token_loop p1 (buffer ++ [92])
        else if esc = 47 then parse_json_string_token_loop p1 (buffer ++ [47])
        else if esc = 98 then parse_json_string_token_loop p1 (buffer ++ [8])
        else if esc = 102 then parse_json_string_token_loop p1 (buffer ++ [12])
        else if esc = 110 then parse_json_string_token_loop p1 (buffer ++ [10])
        else if esc = 114 then parse_json_string_token_loop p1 (buffer ++ [13])
        else if esc = 116 then parse_json_string_token_loop p1 (buffer ++ [9])
        else none
    else parse_json_string_token_loop p (buffer ++ [ch])

/-- Embeds `parse_json_string_token`: the cursor must be at a quote. -/
def parse_json_string_token (cursor : List Nat) : Option (List Nat × List Nat) :=
  match cursor with
  | 34 :: p => parse_json_string_token_loop p []
  | _ => none

/-- The inner `while (1)` loop of `parse_commands_array`, over the arguments of
one command: `argv` holds the arguments read so far. Every turn consumes a
byte, so `fuel` (the length of the text) bounds the turns. Returns the command
and the cursor after its closing bracket. -/
def parse_command_args : Nat → List Nat → List (List Nat) → Option (command_t × List Nat)
  | 0, _, _ => none
  | fuel + 1, p, argv =>
    match skip_ws p with
    | [] => none
    | c :: p1 =>
      if c = 93 then some ({ argv := argv }, p1)
      else if c ≠ 34 then none
      else
        match parse_json_string_token (c :: p1) with
        | none => none
        | some (element, p2) =>
          if argv.length ≥ ERRAID_MAX_COMMAND_ARGS then none
          else
            match skip_ws p2 with
            | [] => none
            | d :: p3 =>
              if d = 44 then parse_command_args fuel p3 (argv ++ [element])
              else if d = 93 then some ({ argv := argv ++ [element] }, p3)
              else none

/-- The outer `while (1)` loop of `parse_commands_array`, over the commands:
`result` holds the commands read so far. Returns the commands and the cursor
after the closing bracket of the array. -/
def parse_commands_loop : Nat → List Nat → List command_t → Option (List command_t × List Nat)
  | 0, _, _ => none
  | fuel + 1, p, result =>
    match skip_ws p with
    | [] => none
    | c :: p1 =>
      if c = 93 then some (result, p1)
      else if c ≠ 91 then none
      else
        match parse_command_args (p1.length + 1) p1 [] with
        | none => none
        | some (cmd, p2) =>
          if result.length ≥ ERRAID_MAX_TASK_COMMANDS then none
          else
            match skip_ws p2 with
            | [] => parse_commands_loop fuel [] (result ++ [cmd])
            | d :: p3 =>
              if d = 44 then parse_commands_loop fuel p3 (result ++ [cmd])
              else if d = 93 then some (result ++ [cmd], p3)
              else parse_commands_loop fuel (d :: p3) (result ++ [cmd])

/-- Embeds `parse_commands_array`. -/
def parse_commands_array (cursor : List Nat) : Option (List command_t × List Nat) :=
  match skip_ws cursor with
  | 91 :: p => parse_commands_loop (p.length + 1) p []
  | _ => none

/-- The function `strstr`: the string from the first occurrence of `needle`
on. -/
def strstr : List Nat → List Nat → Option (List Nat)
  | [], needle => if needle = [] then some [] else none
  | c :: hay, needle =>
    if needle.isPrefixOf (c :: hay) then some (c :: hay) else strstr hay needle

/-- How `find_field_pointer` ends: the key is absent (`ENOENT`), no colon
follows it (`EINVAL`), or the cursor at the value. -/
def find_field_pointer (json key : List Nat) : Except Errno (List Nat) :=
  let pattern := [34] ++ key ++ [34]
  if pattern.length ≥ 64 then .error .ENAMETOOLONG
  else
    match strstr json pattern with
    | none => .error .ENOENT
    | some pos =>
      match skip_ws (pos.drop pattern.length) with
      | 58 :: pos1 => .ok (skip_ws pos1)
      | _ => .error .EINVAL

/-- The three strings the loop of `parse_schedule_field` collects. -/
structure schedule_strings_t where
  minutes_str : Option (List Nat)
  hours_str : Option (List Nat)
  weekdays_str : Option (List Nat)
  deriving DecidableEq, Repr

/-- The `for (int i = 0; i < 3; ++i)` loop of `parse_schedule_field`; `turns`
is `3 - i`. Returns `none` on `goto schedule_parse_error`. -/
def parse_schedule_loop : Nat → List Nat → schedule_strings_t → Option schedule_strings_t
  | 0, _, acc => some acc
  | turns + 1, cursor, acc =>
    match skip_ws cursor with
    | 34 :: c1 =>
      match parse_json_string_token (34 :: c1) with
      | none => none
      | some (field_name, c2) =>
        match skip_ws c2 with
        | 58 :: c3 =>
          match skip_ws c3 with
          | 34 :: c4 =>
            match parse_json_string_token (34 :: c4) with
            | none => none
            | some (value, c5) =>
              let acc1 : schedule_strings_t :=
                if field_name = str "minutes" then { acc with minutes_str := some value }
                else if field_name = str "hours" then { acc with hours_str := some value }
                else if field_name = str "weekdays" then { acc with weekdays_str := some value }
                else acc
              match skip_ws c5 with
              | 44 :: c6 => parse_schedule_loop turns c6 acc1
              | 125 :: _ => some acc1
              | c6 => parse_schedule_loop turns c6 acc1
          | _ => none
        | _ => none
    | _ => none

/-- Embeds `parse_schedule_field`. -/
def parse_schedule_field (payload : List Nat) (type : task_type_t) : Option schedule_t :=
  let disabled : schedule_t :=
    { minute_mask := 0, hour_mask := 0, weekday_mask := 0, enabled := false }
  match find_field_pointer payload (str "schedule") with
  | .error _ => if type = .TASK_TYPE_ABSTRACT then some disabled else none
  | .ok value_ptr =>
    if value_ptr.take 4 = str "null" then
      (if type = .TASK_TYPE_ABSTRACT then some disabled else none)
    else
      match value_ptr with
      | 123 :: cursor =>
        match parse_schedule_loop 3 cursor ⟨none, none, none⟩ with
        | some ⟨some minutes_str, some hours_str, some weekdays_str⟩ =>
          some { minute_mask := (strtoull minutes_str 16).value
                 hour_mask := (strtoull hours_str 16).value % 2 ^ 32
                 weekday_mask := (strtoull weekdays_str 16).value % 2 ^ 8
                 enabled := decide (type ≠ .TASK_TYPE_ABSTRACT) }
        | _ => none
      | _ => none

/-- Embeds `parse_commands_field`. -/
def parse_commands_field (payload : List Nat) (type : task_type_t) : Option (List command_t) :=
  match find_field_pointer payload (str "commands") with
  | .error _ => none
  | .ok value_ptr =>
    match parse_commands_array value_ptr with
    | none => none
    | some (commands, _) =>
      if type = .TASK_TYPE_SIMPLE ∧ commands.length ≠ 1 then none
      else if type = .TASK_TYPE_SEQUENCE ∧ commands.length < 1 then none
      else some commands

/-- Embeds `task_type_from_message`. -/
def task_type_from_message (msg_type : Nat) : task_type_t :=
  if msg_type = 0x20 then .TASK_TYPE_SIMPLE
  else if msg_type = 0x21 then .TASK_TYPE_SEQUENCE
  else if msg_type = 0x22 then .TASK_TYPE_ABSTRACT
  else .TASK_TYPE_SIMPLE

/-! ## Daemon: state, plan and replies (`src/erraid/daemon.c`) -/

/-- The message types of `message_type_t` used by the creation path. -/
def MSG_REQ_CREATE_SIMPLE : Nat := 0x20

def MSG_REQ_CREATE_SEQUENCE : Nat := 0x21

def MSG_REQ_CREATE_ABSTRACT : Nat := 0x22

def MSG_RSP_CREATE : Nat := 0x23

def MSG_RSP_ERROR : Nat := 0x7F

/-- The struct `schedule_entry_t`. -/
structure schedule_entry_t where
  task_id : Nat
  task_index : Nat
  next_epoch : Int
  deriving DecidableEq, Repr

/-- The fields of `erraid_context_t` that the handlers and the scheduler loop
read or write: `tasks` holds the `task_count` tasks, `plan` is the array of
`plan_capacity` entries (the pointer is NULL while the capacity is 0), of
which the first `plan_count` are in use, and `reply_fd` tells whether the
reply descriptor is open (`reply_fd >= 0`). -/
structure erraid_context_t where
  paths : storage_paths_t
  tasks : List task_t
  plan : List schedule_entry_t
  plan_capacity : Nat
  plan_count : Nat
  reply_fd : Bool
  should_quit : Bool
  deriving DecidableEq, Repr

/-- One firing of a task as the outside world sees it: the task handed to
`executor_run_task` (with its index in the task list) and the history entry
handed to `storage_append_history` after the run. -/
structure fire_t where
  task_index : Nat
  task : task_t
  entry : task_run_entry_t
  deriving DecidableEq, Repr

/-- What the daemon acts on outside its own memory: the file system, the reply
FIFO (what `open` on its path returns, and its writing end), the number of
bytes written to the wake pipe, the clock (`time(NULL)`), the time zone, the
allocator, the children that `fork` and `execvp` give for a command, and the
firings made so far, oldest first. -/
structure daemon_sys where
  fs : fs_t
  reply_open : Except Errno Unit
  reply_pipe : wfd
  wake_written : Nat
  now : Int
  localtime_r : Int → Option tm
  realloc_ok : Nat → Bool
  spawn : command_t → Option child_t
  fired : List fire_t

/-- The size of `task_t` and of `schedule_entry_t` in bytes (LP64). -/
def sizeof_task_t : Nat := 56

def sizeof_schedule_entry_t : Nat := 24

/-- Embeds `buffer_append` for the text that `vsnprintf` formats: `buffer`
holds the `*offset` bytes written so far. -/
def buffer_append (buflen : Nat) (buffer text : List Nat) : Option (List Nat) :=
  if buffer.length ≥ buflen then none
  else if text.length ≥ buflen - buffer.length then none
  else some (buffer ++ text)

/-- The local `proto_message_t message` of `send_json_response` before
`proto_pack` fills it; only the bytes that `proto_pack` stores are sent. -/
def stack_message : proto_message_t :=
  { header := ⟨0, 0, 0, 0, 0⟩, payload := List.replicate ERRAID_PIPE_MESSAGE_LIMIT 0 }

/-- Embeds `send_json_response`. -/
def send_json_response (ctx : erraid_context_t) (sys : daemon_sys) (type : Nat)
    (payload : List Nat) : Except Errno Unit × erraid_context_t × daemon_sys :=
  let opened : Except Errno erraid_context_t :=
    if ctx.reply_fd then .ok ctx
    else
      match sys.reply_open with
      | .error e => .error e
      | .ok () => .ok { ctx with reply_fd := true }
  match opened with
  | .error e => (.error e, ctx, sys)
  | .ok ctx1 =>
    match proto_pack type (some payload) payload.length stack_message with
    | .error e => (.error e, ctx1, sys)
    | .ok message =>
      match proto_write_message sys.reply_pipe message with
      | (.error e, fd1) =>
        if e = Errno.EPIPE ∨ e = Errno.ENXIO then
          (.ok (), { ctx1 with reply_fd := false }, { sys with reply_pipe := fd1 })
        else (.error e, ctx1, { sys with reply_pipe := fd1 })
      | (.ok (), fd1) => (.ok (), ctx1, { sys with reply_pipe := fd1 })

/-- Embeds `send_error_response` for a code and a message that are not NULL. -/
def send_error_response (ctx : erraid_context_t) (sys : daemon_sys) (code message : List Nat) :
    Except Errno Unit × erraid_context_t × daemon_sys :=
  match buffer_append 256 [] (str "\x7b\"status\":\"ERROR\"") with
  | none => (.error .ENOSPC, ctx, sys)
  | some b1 =>
    match buffer_append 256 b1 (str ",\"code\":\"" ++ code ++ str "\"") with
    | none => (.error .ENOSPC, ctx, sys)
    | some b2 =>
      match buffer_append 256 b2 (str ",\"message\":\"" ++ message ++ str "\"") with
      | none => (.error .ENOSPC, ctx, sys)
      | some b3 =>
        match buffer_append 256 b3 (str "\x7d") with
        | none => (.error .ENOSPC, ctx, sys)
        | some b4 => send_json_response ctx sys MSG_RSP_ERROR b4

/-- Embeds `wake_scheduler`: one byte goes to the wake pipe; the result of the
`write` is ignored. -/
def wake_scheduler (sys : daemon_sys) : daemon_sys :=
  { sys with wake_written := sys.wake_written + 1 }

/-- Embeds `context_add_task`; `none` where `realloc` fails. -/
def context_add_task (ctx : erraid_context_t) (sys : daemon_sys) (task : task_t) :
    Option erraid_context_t :=
  if sys.realloc_ok ((ctx.tasks.length + 1) * sizeof_task_t) then
    some { ctx with tasks := ctx.tasks ++ [task] }
  else none

/-- The doubling loop of `ensure_plan_capacity`. -/
def double_until : Nat → Nat → Nat → Nat
  | 0, new_capacity, _ => new_capacity
  | fuel + 1, new_capacity, capacity =>
    if new_capacity < capacity then double_until fuel (new_capacity * 2) capacity
    else new_capacity

/-- Embeds `ensure_plan_capacity`; `none` where `realloc` fails. The entries
that `realloc` adds to the array are indeterminate; they are zero here. -/
def ensure_plan_capacity (ctx : erraid_context_t) (sys : daemon_sys) (capacity : Nat) :
    Option erraid_context_t :=
  if capacity ≤ ctx.plan_capacity then some ctx
  else
    let new_capacity := if ctx.plan_capacity = 0 then 4 else ctx.plan_capacity
    let new_capacity := double_until capacity new_capacity capacity
    if sys.realloc_ok (new_capacity * sizeof_schedule_entry_t) then
      some { ctx with
        plan := ctx.plan.take new_capacity ++
          List.replicate (new_capacity - ctx.plan.length) ⟨0, 0, 0⟩
        plan_capacity := new_capacity }
    else none

/-- The loop of `scheduler_compute_plan` over the tasks from index `i` on. -/
def compute_plan_entries (localtime_r : Int → Option tm) (reference_epoch : Int) :
    List task_t → Nat → List schedule_entry_t
  | [], _ => []
  | t :: rest, i =>
    { task_id := t.task_id, task_index := i
      next_epoch := scheduler_next_occurrence localtime_r t.schedule reference_epoch } ::
      compute_plan_entries localtime_r reference_epoch rest (i + 1)

/-- Embeds `scheduler_compute_plan`: the value returned and the array
`entries` afterwards. `tasks` is NULL for the empty list and `entries` is
`none` for a NULL pointer; the array holds at least `entry_capacity` entries.
The value returned is `(int)task_count`. -/
def scheduler_compute_plan (localtime_r : Int → Option tm) (tasks : List task_t)
    (reference_epoch : Int) (entries : Option (List schedule_entry_t)) (entry_capacity : Nat) :
    Int × Option (List schedule_entry_t) :=
  if (tasks.length > 0 ∧ entries = none) ∨ entry_capacity < tasks.length then (-1, entries)
  else
    (int_of_unsigned tasks.length,
      entries.map (fun old =>
        compute_plan_entries localtime_r reference_epoch tasks 0 ++ old.drop tasks.length))

/-- Embeds `rebuild_plan`: the result and the context afterwards. -/
def rebuild_plan (ctx : erraid_context_t) (sys : daemon_sys) : Bool × erraid_context_t :=
  match ensure_plan_capacity ctx sys ctx.tasks.length with
  | none => (false, ctx)
  | some ctx1 =>
    if ctx1.tasks.length = 0 then (true, { ctx1 with plan_count := 0 })
    else
      let r := scheduler_compute_plan sys.localtime_r ctx1.tasks sys.now
        (if ctx1.plan_capacity = 0 then none else some ctx1.plan) ctx1.plan_capacity
      let ctx2 := { ctx1 with plan := r.2.getD ctx1.plan }
      if r.1 < 0 then (false, ctx2)
      else (true, { ctx2 with plan_count := r.1.toNat })

/-- Embeds `erraid_reload_tasks`: the result and the context afterwards. -/
def erraid_reload_tasks (ctx : erraid_context_t) (sys : daemon_sys) : Bool × erraid_context_t :=
  let ctx1 := { ctx with tasks := [] }
  match storage_load_tasks sys.fs ctx1.paths with
  | .error _ => (false, ctx1)
  | .ok tasks => rebuild_plan { ctx1 with tasks := tasks } sys

/-- Embeds `handle_create_task`: the value returned, the context and the
outside world afterwards. -/
def handle_create_task (ctx : erraid_context_t) (sys : daemon_sys) (msg_type : Nat)
    (payload : List Nat) : Int × erraid_context_t × daemon_sys :=
  let type := task_type_from_message msg_type
  match parse_schedule_field payload type with
  | none =>
    (-1, (send_error_response ctx sys (str "INVALID_REQUEST") (str "Planification invalide")).2)
  | some schedule =>
    match parse_commands_field payload type with
    | none =>
      (-1, (send_error_response ctx sys (str "INVALID_REQUEST") (str "Commandes invalides")).2)
    | some commands =>
      match storage_allocate_task_id sys.fs ctx.paths with
      | (.error _, fs1) =>
        (-1, (send_error_response ctx { sys with fs := fs1 } (str "PERSISTENCE_ERROR")
          (str "Allocation d'identifiant impossible")).2)
      | (.ok task_id, fs1) =>
        let new_task : task_t :=
          { task_id := task_id, type := type, commands := commands, schedule := schedule
            last_run_epoch := -1 }
        match storage_write_task fs1 ctx.paths new_task with
        | (.error _, fs2) =>
          (-1, (send_error_response ctx { sys with fs := fs2 } (str "PERSISTENCE_ERROR")
            (str "\xc3\x89criture de la t\xc3\xa2che impossible")).2)
        | (.ok (), fs2) =>
          match context_add_task ctx sys new_task with
          | none =>
            let fs3 := (storage_remove_task fs2 ctx.paths new_task.task_id).2
            (-1, (send_error_response ctx { sys with fs := fs3 } (str "MEMORY_ERROR")
              (str "Ajout en m\xc3\xa9moire impossible")).2)
          | some ctx1 =>
            let sys2 := { sys with fs := fs2 }
            match rebuild_plan ctx1 sys2 with
            | (false, ctx2) =>
              let ctx3 := (erraid_reload_tasks ctx2 sys2).2
              (-1, (send_error_response ctx3 sys2 (str "SCHEDULER_ERROR")
                (str "Reconstruction de plan impossible")).2)
            | (true, ctx2) =>
              let sys3 := wake_scheduler sys2
              let last_id := (ctx2.tasks.getLast?.map (fun t => t.task_id)).getD 0
              match buffer_append 128 []
                  (str "\x7b\"status\":\"OK\",\"task_id\":" ++ fmt_llu last_id ++ str "\x7d") with
              | none =>
                (-1, (send_error_response ctx2 sys3 (str "ENCODING_ERROR")
                  (str "Construction de r\xc3\xa9ponse impossible")).2)
              | some payload_buf =>
                match send_json_response ctx2 sys3 MSG_RSP_CREATE payload_buf with
                | (.error _, r) => (-1, r)
                | (.ok (), r) => (0, r)

/-! ### Specification-side notions for the creation path -/

/-- The path `q` names an entry of `tasks_dir` whose name ends in `.task`. -/
def is_task_file_path (paths : storage_paths_t) (q : List Nat) : Bool :=
  decide (parent_path q = paths.tasks_dir ∧ q ≠ paths.tasks_dir) &&
    has_suffix (base_name q) (str ".task")

/-- The persisted task files: the entries of `tasks_dir` whose name ends in
`.task`, with their contents. -/
def task_files (fs : fs_t) (paths : storage_paths_t) : fs_t :=
  fs.filter (fun e => is_task_file_path paths e.1)

/-- The bytes of one record on a pipe: the header for `type` and the length of
`payload`, then the payload. -/
def record_bytes (type : Nat) (payload : List Nat) : List Nat :=
  header_bytes
    { magic := ERRAID_MAGIC, version := ERRAID_PROTO_VERSION, type := type, reserved := 0
      payload_length := payload.length } ++ payload

/-- Between `before` and `after` one record of type `type` was written to the
reply pipe. -/
def answers_with (type : Nat) (before after : wfd) : Prop :=
  ∃ payload : List Nat, payload.length < ERRAID_PIPE_MESSAGE_LIMIT ∧
    after.written = before.written ++ record_bytes type payload

/-- The file system is a tree: the parent of every node below the top is a
directory of the file system. -/
def fs_tree (fs : fs_t) : Prop :=
  ∀ e ∈ fs, parent_path e.1 ≠ [] → fs_find fs (parent_path e.1) = some .dir

instance (fs : fs_t) : Decidable (fs_tree fs) := by
  unfold fs_tree; infer_instance

/-- A daemon context over the store `/run` with no task loaded. -/
def idle_ctx : erraid_context_t :=
  { paths := run_paths, tasks := [], plan := [], plan_capacity := 0, plan_count := 0
    reply_fd := false, should_quit := false }

/-- An outside world over the store `fs`: the reply FIFO can be opened and
takes 8192 bytes, the clock shows `now`, local time is UTC and the allocator
never fails. -/
def world_of (fs : fs_t) (now : Int) : daemon_sys :=
  { fs := fs, reply_open := .ok (), reply_pipe := ⟨[], 8192, .EAGAIN⟩, wake_written := 0
    now := now, localtime_r := fun t => some (utc_offset_localtime 0 t)
    realloc_ok := fun _ => true, spawn := fun _ => none, fired := [] }

/-- A daemon context over the store `/run` with task 1 loaded and planned. -/
def loaded_ctx : erraid_context_t :=
  { paths := run_paths
    tasks := [{ task_id := 1, type := .TASK_TYPE_SIMPLE, commands := [⟨[str "/bin/date"]⟩]
                schedule := schedule_always, last_run_epoch := 120 }]
    plan := [{ task_id := 1, task_index := 0, next_epoch := 180 }, ⟨0, 0, 0⟩, ⟨0, 0, 0⟩,
             ⟨0, 0, 0⟩]
    plan_capacity := 4, plan_count := 1, reply_fd := true, should_quit := false }

/-- A creation request for the command `/bin/true` at every minute. -/
def create_true_payload : List Nat :=
  str "\x7b\"commands\":[[\"/bin/true\"]],\"schedule\":\x7b\"minutes\":\"FFFFFFFFFFFFFFF\",\"hours\":\"FFFFFF\",\"weekdays\":\"7F\"\x7d\x7d"

/-- The name `build_snapshot_name` gives a snapshot for the counter 0. -/
def snapshot_name (epoch : Int) (ext : List Nat) : List Nat :=
  str "snapshot-" ++ fmt_lld epoch ++ [46] ++ ext

/-- The snapshot entry of the snapshot for `epoch` with the counter 0. -/
def snapshot_entry (epoch : Int) (ext : List Nat) : snapshot_entry_t :=
  { name := snapshot_name epoch ext, epoch := epoch, counter := 0 }

/-- The contents of the snapshot files for `ext` in the directory `log_dir`, in
the order of the directory (the order in which the files were created). -/
def snapshot_outputs (fs : fs_t) (log_dir ext : List Nat) : List (Option node_t) :=
  (snapshot_files fs log_dir ext).map (fun s => fs_find fs (log_dir ++ [47] ++ s.name))

/-- One run to record: the history entry and the two captured outputs. -/
structure run_t where
  entry : task_run_entry_t
  stdout : List Nat
  stderr_buf : Option (List Nat)
  stderr_len : Nat
  deriving DecidableEq, Repr

/-- The call of `storage_append_history` that records the run `r`. -/
def append_run (paths : storage_paths_t) (task_id : Nat) (fs : fs_t) (r : run_t) :
    Except Errno Unit × fs_t :=
  storage_append_history fs paths task_id r.entry (some r.stdout) r.stdout.length
    r.stderr_buf r.stderr_len

/-- Records the runs in order; `none` when one of the calls fails. -/
def append_runs (paths : storage_paths_t) (task_id : Nat) : List run_t → fs_t → Option fs_t
  | [], fs => some fs
  | r :: rest, fs =>
    match append_run paths task_id fs r with
    | (.ok (), fs1) => append_runs paths task_id rest fs1
    | (.error _, _) => none

/-- The name at the end of the path `q` ends in a dot and `ext`. -/
def has_ext (ext q : List Nat) : Bool :=
  decide (strrchr_dot (base_name q) = some (46 :: ext))

/-- The snapshots kept when `prune_snapshots` has run: the five newest. -/
def keep_recent {α : Type} (E : List α) : List α := E.drop (E.length - 5)

/-- The snapshots that the runs `rs` create after a run whose stdout was
`prev`: each run moves the stdout of the run before it to a snapshot named for
its own epoch. -/
def rotated : List Nat → List run_t → List (Int × List Nat)
  | _, [] => []
  | prev, r :: rs => (r.entry.epoch, prev) :: rotated r.stdout rs

/-- The first of seven runs of task 1, one minute apart. -/
def first_run : run_t := ⟨⟨60, 0, 5, 0⟩, str "run1\n", none, 0⟩

/-- The six runs after the first, each with its own stdout. -/
def later_runs : List run_t :=
  [⟨⟨120, 0, 5, 0⟩, str "run2\n", none, 0⟩, ⟨⟨180, 0, 5, 0⟩, str "run3\n", none, 0⟩,
   ⟨⟨240, 0, 5, 0⟩, str "run4\n", none, 0⟩, ⟨⟨300, 0, 5, 0⟩, str "run5\n", none, 0⟩,
   ⟨⟨360, 0, 5, 0⟩, str "run6\n", none, 0⟩, ⟨⟨420, 0, 5, 0⟩, str "run7\n", none, 0⟩]

/-- The snapshots after the rotation at `epoch` of a last output `last`, when
the snapshots before were `E`: nothing changes when there was no last output. -/
def after_rotation (last : Option (List Nat)) (E : List (Int × List Nat)) (epoch : Int) :
    List (Int × List Nat) :=
  match last with
  | none => E
  | some prev => keep_recent (E ++ [(epoch, prev)])

/-- What the log directory `d` holds of the standard output: `last.stdout`
holds `last` (for `none` the file is absent), and the stdout snapshots are
those of `E`, an epoch and a content each, in the order of the directory. -/
def stdout_view (fs : fs_t) (d : List Nat) (last : Option (List Nat))
    (E : List (Int × List Nat)) : Prop :=
  fs_find fs (d ++ [47] ++ str "last.stdout") = last.map node_t.file ∧
  snapshot_files fs d (str "stdout") = E.map (fun p => snapshot_entry p.1 (str "stdout")) ∧
  ∀ p ∈ E, fs_find fs (d ++ [47] ++ snapshot_name p.1 (str "stdout")) = some (.file p.2)

/-! ### Sample data for the protocol -/

/-- A message buffer that holds a valid empty PING record. -/
def ping_message : proto_message_t :=
  { header := { magic := ERRAID_MAGIC, version := ERRAID_PROTO_VERSION, type := 0x01
                reserved := 0, payload_length := 0 }
    payload := List.replicate ERRAID_PIPE_MESSAGE_LIMIT 0 }

/-- The 12 bytes of a header with the magic number 0 (version 1, type 0x02, no
payload). -/
def bad_magic_stream : rfd := [0, 0, 0, 0, 1, 2, 0, 0, 0, 0, 0, 0]

/-- A valid header that announces 5 payload bytes, followed by 2 bytes and
end-of-file. -/
def short_payload_stream : rfd := [0x45, 0x52, 0x49, 0x44, 1, 2, 0, 0, 5, 0, 0, 0, 104, 105]

/-- The status `run_single_command` reports for the status word of `waitpid`:
the exit code, 128 plus the signal number, or the raw word. -/
def exit_status : wait_status → Int
  | .exited code => code
  | .signaled sig => 128 + sig
  | .other status => status

/-- The status of one command (0 when the command fails to run). -/
def command_status (sys : exec_sys) (command : command_t) : Int :=
  match run_single_command sys command with
  | some r => r.status
  | none => 0

/-- A system in which `/bin/echo A` and `/bin/echo C` print their argument and
exit with status 0, and `/bin/sh -c "echo B; exit 2"` prints `B` and exits
with status 2; every other command fails to spawn. -/
def echo_exit_sys : exec_sys :=
  { spawn := fun command =>
      if command.argv = [str "/bin/echo", str "A"] then
        some { stdout_pipe := [.data (str "A\n")], stderr_pipe := [], wait := some (.exited 0) }
      else if command.argv = [str "/bin/sh", str "-c", str "echo B; exit 2"] then
        some { stdout_pipe := [.data (str "B\n")], stderr_pipe := [], wait := some (.exited 2) }
      else if command.argv = [str "/bin/echo", str "C"] then
        some { stdout_pipe := [.data (str "C\n")], stderr_pipe := [], wait := some (.exited 0) }
      else none
    realloc_ok := fun _ => true }

/-- The three commands `echo A`, `echo B` with exit 2, `echo C`. -/
def echo_exit_commands : List command_t :=
  [⟨[str "/bin/echo", str "A"]⟩, ⟨[str "/bin/sh", str "-c", str "echo B; exit 2"]⟩,
   ⟨[str "/bin/echo", str "C"]⟩]

/-- A SEQUENCE task over `echo_exit_commands`. -/
def echo_exit_task : task_t :=
  { task_id := 1, type := .TASK_TYPE_SEQUENCE, commands := echo_exit_commands
    schedule := schedule_always, last_run_epoch := -1 }

/-- A creation request whose command list holds one empty command. -/
def create_empty_command_payload : List Nat :=
  str "\x7b\"commands\":[[]],\"schedule\":\x7b\"minutes\":\"FFFFFFFFFFFFFFF\",\"hours\":\"FFFFFF\",\"weekdays\":\"7F\"\x7d\x7d"

/-- A creation request for one command of `n + 1` arguments `"a"`. -/
def create_args_payload (n : Nat) : List Nat :=
  str "\x7b\"commands\":[[\"a\"" ++ (List.replicate n (str ",\"a\"")).flatten ++
    str "]],\"schedule\":\x7b\"minutes\":\"FFFFFFFFFFFFFFF\",\"hours\":\"FFFFFF\",\"weekdays\":\"7F\"\x7d\x7d"

/-! ## History and captures read back (`src/shared/storage.c`) -/

/-- The function `isdigit`. -/
def isdigit (c : Nat) : Bool := 48 ≤ c && c ≤ 57

/-- One call of `strtok(..., " ")`: the next token and the string after the
space that ends it; `none` when only spaces are left. -/
def strtok_space (s : List Nat) : Option (List Nat × List Nat) :=
  let s1 := s.dropWhile (fun c => decide (c = 32))
  if s1 = [] then none
  else some (s1.takeWhile (fun c => decide (c ≠ 32)), (s1.dropWhile (fun c => decide (c ≠ 32))).drop 1)

/-- The cast `(int32_t)` of a `long`. -/
def int32_of_long (v : Int) : Int :=
  if v % 2 ^ 32 < 2 ^ 31 then v % 2 ^ 32 else v % 2 ^ 32 - 2 ^ 32

/-- Embeds `parse_history_entry` on a line without NUL byte. -/
def parse_history_entry (line : List Nat) : Option task_run_entry_t :=
  match strtok_space line with
  | none => none
  | some (tok1, rest1) =>
    match parse_int64 tok1 with
    | none => none
    | some epoch =>
      match strtok_space rest1 with
      | none => none
      | some (tok2, rest2) =>
        let status := strtoll tok2 10
        if status.converted = false ∨ status.rest ≠ [] then none
        else
          match strtok_space rest2 with
          | none => none
          | some (tok3, rest3) =>
            let stdout_len := strtoull tok3 10
            if stdout_len.converted = false ∨ stdout_len.rest ≠ [] then none
            else
              match strtok_space rest3 with
              | none => none
              | some (tok4, _) =>
                let stderr_len := strtoull tok4 10
                if stderr_len.converted = false ∨ stderr_len.rest ≠ [] then none
                else
                  some { epoch := epoch, status := int32_of_long status.value
                         stdout_len := stdout_len.value, stderr_len := stderr_len.value }

/-- The `while (cursor && *cursor)` loop of `storage_load_history` over the
text from `cursor` on; the first argument bounds the number of lines. -/
def load_history_loop : Nat → List Nat → List task_run_entry_t → Option (List task_run_entry_t)
  | 0, _, entries => some entries
  | fuel + 1, cursor, entries =>
    if cursor = [] then some entries
    else
      let line := cursor.takeWhile (fun c => decide (c ≠ 10))
      let parsed : Option (List task_run_entry_t) :=
        if line ≠ [] then (parse_history_entry line).map (fun e => entries ++ [e])
        else some entries
      match parsed with
      | none => none
      | some entries1 =>
        if line.length < cursor.length then
          load_history_loop fuel (cursor.drop (line.length + 1)) entries1
        else some entries1

/-- Embeds `storage_load_history`: a missing `history.log` gives no entry. -/
def storage_load_history (fs : fs_t) (paths : storage_paths_t) (task_id : Nat) :
    Except Errno (List task_run_entry_t) :=
  let idbuf := fmt_llu task_id
  if idbuf.length ≥ 32 then .error .ENAMETOOLONG
  else
    match utils_join_path3 paths.logs_dir idbuf (str "history.log") PATH_MAX with
    | none => .error .ENAMETOOLONG
    | some history_path =>
      match sys_read_file fs history_path with
      | .error e => if e = Errno.ENOENT then .ok [] else .error e
      | .ok data =>
        let buffer := data.takeWhile (fun c => decide (c ≠ 0))
        match load_history_loop (buffer.length + 1) buffer [] with
        | none => .error .EINVAL
        | some entries => .ok entries

/-- Embeds `read_stdio_file`: the buffer is `none` (NULL, length 0) for a
missing or an empty file. -/
def read_stdio_file (fs : fs_t) (path : List Nat) : Except Errno (Option (List Nat)) :=
  match sys_read_file fs path with
  | .error e => if e = Errno.ENOENT then .ok none else .error e
  | .ok data => if data.length > 0 then .ok (some data) else .ok none

/-- Embeds `storage_load_last_stdio`: the contents of `last.stdout` and of
`last.stderr`. -/
def storage_load_last_stdio (fs : fs_t) (paths : storage_paths_t) (task_id : Nat) :
    Except Errno (Option (List Nat) × Option (List Nat)) :=
  let idbuf := fmt_llu task_id
  if idbuf.length ≥ 32 then .error .ENAMETOOLONG
  else
    match utils_join_path3 paths.logs_dir idbuf (str "last.stdout") PATH_MAX,
        utils_join_path3 paths.logs_dir idbuf (str "last.stderr") PATH_MAX with
    | some stdout_path, some stderr_path =>
      match read_stdio_file fs stdout_path with
      | .error e => .error e
      | .ok stdout_buf =>
        match read_stdio_file fs stderr_path with
        | .error e => .error e
        | .ok stderr_buf => .ok (stdout_buf, stderr_buf)
    | _, _ => .error .ENAMETOOLONG

/-! ## Base64 (`src/shared/utils.c`) -/

/-- The array `base64_table`. -/
def base64_table : List Nat :=
  str "ABCDEFGHIJKLMNOPQRSTUVWXYZabcdefghijklmnopqrstuvwxyz0123456789+/"

/-- The character `base64_table[i]`. -/
def base64_char (i : Nat) : Nat := base64_table.getD i 0

/-- The loop of `utils_base64_encode` over the bytes from index `i` on. -/
def base64_encode_loop : List Nat → List Nat
  | [] => []
  | [octet_a] =>
    let triple := (octet_a <<< 16) ||| (0 <<< 8) ||| 0
    [base64_char ((triple >>> 18) &&& 0x3F), base64_char ((triple >>> 12) &&& 0x3F), 61, 61]
  | [octet_a, octet_b] =>
    let triple := (octet_a <<< 16) ||| (octet_b <<< 8) ||| 0
    [base64_char ((triple >>> 18) &&& 0x3F), base64_char ((triple >>> 12) &&& 0x3F),
     base64_char ((triple >>> 6) &&& 0x3F), 61]
  | octet_a :: octet_b :: octet_c :: rest =>
    let triple := (octet_a <<< 16) ||| (octet_b <<< 8) ||| octet_c
    base64_char ((triple >>> 18) &&& 0x3F) :: base64_char ((triple >>> 12) &&& 0x3F) ::
      base64_char ((triple >>> 6) &&& 0x3F) :: base64_char (triple &&& 0x3F) ::
      base64_encode_loop rest

/-- Embeds `utils_base64_encode` for an output buffer of `output_len` bytes:
the text written, without its final NUL; `none` (`ENOSPC`) when the buffer is
too small. `input` holds the `input_len` bytes. -/
def utils_base64_encode (input : List Nat) (output_len : Nat) : Option (List Nat) :=
  let needed := ((input.length + 2) / 3) * 4
  if output_len < needed + 1 then none
  else some (base64_encode_loop input)
/-! ## Daemon: requests (`src/erraid/daemon.c`) -/

def MSG_PING : Nat := 0x01

def MSG_PONG : Nat := 0x02

def MSG_REQ_LIST_TASKS : Nat := 0x10

def MSG_RSP_LIST_TASKS : Nat := 0x11

def MSG_REQ_REMOVE : Nat := 0x30

def MSG_RSP_REMOVE : Nat := 0x31

def MSG_REQ_LIST_HISTORY : Nat := 0x40

def MSG_RSP_LIST_HISTORY : Nat := 0x41

def MSG_REQ_GET_STDOUT : Nat := 0x50

def MSG_RSP_GET_STDOUT : Nat := 0x51

def MSG_REQ_GET_STDERR : Nat := 0x52

def MSG_RSP_GET_STDERR : Nat := 0x53

def MSG_REQ_SHUTDOWN : Nat := 0x60

def MSG_RSP_SHUTDOWN : Nat := 0x61

/-- Embeds `json_extract_uint64`. -/
def json_extract_uint64 (json key : List Nat) : Option Nat :=
  let pattern := [34] ++ key ++ [34]
  if pattern.length ≥ 64 then none
  else
    match strstr json pattern with
    | none => none
    | some found =>
      match (found.drop pattern.length).dropWhile isspace with
      | 58 :: after_colon =>
        let pos := after_colon.dropWhile isspace
        if !(isdigit (pos.headD 0)) && pos.headD 0 ≠ 43 then none
        else
          let r := strtoull pos 10
          if r.erange ∨ r.converted = false then none else some r.value
      | _ => none

/-- The loop of `context_find_task_index` over the tasks from index `i` on. -/
def find_task_index (task_id : Nat) : List task_t → Nat → Option Nat
  | [], _ => none
  | t :: rest, i => if t.task_id = task_id then some i else find_task_index task_id rest (i + 1)

/-- Embeds `context_find_task_index`: `none` for -1. -/
def context_find_task_index (ctx : erraid_context_t) (task_id : Nat) : Option Nat :=
  find_task_index task_id ctx.tasks 0

/-- Embeds `context_remove_task`; `none` for an index out of range. -/
def context_remove_task (ctx : erraid_context_t) (index : Nat) : Option erraid_context_t :=
  if index ≥ ctx.tasks.length then none
  else some { ctx with tasks := ctx.tasks.eraseIdx index }

/-- Embeds `send_status_ok`. -/
def send_status_ok (ctx : erraid_context_t) (sys : daemon_sys) (type : Nat) :
    Except Errno Unit × erraid_context_t × daemon_sys :=
  send_json_response ctx sys type (str "\x7b\"status\":\"OK\"\x7d")

/-- Embeds `handle_remove_task`: the value returned, the context and the
outside world afterwards. -/
def handle_remove_task (ctx : erraid_context_t) (sys : daemon_sys) (payload : List Nat) :
    Int × erraid_context_t × daemon_sys :=
  match json_extract_uint64 payload (str "task_id") with
  | none =>
    (-1, (send_error_response ctx sys (str "INVALID_REQUEST")
      (str "task_id manquant ou invalide")).2)
  | some task_id =>
    match context_find_task_index ctx task_id with
    | none =>
      (-1, (send_error_response ctx sys (str "TASK_NOT_FOUND") (str "T\xc3\xa2che inconnue")).2)
    | some index =>
      match storage_remove_task sys.fs ctx.paths task_id with
      | (.error _, fs1) =>
        (-1, (send_error_response ctx { sys with fs := fs1 } (str "PERSISTENCE_ERROR")
          (str "Suppression disque impossible")).2)
      | (.ok (), fs1) =>
        let sys1 := { sys with fs := fs1 }
        match context_remove_task ctx index with
        | none =>
          let ctx1 := (erraid_reload_tasks ctx sys1).2
          (-1, (send_error_response ctx1 sys1 (str "MEMORY_ERROR")
            (str "Suppression m\xc3\xa9moire impossible")).2)
        | some ctx1 =>
          match rebuild_plan ctx1 sys1 with
          | (false, ctx2) =>
            let ctx3 := (erraid_reload_tasks ctx2 sys1).2
            (-1, (send_error_response ctx3 sys1 (str "SCHEDULER_ERROR")
              (str "Reconstruction de plan impossible")).2)
          | (true, ctx2) =>
            let sys2 := wake_scheduler sys1
            match send_status_ok ctx2 sys2 MSG_RSP_REMOVE with
            | (.error _, r) => (-1, r)
            | (.ok (), r) => (0, r)

/-- Embeds `task_type_to_string`. -/
def task_type_to_string (type : task_type_t) : List Nat :=
  match type with
  | .TASK_TYPE_SIMPLE => str "SIMPLE"
  | .TASK_TYPE_SEQUENCE => str "SEQUENCE"
  | .TASK_TYPE_ABSTRACT => str "ABSTRACT"

/-- The text `respond_list_tasks` appends for one task; the three masks are
printed by `snprintf` into arrays of 16, 8 and 4 bytes. -/
def list_tasks_item (task : task_t) : List Nat :=
  let minutes := (fmt_0X 15 task.schedule.minute_mask).take 15
  let hours := (fmt_0X 6 (task.schedule.hour_mask &&& 0xFFFFFF)).take 7
  let weekdays := (fmt_0X 2 (task.schedule.weekday_mask &&& 0x7F)).take 3
  str "\x7b\"task_id\":" ++ fmt_llu task.task_id ++ str ",\"type\":\"" ++
    task_type_to_string task.type ++ str "\",\"last_run\":" ++ fmt_lld task.last_run_epoch ++
    str ",\"schedule\":\x7b\"minutes\":\"" ++ minutes ++ str "\",\"hours\":\"" ++ hours ++
    str "\",\"weekdays\":\"" ++ weekdays ++ str "\"\x7d\x7d"

/-- The loop of `respond_list_tasks` and of `respond_history` over the items
still to print: a comma goes in front of every item but the first. -/
def append_items (buflen : Nat) : List (List Nat) → Bool → List Nat → Option (List Nat)
  | [], _, buffer => some buffer
  | item :: rest, first, buffer =>
    let with_comma := if first then some buffer else buffer_append buflen buffer (str ",")
    match with_comma with
    | none => none
    | some b1 =>
      match buffer_append buflen b1 item with
      | none => none
      | some b2 => append_items buflen rest false b2

/-- Embeds `respond_list_tasks`. -/
def respond_list_tasks (ctx : erraid_context_t) (sys : daemon_sys) :
    Except Errno Unit × erraid_context_t × daemon_sys :=
  match buffer_append ERRAID_PIPE_MESSAGE_LIMIT [] (str "\x7b\"status\":\"OK\",\"tasks\":[") with
  | none => (.error .ENOSPC, ctx, sys)
  | some b1 =>
    match append_items ERRAID_PIPE_MESSAGE_LIMIT (ctx.tasks.map list_tasks_item) true b1 with
    | none => (.error .ENOSPC, ctx, sys)
    | some b2 =>
      match buffer_append ERRAID_PIPE_MESSAGE_LIMIT b2 (str "]\x7d") with
      | none => (.error .ENOSPC, ctx, sys)
      | some b3 => send_json_response ctx sys MSG_RSP_LIST_TASKS b3

/-- The text `respond_history` appends for one entry. -/
def history_item (entry : task_run_entry_t) : List Nat :=
  str "\x7b\"epoch\":" ++ fmt_lld entry.epoch ++ str ",\"status\":" ++ fmt_lld entry.status ++
    str ",\"stdout_len\":" ++ fmt_llu entry.stdout_len ++ str ",\"stderr_len\":" ++
    fmt_llu entry.stderr_len ++ str "\x7d"

/-- Embeds `respond_history`. -/
def respond_history (ctx : erraid_context_t) (sys : daemon_sys) (task_id : Nat) :
    Except Errno Unit × erraid_context_t × daemon_sys :=
  match storage_load_history sys.fs ctx.paths task_id with
  | .error e => (.error e, ctx, sys)
  | .ok entries =>
    match buffer_append ERRAID_PIPE_MESSAGE_LIMIT [] (str "\x7b\"status\":\"OK\",\"history\":[") with
    | none => (.error .ENOSPC, ctx, sys)
    | some b1 =>
      match append_items ERRAID_PIPE_MESSAGE_LIMIT (entries.map history_item) true b1 with
      | none => (.error .ENOSPC, ctx, sys)
      | some b2 =>
        match buffer_append ERRAID_PIPE_MESSAGE_LIMIT b2 (str "]\x7d") with
        | none => (.error .ENOSPC, ctx, sys)
        | some b3 => send_json_response ctx sys MSG_RSP_LIST_HISTORY b3

/-- Embeds `respond_stdio`. -/
def respond_stdio (ctx : erraid_context_t) (sys : daemon_sys) (task_id : Nat)
    (stdout_request : Bool) : Except Errno Unit × erraid_context_t × daemon_sys :=
  match storage_load_last_stdio sys.fs ctx.paths task_id with
  | .error e => (.error e, ctx, sys)
  | .ok (stdout_buf, stderr_buf) =>
    let target_buf := if stdout_request then stdout_buf else stderr_buf
    let target_len := (target_buf.getD []).length
    let required := ((target_len + 2) / 3) * 4
    if required + 64 ≥ ERRAID_PIPE_MESSAGE_LIMIT then (.error .EMSGSIZE, ctx, sys)
    else
      match utils_base64_encode (target_buf.getD []) ERRAID_PIPE_MESSAGE_LIMIT with
      | none => (.error .ENOSPC, ctx, sys)
      | some encoded =>
        match buffer_append ERRAID_PIPE_MESSAGE_LIMIT []
            (str "\x7b\"status\":\"OK\",\"" ++
              (if stdout_request then str "stdout" else str "stderr") ++ str "\":\"" ++
              encoded ++ str "\"\x7d") with
        | none => (.error .ENOSPC, ctx, sys)
        | some payload =>
          send_json_response ctx sys
            (if stdout_request then MSG_RSP_GET_STDOUT else MSG_RSP_GET_STDERR) payload

/-- The value a handler returns for the result of a reply. -/
def rc_of (r : Except Errno Unit × erraid_context_t × daemon_sys) :
    Int × erraid_context_t × daemon_sys :=
  match r with
  | (.error _, s) => (-1, s)
  | (.ok (), s) => (0, s)

/-- Embeds `erraid_handle_message`: the value returned, the context and the
outside world afterwards. The payload is the string in `request->payload`. -/
def erraid_handle_message (ctx : erraid_context_t) (sys : daemon_sys)
    (request : proto_message_t) : Int × erraid_context_t × daemon_sys :=
  let type := request.header.type
  let payload := request.payload.takeWhile (fun c => decide (c ≠ 0))
  if type = MSG_PING then rc_of (send_status_ok ctx sys MSG_PONG)
  else if type = MSG_REQ_LIST_TASKS then
    match respond_list_tasks ctx sys with
    | (.error _, ctx1, sys1) =>
      rc_of (send_error_response ctx1 sys1 (str "LIST_FAILED")
        (str "Impossible de lister les t\xc3\xa2ches"))
    | (.ok (), s) => (0, s)
  else if type = MSG_REQ_CREATE_SIMPLE ∨ type = MSG_REQ_CREATE_SEQUENCE ∨
      type = MSG_REQ_CREATE_ABSTRACT then
    handle_create_task ctx sys type payload
  else if type = MSG_REQ_REMOVE then handle_remove_task ctx sys payload
  else if type = MSG_REQ_LIST_HISTORY then
    match json_extract_uint64 payload (str "task_id") with
    | none => rc_of (send_error_response ctx sys (str "INVALID_REQUEST") (str "task_id manquant"))
    | some task_id =>
      match respond_history ctx sys task_id with
      | (.error _, ctx1, sys1) =>
        rc_of (send_error_response ctx1 sys1 (str "HISTORY_FAILED")
          (str "Lecture de l'historique impossible"))
      | (.ok (), s) => (0, s)
  else if type = MSG_REQ_GET_STDOUT then
    match json_extract_uint64 payload (str "task_id") with
    | none => rc_of (send_error_response ctx sys (str "INVALID_REQUEST") (str "task_id manquant"))
    | some task_id =>
      match respond_stdio ctx sys task_id true with
      | (.error _, ctx1, sys1) =>
        rc_of (send_error_response ctx1 sys1 (str "STDOUT_FAILED")
          (str "Impossible de charger stdout"))
      | (.ok (), s) => (0, s)
  else if type = MSG_REQ_GET_STDERR then
    match json_extract_uint64 payload (str "task_id") with
    | none => rc_of (send_error_response ctx sys (str "INVALID_REQUEST") (str "task_id manquant"))
    | some task_id =>
      match respond_stdio ctx sys task_id false with
      | (.error _, ctx1, sys1) =>
        rc_of (send_error_response ctx1 sys1 (str "STDERR_FAILED")
          (str "Impossible de charger stderr"))
      | (.ok (), s) => (0, s)
  else if type = MSG_REQ_SHUTDOWN then
    (0, (send_status_ok { ctx with should_quit := true } sys MSG_RSP_SHUTDOWN).2)
  else
    rc_of (send_error_response ctx sys (str "UNKNOWN_REQUEST") (str "Type de message inconnu"))
/-! ## Daemon: firing of due tasks (`src/erraid/daemon.c`) -/

/-- Embeds `run_task_instance` for the plan entry at index `i`: the context and
the outside world afterwards. The results of `storage_append_history` and of
`storage_write_task` are ignored, as in the source. The run is recorded in
`fired`. -/
def run_task_instance (ctx : erraid_context_t) (sys : daemon_sys) (i : Nat) (when : Int) :
    erraid_context_t × daemon_sys :=
  match ctx.plan[i]? with
  | none => (ctx, sys)
  | some entry =>
    match ctx.tasks[entry.task_index]? with
    | none => (ctx, sys)
    | some task =>
      if !task.schedule.enabled || task.commands.length = 0 then
        ({ ctx with plan := ctx.plan.set i { entry with next_epoch := -1 } }, sys)
      else
        let run := executor_run_task { spawn := sys.spawn, realloc_ok := sys.realloc_ok } task
        let result := run.2
        let hist_entry : task_run_entry_t :=
          { epoch := when, status := if run.1 then result.status else -1
            stdout_len := result.stdout_len, stderr_len := result.stderr_len }
        let stdout_payload := if run.1 then result.stdout_buf else none
        let stdout_len := if run.1 then result.stdout_len else 0
        let stderr_payload := if run.1 then result.stderr_buf else none
        let stderr_len := if run.1 then result.stderr_len else 0
        let fs1 := (storage_append_history sys.fs ctx.paths task.task_id hist_entry
          stdout_payload stdout_len stderr_payload stderr_len).2
        let task1 := { task with last_run_epoch := when }
        let fs2 := (storage_write_task fs1 ctx.paths task1).2
        ({ ctx with
            tasks := ctx.tasks.set entry.task_index task1
            plan := ctx.plan.set i
              { entry with
                next_epoch := scheduler_next_occurrence sys.localtime_r task1.schedule when } },
         { sys with fs := fs2, fired := sys.fired ++ [⟨entry.task_index, task, hist_entry⟩] })

/-- One turn of the `for` loop of `process_due_tasks` at index `i`, with the
flag `executed`. -/
def due_step (now : Int) (st : Bool × erraid_context_t × daemon_sys) (i : Nat) :
    Bool × erraid_context_t × daemon_sys :=
  match st.2.1.plan[i]? with
  | none => st
  | some entry =>
    if entry.next_epoch ≥ 0 ∧ entry.next_epoch ≤ now then
      (true, run_task_instance st.2.1 st.2.2 i now)
    else st

/-- The `for` loop of `process_due_tasks`: one pass over the plan at the clock
value `now`. The first component is the flag `executed`. -/
def due_pass (ctx : erraid_context_t) (sys : daemon_sys) (now : Int) :
    Bool × erraid_context_t × daemon_sys :=
  (List.range ctx.plan_count).foldl (due_step now) (false, ctx, sys)

/-- Embeds `process_due_tasks`: `clock` holds what `utils_now_epoch` gives at
the successive passes (`none` where it fails); the passes end with the clock
readings. Returns the value returned (`none` while passes are still due when
the readings end), the context and the outside world. -/
def process_due_tasks :
    List (Option Int) → erraid_context_t → daemon_sys → Option Int × erraid_context_t × daemon_sys
  | [], ctx, sys => (if ctx.should_quit then some 0 else none, ctx, sys)
  | reading :: clock, ctx, sys =>
    if ctx.should_quit then (some 0, ctx, sys)
    else
      match reading with
      | none => (some (-1), ctx, sys)
      | some now =>
        let pass := due_pass ctx sys now
        if !pass.1 then (some 0, pass.2) else process_due_tasks clock pass.2.1 pass.2.2

/-! ### Specification-side notions for the capture replies -/

/-- The Base64 alphabet of RFC 4648: the character of the 6-bit value `i`. -/
def base64_alphabet (i : Nat) : Nat :=
  if i < 26 then 65 + i
  else if i < 52 then 97 + (i - 26)
  else if i < 62 then 48 + (i - 52)
  else if i = 62 then 43
  else 47

/-- Base64 of RFC 4648: every group of three bytes gives four characters, and
a last group of one or two bytes is padded with `=`. -/
def base64 : List Nat → List Nat
  | [] => []
  | [a] => [base64_alphabet (a / 4), base64_alphabet (a % 4 * 16), 61, 61]
  | [a, b] =>
    [base64_alphabet (a / 4), base64_alphabet (a % 4 * 16 + b / 16),
     base64_alphabet (b % 16 * 4), 61]
  | a :: b :: c :: rest =>
    base64_alphabet (a / 4) :: base64_alphabet (a % 4 * 16 + b / 16) ::
      base64_alphabet (b % 16 * 4 + c / 64) :: base64_alphabet (c % 64) :: base64 rest

/-- The request record `type` with the text `payload` in a zeroed buffer. -/
def request_of (type : Nat) (payload : List Nat) : proto_message_t :=
  { header := { magic := ERRAID_MAGIC, version := ERRAID_PROTO_VERSION, type := type
                reserved := 0, payload_length := payload.length }
    payload := payload ++ List.replicate (ERRAID_PIPE_MESSAGE_LIMIT - payload.length) 0 }

/-- A store in which `last.stdout` of task 1 holds `A\nB\n` and `last.stderr`
holds `oops`. -/
def small_capture_fs : fs_t :=
  fresh_fs ++ [(str "/run/logs/1", .dir), (str "/run/logs/1/last.stdout", .file (str "A\nB\n")),
    (str "/run/logs/1/last.stderr", .file (str "oops"))]

/-- The payload of the reply to a capture request that carries the bytes `b`:
`stdout` or `stderr` names the field. -/
def stdio_reply (stdout_request : Bool) (b : List Nat) : List Nat :=
  str "\x7b\"status\":\"OK\",\"" ++ (if stdout_request then str "stdout" else str "stderr") ++
    str "\":\"" ++ base64 b ++ str "\"\x7d"

/-- The payload of the error reply to a capture request. -/
def stdio_failed (stdout_request : Bool) : List Nat :=
  if stdout_request then
    str "\x7b\"status\":\"ERROR\",\"code\":\"STDOUT_FAILED\",\"message\":\"Impossible de charger stdout\"\x7d"
  else
    str "\x7b\"status\":\"ERROR\",\"code\":\"STDERR_FAILED\",\"message\":\"Impossible de charger stderr\"\x7d"

/-- A store in which `last.stdout` of task 1 holds the bytes `b`. -/
def capture_fs (b : List Nat) : fs_t :=
  fresh_fs ++ [(str "/run/logs/1", .dir), (str "/run/logs/1/last.stdout", .file b)]

/-! ### Specification-side notions for the due-scan -/

/-- Plan/task alignment: `plan_count = task_count` and, for every
`i < task_count`, `plan[i].task_index = i` and
`plan[i].task_id = tasks[i].task_id`. -/
def aligned (ctx : erraid_context_t) : Prop :=
  ctx.plan_count = ctx.tasks.length ∧
  ∀ i, i < ctx.tasks.length →
    (ctx.plan[i]?).map (fun e => (e.task_index, e.task_id)) =
      (ctx.tasks[i]?).map (fun t => (i, t.task_id))

instance (ctx : erraid_context_t) : Decidable (aligned ctx) := by
  unfold aligned
  exact inferInstance

/-- The plan entry is due at `now`: `0 <= next_epoch <= now`. -/
def entry_due (entry : schedule_entry_t) (now : Int) : Bool :=
  decide (entry.next_epoch ≥ 0 ∧ entry.next_epoch ≤ now)

/-- The task passes the guard of `run_task_instance`: its schedule is enabled
and it has at least one command. -/
def fireable (task : task_t) : Bool :=
  task.schedule.enabled && decide (task.commands.length ≠ 0)

/-- The history entry of a run of `task` at `when`: the status of the run (-1
when `executor_run_task` fails) and the lengths of its captures. -/
def run_entry (sys : daemon_sys) (task : task_t) (when : Int) : task_run_entry_t :=
  { epoch := when
    status :=
      if (executor_run_task { spawn := sys.spawn, realloc_ok := sys.realloc_ok } task).1 then
        (executor_run_task { spawn := sys.spawn, realloc_ok := sys.realloc_ok } task).2.status
      else -1
    stdout_len :=
      (executor_run_task { spawn := sys.spawn, realloc_ok := sys.realloc_ok } task).2.stdout_len
    stderr_len :=
      (executor_run_task { spawn := sys.spawn, realloc_ok := sys.realloc_ok } task).2.stderr_len }

/-- The firing a pass at `now` makes for index `i` of the state `ctx`: none
unless the entry is due and its task passes the guard. -/
def fire_of (ctx : erraid_context_t) (sys : daemon_sys) (now : Int) (i : Nat) : Option fire_t :=
  match ctx.plan[i]?, ctx.tasks[i]? with
  | some e, some t =>
    if entry_due e now && fireable t then some ⟨i, t, run_entry sys t now⟩ else none
  | _, _ => none

/-- The plan entry at index `i` after a pass at `now` over the state `ctx`: an
entry that is not due is kept; a due entry gets the next occurrence after
`now` when its task passes the guard, and -1 otherwise. -/
def entry_after (ctx : erraid_context_t) (sys : daemon_sys) (now : Int) (i : Nat) :
    Option schedule_entry_t :=
  match ctx.plan[i]?, ctx.tasks[i]? with
  | some e, some t =>
    if entry_due e now then
      some { e with
        next_epoch :=
          if fireable t then scheduler_next_occurrence sys.localtime_r t.schedule now else -1 }
    else some e
  | r, _ => r

/-- The task at index `i` after a pass at `now` over the state `ctx`: a fired
task gets `last_run_epoch = now`, every other task is kept. -/
def task_after (ctx : erraid_context_t) (now : Int) (i : Nat) : Option task_t :=
  match ctx.plan[i]?, ctx.tasks[i]? with
  | some e, some t =>
    if entry_due e now && fireable t then some { t with last_run_epoch := now } else some t
  | _, r => r

/-- The state `st` of the loop of a pass at `now` over `ctx` and `sys`, after
the indices below `k`: only the task list, the plan array, the file system and
the firings have changed; the entries and the tasks below `k` are those after
the pass and the others are untouched; the firings made are those of the
indices below `k`, in order; and the flag `executed` says whether an entry
below `k` was due. -/
def pass_prefix (ctx : erraid_context_t) (sys : daemon_sys) (now : Int) (k : Nat)
    (st : Bool × erraid_context_t × daemon_sys) : Prop :=
  st.2.1 = { ctx with tasks := st.2.1.tasks, plan := st.2.1.plan } ∧
  st.2.2 = { sys with fs := st.2.2.fs, fired := st.2.2.fired } ∧
  (∀ i : Nat, st.2.1.plan[i]? = if i < k then entry_after ctx sys now i else ctx.plan[i]?) ∧
  (∀ i : Nat, st.2.1.tasks[i]? = if i < k then task_after ctx now i else ctx.tasks[i]?) ∧
  st.2.2.fired = sys.fired ++ (List.range k).filterMap (fire_of ctx sys now) ∧
  (st.1 = true ↔ ∃ i e, i < k ∧ ctx.plan[i]? = some e ∧ entry_due e now = true)

/-- A store whose only task file is that of a SIMPLE task with an enabled
schedule at every minute and no command. -/
def zero_command_fs : fs_t :=
  fresh_fs ++
    [(str "/run/tasks/1.task", .file (str "1\nSIMPLE\n0\nFFFFFFFFFFFFFFF\nFFFFFF\n7F\n0\n-1\n"))]

/-- The daemon context after `erraid_reload_tasks` over `zero_command_fs` at
the epoch 100. -/
def zero_command_ctx : erraid_context_t :=
  (erraid_reload_tasks idle_ctx (world_of zero_command_fs 100)).2

/-- A daemon context with three tasks: a SEQUENCE task planned for the epoch
120, a disabled task whose entry shows the epoch 60, and a SIMPLE task planned
for the epoch 180. -/
def due_ctx : erraid_context_t :=
  { paths := run_paths
    tasks := [echo_exit_task,
      { task_id := 2, type := .TASK_TYPE_ABSTRACT, commands := [⟨[str "/bin/echo", str "A"]⟩]
        schedule := { schedule_always with enabled := false }, last_run_epoch := -1 },
      { task_id := 3, type := .TASK_TYPE_SIMPLE, commands := [⟨[str "/bin/echo", str "A"]⟩]
        schedule := schedule_always, last_run_epoch := -1 }]
    plan := [⟨1, 0, 120⟩, ⟨2, 1, 60⟩, ⟨3, 2, 180⟩, ⟨0, 0, 0⟩]
    plan_capacity := 4, plan_count := 3, reply_fd := true, should_quit := false }

/-- An outside world over a fresh store in which the commands of
`echo_exit_sys` run. -/
def due_world : daemon_sys :=
  { world_of fresh_fs 130 with spawn := echo_exit_sys.spawn }

/-! ### Specification-side notions for the plan invariant -/

/-- The invariant of the daemon state: plan/task alignment, with the entries
in use inside the plan array and a task count that fits the `int` that
`scheduler_compute_plan` returns. -/
def plan_invariant (ctx : erraid_context_t) : Prop :=
  aligned ctx ∧ ctx.plan_count ≤ ctx.plan_capacity ∧ ctx.tasks.length < 2 ^ 31

instance (ctx : erraid_context_t) : Decidable (plan_invariant ctx) := by
  unfold plan_invariant
  exact inferInstance

/-- An outside world over `zero_command_fs` whose allocator fails. -/
def no_memory_world : daemon_sys :=
  { world_of zero_command_fs 100 with realloc_ok := fun _ => false }

/-- A store whose only task file does not parse. -/
def garbled_fs : fs_t :=
  fresh_fs ++ [(str "/run/tasks/1.task", .file (str "garbled\n"))]

/-- A schedule whose minute mask has bit 60 only: no bit among 0..59. -/
def schedule_no_minute : schedule_t :=
  { minute_mask := 0x1000000000000000, hour_mask := 0xFFFFFF, weekday_mask := 0x7F
    enabled := true }

/-! ## Daemon: the poll timeout (`src/erraid/daemon.c`) -/

/-- The constant `INT_MAX` of a 32-bit `int`. -/
def INT_MAX : Int := 2147483647

/-- The value of an `int64_t` computation: the result modulo `2 ^ 64`, read as
a signed number. -/
def int64_of (x : Int) : Int := (x + 2 ^ 63) % 2 ^ 64 - 2 ^ 63

/-- The cast `(int)` of an `int64_t`. -/
def int_of_int64 (x : Int) : Int := (x + 2 ^ 31) % 2 ^ 32 - 2 ^ 31

/-- One turn of the loop of `next_deadline`, with the variable `best`. -/
def next_deadline_step (best : Int) (entry : schedule_entry_t) : Int :=
  if entry.next_epoch < 0 then best
  else if best < 0 ∨ entry.next_epoch < best then entry.next_epoch
  else best

/-- Embeds `next_deadline`: the loop runs over the `plan_count` entries in
use. -/
def next_deadline (ctx : erraid_context_t) : Int :=
  (ctx.plan.take ctx.plan_count).foldl next_deadline_step (-1)

/-- The value of `timeout_ms` that `erraid_schedule_loop` hands to `poll`
when the clock shows `now`. -/
def schedule_loop_timeout (ctx : erraid_context_t) (now : Int) : Int :=
  let deadline := next_deadline ctx
  if deadline ≥ 0 then
    let diff := int64_of (deadline - now)
    let diff := if diff < 0 then 0 else diff
    let diff := if diff > INT_MAX / 1000 then INT_MAX / 1000 else diff
    int_of_int64 (int64_of (diff * 1000))
  else -1

/-! ### Specification-side notions for the schedule of a creation request -/

/-- A string that a JSON string literal holds as it is: no quote and no
backslash. -/
def json_plain (s : List Nat) : Prop := ∀ c ∈ s, c ≠ 34 ∧ c ≠ 92

instance (s : List Nat) : Decidable (json_plain s) := by
  unfold json_plain
  exact inferInstance

/-- A run of white space, as `isspace` has it. -/
def json_blank (s : List Nat) : Prop := ∀ c ∈ s, isspace c = true

instance (s : List Nat) : Decidable (json_blank s) := by
  unfold json_blank
  exact inferInstance

/-- One member of a JSON object with string value, as it is written: the key
and the value, and the white space before the key, before the colon, after the
colon and after the value. -/
structure json_member where
  lead : List Nat
  key : List Nat
  before_colon : List Nat
  after_colon : List Nat
  value : List Nat
  trail : List Nat
  deriving DecidableEq, Repr

/-- The member `"key":"value"` written without white space. -/
def json_compact (key value : List Nat) : json_member :=
  { lead := [], key := key, before_colon := [], after_colon := [], value := value, trail := [] }

/-- The gaps of the member hold white space only, and key and value are plain
strings. -/
def json_member_ok (p : json_member) : Prop :=
  json_blank p.lead ∧ json_plain p.key ∧ json_blank p.before_colon ∧
    json_blank p.after_colon ∧ json_plain p.value ∧ json_blank p.trail

instance (p : json_member) : Decidable (json_member_ok p) := by
  unfold json_member_ok
  exact inferInstance

/-- The text of one member of a JSON object: the key and the value in quotes
with a colon between them. -/
def json_pair (p : json_member) : List Nat :=
  p.lead ++ [34] ++ p.key ++ [34] ++ p.before_colon ++ [58] ++ p.after_colon ++ [34] ++
    p.value ++ [34] ++ p.trail

/-- The text of a JSON object after its opening brace: the members separated
by commas, then the closing brace. -/
def json_object_body : List json_member → List Nat
  | [] => [125]
  | [p] => json_pair p ++ [125]
  | p :: q :: rest => json_pair p ++ [44] ++ json_object_body (q :: rest)

/-- What one member of the schedule object does to the three strings
collected. -/
def schedule_assign (acc : schedule_strings_t) (p : json_member) : schedule_strings_t :=
  if p.key = str "minutes" then { acc with minutes_str := some p.value }
  else if p.key = str "hours" then { acc with hours_str := some p.value }
  else if p.key = str "weekdays" then { acc with weekdays_str := some p.value }
  else acc

/-- The six orders in which three members can be written. -/
def orderings (a b c : json_member) : List (List json_member) :=
  [[a, b, c], [a, c, b], [b, a, c], [b, c, a], [c, a, b], [c, b, a]]

/-- The payload of the error reply to a creation request whose schedule is
refused. -/
def schedule_refused : List Nat :=
  str "\x7b\"status\":\"ERROR\",\"code\":\"INVALID_REQUEST\",\"message\":\"Planification invalide\"\x7d"

/-- The disabled schedule with zero masks. -/
def schedule_disabled : schedule_t :=
  { minute_mask := 0, hour_mask := 0, weekday_mask := 0, enabled := false }

/-- A store that is no tree: the temporary file of task 1 exists below
`tasks/1.task`, so that the write of the task file of task 1 succeeds. -/
def writable_fs : fs_t :=
  fresh_fs ++ [(str "/run/tasks/1.task/.tmp", .file [])]

/-- A creation request with commands and the schedule `null`. -/
def create_null_payload : List Nat :=
  str "\x7b\"commands\":[[\"/bin/true\"]],\"schedule\":null\x7d"

/-- A creation request with commands and no schedule. -/
def create_unscheduled_payload : List Nat :=
  str "\x7b\"commands\":[[\"/bin/true\"]]\x7d"

/-- A creation request whose schedule has the keys in the order weekdays,
minutes, hours. -/
def create_reordered_payload : List Nat :=
  str "\x7b\"commands\":[[\"/bin/true\"]],\"schedule\":\x7b\"weekdays\":\"7F\",\"minutes\":\"10\",\"hours\":\"2\"\x7d\x7d"

/-- A creation request whose schedule has no key `hours`. -/
def create_no_hours_payload : List Nat :=
  str "\x7b\"commands\":[[\"/bin/true\"]],\"schedule\":\x7b\"weekdays\":\"7F\",\"minutes\":\"10\"\x7d\x7d"

/-- A creation request whose schedule is written with white space and has the
keys in the order hours, weekdays, minutes. -/
def create_spaced_payload : List Nat :=
  str "\x7b\"commands\":[[\"/bin/true\"]],\"schedule\": \x7b \"hours\" : \"2\" ,\"weekdays\":\"7F\",\n\"minutes\": \"10\" \x7d\x7d"

/-- A creation request whose schedule object holds the three keys and, before
the key `weekdays`, a fourth member `note`. -/
def create_noted_payload : List Nat :=
  str "\x7b\"commands\":[[\"/bin/true\"]],\"schedule\":\x7b\"minutes\":\"10\",\"hours\":\"2\",\"note\":\"x\",\"weekdays\":\"7F\"\x7d\x7d"

/-- A creation request whose schedule object holds the three keys first and a
fourth member `note` after them. -/
def create_trailing_note_payload : List Nat :=
  str "\x7b\"commands\":[[\"/bin/true\"]],\"schedule\":\x7b\"minutes\":\"10\",\"hours\":\"2\",\"weekdays\":\"7F\",\"note\":\"x\"\x7d\x7d"

/-! ### Specification-side notions for the replies to requests -/

/-- The payload of an error reply with the code `code` and the message
`message`, as `send_error_response` formats it. -/
def error_payload (code message : List Nat) : List Nat :=
  str "\x7b\"status\":\"ERROR\"" ++ (str ",\"code\":\"" ++ code ++ str "\"") ++
    (str ",\"message\":\"" ++ message ++ str "\"") ++ str "\x7d"

/-- The payload of a reply that carries the status only. -/
def status_ok_payload : List Nat := str "\x7b\"status\":\"OK\"\x7d"

/-- The outside world after one record of type `type` with the payload
`payload` went to the reply pipe; nothing else differs. -/
def after_reply (sys : daemon_sys) (type : Nat) (payload : List Nat) : daemon_sys :=
  { sys with reply_pipe :=
      { sys.reply_pipe with
        written := sys.reply_pipe.written ++ record_bytes type payload
        room := sys.reply_pipe.room - (12 + payload.length) } }

/-- The payload of a request that names the task `task_id`. -/
def task_id_payload (task_id : Nat) : List Nat :=
  str "\x7b\"task_id\":" ++ fmt_llu task_id ++ str "\x7d"

/-- A store with the task files of the tasks 1, 2 and 3. -/
def three_task_fs : fs_t :=
  fresh_fs ++
    [(str "/run/tasks/1.task", .file (str "1\nSIMPLE\n0\nFFFFFFFFFFFFFFF\nFFFFFF\n7F\n0\n-1\n")),
     (str "/run/tasks/2.task", .file (str "2\nSIMPLE\n0\nFFFFFFFFFFFFFFF\nFFFFFF\n7F\n0\n-1\n")),
     (str "/run/tasks/3.task", .file (str "3\nSIMPLE\n0\nFFFFFFFFFFFFFFF\nFFFFFF\n7F\n0\n-1\n"))]

/-! ### Specification-side notions for the queries about a removed task -/

/-- The request types: the type codes that `erraid_handle_message` serves. -/
def request_types : List Nat :=
  [MSG_PING, MSG_REQ_LIST_TASKS, MSG_REQ_CREATE_SIMPLE, MSG_REQ_CREATE_SEQUENCE,
   MSG_REQ_CREATE_ABSTRACT, MSG_REQ_REMOVE, MSG_REQ_LIST_HISTORY, MSG_REQ_GET_STDOUT,
   MSG_REQ_GET_STDERR, MSG_REQ_SHUTDOWN]

/-- The reply type paired with a request type; `RSP_ERROR` for a type code that
is no request type. -/
def paired_reply (type : Nat) : Nat :=
  if type = MSG_PING then MSG_PONG
  else if type = MSG_REQ_LIST_TASKS then MSG_RSP_LIST_TASKS
  else if type = MSG_REQ_CREATE_SIMPLE ∨ type = MSG_REQ_CREATE_SEQUENCE ∨
      type = MSG_REQ_CREATE_ABSTRACT then MSG_RSP_CREATE
  else if type = MSG_REQ_REMOVE then MSG_RSP_REMOVE
  else if type = MSG_REQ_LIST_HISTORY then MSG_RSP_LIST_HISTORY
  else if type = MSG_REQ_GET_STDOUT then MSG_RSP_GET_STDOUT
  else if type = MSG_REQ_GET_STDERR then MSG_RSP_GET_STDERR
  else if type = MSG_REQ_SHUTDOWN then MSG_RSP_SHUTDOWN
  else MSG_RSP_ERROR

/-- Between `sys` and `sys1` exactly one record went to the reply pipe, of the
type `t` or of the type `RSP_ERROR`, with a payload that fits a record. -/
def replied_once (t : Nat) (sys sys1 : daemon_sys) : Prop :=
  ∃ type payload, (type = t ∨ type = MSG_RSP_ERROR) ∧
    payload.length < ERRAID_PIPE_MESSAGE_LIMIT ∧
    sys1.reply_pipe.written = sys.reply_pipe.written ++ record_bytes type payload

/-! ### Specification-side notions for the history of a task -/

/-- The content of the regular file at `path`; empty when there is none. -/
def file_content (fs : fs_t) (path : List Nat) : List Nat :=
  match fs_find fs path with
  | some (.file content) => content
  | _ => []

/-- The history line of an entry whose lengths are the ones printed. -/
def entry_line (e : task_run_entry_t) : List Nat := history_line e e.stdout_len e.stderr_len

/-- The text of the history lines of `entries`, in their order. -/
def history_text : List task_run_entry_t → List Nat
  | [] => []
  | e :: rest => entry_line e ++ history_text rest

/-- The fields of the entry are values of their C types: `int64_t`, `int`,
`size_t` and `size_t`. -/
def entry_in_range (e : task_run_entry_t) : Prop :=
  (-(2 ^ 63) ≤ e.epoch ∧ e.epoch < 2 ^ 63) ∧ (-(2 ^ 31) ≤ e.status ∧ e.status < 2 ^ 31) ∧
    e.stdout_len < 2 ^ 64 ∧ e.stderr_len < 2 ^ 64

instance (e : task_run_entry_t) : Decidable (entry_in_range e) := by
  unfold entry_in_range
  exact inferInstance

/-- A run of due-scans: the successive calls of `process_due_tasks`, each with
the clock readings of its passes. Returns the state after the last call. -/
def scan_run : List (List (Option Int)) → erraid_context_t → daemon_sys →
    erraid_context_t × daemon_sys
  | [], ctx, sys => (ctx, sys)
  | clock :: rest, ctx, sys =>
    scan_run rest (process_due_tasks clock ctx sys).2.1 (process_due_tasks clock ctx sys).2.2

/-- Between `fs` and `fs1` the text `text` was appended to the file at `path`
and nothing else happened to it: either the node at `path` is the same and the
text is empty, or the path was no directory and is now the regular file of the
former content followed by `text`. -/
def appended_to (fs fs1 : fs_t) (path text : List Nat) : Prop :=
  (fs_find fs1 path = fs_find fs path ∧ text = []) ∨
  (fs_find fs path ≠ some .dir ∧
    fs_find fs1 path = some (.file (file_content fs path ++ text)))

/-- A pipe that delivers 16 chunks of 4096 bytes `A`: 65536 bytes in all. -/
def full_pipe : List read_result := List.replicate 16 (.data (List.replicate 4096 65))

/-- A pipe that delivers 17 chunks of 4096 bytes `A`: 69632 bytes in all. -/
def flood_pipe : List read_result := List.replicate 17 (.data (List.replicate 4096 65))

/-- A system in which `/bin/full` prints 65536 bytes on each stream,
`/bin/flood` prints 69632 bytes on each stream and `/bin/true` prints nothing;
all three exit with status 0 and every other command fails to spawn. -/
def flood_sys : exec_sys :=
  { spawn := fun command =>
      if command.argv = [str "/bin/full"] then
        some { stdout_pipe := full_pipe, stderr_pipe := full_pipe, wait := some (.exited 0) }
      else if command.argv = [str "/bin/flood"] then
        some { stdout_pipe := flood_pipe, stderr_pipe := flood_pipe, wait := some (.exited 0) }
      else if command.argv = [str "/bin/true"] then
        some { stdout_pipe := [], stderr_pipe := [], wait := some (.exited 0) }
      else none
    realloc_ok := fun _ => true }

/-- A SIMPLE task that runs `/bin/full`. -/
def full_task : task_t :=
  { task_id := 1, type := .TASK_TYPE_SIMPLE, commands := [⟨[str "/bin/full"]⟩]
    schedule := schedule_always, last_run_epoch := -1 }

/-- A SEQUENCE task that runs `/bin/flood` and then `/bin/true`. -/
def flood_task : task_t :=
  { task_id := 2, type := .TASK_TYPE_SEQUENCE
    commands := [⟨[str "/bin/flood"]⟩, ⟨[str "/bin/true"]⟩]
    schedule := schedule_always, last_run_epoch := -1 }

/-- An ABSTRACT task that holds the command `/bin/echo A`. -/
def abstract_echo_task : task_t :=
  { task_id := 3, type := .TASK_TYPE_ABSTRACT
    commands := [⟨[str "/bin/echo", str "A"]⟩]
    schedule := schedule_disabled, last_run_epoch := -1 }

/-- An ABSTRACT task without commands. -/
def abstract_empty_task : task_t :=
  { task_id := 4, type := .TASK_TYPE_ABSTRACT, commands := []
    schedule := schedule_disabled, last_run_epoch := -1 }

/-- A system in which every fork and every allocation fails. -/
def dead_sys : exec_sys :=
  { spawn := fun _ => none, realloc_ok := fun _ => false }

/-- A run entry as `run_task_instance` records it: an `int64_t` epoch, a status
from -1 to 255 and captures of at most 65536 bytes. -/
def run_entry_ok (e : task_run_entry_t) : Prop :=
  (-(2 ^ 63) ≤ e.epoch ∧ e.epoch < 2 ^ 63) ∧ (-1 ≤ e.status ∧ e.status ≤ 255) ∧
    e.stdout_len ≤ 65536 ∧ e.stderr_len ≤ 65536

instance (e : task_run_entry_t) : Decidable (run_entry_ok e) := by
  unfold run_entry_ok
  exact inferInstance

/-- The successive calls of `storage_append_history` for the runs of one task,
each with its entry and its two captures, the lengths passed being those of the
entry. Stops at the first call that fails. -/
def append_history_runs (paths : storage_paths_t) (task_id : Nat) :
    List (task_run_entry_t × Option (List Nat) × Option (List Nat)) → fs_t →
      Except Errno Unit × fs_t
  | [], fs => (.ok (), fs)
  | (e, out, err) :: rest, fs =>
    match storage_append_history fs paths task_id e out e.stdout_len err e.stderr_len with
    | (.ok (), fs1) => append_history_runs paths task_id rest fs1
    | (.error x, fs1) => (.error x, fs1)

/-- Three runs of task 1: an early one (negative epoch) that failed to start, a
run with full captures, and a run killed by a signal. -/
def three_runs : List (task_run_entry_t × Option (List Nat) × Option (List Nat)) :=
  [({ epoch := -5, status := -1, stdout_len := 0, stderr_len := 0 }, none, none),
   ({ epoch := 1700000000, status := 0, stdout_len := 2, stderr_len := 0 },
     some (str "A\n"), none),
   ({ epoch := 1700000060, status := 137, stdout_len := 0, stderr_len := 3 },
     none, some (str "err"))]

/-- A creation request whose schedule masks are malformed: the minutes value
`zz` holds no hexadecimal digit, the hours value is the empty string and the
weekdays value `1FF` has three digits and bits beyond the seven days. -/
def create_malformed_masks_payload : List Nat :=
  str "\x7b\"commands\":[[\"/bin/true\"]],\"schedule\":\x7b\"minutes\":\"zz\",\"hours\":\"\",\"weekdays\":\"1FF\"\x7d\x7d"

/-- The state `due_ctx` once a shutdown was requested. -/
def quitting_ctx : erraid_context_t := { due_ctx with should_quit := true }

/-! ## Base64 decoding (`src/shared/utils.c`) and the client's use of it
(`src/tadmor/request.c`) -/

/-- Embeds `base64_inverse`: the 6-bit value of the character, -1 for a
character outside the alphabet. -/
def base64_inverse (c : Nat) : Int :=
  if 65 ≤ c ∧ c ≤ 90 then (c : Int) - 65
  else if 97 ≤ c ∧ c ≤ 122 then (c : Int) - 97 + 26
  else if 48 ≤ c ∧ c ≤ 57 then (c : Int) - 48 + 52
  else if c = 43 then 62
  else if c = 47 then 63
  else -1

/-- The local variable `padding` of `utils_base64_decode`: the number of `=`
among the last two characters. -/
def base64_padding (input : List Nat) : Nat :=
  (if input.length ≥ 1 ∧ input[input.length - 1]? = some 61 then 1 else 0) +
    (if input.length ≥ 2 ∧ input[input.length - 2]? = some 61 then 1 else 0)

/-- The `for` loop of `utils_base64_decode` over the characters from index `i`
on, `dst` being the bytes stored so far: whether the loop ran to its end
(`false` where it returns -1 with `EINVAL`), and the bytes stored. The loop is
entered with a length that is a multiple of 4, so that the last case is met
with the empty list only. -/
def base64_decode_loop : List Nat → List Nat → Bool × List Nat
  | a :: b :: c :: d :: rest, dst =>
    let sextet_a := base64_inverse a
    let sextet_b := base64_inverse b
    let sextet_c := if c = 61 then -1 else base64_inverse c
    let sextet_d := if d = 61 then -1 else base64_inverse d
    if sextet_a < 0 ∨ sextet_b < 0 ∨ (sextet_c < 0 ∧ c ≠ 61) ∨ (sextet_d < 0 ∧ d ≠ 61) then
      (false, dst)
    else
      let triple0 := (sextet_a.toNat <<< 18) ||| (sextet_b.toNat <<< 12)
      let triple1 := if c ≠ 61 then triple0 ||| (sextet_c.toNat <<< 6) else triple0
      let triple := if d ≠ 61 then triple1 ||| sextet_d.toNat else triple1
      let dst1 := dst ++ [(triple >>> 16) &&& 0xFF]
      let dst2 := if c ≠ 61 then dst1 ++ [(triple >>> 8) &&& 0xFF] else dst1
      let dst3 := if d ≠ 61 then dst2 ++ [triple &&& 0xFF] else dst2
      base64_decode_loop rest dst3
  | _, dst => (true, dst)

/-- What `utils_base64_decode` leaves: the value returned, `errno` when it is
-1, the bytes stored into `output` (in the order of their indices, from 0) and
`*output_len`. -/
structure base64_decode_t where
  rc : Int
  errno : Option Errno
  dst : List Nat
  output_len : Nat
  deriving DecidableEq, Repr

/-- Embeds `utils_base64_decode` on the string `input` (its bytes before the
NUL) for a buffer whose capacity `*output_len` is `output_len`. -/
def utils_base64_decode (input : List Nat) (output_len : Nat) : base64_decode_t :=
  let len := input.length
  if len % 4 ≠ 0 then { rc := -1, errno := some .EINVAL, dst := [], output_len := output_len }
  else
    let padding := base64_padding input
    let expected := (len / 4) * 3 - padding
    if output_len < expected then
      { rc := -1, errno := some .ENOSPC, dst := [], output_len := output_len }
    else
      match base64_decode_loop input [] with
      | (false, dst) => { rc := -1, errno := some .EINVAL, dst := dst, output_len := output_len }
      | (true, dst) => { rc := 0, errno := none, dst := dst, output_len := dst.length }

/-- The messages `decode_base64_field` sends to the standard error. -/
inductive decode_diag_t where
  | absent
  | malformed
  | malloc
  | base64
  deriving DecidableEq, Repr

/-- What `decode_base64_field` does: the value returned, the bytes written to
`fd` and the message sent to the standard error, if any. -/
structure decode_field_t where
  rc : Int
  written : List Nat
  diag : Option decode_diag_t
  deriving DecidableEq, Repr

/-- Embeds `decode_base64_field` on the string `json`; `malloc_ok n` says
whether `malloc(n)` gives a pointer. The string passed to
`utils_base64_decode` is the one from `ptr` to the NUL that ends `json`.
`tadmor_handle_reply` calls it with the fields `"stdout":"` and `"stderr":"`,
the closing quote of the key, the colon and the opening quote of the value
included. -/
def decode_base64_field (malloc_ok : Nat → Bool) (json field : List Nat) : decode_field_t :=
  match strstr json field with
  | none => { rc := -1, written := [], diag := some .absent }
  | some found =>
    let ptr0 := found.drop field.length
    let ptr1 := ptr0.dropWhile (fun c => decide (c ≠ 34))
    match ptr1 with
    | [] => { rc := -1, written := [], diag := some .malformed }
    | _ :: ptr =>
      if 34 ∉ ptr then { rc := -1, written := [], diag := some .malformed }
      else
        let encoded_len := (ptr.takeWhile (fun c => decide (c ≠ 34))).length
        if malloc_ok encoded_len = false then
          { rc := -1, written := [], diag := some .malloc }
        else
          let decoded := utils_base64_decode ptr encoded_len
          if decoded.rc ≠ 0 then { rc := -1, written := [], diag := some .base64 }
          else { rc := 0, written := decoded.dst.take decoded.output_len, diag := none }

/-! ### Specification-side notions for Base64 -/

/-- The characters of the Base64 alphabet: `A-Z`, `a-z`, `0-9`, `+` and `/`. -/
def base64_symbol (c : Nat) : Bool :=
  (decide (65 ≤ c) && decide (c ≤ 90)) || (decide (97 ≤ c) && decide (c ≤ 122)) ||
    (decide (48 ≤ c) && decide (c ≤ 57)) || decide (c = 43) || decide (c = 47)

/-- The number of `=` that end the Base64 text of `n` bytes. -/
def base64_pad (n : Nat) : Nat := (3 - n % 3) % 3

/-- The reply payload of the daemon for the capture `A\n` of the standard
output. -/
def stdout_reply_payload : List Nat := str "\x7b\"status\":\"OK\",\"stdout\":\"QQo=\"\x7d"

/-! ## Client (`src/tadmor/request.c`, `src/tadmor/main.c`) -/

/-- Embeds `utils_parse_uint64`. -/
def utils_parse_uint64 (s : List Nat) : Option Nat :=
  let r := strtoull s 10
  if r.erange ∨ r.converted = false ∨ r.rest ≠ [] then none else some r.value

/-- The struct `tadmor_options_t`. `commands` holds the elements stored in the
array `opts->commands`, in the order of their indices; `pipes_dir_arg` is
`none` for a NULL pointer. -/
structure tadmor_options_t where
  opt_list : Bool
  opt_shutdown : Bool
  opt_create_simple : Bool
  opt_create_sequence : Bool
  opt_create_abstract : Bool
  opt_remove : Bool
  opt_history : Bool
  opt_stdout : Bool
  opt_stderr : Bool
  has_schedule : Bool
  minutes : List Nat
  hours : List Nat
  weekdays : List Nat
  task_id : Nat
  commands : List command_t
  command_count : Nat
  pipes_dir_arg : Option (List Nat)
  deriving DecidableEq, Repr

/-- The value of `*opts` after `memset(opts, 0, sizeof(*opts))`. -/
def tadmor_options_zero : tadmor_options_t :=
  { opt_list := false, opt_shutdown := false, opt_create_simple := false
    opt_create_sequence := false, opt_create_abstract := false, opt_remove := false
    opt_history := false, opt_stdout := false, opt_stderr := false, has_schedule := false
    minutes := [], hours := [], weekdays := [], task_id := 0, commands := [], command_count := 0
    pipes_dir_arg := none }

/-- The `switch` of `tadmor_parse_args` for one result of `getopt`: the option
character returned, with the string `optarg`. `none` where the function
returns -1. -/
def parse_option (opts : tadmor_options_t) (opt : Nat) (optarg : List Nat) :
    Option tadmor_options_t :=
  if opt = 108 then some { opts with opt_list := true }
  else if opt = 113 then some { opts with opt_shutdown := true }
  else if opt = 99 then some { opts with opt_create_simple := true }
  else if opt = 115 then some { opts with opt_create_sequence := true }
  else if opt = 110 then some { opts with opt_create_abstract := true }
  else if opt = 114 ∨ opt = 120 ∨ opt = 111 ∨ opt = 101 then
    let opts1 := { opts with
      opt_remove := opts.opt_remove || decide (opt = 114)
      opt_history := opts.opt_history || decide (opt = 120)
      opt_stdout := opts.opt_stdout || decide (opt = 111)
      opt_stderr := opts.opt_stderr || decide (opt = 101) }
    match utils_parse_uint64 optarg with
    | none => none
    | some v => some { opts1 with task_id := v }
  else if opt = 112 then some { opts with pipes_dir_arg := some optarg }
  else if opt = 109 then
    if optarg.length ≠ 15 then none
    else some { opts with minutes := optarg, has_schedule := true }
  else if opt = 72 then
    if optarg.length ≠ 6 then none
    else some { opts with hours := optarg, has_schedule := true }
  else if opt = 119 then
    if optarg.length ≠ 2 then none
    else some { opts with weekdays := optarg, has_schedule := true }
  else none

/-- The `while ((opt = getopt(...)) != -1)` loop of `tadmor_parse_args` over
the successive results of `getopt`. -/
def parse_options_loop : List (Nat × List Nat) → tadmor_options_t → Option tadmor_options_t
  | [], opts => some opts
  | (opt, optarg) :: rest, opts =>
    match parse_option opts opt optarg with
    | none => none
    | some opts1 => parse_options_loop rest opts1

/-- The local variables of the command loop of `tadmor_parse_args`, with the
array `opts->commands` and the field `opts->command_count`; `current` is
`current.argv` and `current.argc` is its length. -/
structure group_state_t where
  commands : List command_t
  command_count : Nat
  cmd_count : Nat
  capacity : Nat
  current : List (List Nat)
  deriving DecidableEq, Repr

/-- The `while (optind < argc)` loop of `tadmor_parse_args` over the arguments
from `argv[optind]` on; `alloc_ok n` says whether an allocation of `n` bytes
succeeds (a `command_t` takes 16 bytes and a pointer 8). `none` where the
function returns -1. -/
def parse_groups_loop (alloc_ok : Nat → Bool) (opt_create_simple : Bool) :
    List (List Nat) → group_state_t → Option group_state_t
  | [], st => some st
  | arg :: rest, st =>
    if arg = str "--" then
      if st.current.length = 0 then parse_groups_loop alloc_ok opt_create_simple rest st
      else if opt_create_simple = true ∧ st.cmd_count ≥ 1 then none
      else
        let capacity := if st.cmd_count ≥ st.capacity then st.capacity * 2 else st.capacity
        if st.cmd_count ≥ st.capacity ∧ alloc_ok (capacity * 16) = false then none
        else if alloc_ok ((ERRAID_MAX_COMMAND_ARGS + 1) * 8) = false then none
        else
          parse_groups_loop alloc_ok opt_create_simple rest
            { commands := st.commands ++ [⟨st.current⟩]
              command_count := st.cmd_count + 1
              cmd_count := st.cmd_count + 1
              capacity := capacity
              current := [] }
    else if st.current.length ≥ ERRAID_MAX_COMMAND_ARGS then none
    else if alloc_ok (arg.length + 1) = false then none
    else
      parse_groups_loop alloc_ok opt_create_simple rest { st with current := st.current ++ [arg] }

/-- The checks of `tadmor_parse_args` after the command loop: `true` where the
function goes on to `return 0`. The words still in `current` are stored
nowhere. -/
def check_groups (alloc_ok : Nat → Bool) (opts : tadmor_options_t) (st : group_state_t) : Bool :=
  if st.current.length > 0 ∨ st.cmd_count = 0 then
    (if st.cmd_count ≥ st.capacity then
      alloc_ok (st.capacity * 2 * 16) && opts.has_schedule
     else true) &&
    (if opts.opt_create_sequence then
      decide (st.command_count ≠ 0) &&
        (st.commands.take st.command_count).all (fun c => decide (c.argv.length ≠ 0)) &&
        opts.has_schedule
     else true) &&
    (if opts.opt_create_abstract then
      (st.commands.take st.command_count).all (fun c => decide (c.argv.length ≠ 0))
     else true)
  else true

/-- Embeds `tadmor_parse_args`. The function `getopt` of the C library is not
embedded: `options` holds its successive results (the option character and
`optarg`) up to the -1 that ends the first loop, and `rest` the arguments from
`argv[optind]` on at that point. `none` where the function returns -1. -/
def tadmor_parse_args (alloc_ok : Nat → Bool) (options : List (Nat × List Nat))
    (rest : List (List Nat)) : Option tadmor_options_t :=
  match parse_options_loop options tadmor_options_zero with
  | none => none
  | some opts =>
    let operations := opts.opt_list.toNat + opts.opt_shutdown.toNat +
      opts.opt_create_simple.toNat + opts.opt_create_sequence.toNat +
      opts.opt_create_abstract.toNat + opts.opt_remove.toNat + opts.opt_history.toNat +
      opts.opt_stdout.toNat + opts.opt_stderr.toNat
    if operations ≠ 1 then none
    else if opts.opt_create_simple || opts.opt_create_sequence || opts.opt_create_abstract then
      if alloc_ok (1 * 16) = false then none
      else if alloc_ok ((ERRAID_MAX_COMMAND_ARGS + 1) * 8) = false then none
      else
        match parse_groups_loop alloc_ok opts.opt_create_simple rest
            { commands := [], command_count := 0, cmd_count := 0, capacity := 1,
              current := [] } with
        | none => none
        | some st =>
          if check_groups alloc_ok opts st then
            some { opts with commands := st.commands, command_count := st.command_count }
          else none
    else some opts

/-! ### Specification-side notions for the client -/

/-- The results of `getopt` for the schedule flags
`-m 000000000000001 -H 000001 -w 7F`. -/
def schedule_flags : List (Nat × List Nat) :=
  [(109, str "000000000000001"), (72, str "000001"), (119, str "7F")]

/-- The trailing arguments of `k` groups of words separated by `--`. -/
def join_groups : List (List (List Nat)) → List (List Nat)
  | [] => []
  | [g] => g
  | g :: rest => g ++ str "--" :: join_groups rest

/-- The text `json_escape_string` appends for the byte `ch` of its input. -/
def json_escape_byte (ch : Nat) : List Nat :=
  if ch = 92 then str "\\\\"
  else if ch = 34 then str "\\\""
  else if ch = 8 then str "\\b"
  else if ch = 12 then str "\\f"
  else if ch = 10 then str "\\n"
  else if ch = 13 then str "\\r"
  else if ch = 9 then str "\\t"
  else if ch < 0x20 then str "\\u" ++ fmt_0X 4 ch
  else [ch]

/-- The `for` loop of `json_escape_string` over the bytes of `input`, through
the `buffer_append` of main.c (the same function as the one of daemon.c). -/
def json_escape_loop (cap : Nat) : List Nat → List Nat → Option (List Nat)
  | [], buffer => some buffer
  | ch :: rest, buffer =>
    match buffer_append cap buffer (json_escape_byte ch) with
    | none => none
    | some buffer1 => json_escape_loop cap rest buffer1

/-- Embeds `json_escape_string` on the string `input`: the buffer afterwards,
`none` where it returns -1. -/
def json_escape_string (input : List Nat) (cap : Nat) (buffer : List Nat) : Option (List Nat) :=
  match buffer_append cap buffer (str "\"") with
  | none => none
  | some b1 =>
    match json_escape_loop cap input b1 with
    | none => none
    | some b2 => buffer_append cap b2 (str "\"")

/-- The inner `for` loop of `build_commands_array` over the arguments of one
command; `first` says whether `j` is 0. -/
def build_command_args (cap : Nat) : List (List Nat) → Bool → List Nat → Option (List Nat)
  | [], _, buffer => some buffer
  | arg :: rest, first, buffer =>
    match (if first then some buffer else buffer_append cap buffer (str ",")) with
    | none => none
    | some b1 =>
      match json_escape_string arg cap b1 with
      | none => none
      | some b2 => build_command_args cap rest false b2

/-- The outer `for` loop of `build_commands_array` over the commands; `first`
says whether `i` is 0. -/
def build_commands_loop (cap : Nat) : List command_t → Bool → List Nat → Option (List Nat)
  | [], _, buffer => some buffer
  | cmd :: rest, first, buffer =>
    match (if first then some buffer else buffer_append cap buffer (str ",")) with
    | none => none
    | some b1 =>
      match buffer_append cap b1 (str "[") with
      | none => none
      | some b2 =>
        match build_command_args cap cmd.argv true b2 with
        | none => none
        | some b3 =>
          match buffer_append cap b3 (str "]") with
          | none => none
          | some b4 => build_commands_loop cap rest false b4

/-- Embeds `build_commands_array`. -/
def build_commands_array (opts : tadmor_options_t) (cap : Nat) (buffer : List Nat) :
    Option (List Nat) :=
  match buffer_append cap buffer (str "\"commands\":[") with
  | none => none
  | some b1 =>
    match build_commands_loop cap (opts.commands.take opts.command_count) true b1 with
    | none => none
    | some b2 => buffer_append cap b2 (str "]")

/-- Embeds `build_schedule_object`. -/
def build_schedule_object (opts : tadmor_options_t) (cap : Nat) (buffer : List Nat) :
    Option (List Nat) :=
  if !opts.has_schedule then buffer_append cap buffer (str "\"schedule\":null")
  else
    buffer_append cap buffer
      (str "\"schedule\":\x7b\"minutes\":\"" ++ opts.minutes ++ str "\",\"hours\":\"" ++
        opts.hours ++ str "\",\"weekdays\":\"" ++ opts.weekdays ++ str "\"\x7d")

/-- Embeds `build_request_payload` for a buffer of `payload_cap` bytes: the
message type and the payload (of `*payload_len` bytes), `none` where it returns
-1. -/
def build_request_payload (opts : tadmor_options_t) (payload_cap : Nat) :
    Option (Nat × List Nat) :=
  if opts.opt_list then
    (buffer_append payload_cap [] (str "\x7b\x7d")).map (fun p => (MSG_REQ_LIST_TASKS, p))
  else if opts.opt_shutdown then
    (buffer_append payload_cap [] (str "\x7b\x7d")).map (fun p => (MSG_REQ_SHUTDOWN, p))
  else if opts.opt_remove then
    (buffer_append payload_cap [] (str "\x7b\"task_id\":" ++ fmt_llu opts.task_id ++ str "\x7d")).map
      (fun p => (MSG_REQ_REMOVE, p))
  else if opts.opt_history then
    (buffer_append payload_cap [] (str "\x7b\"task_id\":" ++ fmt_llu opts.task_id ++ str "\x7d")).map
      (fun p => (MSG_REQ_LIST_HISTORY, p))
  else if opts.opt_stdout then
    (buffer_append payload_cap [] (str "\x7b\"task_id\":" ++ fmt_llu opts.task_id ++ str "\x7d")).map
      (fun p => (MSG_REQ_GET_STDOUT, p))
  else if opts.opt_stderr then
    (buffer_append payload_cap [] (str "\x7b\"task_id\":" ++ fmt_llu opts.task_id ++ str "\x7d")).map
      (fun p => (MSG_REQ_GET_STDERR, p))
  else if opts.opt_create_simple || opts.opt_create_sequence || opts.opt_create_abstract then
    match buffer_append payload_cap [] (str "\x7b") with
    | none => none
    | some b1 =>
      match build_commands_array opts payload_cap b1 with
      | none => none
      | some b2 =>
        match buffer_append payload_cap b2 (str ",") with
        | none => none
        | some b3 =>
          match build_schedule_object opts payload_cap b3 with
          | none => none
          | some b4 =>
            match buffer_append payload_cap b4 (str "\x7d") with
            | none => none
            | some b5 =>
              some (if opts.opt_create_simple then MSG_REQ_CREATE_SIMPLE
                    else if opts.opt_create_sequence then MSG_REQ_CREATE_SEQUENCE
                    else MSG_REQ_CREATE_ABSTRACT, b5)
  else none

/-! ### Specification-side notions for the creation round trip -/

/-- The options of a creation request of the type `-c` (`simple`) or `-s`, with
the commands `commands` and the schedule masks of `schedule_flags`. -/
def create_options (simple : Bool) (commands : List command_t) : tadmor_options_t :=
  { tadmor_options_zero with
    opt_create_simple := simple, opt_create_sequence := !simple, has_schedule := true
    minutes := str "000000000000001", hours := str "000001", weekdays := str "7F"
    commands := commands, command_count := commands.length }

/-! ### Specification-side notions for the reload inside a creation -/

/-- The call of `erraid_reload_tasks` in the exit of `handle_create_task` for a
failed plan rebuild (the source ignores its result): the result of that call,
or `none` when the request does not reach that exit. -/
def create_reload (ctx : erraid_context_t) (sys : daemon_sys) (msg_type : Nat)
    (payload : List Nat) : Option (Bool × erraid_context_t) :=
  let type := task_type_from_message msg_type
  match parse_schedule_field payload type with
  | none => none
  | some schedule =>
    match parse_commands_field payload type with
    | none => none
    | some commands =>
      match storage_allocate_task_id sys.fs ctx.paths with
      | (.error _, _) => none
      | (.ok task_id, fs1) =>
        let new_task : task_t :=
          { task_id := task_id, type := type, commands := commands, schedule := schedule
            last_run_epoch := -1 }
        match storage_write_task fs1 ctx.paths new_task with
        | (.error _, _) => none
        | (.ok (), fs2) =>
          match context_add_task ctx sys new_task with
          | none => none
          | some ctx1 =>
            let sys2 := { sys with fs := fs2 }
            match rebuild_plan ctx1 sys2 with
            | (false, ctx2) => some (erraid_reload_tasks ctx2 sys2)
            | (true, _) => none

/-- The call of `erraid_reload_tasks` that the handling of `request` makes:
only a creation request makes one, in the exit for a failed plan rebuild. -/
def message_reload (ctx : erraid_context_t) (sys : daemon_sys) (request : proto_message_t) :
    Option (Bool × erraid_context_t) :=
  let type := request.header.type
  if type = MSG_REQ_CREATE_SIMPLE ∨ type = MSG_REQ_CREATE_SEQUENCE ∨
      type = MSG_REQ_CREATE_ABSTRACT then
    create_reload ctx sys type (request.payload.takeWhile (fun c => decide (c ≠ 0)))
  else none

/-- A store with the task files of four SIMPLE tasks without command, the
counter `next_id` at 5 and, below `tasks/5.task`, the temporary file that lets
the write of the task file of task 5 succeed. -/
def four_task_fs : fs_t :=
  fresh_fs ++
    [(str "/run/tasks/next_id", .file (str "5\n")),
     (str "/run/tasks/1.task", .file (str "1\nSIMPLE\n0\nFFFFFFFFFFFFFFF\nFFFFFF\n7F\n0\n-1\n")),
     (str "/run/tasks/2.task", .file (str "2\nSIMPLE\n0\nFFFFFFFFFFFFFFF\nFFFFFF\n7F\n0\n-1\n")),
     (str "/run/tasks/3.task", .file (str "3\nSIMPLE\n0\nFFFFFFFFFFFFFFF\nFFFFFF\n7F\n0\n-1\n")),
     (str "/run/tasks/4.task", .file (str "4\nSIMPLE\n0\nFFFFFFFFFFFFFFF\nFFFFFF\n7F\n0\n-1\n")),
     (str "/run/tasks/5.task/.tmp", .file [])]

/-- The daemon context after `erraid_reload_tasks` over `four_task_fs` at the
epoch 100: four tasks, and the plan array of four entries in full use. -/
def four_task_ctx : erraid_context_t :=
  (erraid_reload_tasks idle_ctx (world_of four_task_fs 100)).2

/-- An outside world over `four_task_fs` whose allocator refuses the plan
array of eight entries. -/
def full_plan_world : daemon_sys :=
  { world_of four_task_fs 130 with
    realloc_ok := fun n => decide (n ≠ 8 * sizeof_schedule_entry_t) }

/-- A request to create an ABSTRACT task with no command and no schedule. -/
def create_abstract_empty_payload : List Nat :=
  str "\x7b\"commands\":[]\x7d"

/-! ### Specification-side notions for the store after a firing -/

/-- The call of `storage_append_history` that the firing `f` makes over the
store `fs`: the entry of the firing, with the captures of the run of its task
(none and length 0 when `executor_run_task` fails). -/
def firing_append (sys : daemon_sys) (paths : storage_paths_t) (fs : fs_t) (f : fire_t) :
    Except Errno Unit × fs_t :=
  let run := executor_run_task { spawn := sys.spawn, realloc_ok := sys.realloc_ok } f.task
  storage_append_history fs paths f.task.task_id f.entry
    (if run.1 then run.2.stdout_buf else none) (if run.1 then run.2.stdout_len else 0)
    (if run.1 then run.2.stderr_buf else none) (if run.1 then run.2.stderr_len else 0)

/-- The line of `history.log` for the firing `f`: its epoch, its status and the
lengths of the captures handed to `storage_append_history`. -/
def firing_line (sys : daemon_sys) (f : fire_t) : List Nat :=
  let run := executor_run_task { spawn := sys.spawn, realloc_ok := sys.realloc_ok } f.task
  history_line f.entry (if run.1 then run.2.stdout_len else 0)
    (if run.1 then run.2.stderr_len else 0)

/-- The store after the firing `f` made over the store `fs`: what
`storage_append_history` leaves, then what `storage_write_task` leaves for the
task with `last_run_epoch` at the epoch of the firing. Neither result is
looked at. -/
def store_after_firing (sys : daemon_sys) (paths : storage_paths_t) (fs : fs_t) (f : fire_t) :
    fs_t :=
  (storage_write_task (firing_append sys paths fs f).2 paths
    { f.task with last_run_epoch := f.entry.epoch }).2

/-- The world of `due_world` with a regular file in the place of the log
directory of task 1: `storage_append_history` fails for task 1. -/
def blocked_log_world : daemon_sys :=
  { due_world with fs := fresh_fs ++ [(str "/run/logs/1", .file [])] }

/-! # Theorems -/

/-! ## Scheduler -/

theorem shift_and_one_eq_testBit (m n : Nat) : ((m >>> n) &&& 1 != 0) = m.testBit n := by
  unfold Nat.testBit
  rw [Nat.and_comm]

theorem is_minute_allowed_iff (s : schedule_t) (v : Int) :
    is_minute_allowed s v = true ↔ (0 ≤ v ∧ v < 60 ∧ s.minute_mask.testBit v.toNat = true) := by
  unfold is_minute_allowed
  split
  · constructor
    · intro h; cases h
    · rintro ⟨h0, h1, _⟩; omega
  · rw [shift_and_one_eq_testBit]
    constructor
    · intro h; refine ⟨by omega, by omega, h⟩
    · rintro ⟨_, _, h⟩; exact h

theorem is_hour_allowed_iff (s : schedule_t) (v : Int) :
    is_hour_allowed s v = true ↔ (0 ≤ v ∧ v < 24 ∧ s.hour_mask.testBit v.toNat = true) := by
  unfold is_hour_allowed
  split
  · constructor
    · intro h; cases h
    · rintro ⟨h0, h1, _⟩; omega
  · rw [shift_and_one_eq_testBit]
    constructor
    · intro h; refine ⟨by omega, by omega, h⟩
    · rintro ⟨_, _, h⟩; exact h

theorem is_weekday_allowed_iff (s : schedule_t) (v : Int) :
    is_weekday_allowed s v = true ↔ (0 ≤ v ∧ v < 7 ∧ s.weekday_mask.testBit v.toNat = true) := by
  unfold is_weekday_allowed
  split
  · constructor
    · intro h; cases h
    · rintro ⟨h0, h1, _⟩; omega
  · rw [shift_and_one_eq_testBit]
    constructor
    · intro h; refine ⟨by omega, by omega, h⟩
    · rintro ⟨_, _, h⟩; exact h

/-- What the loop returns when it does not return `-1`: a probe
`current + 60 * k` with `k < remaining` that is a hit. -/
theorem next_occurrence_loop_sound (lt : Int → Option tm) (s : schedule_t) :
    ∀ (remaining : Nat) (current r : Int),
      next_occurrence_loop lt s remaining current = r → r ≠ -1 →
      ∃ k : Nat, k < remaining ∧ r = current + 60 * k ∧ probe_hit lt s r := by
  intro remaining
  induction remaining with
  | zero =>
    intro current r h hne
    simp [next_occurrence_loop] at h
    omega
  | succ n ih =>
    intro current r h hne
    unfold next_occurrence_loop at h
    cases hlt : lt current with
    | none => simp [hlt] at h; omega
    | some x =>
      simp only [hlt] at h
      have step : ∀ r', next_occurrence_loop lt s n (current + 60) = r' → r' = r →
          ∃ k : Nat, k < n + 1 ∧ r = current + 60 * k ∧ probe_hit lt s r := by
        intro r' h1 h2
        subst h2
        obtain ⟨k, hk, hr, hp⟩ := ih (current + 60) r' h1 hne
        exact ⟨k + 1, by omega, by push_cast; omega, hp⟩
      by_cases hw : is_weekday_allowed s x.tm_wday = true
      · by_cases hh : is_hour_allowed s x.tm_hour = true
        · by_cases hm : is_minute_allowed s x.tm_min = true
          · simp [hw, hh, hm] at h
            subst h
            exact ⟨0, by omega, by simp, x, hlt, hw, hh, hm⟩
          · simp [hw, hh, hm] at h
            exact step _ rfl h
        · simp [hw, hh] at h
          exact step _ rfl h
      · simp [hw] at h
        exact step _ rfl h

/-- C1. Whenever `scheduler_next_occurrence` returns an epoch `r` (not the
"none" value `-1`), for any schedule, any `from_epoch` and any local-time
decomposition: `r` is strictly after `from_epoch`, `r` is minute-aligned, and
the local minute, hour and weekday of `r` each have their bit set in
`minute_mask`, `hour_mask` and `weekday_mask`. -/
theorem scheduler_next_occurrence_sound (localtime_r : Int → Option tm) (schedule : schedule_t)
    (from_epoch r : Int)
    (hr : scheduler_next_occurrence localtime_r schedule from_epoch = r) (hne : r ≠ -1) :
    from_epoch < r ∧ r % 60 = 0 ∧
      ∃ x, localtime_r r = some x ∧ bit_set schedule.minute_mask x.tm_min ∧
        bit_set schedule.hour_mask x.tm_hour ∧ bit_set schedule.weekday_mask x.tm_wday := by
  unfold scheduler_next_occurrence at hr
  cases hen : schedule.enabled with
  | false => simp [hen] at hr; omega
  | true =>
    simp only [hen, Bool.not_true, Bool.false_eq_true, if_false] at hr
    obtain ⟨k, _, hk, x, hx, hw, hh, hm⟩ := next_occurrence_loop_sound localtime_r schedule _ _ r hr hne
    rw [is_weekday_allowed_iff] at hw
    rw [is_hour_allowed_iff] at hh
    rw [is_minute_allowed_iff] at hm
    refine ⟨?_, ?_, x, hx, ⟨hm.1, hm.2.2⟩, ⟨hh.1, hh.2.2⟩, ⟨hw.1, hw.2.2⟩⟩
    · by_cases hneg : from_epoch < 0
      · simp only [hneg, if_true] at hk
        simp at hk
        omega
      · simp only [hneg, if_false] at hk
        rw [Int.tmod_eq_emod (by omega) (by omega)] at hk
        omega
    · by_cases hneg : from_epoch < 0
      · simp only [hneg, if_true] at hk
        simp at hk
        omega
      · simp only [hneg, if_false] at hk
        rw [Int.tmod_eq_emod (by omega) (by omega)] at hk
        omega

/-- C1, at a concrete input: from epoch 0 with every bit allowed, in UTC, the
next occurrence is epoch 60. -/
theorem scheduler_next_occurrence_sound_witness :
    scheduler_next_occurrence (fun t => some (utc_offset_localtime 0 t)) schedule_always 0 = 60 ∧
    (60 : Int) ≠ -1 ∧
    ((0 : Int) < 60 ∧ (60 : Int) % 60 = 0 ∧
      ∃ x, (fun t => some (utc_offset_localtime 0 t)) (60 : Int) = some x ∧
        bit_set schedule_always.minute_mask x.tm_min ∧
        bit_set schedule_always.hour_mask x.tm_hour ∧
        bit_set schedule_always.weekday_mask x.tm_wday) :=
  ⟨by decide, by decide,
    scheduler_next_occurrence_sound (fun t => some (utc_offset_localtime 0 t)) schedule_always 0 60
      (by decide) (by decide)⟩

theorem next_occurrence_loop_miss (lt : Int → Option tm) (s : schedule_t) (n : Nat) (current : Int)
    (h : probe_miss lt s current) :
    next_occurrence_loop lt s (n + 1) current = next_occurrence_loop lt s n (current + 60) := by
  obtain ⟨x, hx, hnot⟩ := h
  rw [next_occurrence_loop]
  simp only [hx]
  by_cases hw : is_weekday_allowed s x.tm_wday = true
  · by_cases hh : is_hour_allowed s x.tm_hour = true
    · by_cases hm : is_minute_allowed s x.tm_min = true
      · exact absurd ⟨hw, hh, hm⟩ hnot
      · simp [hw, hh, hm]
    · simp [hw, hh]
  · simp [hw]

theorem next_occurrence_loop_hit (lt : Int → Option tm) (s : schedule_t) (n : Nat) (current : Int)
    (h : probe_hit lt s current) :
    next_occurrence_loop lt s (n + 1) current = current := by
  obtain ⟨x, hx, hw, hh, hm⟩ := h
  rw [next_occurrence_loop]
  simp [hx, hw, hh, hm]

/-- The loop returns the first hit: if the probes `current + 60 * j`, `j < k`,
are misses and the probe `current + 60 * k` is a hit, with `k < remaining`,
the loop returns `current + 60 * k`. -/
theorem next_occurrence_loop_first (lt : Int → Option tm) (s : schedule_t) :
    ∀ (k remaining : Nat) (current : Int), k < remaining →
      (∀ j : Nat, j < k → probe_miss lt s (current + 60 * j)) →
      probe_hit lt s (current + 60 * k) →
      next_occurrence_loop lt s remaining current = current + 60 * k := by
  intro k
  induction k with
  | zero =>
    intro remaining current hk _ hhit
    obtain ⟨n, rfl⟩ : ∃ n, remaining = n + 1 := ⟨remaining - 1, by omega⟩
    simp only [Nat.cast_zero, mul_zero, add_zero] at hhit ⊢
    exact next_occurrence_loop_hit lt s n current hhit
  | succ k ih =>
    intro remaining current hk hmiss hhit
    obtain ⟨n, rfl⟩ : ∃ n, remaining = n + 1 := ⟨remaining - 1, by omega⟩
    have h0 : probe_miss lt s current := by
      have := hmiss 0 (by omega)
      simpa using this
    rw [next_occurrence_loop_miss lt s n current h0]
    have e : current + 60 * ((k + 1 : Nat) : Int) = (current + 60) + 60 * (k : Int) := by
      push_cast; ring
    rw [e] at hhit ⊢
    apply ih n (current + 60) (by omega) _ hhit
    intro j hj
    have := hmiss (j + 1) (by omega)
    have e2 : current + 60 * ((j + 1 : Nat) : Int) = (current + 60) + 60 * (j : Int) := by
      push_cast; ring
    rw [e2] at this
    exact this

/-- The loop returns `-1` when none of its probes is a hit. -/
theorem next_occurrence_loop_none (lt : Int → Option tm) (s : schedule_t) :
    ∀ (remaining : Nat) (current : Int),
      (∀ j : Nat, j < remaining → ¬ probe_hit lt s (current + 60 * j)) →
      next_occurrence_loop lt s remaining current = -1 := by
  intro remaining current h
  by_contra hne
  obtain ⟨k, hk, hr, hp⟩ := next_occurrence_loop_sound lt s remaining current _ rfl hne
  rw [hr] at hp
  exact h k hk hp

/-- For a total decomposition into in-range fields, a probe is a hit exactly
when it is a fire time of the data model, and a miss otherwise. -/
theorem probe_hit_iff_fire (ltz : Int → tm) (hrange : ∀ t, tm_in_range (ltz t)) (s : schedule_t)
    (t : Int) : probe_hit (fun t => some (ltz t)) s t ↔ spec_fire_time ltz s t := by
  obtain ⟨a, b, c, d, e, f⟩ := hrange t
  unfold probe_hit spec_fire_time bit_set
  constructor
  · rintro ⟨x, hx, hw, hh, hm⟩
    simp only [Option.some.injEq] at hx
    subst hx
    rw [is_weekday_allowed_iff] at hw
    rw [is_hour_allowed_iff] at hh
    rw [is_minute_allowed_iff] at hm
    exact ⟨⟨hm.1, hm.2.2⟩, ⟨hh.1, hh.2.2⟩, ⟨hw.1, hw.2.2⟩⟩
  · rintro ⟨hm, hh, hw⟩
    refine ⟨ltz t, rfl, ?_, ?_, ?_⟩
    · rw [is_weekday_allowed_iff]; exact ⟨e, f, hw.2⟩
    · rw [is_hour_allowed_iff]; exact ⟨c, d, hh.2⟩
    · rw [is_minute_allowed_iff]; exact ⟨a, b, hm.2⟩

theorem probe_miss_of_not_hit (ltz : Int → tm) (s : schedule_t) (t : Int)
    (h : ¬ probe_hit (fun t => some (ltz t)) s t) : probe_miss (fun t => some (ltz t)) s t := by
  refine ⟨ltz t, rfl, ?_⟩
  rintro ⟨hw, hh, hm⟩
  exact h ⟨ltz t, rfl, hw, hh, hm⟩

/-- The epochs of the window are the probes of the loop. -/
theorem in_window_iff_probe (from_epoch t : Int) :
    in_window from_epoch t ↔
      ∃ k : Nat, k < max_iterations ∧ t = (from_epoch - from_epoch % 60 + 60) + 60 * (k : Int) := by
  unfold in_window max_iterations
  constructor
  · rintro ⟨h1, h2, h3⟩
    refine ⟨((t - (from_epoch - from_epoch % 60 + 60)) / 60).toNat, ?_, ?_⟩ <;> omega
  · rintro ⟨k, hk, rfl⟩
    refine ⟨?_, ?_, ?_⟩ <;> omega

theorem utc_offset_localtime_in_range (off t : Int) : tm_in_range (utc_offset_localtime off t) := by
  unfold tm_in_range utc_offset_localtime
  simp only
  refine ⟨?_, ?_, ?_, ?_, ?_, ?_⟩ <;> omega

theorem testBit_two_iff (n : Nat) : Nat.testBit 2 n = true ↔ n = 1 := by
  have := @Nat.testBit_two_pow 1 n
  simp only [pow_one] at this
  rw [this]; simp [eq_comm]

theorem testBit_sixteen_iff (n : Nat) : Nat.testBit 16 n = true ↔ n = 4 := by
  have := @Nat.testBit_two_pow 4 n
  norm_num at this
  rw [this]; simp [eq_comm]

theorem fire_monday_0104_iff (off t : Int) :
    spec_fire_time (utc_offset_localtime off) schedule_monday_0104 t ↔
      ((t + off) % 604800 ≥ 349440 ∧ (t + off) % 604800 < 349500) := by
  unfold spec_fire_time bit_set schedule_monday_0104 utc_offset_localtime
  simp only [testBit_two_iff, testBit_sixteen_iff]
  constructor
  · rintro ⟨⟨a, b⟩, ⟨c, d⟩, ⟨e, f⟩⟩
    omega
  · rintro ⟨a, b⟩
    refine ⟨⟨?_, ?_⟩, ⟨?_, ?_⟩, ⟨?_, ?_⟩⟩ <;> omega

/-- The exactness scenario, for any zone at a fixed offset that is a whole
number of minutes: from a Sunday 00:00 local, the schedule "minute 4, hour 1,
Monday" next fires at Monday 01:04 local, `90240` seconds later. -/
theorem scheduler_next_occurrence_sunday_to_monday (off from_epoch : Int) (h0 : 0 ≤ from_epoch)
    (hoff : off % 60 = 0) (hsun : (from_epoch + off) % 604800 = 259200) :
    scheduler_next_occurrence (fun t => some (utc_offset_localtime off t)) schedule_monday_0104
      from_epoch = from_epoch + 90240 := by
  have hrange := utc_offset_localtime_in_range off
  have hdef : scheduler_next_occurrence (fun t => some (utc_offset_localtime off t))
      schedule_monday_0104 from_epoch =
      next_occurrence_loop (fun t => some (utc_offset_localtime off t)) schedule_monday_0104
        max_iterations (from_epoch + 60) := by
    unfold scheduler_next_occurrence
    simp only [schedule_monday_0104, Bool.not_true, Bool.false_eq_true, if_false]
    rw [if_neg (by omega), Int.tmod_eq_emod h0 (by omega)]
    have : from_epoch % 60 = 0 := by omega
    rw [this, sub_zero]
  rw [hdef]
  have hres := next_occurrence_loop_first (fun t => some (utc_offset_localtime off t))
    schedule_monday_0104 1503 max_iterations (from_epoch + 60) (by unfold max_iterations; omega)
  have e : from_epoch + 60 + 60 * ((1503 : Nat) : Int) = from_epoch + 90240 := by
    push_cast; ring
  rw [e] at hres
  apply hres
  · intro j hj
    apply probe_miss_of_not_hit
    rw [probe_hit_iff_fire _ hrange, fire_monday_0104_iff]
    omega
  · rw [probe_hit_iff_fire _ hrange, fire_monday_0104_iff]
    omega

/-- C2. For every enabled schedule, every `from_epoch >= 0` and every total
local-time decomposition with in-range fields: if some minute-aligned epoch of
the window `from_epoch < t <= (from_epoch - from_epoch mod 60) + 60 * (366*24*60)`
satisfies the three masks, `scheduler_next_occurrence` returns the smallest
such epoch; otherwise it returns `-1` (none). -/
theorem scheduler_next_occurrence_least (ltz : Int → tm) (hrange : ∀ t, tm_in_range (ltz t))
    (schedule : schedule_t) (hen : schedule.enabled = true) (from_epoch : Int)
    (h0 : 0 ≤ from_epoch) :
    ((∃ t, in_window from_epoch t ∧ spec_fire_time ltz schedule t) →
      in_window from_epoch (scheduler_next_occurrence (fun t => some (ltz t)) schedule from_epoch) ∧
      spec_fire_time ltz schedule
        (scheduler_next_occurrence (fun t => some (ltz t)) schedule from_epoch) ∧
      ∀ t, in_window from_epoch t → spec_fire_time ltz schedule t →
        scheduler_next_occurrence (fun t => some (ltz t)) schedule from_epoch ≤ t) ∧
    ((¬ ∃ t, in_window from_epoch t ∧ spec_fire_time ltz schedule t) →
      scheduler_next_occurrence (fun t => some (ltz t)) schedule from_epoch = -1) := by
  have hdef : scheduler_next_occurrence (fun t => some (ltz t)) schedule from_epoch =
      next_occurrence_loop (fun t => some (ltz t)) schedule max_iterations
        (from_epoch - from_epoch % 60 + 60) := by
    unfold scheduler_next_occurrence
    simp only [hen, Bool.not_true, Bool.false_eq_true, if_false]
    rw [if_neg (by omega), Int.tmod_eq_emod h0 (by omega)]
  rw [hdef]
  constructor
  · rintro ⟨t, hwin, hfire⟩
    rw [in_window_iff_probe from_epoch t] at hwin
    obtain ⟨k, hk, rfl⟩ := hwin
    have hex : ∃ k : Nat, k < max_iterations ∧
        probe_hit (fun t => some (ltz t)) schedule
          ((from_epoch - from_epoch % 60 + 60) + 60 * (k : Int)) :=
      ⟨k, hk, (probe_hit_iff_fire ltz hrange schedule _).2 hfire⟩
    classical
    have hfind := Nat.find_spec hex
    have hmin := fun j => Nat.find_min (H := hex) (m := j)
    set k0 := Nat.find hex with hk0
    have hres := next_occurrence_loop_first (fun t => some (ltz t)) schedule k0 max_iterations
      (from_epoch - from_epoch % 60 + 60) hfind.1
      (fun j hj => probe_miss_of_not_hit ltz schedule _
        (fun hh => hmin j hj ⟨lt_trans hj hfind.1, hh⟩))
      hfind.2
    rw [hres]
    refine ⟨(in_window_iff_probe from_epoch _).2 ⟨k0, hfind.1, rfl⟩,
      (probe_hit_iff_fire ltz hrange schedule _).1 hfind.2, ?_⟩
    intro t' hwin' hfire'
    rw [in_window_iff_probe from_epoch t'] at hwin'
    obtain ⟨k', hk', rfl⟩ := hwin'
    have hle : k0 ≤ k' := by
      by_contra hlt
      exact hmin k' (by omega) ⟨hk', (probe_hit_iff_fire ltz hrange schedule _).2 hfire'⟩
    have : (k0 : Int) ≤ (k' : Int) := by exact_mod_cast hle
    omega
  · intro hno
    apply next_occurrence_loop_none
    intro j hj hhit
    exact hno ⟨_, (in_window_iff_probe from_epoch _).2 ⟨j, hj, rfl⟩,
      (probe_hit_iff_fire ltz hrange schedule _).1 hhit⟩

/-- C2, at the scenario of the specification in UTC: epoch 259200 is Sunday
4 January 1970 00:00; the schedule "minute 4, hour 1, Monday" has a fire time
in the window, namely 349440 = 259200 + 90240 (Monday 01:04), and the search
returns it. -/
theorem scheduler_next_occurrence_least_witness :
    (∀ t, tm_in_range (utc_offset_localtime 0 t)) ∧ schedule_monday_0104.enabled = true ∧
    (0 : Int) ≤ 259200 ∧
    (in_window 259200 349440 ∧ spec_fire_time (utc_offset_localtime 0) schedule_monday_0104 349440) ∧
    scheduler_next_occurrence (fun t => some (utc_offset_localtime 0 t)) schedule_monday_0104
      259200 ≤ 349440 ∧
    scheduler_next_occurrence (fun t => some (utc_offset_localtime 0 t)) schedule_monday_0104
      259200 = 259200 + 90240 :=
  ⟨utc_offset_localtime_in_range 0, rfl, by decide,
    ⟨by unfold in_window; decide, by decide⟩,
    ((scheduler_next_occurrence_least (utc_offset_localtime 0) (utc_offset_localtime_in_range 0)
      schedule_monday_0104 rfl 259200 (by decide)).1
        ⟨349440, by unfold in_window; decide, by decide⟩).2.2 349440
          (by unfold in_window; decide) (by decide),
    scheduler_next_occurrence_sunday_to_monday 0 259200 (by decide) (by decide) (by decide)⟩

/-! ## Framed protocol -/

theorem header_of_bytes_header_bytes (h : message_header_t) (hm : h.magic < 2 ^ 32)
    (hv : h.version < 256) (ht : h.type < 256) (hr : h.reserved < 65536)
    (hl : h.payload_length < 2 ^ 32) : header_of_bytes (header_bytes h) = h := by
  cases h with
  | mk magic version type reserved payload_length =>
    simp only at hm hv ht hr hl
    simp only [header_of_bytes, header_bytes, le32, le16, List.cons_append, List.nil_append,
      List.getD_cons_zero, List.getD_cons_succ, message_header_t.mk.injEq]
    refine ⟨?_, ?_, ?_, ?_, ?_⟩ <;> omega

theorem header_bytes_length (h : message_header_t) : (header_bytes h).length = 12 := by
  simp [header_bytes, le32, le16]

theorem buf_store_zero_take (dst data : List Nat) :
    (buf_store dst 0 data).take data.length = data := by
  simp [buf_store]

theorem buf_store_zero_full (dst data : List Nat) (h : dst.length = data.length) :
    buf_store dst 0 data = data := by
  simp [buf_store, ← h]

theorem take_set_of_le {α : Type} (l : List α) (n : Nat) (a : α) :
    (l.set n a).take n = l.take n := by
  induction l generalizing n with
  | nil => simp
  | cons x xs ih =>
    cases n with
    | zero => simp
    | succ n => simp [List.set, ih]

theorem proto_pack_ok (type : Nat) (payload : List Nat) (hlen : payload.length < 4096)
    (out_msg : proto_message_t) :
    ∃ msg, proto_pack type (some payload) payload.length out_msg = .ok msg ∧
      msg.header = { magic := ERRAID_MAGIC, version := ERRAID_PROTO_VERSION, type := type % 256,
                     reserved := 0, payload_length := payload.length } ∧
      msg.payload.take payload.length = payload := by
  unfold proto_pack
  have h1 : ¬ payload.length > ERRAID_PIPE_MESSAGE_LIMIT - 1 := by
    unfold ERRAID_PIPE_MESSAGE_LIMIT; omega
  rw [if_neg h1]
  refine ⟨_, rfl, ?_, ?_⟩
  · have : payload.length % 2 ^ 32 = payload.length := Nat.mod_eq_of_lt (by omega)
    simp only [this]
  · simp only [take_set_of_le]
    by_cases h0 : payload.length > 0
    · simp only [h0, if_true, List.take_length]
      exact buf_store_zero_take _ _
    · have : payload = [] := List.eq_nil_of_length_eq_zero (by omega)
      subst this
      simp

/-- C4. Protocol record round trip: for every message type code (a `uint8_t`)
and every payload of fewer than 4096 bytes, `proto_pack` succeeds, writing the
packed message with `proto_write_message` to a pipe that accepts the bytes
succeeds, and `proto_read_message` applied to the bytes written (followed by
anything) succeeds, leaves what follows unread, and yields the same type, the
same `payload_length` and the same payload bytes. -/
theorem proto_round_trip (type : Nat) (htype : type < 256) (payload : List Nat)
    (hlen : payload.length < 4096) (out_msg in_msg : proto_message_t) (fd : wfd)
    (hroom : 12 + payload.length ≤ fd.room) (rest : rfd) :
    ∃ msg fd1 w got,
      proto_pack type (some payload) payload.length out_msg = .ok msg ∧
      proto_write_message fd msg = (.ok (), fd1) ∧
      fd1.written = fd.written ++ w ∧
      proto_read_message (w ++ rest) in_msg = (.ok (), got, rest) ∧
      got.header.type = type ∧ got.header.payload_length = payload.length ∧
      got.payload.take got.header.payload_length = payload := by
  obtain ⟨msg, hpack, hhdr, hpay⟩ := proto_pack_ok type payload hlen out_msg
  have hval : proto_validate_header msg.header = .ok () := by
    rw [hhdr]
    unfold proto_validate_header ERRAID_PIPE_MESSAGE_LIMIT
    simp only [ne_eq, not_true_eq_false, if_false, ge_iff_le]
    rw [if_neg (by omega)]
  have hhb : header_of_bytes (header_bytes msg.header) = msg.header := by
    apply header_of_bytes_header_bytes <;> rw [hhdr] <;>
      simp only [ERRAID_MAGIC, ERRAID_PROTO_VERSION] <;> omega
  have hmod : type % 256 = type := Nat.mod_eq_of_lt htype
  have hpl : msg.header.payload_length = payload.length := by rw [hhdr]
  have hty : msg.header.type = type := by rw [hhdr]; exact hmod
  have hbl := header_bytes_length msg.header
  have hbl2 := header_bytes_length in_msg.header
  -- the read of the header
  have hread1 : ∀ tail : List Nat,
      read_exact (header_bytes msg.header ++ tail) (header_bytes in_msg.header) 12 =
        (.ok (), header_bytes msg.header, tail) := by
    intro tail
    unfold read_exact
    rw [if_pos (by simp [hbl])]
    have e1 : (header_bytes msg.header ++ tail).take 12 = header_bytes msg.header := by
      rw [← hbl]; simp
    have e2 : (header_bytes msg.header ++ tail).drop 12 = tail := by
      rw [← hbl]; simp
    rw [e1, e2, buf_store_zero_full _ _ (by rw [hbl, hbl2])]
  by_cases h0 : payload.length > 0
  · -- a payload follows the header
    refine ⟨msg, { fd with written := fd.written ++ header_bytes msg.header ++ payload,
                           room := fd.room - 12 - payload.length },
      header_bytes msg.header ++ payload,
      { header := msg.header, payload := (buf_store in_msg.payload 0 payload).set payload.length 0 },
      hpack, ?_, ?_, ?_, hty, hpl, ?_⟩
    · unfold proto_write_message
      rw [hval]
      simp only [write_exact, hbl]
      rw [if_pos (by omega)]
      simp only [hpl, h0, if_true, hpay]
      rw [if_pos (by omega)]
    · simp [List.append_assoc]
    · unfold proto_read_message
      rw [List.append_assoc, hread1]
      simp only [hhb, hval, hpl, h0, if_true]
      unfold read_exact
      rw [if_pos (by simp)]
      simp
    · simp only [hpl, take_set_of_le]
      exact buf_store_zero_take _ _
  · -- an empty payload: the header alone is written
    have hnil : payload = [] := List.eq_nil_of_length_eq_zero (by omega)
    subst hnil
    refine ⟨msg, { fd with written := fd.written ++ header_bytes msg.header, room := fd.room - 12 },
      header_bytes msg.header,
      { header := msg.header, payload := in_msg.payload.set 0 0 },
      hpack, ?_, rfl, ?_, hty, hpl, ?_⟩
    · unfold proto_write_message
      rw [hval]
      simp only [write_exact, hbl]
      rw [if_pos (by simpa using hroom)]
      simp [hpl]
    · unfold proto_read_message
      rw [hread1]
      simp [hhb, hval, hpl]
    · simp [hpl]

/-- C4, at a concrete input: a PONG record carrying the status-OK object. -/
theorem proto_round_trip_witness :
    (2 : Nat) < 256 ∧ (str "\x7b\"status\":\"OK\"\x7d").length < 4096 ∧
    12 + (str "\x7b\"status\":\"OK\"\x7d").length ≤ 4096 ∧
    ∃ msg fd1 w got,
      proto_pack 2 (some (str "\x7b\"status\":\"OK\"\x7d")) (str "\x7b\"status\":\"OK\"\x7d").length
        ⟨⟨0, 0, 0, 0, 0⟩, []⟩ = .ok msg ∧
      proto_write_message ⟨[], 4096, .EPIPE⟩ msg = (.ok (), fd1) ∧
      fd1.written = [] ++ w ∧
      proto_read_message (w ++ []) ⟨⟨0, 0, 0, 0, 0⟩, []⟩ = (.ok (), got, []) ∧
      got.header.type = 2 ∧ got.header.payload_length = (str "\x7b\"status\":\"OK\"\x7d").length ∧
      got.payload.take got.header.payload_length = str "\x7b\"status\":\"OK\"\x7d" :=
  ⟨by decide, by decide, by decide,
    proto_round_trip 2 (by decide) (str "\x7b\"status\":\"OK\"\x7d") (by decide)
      ⟨⟨0, 0, 0, 0, 0⟩, []⟩ ⟨⟨0, 0, 0, 0, 0⟩, []⟩ ⟨[], 4096, .EPIPE⟩ (by decide) []⟩

/-! ## Executor -/

theorem take_take_append {α : Type} (n : Nat) (l r : List α) :
    (l.take n ++ r).take n = (l ++ r).take n := by
  by_cases h : l.length ≤ n
  · rw [List.take_of_length_le h]
  · have h1 : (l.take n).length = n := by rw [List.length_take]; omega
    rw [List.take_append_of_le_length (by omega), List.take_append_of_le_length (by omega),
      List.take_take, Nat.min_self]

theorem take_append_take_min {α : Type} (n k : Nat) (l c : List α) (hl : l.length ≤ n) :
    (l ++ c.take (min (n - l.length) k)).take n = (l ++ c.take k).take n := by
  rw [List.take_append_eq_append_take, List.take_append_eq_append_take,
    List.take_take, List.take_take]
  congr 2
  omega

/-- What `append_buffer` stores, under a positive limit: the old bytes followed
by the offered bytes, cut at the limit. -/
theorem append_buffer_bytes (ok : Nat → Bool) (b b1 : capture_t) (src : List Nat)
    (n limit : Nat) (hlimit : 0 < limit) (hb : b.length ≤ limit)
    (h : append_buffer ok b (some src) n limit = some b1) :
    b1.bytes = (b.bytes ++ src.take n).take limit := by
  have hbl : b.bytes.length ≤ limit := hb
  unfold append_buffer at h
  simp only at h
  by_cases hn : n = 0
  · simp only [hn, if_true, Option.some.injEq] at h
    subst h; subst hn
    simp [List.take_of_length_le hbl]
  · simp only [hn, if_false] at h
    by_cases hfull : limit > 0 ∧ b.length ≥ limit
    · simp only [hfull, and_self, if_true, Option.some.injEq] at h
      subst h
      have : b.bytes.length = limit := by
        have := hfull.2
        unfold capture_t.length at this
        omega
      show b.bytes = _
      rw [List.take_append_of_le_length (by omega), List.take_of_length_le (by omega)]
    · rw [if_neg hfull] at h
      have hlt : b.bytes.length < limit := by
        unfold capture_t.length at hfull
        omega
      by_cases hclip : limit > 0 ∧ b.length + n > limit
      · have hc : b.bytes.length + n > limit := hclip.2
        simp only [hclip, and_self, decide_True, if_true] at h
        have hcl : limit - b.length ≠ 0 := by unfold capture_t.length; omega
        rw [if_neg hcl] at h
        have hres : b1.bytes = b.bytes ++ src.take (limit - b.length) := by
          generalize grow_capacity _ _ _ = g at h
          by_cases hcap : b.capacity < b.length + n + 1
          · rw [if_pos hcap] at h
            by_cases hg : ok g = true
            · rw [if_pos hg] at h
              simp only [Option.some.injEq] at h; subst h; rfl
            · rw [if_neg hg] at h; cases h
          · rw [if_neg hcap] at h
            simp only [Option.some.injEq] at h; subst h; rfl
        rw [hres]
        unfold capture_t.length
        rw [List.take_append_eq_append_take, List.take_of_length_le (le_of_lt hlt), List.take_take]
        congr 2
        omega
      · have hc : b.bytes.length + n ≤ limit := by
          unfold capture_t.length at hclip
          omega
        simp only [hclip, decide_False, Bool.false_eq_true, if_false, hn] at h
        have hres : b1.bytes = b.bytes ++ src.take n := by
          generalize grow_capacity _ _ _ = g at h
          by_cases hcap : b.capacity < b.length + n + 1
          · rw [if_pos hcap] at h
            by_cases hg : ok g = true
            · rw [if_pos hg] at h
              simp only [Option.some.injEq] at h; subst h; rfl
            · rw [if_neg hg] at h; cases h
          · rw [if_neg hcap] at h
            simp only [Option.some.injEq] at h; subst h; rfl
        rw [hres]
        symm
        apply List.take_of_length_le
        rw [List.length_append, List.length_take]
        omega

/-- `append_buffer` succeeds when the allocator does. -/
theorem append_buffer_total (ok : Nat → Bool) (hok : ∀ n, ok n = true) (b : capture_t)
    (data : Option (List Nat)) (n limit : Nat) :
    ∃ b1, append_buffer ok b data n limit = some b1 := by
  unfold append_buffer
  cases data with
  | none => exact ⟨_, rfl⟩
  | some src =>
    simp only [hok, if_true]
    repeat' split
    all_goals exact ⟨_, rfl⟩

theorem read_fd_loop_bytes (ok : Nat → Bool) (limit : Nat) (hlimit : 0 < limit) :
    ∀ (fd : List read_result) (b b1 : capture_t), stream_clean fd → b.length ≤ limit →
      read_fd_loop ok limit fd b = some b1 →
      b1.bytes = (b.bytes ++ stream_bytes fd).take limit := by
  intro fd
  induction fd with
  | nil =>
    intro b b1 _ hb h
    simp only [read_fd_loop, Option.some.injEq] at h
    subst h
    simp only [stream_bytes, List.append_nil]
    exact (List.take_of_length_le hb).symm
  | cons r rest ih =>
    intro b b1 hclean hb h
    cases r with
    | eintr =>
      simp only [read_fd_loop] at h
      simpa [stream_bytes] using ih b b1 hclean hb h
    | error => exact absurd hclean (by simp [stream_clean])
    | data chunk =>
      obtain ⟨hne, hrest⟩ := hclean
      have hlen : chunk.length ≠ 0 := fun h0 => hne (List.eq_nil_of_length_eq_zero h0)
      simp only [read_fd_loop, hlen, if_false, hlimit, if_true] at h
      have hcopy : (if (if limit > b.length then limit - b.length else 0) < chunk.length
          then (if limit > b.length then limit - b.length else 0) else chunk.length) =
          min (limit - b.bytes.length) chunk.length := by
        unfold capture_t.length
        split <;> split <;> omega
      rw [hcopy] at h
      cases ha : append_buffer ok b (some chunk) (min (limit - b.bytes.length) chunk.length) limit with
      | none => rw [ha] at h; cases h
      | some b2 =>
        rw [ha] at h
        simp only at h
        have hb2 := append_buffer_bytes ok b b2 chunk _ limit hlimit hb ha
        rw [take_append_take_min limit chunk.length b.bytes chunk hb, List.take_length] at hb2
        have hb2len : b2.length ≤ limit := by
          unfold capture_t.length
          rw [hb2, List.length_take]
          omega
        have key : ∀ b3 : capture_t, b3.bytes = b2.bytes →
            read_fd_loop ok limit rest b3 = some b1 →
            b1.bytes = (b.bytes ++ stream_bytes (read_result.data chunk :: rest)).take limit := by
          intro b3 h3 hloop
          have := ih b3 b1 hrest (by unfold capture_t.length; rw [h3]; exact hb2len) hloop
          rw [this, h3, hb2, take_take_append]
          simp [stream_bytes, List.append_assoc]
        split at h
        · exact key { b2 with truncated := true } rfl h
        · exact key b2 rfl h

theorem read_fd_loop_total (ok : Nat → Bool) (hok : ∀ n, ok n = true) (limit : Nat) :
    ∀ (fd : List read_result) (b : capture_t), stream_clean fd →
      ∃ b1, read_fd_loop ok limit fd b = some b1 := by
  intro fd
  induction fd with
  | nil => intro b _; exact ⟨b, rfl⟩
  | cons r rest ih =>
    intro b hclean
    cases r with
    | eintr => simpa [read_fd_loop] using ih b hclean
    | error => exact absurd hclean (by simp [stream_clean])
    | data chunk =>
      obtain ⟨hne, hrest⟩ := hclean
      have hlen : chunk.length ≠ 0 := fun h0 => hne (List.eq_nil_of_length_eq_zero h0)
      simp only [read_fd_loop, hlen, if_false]
      obtain ⟨b2, hb2⟩ := append_buffer_total ok hok b (some chunk)
        (if limit > 0 then
          (if (if limit > b.length then limit - b.length else 0) < chunk.length
            then (if limit > b.length then limit - b.length else 0) else chunk.length)
          else chunk.length) limit
      rw [hb2]
      exact ih _ hrest

/-- What `read_fd_into_buffer` captures into a fresh buffer: the first `limit`
bytes of what the pipe delivers. -/
theorem read_fd_into_buffer_bytes (ok : Nat → Bool) (limit : Nat) (hlimit : 0 < limit)
    (fd : List read_result) (hclean : stream_clean fd) (b : capture_t)
    (h : read_fd_into_buffer ok fd none false limit = some b) :
    b.bytes = (stream_bytes fd).take limit := by
  unfold read_fd_into_buffer at h
  simp only at h
  cases hl : read_fd_loop ok limit fd { buffer := none, capacity := 0, truncated := false } with
  | none => rw [hl] at h; cases h
  | some b1 =>
    rw [hl] at h
    have hb1 := read_fd_loop_bytes ok limit hlimit fd _ b1 hclean (by simp [capture_t.length, capture_t.bytes]) hl
    simp only [capture_t.bytes, Option.getD_none, List.nil_append] at hb1
    cases hbuf : b1.buffer with
    | some bytes =>
      simp only [hbuf, Option.some.injEq] at h
      subst h
      simpa [capture_t.bytes] using hb1
    | none =>
      simp only [hbuf] at h
      split at h
      · simp only [Option.some.injEq] at h
        subst h
        simp only [hbuf, Option.getD_none] at hb1
        simpa [capture_t.bytes] using hb1
      · cases h

theorem read_fd_into_buffer_total (ok : Nat → Bool) (hok : ∀ n, ok n = true) (limit : Nat)
    (fd : List read_result) (hclean : stream_clean fd) :
    ∃ b, read_fd_into_buffer ok fd none false limit = some b := by
  unfold read_fd_into_buffer
  obtain ⟨b1, hb1⟩ := read_fd_loop_total ok hok limit fd
    { buffer := none, capacity := 0, truncated := false } hclean
  simp only [hb1, hok, if_true]
  cases b1.buffer <;> exact ⟨_, rfl⟩

theorem run_single_command_stdout (sys : exec_sys) (command : command_t) (r : command_result_t)
    (h : run_single_command sys command = some r) :
    command_stdout sys command = r.stdout_buf ∧ command_stderr sys command = r.stderr_buf := by
  simp [command_stdout, command_stderr, h]

/-- The loop of `executor_run_task` keeps, in each stream, the first 65536 bytes
of what it held followed by the captures of the commands it runs. -/
theorem run_commands_loop_bytes (sys : exec_sys) (type : task_type_t) :
    ∀ (commands : List command_t) (st st1 : run_state_t),
      st.out.length ≤ ERRAID_MAX_STDIO_SNAPSHOT → st.err.length ≤ ERRAID_MAX_STDIO_SNAPSHOT →
      run_commands_loop sys type commands st = .ok st1 →
      st1.out.bytes = (st.out.bytes ++
        ((executed_of type commands).map (command_stdout sys)).flatten).take
          ERRAID_MAX_STDIO_SNAPSHOT ∧
      st1.err.bytes = (st.err.bytes ++
        ((executed_of type commands).map (command_stderr sys)).flatten).take
          ERRAID_MAX_STDIO_SNAPSHOT := by
  intro commands
  induction commands with
  | nil =>
    intro st st1 ho he h
    simp only [run_commands_loop, Except.ok.injEq] at h
    subst h
    have e : executed_of type [] = [] := by unfold executed_of; split <;> rfl
    simp only [e, List.map_nil, List.flatten_nil, List.append_nil]
    exact ⟨(List.take_of_length_le ho).symm, (List.take_of_length_le he).symm⟩
  | cons c rest ih =>
    intro st st1 ho he h
    have hL : 0 < ERRAID_MAX_STDIO_SNAPSHOT := by unfold ERRAID_MAX_STDIO_SNAPSHOT; omega
    rw [run_commands_loop] at h
    cases hr : run_single_command sys c with
    | none => rw [hr] at h; cases h
    | some r =>
      obtain ⟨hso, hse⟩ := run_single_command_stdout sys c r hr
      simp only [hr] at h
      cases ha : append_buffer sys.realloc_ok { st.out with truncated := r.stdout_truncated }
          (some r.stdout_buf) r.stdout_buf.length ERRAID_MAX_STDIO_SNAPSHOT with
      | none => rw [ha] at h; cases h
      | some out1 =>
        rw [ha] at h
        simp only at h
        cases hb : append_buffer sys.realloc_ok { st.err with truncated := r.stderr_truncated }
            (some r.stderr_buf) r.stderr_buf.length ERRAID_MAX_STDIO_SNAPSHOT with
        | none => rw [hb] at h; cases h
        | some err1 =>
          rw [hb] at h
          simp only at h
          have ho1 := append_buffer_bytes _ _ _ _ _ _ hL (by exact ho) ha
          have he1 := append_buffer_bytes _ _ _ _ _ _ hL (by exact he) hb
          rw [List.take_length] at ho1 he1
          have ho1b : out1.bytes = (st.out.bytes ++ command_stdout sys c).take
              ERRAID_MAX_STDIO_SNAPSHOT := by rw [ho1, hso]; rfl
          have he1b : err1.bytes = (st.err.bytes ++ command_stderr sys c).take
              ERRAID_MAX_STDIO_SNAPSHOT := by rw [he1, hse]; rfl
          by_cases hs : type = .TASK_TYPE_SIMPLE
          · simp only [hs, if_true, Except.ok.injEq] at h
            subst h
            have e : executed_of type (c :: rest) = [c] := by
              unfold executed_of; rw [if_pos hs]; rfl
            simp only [e, List.map_cons, List.map_nil, List.flatten_cons, List.flatten_nil,
              List.append_nil]
            exact ⟨ho1b, he1b⟩
          · rw [if_neg hs] at h
            have e : executed_of type (c :: rest) = c :: executed_of type rest := by
              unfold executed_of; rw [if_neg hs, if_neg hs]
            have hlo : out1.length ≤ ERRAID_MAX_STDIO_SNAPSHOT := by
              unfold capture_t.length; rw [ho1b, List.length_take]; omega
            have hle : err1.length ≤ ERRAID_MAX_STDIO_SNAPSHOT := by
              unfold capture_t.length; rw [he1b, List.length_take]; omega
            obtain ⟨r1, r2⟩ := ih { out := out1, err := err1, status := r.status } st1 hlo hle h
            simp only [e, List.map_cons, List.flatten_cons]
            rw [r1, r2, ho1b, he1b, take_take_append, take_take_append]
            simp [List.append_assoc]

theorem run_single_command_total (sys : exec_sys) (hok : ∀ n, sys.realloc_ok n = true)
    (command : command_t) (hrun : command_runs sys command) :
    ∃ r, run_single_command sys command = some r := by
  obtain ⟨hne, child, hsp, hco, hce, hw⟩ := hrun
  unfold run_single_command
  have h0 : command.argv.length ≠ 0 := fun h => hne (List.eq_nil_of_length_eq_zero h)
  rw [if_neg h0, hsp]
  obtain ⟨o, ho⟩ := read_fd_into_buffer_total sys.realloc_ok hok ERRAID_MAX_STDIO_SNAPSHOT _ hco
  obtain ⟨e, he⟩ := read_fd_into_buffer_total sys.realloc_ok hok ERRAID_MAX_STDIO_SNAPSHOT _ hce
  obtain ⟨w, hw⟩ := Option.isSome_iff_exists.1 hw
  simp only [ho, he, hw]
  exact ⟨_, rfl⟩

theorem run_commands_loop_total (sys : exec_sys) (hok : ∀ n, sys.realloc_ok n = true)
    (type : task_type_t) :
    ∀ (commands : List command_t) (st : run_state_t),
      (∀ c ∈ executed_of type commands, command_runs sys c) →
      ∃ st1, run_commands_loop sys type commands st = .ok st1 := by
  intro commands
  induction commands with
  | nil => intro st _; exact ⟨st, rfl⟩
  | cons c rest ih =>
    intro st hall
    have hc : command_runs sys c := by
      apply hall
      unfold executed_of
      split <;> simp
    obtain ⟨r, hr⟩ := run_single_command_total sys hok c hc
    rw [run_commands_loop]
    simp only [hr]
    obtain ⟨o1, ho1⟩ := append_buffer_total sys.realloc_ok hok
      { st.out with truncated := r.stdout_truncated } (some r.stdout_buf) r.stdout_buf.length
      ERRAID_MAX_STDIO_SNAPSHOT
    obtain ⟨e1, he1⟩ := append_buffer_total sys.realloc_ok hok
      { st.err with truncated := r.stderr_truncated } (some r.stderr_buf) r.stderr_buf.length
      ERRAID_MAX_STDIO_SNAPSHOT
    simp only [ho1, he1]
    by_cases hs : type = .TASK_TYPE_SIMPLE
    · rw [if_pos hs]; exact ⟨_, rfl⟩
    · rw [if_neg hs]
      apply ih
      intro c' hc'
      apply hall
      unfold executed_of at hc' ⊢
      rw [if_neg hs] at hc' ⊢
      exact List.mem_cons_of_mem _ hc'

/-- C10. Bounded capture. (1) For every sequence of chunks a pipe delivers,
the buffer captured by `read_fd_into_buffer` is exactly the first
min(total, 65536) bytes of the concatenation of the chunks, and the capture
succeeds when the allocator does. (2) For a task run that `executor_run_task`
completes, the stdout (resp. stderr) returned is the first min(total, 65536)
bytes of the concatenation of the captures of the commands run, so its length
never exceeds 65536 and is exactly 65536 when the output exceeds 65536 bytes.
(3) The run completes when every command to run can be spawned, read and
waited for and the allocator succeeds. -/
theorem bounded_capture (sys : exec_sys) (fd : List read_result) (hclean : stream_clean fd)
    (task : task_t) (res : executor_result_t) (hrun : executor_run_task sys task = (true, res)) :
    (∀ b, read_fd_into_buffer sys.realloc_ok fd none false ERRAID_MAX_STDIO_SNAPSHOT = some b →
      b.bytes = (stream_bytes fd).take (min (stream_bytes fd).length 65536)) ∧
    ((∀ n, sys.realloc_ok n = true) →
      ∃ b, read_fd_into_buffer sys.realloc_ok fd none false ERRAID_MAX_STDIO_SNAPSHOT = some b) ∧
    res.stdout_buf.getD [] =
      (((executed_commands task).map (command_stdout sys)).flatten).take
        (min (((executed_commands task).map (command_stdout sys)).flatten).length 65536) ∧
    res.stderr_buf.getD [] =
      (((executed_commands task).map (command_stderr sys)).flatten).take
        (min (((executed_commands task).map (command_stderr sys)).flatten).length 65536) ∧
    res.stdout_len ≤ 65536 ∧ res.stderr_len ≤ 65536 ∧
    ((((executed_commands task).map (command_stdout sys)).flatten).length > 65536 →
      res.stdout_len = 65536) ∧
    ((((executed_commands task).map (command_stderr sys)).flatten).length > 65536 →
      res.stderr_len = 65536) ∧
    ((∀ n, sys.realloc_ok n = true) → (∀ c ∈ executed_commands task, command_runs sys c) →
      (executor_run_task sys task).1 = true) := by
  have hmin : ∀ l : List Nat, l.take (min l.length 65536) = l.take 65536 := by
    intro l
    by_cases h : l.length ≤ 65536
    · rw [Nat.min_eq_left h, List.take_length, List.take_of_length_le h]
    · rw [Nat.min_eq_right (by omega)]
  have hout : res.stdout_buf.getD [] =
        (((executed_commands task).map (command_stdout sys)).flatten).take 65536 ∧
      res.stderr_buf.getD [] =
        (((executed_commands task).map (command_stderr sys)).flatten).take 65536 := by
    unfold executor_run_task at hrun
    by_cases h0 : task.commands.length = 0
    · rw [if_pos h0] at hrun
      simp only [Prod.mk.injEq, true_and] at hrun
      subst hrun
      have : task.commands = [] := List.eq_nil_of_length_eq_zero h0
      have e : executed_commands task = [] := by
        unfold executed_commands; rw [this]; split <;> rfl
      simp [e, executor_result_zero]
    · rw [if_neg h0] at hrun
      cases hl : run_commands_loop sys task.type task.commands
          { out := { buffer := none, capacity := 0, truncated := false }
            err := { buffer := none, capacity := 0, truncated := false }
            status := 0 } with
      | error st => rw [hl] at hrun; simp at hrun
      | ok st =>
        rw [hl] at hrun
        simp only [Prod.mk.injEq, true_and] at hrun
        subst hrun
        obtain ⟨r1, r2⟩ := run_commands_loop_bytes sys task.type task.commands _ st
          (by simp [capture_t.length, capture_t.bytes])
          (by simp [capture_t.length, capture_t.bytes]) hl
        simp only [capture_t.bytes, Option.getD_none, List.nil_append] at r1 r2
        exact ⟨r1, r2⟩
  refine ⟨?_, ?_, ?_, ?_, ?_, ?_, ?_, ?_, ?_⟩
  · intro b hb
    rw [hmin]
    exact read_fd_into_buffer_bytes sys.realloc_ok ERRAID_MAX_STDIO_SNAPSHOT (by decide)
      fd hclean b hb
  · intro hok
    exact read_fd_into_buffer_total sys.realloc_ok hok _ fd hclean
  · rw [hmin]; exact hout.1
  · rw [hmin]; exact hout.2
  · unfold executor_result_t.stdout_len; rw [hout.1, List.length_take]; omega
  · unfold executor_result_t.stderr_len; rw [hout.2, List.length_take]; omega
  · intro h; unfold executor_result_t.stdout_len; rw [hout.1, List.length_take]; omega
  · intro h; unfold executor_result_t.stderr_len; rw [hout.2, List.length_take]; omega
  · intro hok hall
    unfold executor_run_task
    by_cases h0 : task.commands.length = 0
    · rw [if_pos h0]
    · rw [if_neg h0]
      obtain ⟨st1, h1⟩ := run_commands_loop_total sys hok task.type task.commands
        { out := { buffer := none, capacity := 0, truncated := false }
          err := { buffer := none, capacity := 0, truncated := false }
          status := 0 } hall
      rw [h1]

/-- C10, at a concrete run: the SEQUENCE task `echo A; echo B` completes with
stdout `A\nB\n`, which is the concatenation of the two captures. -/
theorem bounded_capture_witness :
    stream_clean [.eintr, .data (str "B"), .data (str "\n")] ∧
    executor_run_task echo_sys echo_task =
      (true, { stdout_buf := some (str "A\nB\n"), stderr_buf := none, status := 0,
               stdout_truncated := false, stderr_truncated := false }) ∧
    (some (str "A\nB\n") : Option (List Nat)).getD [] =
      (((executed_commands echo_task).map (command_stdout echo_sys)).flatten).take
        (min (((executed_commands echo_task).map (command_stdout echo_sys)).flatten).length 65536) :=
  ⟨by simp [stream_clean, str], by decide,
    (bounded_capture echo_sys [.eintr, .data (str "B"), .data (str "\n")]
      (by simp [stream_clean, str]) echo_task
      { stdout_buf := some (str "A\nB\n"), stderr_buf := none, status := 0,
        stdout_truncated := false, stderr_truncated := false } (by decide)).2.2.1⟩

/-! ## Decimal and hexadecimal text -/

theorem digit_value_digit_byte (d : Nat) (h : d < 16) : digit_value (digit_byte d) = some d := by
  unfold digit_value digit_byte
  by_cases h10 : d < 10
  · rw [if_pos h10, if_pos (by omega)]
    congr 1; omega
  · rw [if_neg h10, if_neg (by omega), if_neg (by omega), if_pos (by omega)]
    congr 1; omega

theorem digits_aux_append (base : Nat) :
    ∀ (fuel n : Nat) (acc : List Nat),
      digits_aux base fuel n acc = digits_aux base fuel n [] ++ acc := by
  intro fuel
  induction fuel with
  | zero => intro n acc; simp [digits_aux]
  | succ f ih =>
    intro n acc
    unfold digits_aux
    split
    · simp
    · rw [ih (n / base) (digit_byte (n % base) :: acc), ih (n / base) [digit_byte (n % base)]]
      simp

/-- Scanning the digits printed for `n` gives `n` back: after the digits the
accumulator holds `a * base ^ len + n`. -/
theorem scan_digits_digits_aux (base : Nat) (hb2 : 2 ≤ base) (hb16 : base ≤ 16) :
    ∀ (fuel n : Nat), n < base ^ fuel → ∀ (a k : Nat) (rest : List Nat),
      scan_digits base (digits_aux base fuel n [] ++ rest) a k =
        scan_digits base rest (a * base ^ (digits_aux base fuel n []).length + n)
          (k + (digits_aux base fuel n []).length) := by
  intro fuel
  induction fuel with
  | zero =>
    intro n hn a k rest
    have : n = 0 := by simpa using hn
    subst this
    simp [digits_aux]
  | succ f ih =>
    intro n hn a k rest
    have hmod : n % base < base := Nat.mod_lt _ (by omega)
    have hdv := digit_value_digit_byte (n % base) (by omega)
    unfold digits_aux
    by_cases h0 : n / base = 0
    · rw [if_pos h0]
      have hlt : n < base := by
        rcases Nat.lt_or_ge n base with h | h
        · exact h
        · have := Nat.div_pos h (by omega : 0 < base); omega
      have hm : n % base = n := Nat.mod_eq_of_lt hlt
      rw [hm] at hdv
      simp [scan_digits, hdv, hlt, hm]
    · rw [if_neg h0, digits_aux_append base f (n / base) [digit_byte (n % base)]]
      have hdiv : n / base < base ^ f := by
        rw [Nat.div_lt_iff_lt_mul (by omega)]
        rw [pow_succ] at hn
        exact hn
      rw [List.append_assoc, ih (n / base) hdiv]
      simp only [List.cons_append, List.nil_append, scan_digits, hdv, hmod, if_true,
        List.length_append, List.length_singleton]
      have e1 : (a * base ^ (digits_aux base f (n / base) []).length + n / base) * base + n % base =
          a * base ^ ((digits_aux base f (n / base) []).length + 1) + n := by
        rw [pow_succ, Nat.add_mul, Nat.mul_assoc, Nat.add_assoc]
        congr 1
        have := Nat.div_add_mod n base
        rw [Nat.mul_comm]; exact this
      rw [e1, Nat.add_assoc]
      rfl

/-- The digits printed are digits of the base. -/
theorem digits_aux_bytes (base : Nat) (hb2 : 2 ≤ base) (hb16 : base ≤ 16) :
    ∀ (fuel n : Nat), ∀ c ∈ digits_aux base fuel n [],
      ∃ d, d < base ∧ c = digit_byte d := by
  intro fuel
  induction fuel with
  | zero => intro n c hc; simp [digits_aux] at hc
  | succ f ih =>
    intro n c hc
    have hmod : n % base < base := Nat.mod_lt _ (by omega)
    unfold digits_aux at hc
    split at hc
    · simp only [List.mem_singleton] at hc
      exact ⟨_, hmod, hc⟩
    · rw [digits_aux_append] at hc
      simp only [List.mem_append, List.mem_singleton] at hc
      rcases hc with hc | hc
      · exact ih _ c hc
      · exact ⟨_, hmod, hc⟩

theorem digits_aux_ne_nil (base f n : Nat) : digits_aux base (f + 1) n [] ≠ [] := by
  unfold digits_aux
  split
  · simp
  · rw [digits_aux_append]; simp

/-- A number below `base ^ k` prints at most `k` digits. -/
theorem digits_aux_length_le (base : Nat) (hb2 : 2 ≤ base) :
    ∀ (fuel k n : Nat), 1 ≤ k → n < base ^ k → (digits_aux base fuel n []).length ≤ k := by
  intro fuel
  induction fuel with
  | zero => intro k n _ _; simp [digits_aux]
  | succ f ih =>
    intro k n hk hn
    unfold digits_aux
    split
    · simpa using hk
    · rename_i h0
      rw [digits_aux_append]
      simp only [List.length_append, List.length_singleton]
      obtain ⟨j, rfl⟩ : ∃ j, k = j + 1 := ⟨k - 1, by omega⟩
      have hdiv : n / base < base ^ j := by
        rw [Nat.div_lt_iff_lt_mul (by omega)]
        rw [pow_succ] at hn
        exact hn
      have hj : 1 ≤ j := by
        rcases Nat.eq_zero_or_pos j with h | h
        · subst h
          simp only [pow_zero, Nat.lt_one_iff] at hdiv
          exact absurd hdiv h0
        · exact h
      have := ih j (n / base) hj hdiv
      omega

theorem strto_sign_digit_head (c : Nat) (t : List Nat) (hc : c ≠ 45 ∧ c ≠ 43) :
    strto_sign (c :: t) = (false, c :: t) := by
  unfold strto_sign
  split
  · rename_i h; simp only [List.cons.injEq] at h; omega
  · rename_i h; simp only [List.cons.injEq] at h; omega
  · rfl

theorem strto_prefix_ten (s : List Nat) : strto_prefix 10 s = s := by
  unfold strto_prefix
  split
  · rw [if_neg (by omega)]
  · rfl

theorem strto_scan_digit_head (c : Nat) (t : List Nat) (hc : 48 ≤ c ∧ c ≤ 57) :
    strto_scan (c :: t) 10 = (false, scan_digits 10 (c :: t) 0 0) := by
  have hsp : isspace c = false := by
    unfold isspace
    simp only [Bool.or_eq_false_iff, decide_eq_false_iff_not, Bool.and_eq_false_iff]
    constructor
    · omega
    · right; omega
  unfold strto_scan
  simp only [List.dropWhile, hsp, strto_sign_digit_head c t (by omega), strto_prefix_ten]

/-- Reading back a printed `unsigned long long` followed by a newline. -/
theorem parse_uint64_fmt_llu (n : Nat) (hn : n < 2 ^ 64) :
    parse_uint64 (fmt_llu n ++ [10]) = some n := by
  have hmod : n % 2 ^ 64 = n := Nat.mod_eq_of_lt hn
  have hlt : n < 10 ^ 64 := lt_trans hn (by norm_num)
  have hne : digits_aux 10 64 n [] ≠ [] := digits_aux_ne_nil 10 63 n
  obtain ⟨c, t, hct⟩ := List.exists_cons_of_ne_nil hne
  have hc : 48 ≤ c ∧ c ≤ 57 := by
    obtain ⟨d, hd, rfl⟩ := digits_aux_bytes 10 (by omega) (by omega) 64 n c (by rw [hct]; simp)
    unfold digit_byte
    rw [if_pos hd]
    omega
  have hscan := scan_digits_digits_aux 10 (by omega) (by omega) 64 n hlt 0 0 [10]
  have hrest : scan_digits 10 [10] (0 * 10 ^ (digits_aux 10 64 n []).length + n)
      (0 + (digits_aux 10 64 n []).length) = (n, (digits_aux 10 64 n []).length, [10]) := by
    simp [scan_digits, digit_value]
  rw [hrest] at hscan
  have hlen : (digits_aux 10 64 n []).length ≠ 0 := by
    rw [hct]; simp
  unfold parse_uint64 strtoull fmt_llu
  rw [hmod, hct, List.cons_append, strto_scan_digit_head c _ hc, ← List.cons_append, ← hct, hscan]
  have hle : ¬ (18446744073709551615 < n) := by omega
  simp [hlen, hle, trim_whitespace]

/-- A printed `unsigned long long` has at most 20 characters. -/
theorem fmt_llu_length (n : Nat) : (fmt_llu n).length ≤ 20 := by
  unfold fmt_llu
  apply digits_aux_length_le 10 (by omega) 64 20 _ (by omega)
  exact lt_trans (Nat.mod_lt _ (by norm_num)) (by norm_num)

/-- The bytes of a printed `unsigned long long` are decimal digits. -/
theorem fmt_llu_bytes (n : Nat) : ∀ c ∈ fmt_llu n, 48 ≤ c ∧ c ≤ 57 := by
  intro c hc
  obtain ⟨d, hd, rfl⟩ := digits_aux_bytes 10 (by omega) (by omega) 64 _ c hc
  unfold digit_byte
  rw [if_pos hd]
  omega

theorem fmt_llu_ne_nil (n : Nat) : fmt_llu n ≠ [] := digits_aux_ne_nil 10 63 _

/-! ## File system -/

theorem fs_find_append (fs : fs_t) (p q : List Nat) (n : node_t) :
    fs_find (fs ++ [(p, n)]) q =
      match fs_find fs q with
      | some m => some m
      | none => if p = q then some n else none := by
  induction fs with
  | nil => simp [fs_find]
  | cons e rest ih =>
    obtain ⟨p1, n1⟩ := e
    simp only [List.cons_append, fs_find]
    split
    · rfl
    · exact ih

theorem fs_find_map_put (fs : fs_t) (p q : List Nat) (n : node_t) :
    fs_find (fs.map (fun e => (e.1, if e.1 = p then n else e.2))) q =
      if p = q then (fs_find fs q).map (fun _ => n) else fs_find fs q := by
  induction fs with
  | nil => simp [fs_find]
  | cons e rest ih =>
    simp only [List.map_cons, fs_find]
    by_cases h2 : e.1 = q
    · by_cases h3 : p = q
      · simp [h2, h3]
      · have h1 : ¬ q = p := fun h => h3 h.symm
        simp [h2, h3, h1]
    · simp only [h2, if_false]
      exact ih

theorem fs_find_put_same (fs : fs_t) (p : List Nat) (n : node_t) :
    fs_find (fs_put fs p n) p = some n := by
  unfold fs_put
  cases h : fs_find fs p with
  | none => simp [fs_find_append, h]
  | some m => simp [fs_find_map_put, h]

theorem fs_find_put_other (fs : fs_t) (p q : List Nat) (n : node_t) (hpq : p ≠ q) :
    fs_find (fs_put fs p n) q = fs_find fs q := by
  unfold fs_put
  cases h : fs_find fs p with
  | none =>
    simp only [fs_find_append, hpq, if_false]
    cases fs_find fs q <;> rfl
  | some m => simp [fs_find_map_put, hpq]

theorem fs_find_remove_other (fs : fs_t) (p q : List Nat) (hpq : p ≠ q) :
    fs_find (fs_remove fs p) q = fs_find fs q := by
  unfold fs_remove
  induction fs with
  | nil => simp [fs_find]
  | cons e rest ih =>
    obtain ⟨p1, n1⟩ := e
    by_cases h1 : p1 = p
    · subst h1
      simp only [List.filter, ne_eq, not_true_eq_false, decide_False, fs_find, hpq, if_false]
      exact ih
    · simp only [List.filter, ne_eq, h1, not_false_eq_true, decide_True, fs_find]
      split
      · rfl
      · exact ih

theorem fs_find_remove_same (fs : fs_t) (p : List Nat) : fs_find (fs_remove fs p) p = none := by
  unfold fs_remove
  induction fs with
  | nil => simp [fs_find]
  | cons e rest ih =>
    obtain ⟨p1, n1⟩ := e
    by_cases h1 : p1 = p
    · subst h1
      simp only [List.filter, ne_eq, not_true_eq_false, decide_False]
      exact ih
    · simp only [List.filter, ne_eq, h1, not_false_eq_true, decide_True, fs_find, if_false]
      exact ih

theorem sys_unlink_find_other (fs fs1 : fs_t) (p q : List Nat) (hpq : p ≠ q)
    (h : sys_unlink fs p = .ok fs1) : fs_find fs1 q = fs_find fs q := by
  unfold sys_unlink at h
  split at h
  · simp only [Except.ok.injEq] at h; subst h; exact fs_find_remove_other fs p q hpq
  · cases h
  · cases h

theorem sys_rmdir_find_other (fs fs1 : fs_t) (p q : List Nat) (hpq : p ≠ q)
    (h : sys_rmdir fs p = .ok fs1) : fs_find fs1 q = fs_find fs q := by
  unfold sys_rmdir at h
  split at h
  · split at h
    · cases h
    · simp only [Except.ok.injEq] at h; subst h; exact fs_find_remove_other fs p q hpq
  · cases h
  · cases h

/-- The shape of a joined path. -/
theorem utils_join_path_eq (a b p : List Nat) (buflen : Nat)
    (h : utils_join_path a b buflen = some p) :
    ∃ sep : List Nat, (sep = [47] ∨ sep = []) ∧
      p = a ++ sep ++ b.dropWhile (fun c => decide (c = 47)) ∧ p.length < buflen := by
  unfold utils_join_path at h
  simp only at h
  by_cases hs : decide (a.length > 0 ∧ a.getLast? ≠ some 47) = true
  · simp only [hs, if_true] at h
    by_cases hl : a.length + 1 + (List.dropWhile (fun c => decide (c = 47)) b).length + 1 > buflen
    · rw [if_pos hl] at h; cases h
    · rw [if_neg hl] at h
      simp only [Option.some.injEq] at h
      subst h
      refine ⟨[47], Or.inl rfl, rfl, ?_⟩
      simp only [List.length_append, List.length_singleton]
      omega
  · have hs1 : decide (a.length > 0 ∧ a.getLast? ≠ some 47) = false := by
      simpa using hs
    simp only [hs1, Bool.false_eq_true, if_false] at h
    by_cases hl : a.length + 0 + (List.dropWhile (fun c => decide (c = 47)) b).length + 1 > buflen
    · rw [if_pos hl] at h; cases h
    · rw [if_neg hl] at h
      simp only [Option.some.injEq] at h
      subst h
      refine ⟨[], Or.inr rfl, rfl, ?_⟩
      simp only [List.length_append, List.length_nil]
      omega

/-- The last byte of a joined path is the last byte of its second part. -/
theorem utils_join_path_getLast (a b p : List Nat) (buflen : Nat)
    (h : utils_join_path a b buflen = some p)
    (hb : b.dropWhile (fun c => decide (c = 47)) ≠ []) :
    p.getLast? = (b.dropWhile (fun c => decide (c = 47))).getLast? := by
  obtain ⟨sep, _, rfl, _⟩ := utils_join_path_eq a b p buflen h
  rw [List.getLast?_append_of_ne_nil _ hb]

theorem dropWhile_slash_of_head (c : Nat) (t : List Nat) (hc : c ≠ 47) :
    (c :: t).dropWhile (fun c => decide (c = 47)) = c :: t := by
  simp [List.dropWhile, hc]

/-! ## Identifier allocation -/

theorem takeWhile_eq_self_of_all {α : Type} (p : α → Bool) (l : List α)
    (h : ∀ x ∈ l, p x = true) : l.takeWhile p = l := by
  induction l with
  | nil => rfl
  | cons x xs ih =>
    have hx := h x (by simp)
    simp only [List.takeWhile, hx]
    rw [ih (fun y hy => h y (List.mem_cons_of_mem _ hy))]

/-- Reading back the content that `storage_allocate_task_id` stores. -/
theorem next_id_content_parse (m : Nat) (hm : m < 2 ^ 64) :
    (if ((fmt_llu m ++ [10]).take 63).length > 0 then
      parse_uint64 (((fmt_llu m ++ [10]).take 63).takeWhile (fun c => decide (c ≠ 0)))
    else some 1) = some m := by
  have hlen := fmt_llu_length m
  have htake : (fmt_llu m ++ [10]).take 63 = fmt_llu m ++ [10] := by
    apply List.take_of_length_le
    simp only [List.length_append, List.length_singleton]
    omega
  rw [htake]
  have hpos : (fmt_llu m ++ [10]).length > 0 := by simp
  rw [if_pos hpos, takeWhile_eq_self_of_all]
  · exact parse_uint64_fmt_llu m hm
  · intro x hx
    simp only [List.mem_append, List.mem_singleton] at hx
    rcases hx with hx | hx
    · have := fmt_llu_bytes m x hx
      simp only [ne_eq, decide_not, Bool.not_eq_true', decide_eq_false_iff_not]
      omega
    · subst hx; decide

/-- One allocation: the identifier returned is the value stored in `next_id`
(1 when the file is absent or empty), and the value stored afterwards is that
value plus one (in `uint64_t`). -/
theorem storage_allocate_task_id_spec (fs fs1 : fs_t) (paths : storage_paths_t) (id : Nat)
    (h : storage_allocate_task_id fs paths = (.ok id, fs1)) :
    stored_next_id fs paths = some id ∧ stored_next_id fs1 paths = some ((id + 1) % 2 ^ 64) ∧
    ∃ id_path, utils_join_path paths.tasks_dir (str "next_id") PATH_MAX = some id_path ∧
      fs_find fs1 id_path = some (.file (fmt_llu ((id + 1) % 2 ^ 64) ++ [10])) := by
  unfold storage_allocate_task_id at h
  unfold stored_next_id
  cases hj : utils_join_path paths.tasks_dir (str "next_id") PATH_MAX with
  | none => rw [hj] at h; simp at h
  | some id_path =>
    rw [hj] at h
    simp only at h ⊢
    have hm : (id + 1) % 2 ^ 64 < 2 ^ 64 := Nat.mod_lt _ (by norm_num)
    -- what holds once the file was opened with content `content` in `fs0`
    have key : ∀ (fs0 : fs_t) (content : List Nat),
        (match (if (content.take 63).length > 0 then
            parse_uint64 ((content.take 63).takeWhile (fun c => decide (c ≠ 0))) else some 1) with
          | none => ((Except.error Errno.EINVAL : Except Errno Nat), fs0)
          | some next_id =>
            (.ok next_id, fs_put fs0 id_path (.file (fmt_llu ((next_id + 1) % 2 ^ 64) ++ [10])))) =
          (.ok id, fs1) →
        (if (content.take 63).length > 0 then
            parse_uint64 ((content.take 63).takeWhile (fun c => decide (c ≠ 0))) else some 1) =
          some id ∧
        fs_find fs1 id_path = some (.file (fmt_llu ((id + 1) % 2 ^ 64) ++ [10])) := by
      intro fs0 content hk
      cases hp : (if (content.take 63).length > 0 then
            parse_uint64 ((content.take 63).takeWhile (fun c => decide (c ≠ 0))) else some 1) with
      | none => rw [hp] at hk; simp at hk
      | some v =>
        rw [hp] at hk
        simp only [Prod.mk.injEq, Except.ok.injEq] at hk
        obtain ⟨rfl, rfl⟩ := hk
        exact ⟨rfl, fs_find_put_same _ _ _⟩
    cases hf : fs_find fs id_path with
    | none =>
      simp only [sys_open_creat, hf] at h
      cases hpar : fs_find fs (parent_path id_path) with
      | none => simp [hpar] at h
      | some nd =>
        cases nd with
        | file c => simp [hpar] at h
        | dir =>
          simp only [hpar] at h
          have hfa : fs_find (fs ++ [(id_path, node_t.file [])]) id_path = some (.file []) := by
            rw [fs_find_append, hf]; simp
          simp only [sys_read_file, hfa] at h
          obtain ⟨h1, h2⟩ := key _ [] h
          simp only [List.take_nil, List.length_nil, gt_iff_lt, lt_self_iff_false, if_false,
            Option.some.injEq] at h1
          refine ⟨by rw [h1], ?_, id_path, rfl, h2⟩
          rw [h2]
          exact next_id_content_parse _ hm
    | some nd =>
      cases nd with
      | dir => simp [sys_open_creat, hf] at h
      | file c =>
        simp only [sys_open_creat, hf, Bool.false_eq_true, if_false, sys_read_file] at h
        obtain ⟨h1, h2⟩ := key _ c h
        refine ⟨h1, ?_, id_path, rfl, h2⟩
        rw [h2]
        exact next_id_content_parse _ hm

theorem keep_on_error_unlink_find (fs : fs_t) (p q : List Nat) (hpq : p ≠ q) :
    fs_find (keep_on_error (sys_unlink fs p) fs) q = fs_find fs q := by
  cases h : sys_unlink fs p with
  | error e => rfl
  | ok fs1 => exact sys_unlink_find_other fs fs1 p q hpq h

theorem keep_on_error_rmdir_find (fs : fs_t) (p q : List Nat) (hpq : p ≠ q) :
    fs_find (keep_on_error (sys_rmdir fs p) fs) q = fs_find fs q := by
  cases h : sys_rmdir fs p with
  | error e => rfl
  | ok fs1 => exact sys_rmdir_find_other fs fs1 p q hpq h

theorem fmt_llu_append_dropWhile (n : Nat) (s : List Nat) :
    (fmt_llu n ++ s).dropWhile (fun c => decide (c = 47)) = fmt_llu n ++ s := by
  obtain ⟨c, t, hct⟩ := List.exists_cons_of_ne_nil (fmt_llu_ne_nil n)
  have hc := fmt_llu_bytes n c (by rw [hct]; simp)
  rw [hct, List.cons_append]
  exact dropWhile_slash_of_head c _ (by omega)

theorem fmt_llu_getLast (n : Nat) : ∃ c, (fmt_llu n).getLast? = some c ∧ 48 ≤ c ∧ c ≤ 57 := by
  have hne := fmt_llu_ne_nil n
  refine ⟨(fmt_llu n).getLast hne, List.getLast?_eq_getLast _ hne, ?_⟩
  exact fmt_llu_bytes n _ (List.getLast_mem hne)

/-- A path joined from a directory and a non-empty name that does not start
with a slash ends with the last byte of the name. -/
theorem join_last_byte (a b p : List Nat) (buflen c : Nat)
    (h : utils_join_path a b buflen = some p)
    (hd : b.dropWhile (fun c => decide (c = 47)) = b) (hl : b.getLast? = some c) :
    p.getLast? = some c := by
  have hb : b.dropWhile (fun c => decide (c = 47)) ≠ [] := by
    rw [hd]; intro h0; rw [h0] at hl; simp at hl
  rw [utils_join_path_getLast a b p buflen h hb, hd, hl]

/-- Removing a task leaves alone every path that ends with the byte `d`, and
so the file `next_id`. -/
theorem storage_remove_task_find (fs : fs_t) (paths : storage_paths_t) (task_id : Nat)
    (q : List Nat) (hq : q.getLast? = some 100) :
    fs_find (storage_remove_task fs paths task_id).2 q = fs_find fs q := by
  have hne : ∀ (p : List Nat) (c : Nat), p.getLast? = some c → c ≠ 100 → p ≠ q := by
    intro p c hp hc heq
    rw [heq, hq] at hp
    simp only [Option.some.injEq] at hp
    exact hc hp.symm
  unfold storage_remove_task
  simp only
  split
  · rfl
  · cases hj1 : utils_join_path paths.tasks_dir (fmt_llu task_id ++ str ".task") PATH_MAX with
    | none => rfl
    | some task_path =>
      simp only
      have hl1 : task_path.getLast? = some 107 :=
        join_last_byte _ _ _ _ 107 hj1 (fmt_llu_append_dropWhile _ _)
          (by rw [List.getLast?_append_of_ne_nil _ (by decide)]; decide)
      cases hu : sys_unlink fs task_path with
      | error e => rfl
      | ok fs1 =>
        simp only
        have h1 : fs_find fs1 q = fs_find fs q :=
          sys_unlink_find_other fs fs1 task_path q (hne _ _ hl1 (by decide)) hu
        split
        · exact h1
        · cases hj2 : utils_join_path paths.logs_dir (fmt_llu task_id) PATH_MAX with
          | none => exact h1
          | some log_dir =>
            simp only
            obtain ⟨c, hc, hc48, hc57⟩ := fmt_llu_getLast task_id
            have hd2 : (fmt_llu task_id).dropWhile (fun c => decide (c = 47)) = fmt_llu task_id := by
              have := fmt_llu_append_dropWhile task_id []
              simpa using this
            have hl2 : log_dir.getLast? = some c := join_last_byte _ _ _ _ c hj2 hd2 hc
            cases hj3 : utils_join_path log_dir (str "history.log") PATH_MAX with
            | none => exact h1
            | some history_path =>
              cases hj4 : utils_join_path log_dir (str "last.stdout") PATH_MAX with
              | none => exact h1
              | some stdout_path =>
                cases hj5 : utils_join_path log_dir (str "last.stderr") PATH_MAX with
                | none => exact h1
                | some stderr_path =>
                  simp only
                  have hl3 : history_path.getLast? = some 103 :=
                    join_last_byte _ _ _ _ 103 hj3 (by decide) (by decide)
                  have hl4 : stdout_path.getLast? = some 116 :=
                    join_last_byte _ _ _ _ 116 hj4 (by decide) (by decide)
                  have hl5 : stderr_path.getLast? = some 114 :=
                    join_last_byte _ _ _ _ 114 hj5 (by decide) (by decide)
                  rw [keep_on_error_rmdir_find _ _ _ (hne _ _ hl2 (by omega)),
                    keep_on_error_unlink_find _ _ _ (hne _ _ hl5 (by decide)),
                    keep_on_error_unlink_find _ _ _ (hne _ _ hl4 (by decide)),
                    keep_on_error_unlink_find _ _ _ (hne _ _ hl3 (by decide))]
                  exact h1

theorem storage_remove_task_stored_next_id (fs : fs_t) (paths : storage_paths_t) (task_id : Nat) :
    stored_next_id (storage_remove_task fs paths task_id).2 paths = stored_next_id fs paths := by
  unfold stored_next_id
  cases hj : utils_join_path paths.tasks_dir (str "next_id") PATH_MAX with
  | none => rfl
  | some id_path =>
    simp only
    have hl : id_path.getLast? = some 100 := join_last_byte _ _ _ _ 100 hj (by decide) (by decide)
    rw [storage_remove_task_find fs paths task_id id_path hl]

/-- The identifiers of a run of successful allocations, with removals in
between: consecutive values from the stored one on, as long as the counter
does not wrap. -/
theorem run_store_ops_ids (paths : storage_paths_t) :
    ∀ (ops : List store_op) (fs : fs_t) (v : Nat) (ids : List Nat),
      stored_next_id fs paths = some v →
      (run_store_ops paths ops fs).1 = ids.map Except.ok →
      v + ids.length ≤ 2 ^ 64 →
      ids = List.range' v ids.length := by
  intro ops
  induction ops with
  | nil =>
    intro fs v ids _ hrun _
    simp only [run_store_ops] at hrun
    have : ids = [] := by
      cases ids with
      | nil => rfl
      | cons a t => simp at hrun
    subst this
    rfl
  | cons op ops ih =>
    intro fs v ids hv hrun hbound
    cases op with
    | remove task_id =>
      simp only [run_store_ops] at hrun
      exact ih _ v ids (by rw [storage_remove_task_stored_next_id]; exact hv) hrun hbound
    | allocate =>
      simp only [run_store_ops] at hrun
      cases ids with
      | nil => simp at hrun
      | cons id rest =>
        simp only [List.map_cons, List.cons.injEq] at hrun
        obtain ⟨hr1, hr2⟩ := hrun
        obtain ⟨h1, h2, _⟩ := storage_allocate_task_id_spec fs
          (storage_allocate_task_id fs paths).2 paths id (by rw [← hr1])
        rw [hv] at h1
        simp only [Option.some.injEq] at h1
        subst h1
        simp only [List.length_cons] at hbound ⊢
        rw [List.range'_succ]
        congr 1
        by_cases hw : v + 1 < 2 ^ 64
        · rw [Nat.mod_eq_of_lt hw] at h2
          exact ih _ (v + 1) rest h2 hr2 (by omega)
        · have hlen : rest.length = 0 := by omega
          have : rest = [] := List.eq_nil_of_length_eq_zero hlen
          subst this
          rfl

theorem range_succ_pairwise_lt (v n : Nat) : (List.range' v n).Pairwise (fun a b => a < b) := by
  rw [List.pairwise_iff_getElem]
  intro i j hi hj hij
  simp only [List.getElem_range']
  omega

/-- C6. Identifier allocation. (1) A successful `storage_allocate_task_id`
returns the value stored in `next_id` (1 when the file is absent or empty) and
stores that value plus one (a `uint64_t`). (2) From a fresh store (no `next_id`
file, or one that holds 1), for any sequence of successful allocations with
task removals in between, the k-th allocation returns k; so the identifiers
returned are strictly increasing in allocation order and pairwise distinct (for
fewer than 2^64 allocations). -/
theorem task_id_allocation (paths : storage_paths_t) (fs : fs_t) (ops : List store_op)
    (ids : List Nat) (hfresh : stored_next_id fs paths = some 1)
    (hrun : (run_store_ops paths ops fs).1 = ids.map Except.ok)
    (hcount : ids.length < 2 ^ 64) :
    (∀ id fs1, storage_allocate_task_id fs paths = (.ok id, fs1) →
      id = 1 ∧ stored_next_id fs1 paths = some ((id + 1) % 2 ^ 64)) ∧
    (∀ (g : fs_t) (id : Nat) (g1 : fs_t), storage_allocate_task_id g paths = (.ok id, g1) →
      stored_next_id g paths = some id ∧ stored_next_id g1 paths = some ((id + 1) % 2 ^ 64)) ∧
    (∀ k (hk : k < ids.length), ids[k] = k + 1) ∧
    ids.Pairwise (fun a b => a < b) ∧ ids.Nodup := by
  have hids := run_store_ops_ids paths ops fs 1 ids hfresh hrun (by omega)
  refine ⟨?_, ?_, ?_, ?_, ?_⟩
  · intro id fs1 h
    obtain ⟨h1, h2, _⟩ := storage_allocate_task_id_spec fs fs1 paths id h
    rw [hfresh] at h1
    simp only [Option.some.injEq] at h1
    exact ⟨h1.symm, h2⟩
  · intro g id g1 h
    obtain ⟨h1, h2, _⟩ := storage_allocate_task_id_spec g g1 paths id h
    exact ⟨h1, h2⟩
  · intro k hk
    rw [List.getElem_of_eq hids hk, List.getElem_range']
    omega
  · rw [hids]; exact range_succ_pairwise_lt _ _
  · rw [hids]; exact List.nodup_range' _ _

/-- C6, at a concrete run on a fresh store: three allocations with a removal in
between return 1, 2 and 3. -/
theorem task_id_allocation_witness :
    stored_next_id fresh_fs run_paths = some 1 ∧
    (run_store_ops run_paths [.allocate, .allocate, .remove 1, .allocate] fresh_fs).1 =
      [1, 2, 3].map Except.ok ∧
    ([1, 2, 3] : List Nat).Pairwise (fun a b => a < b) ∧ ([1, 2, 3] : List Nat).Nodup :=
  ⟨by decide, by decide,
    (task_id_allocation run_paths fresh_fs [.allocate, .allocate, .remove 1, .allocate] [1, 2, 3]
      (by decide) (by decide) (by decide)).2.2.2⟩

/-! ## Task files -/

/-- The command-line parser of the task store rejects the line written for a
command: after the closing bracket the loop goes round once more and finds the
end of the line where it wants a bracket or a quote. -/
theorem parse_command_line_rejects_written_line :
    write_command_line_fd ⟨[str "/bin/true"]⟩ = some (str "[\"/bin/true\"]\n") ∧
    parse_command_line (str "[\"/bin/true\"]") = none ∧
    parse_command_line (str "[\"/bin/true\",]") = some ⟨[str "/bin/true"]⟩ ∧
    parse_command_line (str "[]") = some ⟨[]⟩ := by decide

/-- C3: the task file written for the SIMPLE task `/bin/true` (id 1, every
minute, never run) is not read back: `write_task_file` writes the text below
and `parse_task_file` fails on it. -/
theorem task_file_round_trip_fails :
    write_task_file_text task_true =
      some (str "1\nSIMPLE\n1\n[\"/bin/true\"]\nFFFFFFFFFFFFFFF\nFFFFFF\n7F\n0\n-1\n") ∧
    parse_task_file (str "1\nSIMPLE\n1\n[\"/bin/true\"]\nFFFFFFFFFFFFFFF\nFFFFFF\n7F\n0\n-1\n") =
      none := by decide

/-- The rest of the format is read back: with a comma put by hand before the
closing bracket of the command line, the text parses to the task written. -/
theorem task_file_parses_with_trailing_comma :
    parse_task_file (str "1\nSIMPLE\n1\n[\"/bin/true\",]\nFFFFFFFFFFFFFFF\nFFFFFF\n7F\n0\n-1\n") =
      some task_true := by decide

/-! ## Task removal -/

/-- C9: removing task 1 from a store where `logs/1` holds a rotated snapshot
succeeds and deletes the task file, the history and the last output, but the
snapshot `snapshot-120.stdout` and the directory `logs/1` are still there:
`rmdir` fails on the directory that still holds the snapshot. -/
theorem storage_remove_task_leaves_snapshots :
    fs_find fs_task_with_snapshot (str "/run/tasks/1.task") ≠ none ∧
    (storage_remove_task fs_task_with_snapshot run_paths 1).1 = .ok () ∧
    fs_find (storage_remove_task fs_task_with_snapshot run_paths 1).2 (str "/run/tasks/1.task") =
      none ∧
    fs_find (storage_remove_task fs_task_with_snapshot run_paths 1).2
      (str "/run/logs/1/history.log") = none ∧
    fs_find (storage_remove_task fs_task_with_snapshot run_paths 1).2
      (str "/run/logs/1/last.stdout") = none ∧
    fs_find (storage_remove_task fs_task_with_snapshot run_paths 1).2
      (str "/run/logs/1/snapshot-120.stdout") = some (.file (str "first\n")) ∧
    fs_find (storage_remove_task fs_task_with_snapshot run_paths 1).2 (str "/run/logs/1") =
      some .dir ∧
    sys_rmdir [(str "/run/logs/1", .dir), (str "/run/logs/1/snapshot-120.stdout", .file [])]
      (str "/run/logs/1") = .error .ENOTEMPTY := by decide

/-! ## Paths and directory entries -/

theorem base_name_join (d name : List Nat) (h : 47 ∉ name) :
    base_name (d ++ [47] ++ name) = name := by
  unfold base_name
  rw [List.reverse_append, List.reverse_append]
  rw [List.takeWhile_append_of_pos]
  · simp [List.takeWhile]
  · intro c hc
    have : c ≠ 47 := fun h0 => h (by rw [← h0]; exact List.mem_reverse.1 hc)
    simpa using this

theorem parent_path_join (d name : List Nat) (h : 47 ∉ name) :
    parent_path (d ++ [47] ++ name) = d := by
  unfold parent_path
  rw [List.reverse_append, List.reverse_append]
  rw [List.dropWhile_append_of_pos]
  · simp [List.dropWhile]
  · intro c hc
    have : c ≠ 47 := fun h0 => h (by rw [← h0]; exact List.mem_reverse.1 hc)
    simpa using this

theorem base_name_no_slash (p : List Nat) : 47 ∉ base_name p := by
  unfold base_name
  intro h
  have h1 := List.mem_reverse.1 h
  have := List.mem_takeWhile_imp h1
  simp at this

/-- An entry of a directory with a non-empty path: its path is the directory,
a slash and its name. -/
theorem child_path_eq (d p : List Nat) (hd : d ≠ []) (h : parent_path p = d) :
    p = d ++ [47] ++ base_name p := by
  unfold parent_path at h
  unfold base_name
  have hsplit := List.takeWhile_append_dropWhile (fun c => decide (c ≠ 47)) p.reverse
  cases hdw : List.dropWhile (fun c => decide (c ≠ 47)) p.reverse with
  | nil =>
    rw [hdw] at h
    simp only [List.drop_nil, List.reverse_nil] at h
    exact absurd h.symm hd
  | cons c t =>
    rw [hdw] at h hsplit
    simp only [List.drop_succ_cons, List.drop_zero] at h
    have hc : c = 47 := by
      have := List.head_dropWhile_not (fun c => decide (c ≠ 47)) p.reverse
        (by rw [hdw]; simp)
      simp only [hdw, List.head_cons] at this
      simpa using this
    subst hc
    have hp : p.reverse.reverse =
        (List.takeWhile (fun c => decide (c ≠ 47)) p.reverse ++ 47 :: t).reverse := by
      rw [hsplit]
    rw [List.reverse_reverse, List.reverse_append, List.reverse_cons, h] at hp
    exact hp

theorem utils_join_path_child (d name : List Nat) (buflen : Nat) (hd : d ≠ [])
    (hlast : d.getLast? ≠ some 47) (hname : name.head? ≠ some 47)
    (hfit : (d ++ [47] ++ name).length < buflen) :
    utils_join_path d name buflen = some (d ++ [47] ++ name) := by
  have hdrop : name.dropWhile (fun c => decide (c = 47)) = name := by
    cases name with
    | nil => rfl
    | cons c t =>
      have : c ≠ 47 := by simpa using hname
      simp [List.dropWhile, this]
  have hlenpos : d.length > 0 := List.length_pos.2 hd
  unfold utils_join_path
  simp only [hdrop, hlenpos, hlast, ne_eq, not_false_eq_true, and_self, decide_True, if_true]
  simp only [List.length_append, List.length_singleton] at hfit
  rw [if_neg (by omega)]

/-- The shape of a path joined to a directory whose path is not empty and does
not end with a slash. -/
theorem utils_join_path_of_dir (d name p : List Nat) (buflen : Nat) (hd : d ≠ [])
    (hlast : d.getLast? ≠ some 47) (h : utils_join_path d name buflen = some p) :
    p = d ++ [47] ++ name.dropWhile (fun c => decide (c = 47)) ∧ p.length < buflen := by
  have hlenpos : d.length > 0 := List.length_pos.2 hd
  unfold utils_join_path at h
  simp only [hlenpos, hlast, ne_eq, not_false_eq_true, and_self, decide_True, if_true] at h
  split at h
  · cases h
  · rename_i hl
    simp only [Option.some.injEq] at h
    subst h
    refine ⟨rfl, ?_⟩
    simp only [List.length_append, List.length_singleton]
    omega

/-! ## Snapshot files of a log directory -/

theorem snapshot_files_append (fs l : fs_t) (d ext : List Nat) :
    snapshot_files (fs ++ l) d ext = snapshot_files fs d ext ++ snapshot_files l d ext := by
  unfold snapshot_files
  rw [List.filter_append, List.filterMap_append]

theorem snapshot_files_filter_le (fs : fs_t) (f : List Nat × node_t → Bool) (d ext : List Nat) :
    (snapshot_files (fs.filter f) d ext).length ≤ (snapshot_files fs d ext).length := by
  unfold snapshot_files
  apply List.Sublist.length_le
  apply List.Sublist.filterMap
  apply List.Sublist.filter
  exact List.filter_sublist fs

theorem snapshot_files_map (fs : fs_t) (g : List Nat × node_t → node_t) (d ext : List Nat) :
    snapshot_files (fs.map (fun e => (e.1, g e))) d ext = snapshot_files fs d ext := by
  unfold snapshot_files
  induction fs with
  | nil => rfl
  | cons e rest ih =>
    simp only [List.map_cons, List.filter_cons]
    split
    · simp only [List.filterMap_cons]
      rw [ih]
    · exact ih

theorem snapshot_files_remove_le (fs : fs_t) (p d ext : List Nat) :
    (snapshot_files (fs_remove fs p) d ext).length ≤ (snapshot_files fs d ext).length :=
  snapshot_files_filter_le fs _ d ext

/-- Writing a node whose name is not a snapshot name for `ext` leaves the
snapshot files for `ext` as they are. -/
theorem snapshot_files_put_other (fs : fs_t) (p d ext : List Nat) (n : node_t)
    (h : snapshot_entry_of ext (base_name p) = none) :
    snapshot_files (fs_put fs p n) d ext = snapshot_files fs d ext := by
  unfold fs_put
  cases fs_find fs p with
  | some m => exact snapshot_files_map fs _ d ext
  | none =>
    simp only
    rw [snapshot_files_append]
    have : snapshot_files [(p, n)] d ext = [] := by
      unfold snapshot_files
      simp only [List.filter_cons, List.filter_nil]
      split <;> simp [h]
    rw [this, List.append_nil]

theorem fs_find_none_iff (fs : fs_t) (p : List Nat) :
    fs_find fs p = none ↔ ∀ e ∈ fs, e.1 ≠ p := by
  induction fs with
  | nil => simp [fs_find]
  | cons e rest ih =>
    simp only [fs_find, List.mem_cons, forall_eq_or_imp]
    by_cases h : e.1 = p
    · simp [h]
    · simp [h, ih]

theorem fs_find_some_mem (fs : fs_t) (p : List Nat) (n : node_t) (h : fs_find fs p = some n) :
    (p, n) ∈ fs := by
  induction fs with
  | nil => simp [fs_find] at h
  | cons e rest ih =>
    simp only [fs_find] at h
    by_cases h1 : e.1 = p
    · simp only [h1, if_true, Option.some.injEq] at h
      simp only [List.mem_cons]
      left
      rw [← h1, ← h]
    · simp only [h1, if_false] at h
      exact List.mem_cons_of_mem _ (ih h)

theorem fs_remove_eq_self (fs : fs_t) (p : List Nat) (h : fs_find fs p = none) :
    fs_remove fs p = fs := by
  unfold fs_remove
  rw [List.filter_eq_self]
  intro e he
  have := (fs_find_none_iff fs p).1 h e he
  simpa using this

/-- An ignored `unlink` of a path that holds no directory removes the path. -/
theorem keep_unlink_eq_remove (fs : fs_t) (p : List Nat)
    (h : ∀ e ∈ fs, e.1 = p → e.2 ≠ .dir) :
    keep_on_error (sys_unlink fs p) fs = fs_remove fs p := by
  unfold sys_unlink
  cases hf : fs_find fs p with
  | none => simp only [keep_on_error]; exact (fs_remove_eq_self fs p hf).symm
  | some n =>
    cases n with
    | file c => rfl
    | dir => exact absurd rfl (h _ (fs_find_some_mem fs p _ hf) rfl)

theorem dir_holds_files_filter (fs : fs_t) (d : List Nat) (f : List Nat × node_t → Bool)
    (h : dir_holds_files fs d) : dir_holds_files (fs.filter f) d := by
  intro e he
  exact h e (List.mem_filter.1 he).1

theorem paths_fit_filter (fs : fs_t) (f : List Nat × node_t → Bool) (h : paths_fit fs) :
    paths_fit (fs.filter f) := by
  intro e he
  exact h e (List.mem_filter.1 he).1

/-- The unlink loop of `prune_snapshots` removes the paths of all the entries
it is given, when these name regular files. -/
theorem unlink_snapshots_eq (d : List Nat) (hd : d ≠ []) (hlast : d.getLast? ≠ some 47) :
    ∀ (entries : List snapshot_entry_t) (fs : fs_t), dir_holds_files fs d →
      (∀ s ∈ entries, 47 ∉ s.name ∧ (d ++ [47] ++ s.name).length < PATH_MAX) →
      unlink_snapshots fs d entries =
        fs.filter (fun e => decide (∀ s ∈ entries, e.1 ≠ d ++ [47] ++ s.name)) := by
  intro entries
  induction entries with
  | nil => intro fs _ _; simp [unlink_snapshots]
  | cons s rest ih =>
    intro fs hfiles hent
    obtain ⟨hs47, hsfit⟩ := hent s (by simp)
    have hhead : s.name.head? ≠ some 47 := by
      intro h0
      cases hn : s.name with
      | nil => rw [hn] at h0; simp at h0
      | cons c t =>
        rw [hn] at h0
        simp only [List.head?_cons, Option.some.injEq] at h0
        exact hs47 (by rw [hn, h0]; simp)
    have hj := utils_join_path_child d s.name PATH_MAX hd hlast hhead hsfit
    unfold unlink_snapshots
    simp only [hj]
    have hk : keep_on_error (sys_unlink fs (d ++ [47] ++ s.name)) fs =
        fs_remove fs (d ++ [47] ++ s.name) := by
      apply keep_unlink_eq_remove
      intro e he heq
      apply hfiles e he
      · rw [heq]; exact parent_path_join d s.name hs47
      · rw [heq]
        intro h0
        have := congrArg List.length h0
        simp at this
    rw [hk]
    unfold fs_remove
    rw [ih _ (dir_holds_files_filter fs d _ hfiles)
      (fun t ht => hent t (List.mem_cons_of_mem _ ht)), List.filter_filter]
    congr 1
    funext e
    simp only [List.mem_cons, forall_eq_or_imp, Bool.decide_and, Bool.and_comm]

theorem filter_filterMap_comm {α β : Type} (l : List α) (P C : α → Bool) (g : α → Option β)
    (Q : β → Bool) (h : ∀ a, C a = true → ∀ b, g a = some b → P a = Q b) :
    ((l.filter P).filter C).filterMap g = ((l.filter C).filterMap g).filter Q := by
  induction l with
  | nil => rfl
  | cons a rest ih =>
    cases hC : C a with
    | false =>
      cases hP : P a with
      | false => simp only [List.filter_cons, hP, hC, Bool.false_eq_true, if_false]; exact ih
      | true =>
        simp only [List.filter_cons, hP, hC, if_true, Bool.false_eq_true, if_false]; exact ih
    | true =>
      cases hg : g a with
      | none =>
        cases hP : P a with
        | false =>
          simp only [List.filter_cons, hP, hC, Bool.false_eq_true, if_false, if_true,
            List.filterMap_cons, hg]
          exact ih
        | true =>
          simp only [List.filter_cons, hP, hC, if_true, List.filterMap_cons, hg]
          exact ih
      | some b =>
        have hPQ := h a hC b hg
        cases hP : P a with
        | false =>
          rw [hP] at hPQ
          simp only [List.filter_cons, hP, hC, Bool.false_eq_true, if_false, if_true,
            List.filterMap_cons, hg, ← hPQ]
          exact ih
        | true =>
          rw [hP] at hPQ
          simp only [List.filter_cons, hP, hC, if_true, List.filterMap_cons, hg, ← hPQ]
          rw [ih]

theorem snapshot_entry_of_name (ext n : List Nat) (s : snapshot_entry_t)
    (h : snapshot_entry_of ext n = some s) : s.name = n := by
  unfold snapshot_entry_of at h
  split at h
  · cases h
  · split at h
    · cases h
    · simp only [Option.some.injEq] at h
      rw [← h]

theorem mem_snapshot_files (fs : fs_t) (d ext : List Nat) (s : snapshot_entry_t)
    (h : s ∈ snapshot_files fs d ext) :
    ∃ e ∈ fs, parent_path e.1 = d ∧ e.1 ≠ d ∧ snapshot_entry_of ext (base_name e.1) = some s := by
  unfold snapshot_files at h
  rw [List.mem_filterMap] at h
  obtain ⟨e, he, hs⟩ := h
  rw [List.mem_filter] at he
  obtain ⟨hmem, hc⟩ := he
  simp only [decide_eq_true_eq] at hc
  exact ⟨e, hmem, hc.1, hc.2, hs⟩

theorem collect_snapshots_readdir (fs : fs_t) (d ext : List Nat) :
    collect_snapshots
      ((fs.filter (fun e => decide (parent_path e.1 = d ∧ e.1 ≠ d))).map (fun e => base_name e.1))
      ext = snapshot_files fs d ext := by
  unfold collect_snapshots snapshot_files
  rw [List.filterMap_map]
  rfl

theorem fs_find_filter (fs : fs_t) (f : List Nat × node_t → Bool) (q : List Nat)
    (h : ∀ e : List Nat × node_t, e.1 = q → f e = true) :
    fs_find (fs.filter f) q = fs_find fs q := by
  induction fs with
  | nil => rfl
  | cons e rest ih =>
    by_cases he : e.1 = q
    · simp [List.filter_cons, h e he, fs_find, he]
    · by_cases hf : f e = true
      · simp [List.filter_cons, hf, fs_find, he, ih]
      · simp [List.filter_cons, hf, fs_find, he, ih]

/-- Removing from a list the entries that bear the name of one of the entries
sorted beyond index 5 leaves at most 5 entries. -/
theorem prune_filter_length (entries : List snapshot_entry_t) :
    (entries.filter (fun t => decide (∀ s ∈ (qsort_snapshots entries).drop 5,
      t.name ≠ s.name))).length ≤ 5 := by
  generalize hD : (qsort_snapshots entries).drop 5 = D
  have hperm : (qsort_snapshots entries).Perm entries := List.perm_insertionSort _ _
  have h1 := (hperm.filter (fun t => decide (∀ s ∈ D, t.name ≠ s.name))).length_eq
  rw [← h1]
  have hS : qsort_snapshots entries = (qsort_snapshots entries).take 5 ++ D := by
    rw [← hD, List.take_append_drop]
  rw [hS, List.filter_append, List.length_append]
  have h2 : D.filter (fun t => decide (∀ s ∈ D, t.name ≠ s.name)) = [] := by
    rw [List.filter_eq_nil_iff]
    intro t ht
    simp only [decide_eq_true_eq, not_forall]
    exact ⟨t, ht, fun h => h rfl⟩
  have h3 := List.length_filter_le (fun t => decide (∀ s ∈ D, t.name ≠ s.name))
    ((qsort_snapshots entries).take 5)
  have h4 : ((qsort_snapshots entries).take 5).length ≤ 5 := by
    rw [List.length_take]; omega
  rw [h2, List.length_nil]
  omega

/-- What `prune_snapshots` achieves in a directory of regular files: at most 5
snapshot files for `ext` are left, and nothing but removals happened. -/
theorem prune_snapshots_bound (fs fs1 : fs_t) (d ext : List Nat) (hd : d ≠ [])
    (hlast : d.getLast? ≠ some 47) (hdir : fs_find fs d = some .dir)
    (hfiles : dir_holds_files fs d) (hfit : paths_fit fs)
    (h : prune_snapshots fs d ext = .ok fs1) :
    (snapshot_files fs1 d ext).length ≤ 5 ∧ (∃ f, fs1 = fs.filter f) ∧
      fs_find fs1 d = some .dir := by
  unfold prune_snapshots at h
  simp only [sys_readdir, hdir, collect_snapshots_readdir] at h
  by_cases hle : (snapshot_files fs d ext).length ≤ ERRAID_STDIO_SNAPSHOT_COUNT
  · rw [if_pos hle] at h
    simp only [Except.ok.injEq] at h
    subst h
    exact ⟨hle, ⟨fun _ => true, by simp⟩, hdir⟩
  · rw [if_neg hle] at h
    simp only [Except.ok.injEq] at h
    have hD : ∀ s ∈ (qsort_snapshots (snapshot_files fs d ext)).drop ERRAID_STDIO_SNAPSHOT_COUNT,
        47 ∉ s.name ∧ (d ++ [47] ++ s.name).length < PATH_MAX := by
      intro s hs
      have hs1 : s ∈ snapshot_files fs d ext :=
        (List.perm_insertionSort _ _).subset (List.mem_of_mem_drop hs)
      obtain ⟨e, he, hpar, _, hent⟩ := mem_snapshot_files fs d ext s hs1
      have hname := snapshot_entry_of_name ext _ s hent
      rw [hname]
      refine ⟨base_name_no_slash e.1, ?_⟩
      rw [← child_path_eq d e.1 hd hpar]
      exact hfit e he
    rw [unlink_snapshots_eq d hd hlast _ fs hfiles hD] at h
    subst h
    refine ⟨?_, ⟨_, rfl⟩, ?_⟩
    swap
    · rw [fs_find_filter _ _ _ _, hdir]
      intro e he
      simp only [decide_eq_true_eq]
      intro s _ heq
      rw [he] at heq
      have := congrArg List.length heq
      simp at this
    unfold snapshot_files
    rw [filter_filterMap_comm fs _ _ _
      (fun t => decide (∀ s ∈ (qsort_snapshots (snapshot_files fs d ext)).drop
        ERRAID_STDIO_SNAPSHOT_COUNT, t.name ≠ s.name))]
    · exact prune_filter_length (snapshot_files fs d ext)
    · intro e hc t hent
      simp only [decide_eq_true_eq] at hc
      have hname := snapshot_entry_of_name ext _ t hent
      have hpath := child_path_eq d e.1 hd hc.1
      congr 1
      apply propext
      constructor
      · intro h1 s hs heq
        apply h1 s hs
        rw [hpath, ← hname, heq]
      · intro h1 s hs heq
        apply h1 s hs
        rw [hpath] at heq
        rw [hname]
        exact List.append_cancel_left heq

/-! ## Snapshot names -/

theorem fmt_lld_bytes (n : Int) : ∀ c ∈ fmt_lld n, c = 45 ∨ (48 ≤ c ∧ c ≤ 57) := by
  intro c hc
  have hdig : ∀ x ∈ digits_aux 10 64 n.natAbs [], 48 ≤ x ∧ x ≤ 57 := by
    intro x hx
    obtain ⟨d, hd, rfl⟩ := digits_aux_bytes 10 (by omega) (by omega) 64 _ x hx
    unfold digit_byte
    rw [if_pos hd]
    omega
  unfold fmt_lld at hc
  split at hc
  · simp only [List.mem_cons] at hc
    rcases hc with hc | hc
    · exact Or.inl hc
    · exact Or.inr (hdig c hc)
  · exact Or.inr (hdig c hc)

theorem strrchr_dot_append (pre ext : List Nat) (h : 46 ∉ ext) :
    strrchr_dot (pre ++ [46] ++ ext) = some (46 :: ext) := by
  unfold strrchr_dot
  rw [if_pos (by simp)]
  congr 2
  rw [List.reverse_append, List.reverse_append, List.takeWhile_append_of_pos]
  · simp [List.takeWhile]
  · intro c hc
    have : c ≠ 46 := fun h0 => h (by rw [← h0]; exact List.mem_reverse.1 hc)
    simpa using this

/-- The shape of a snapshot name: `snapshot-`, then digits and dashes, then a
dot and the extension. -/
theorem build_snapshot_name_shape (size : Nat) (epoch : Int) (counter : Nat)
    (ext name : List Nat) (h : build_snapshot_name size epoch counter ext = some name) :
    ∃ mid : List Nat, (∀ c ∈ mid, c = 45 ∨ (48 ≤ c ∧ c ≤ 57)) ∧
      name = str "snapshot-" ++ mid ++ [46] ++ ext := by
  unfold build_snapshot_name at h
  simp only at h
  by_cases hc : counter = 0
  · simp only [hc, if_true] at h
    split at h
    · cases h
    · simp only [Option.some.injEq] at h
      exact ⟨fmt_lld epoch, fmt_lld_bytes epoch, h.symm⟩
  · simp only [hc, if_false] at h
    split at h
    · cases h
    · simp only [Option.some.injEq] at h
      refine ⟨fmt_lld epoch ++ [45] ++ fmt_llu (counter % 2 ^ 32), ?_, by rw [← h]; simp⟩
      intro c hc
      simp only [List.mem_append, List.mem_singleton] at hc
      rcases hc with (hc | hc) | hc
      · exact fmt_lld_bytes epoch c hc
      · exact Or.inl hc
      · exact Or.inr (fmt_llu_bytes _ c hc)

theorem build_snapshot_name_no_slash (size : Nat) (epoch : Int) (counter : Nat)
    (ext name : List Nat) (hext : 47 ∉ ext)
    (h : build_snapshot_name size epoch counter ext = some name) : 47 ∉ name := by
  obtain ⟨mid, hmid, rfl⟩ := build_snapshot_name_shape size epoch counter ext name h
  intro hmem
  simp only [List.mem_append, List.mem_singleton] at hmem
  rcases hmem with ((hm | hm) | hm) | hm
  · revert hm; decide
  · rcases hmid 47 hm with h1 | h1 <;> omega
  · omega
  · exact hext hm

/-- A snapshot name built for one extension is no snapshot name for another. -/
theorem snapshot_entry_of_other_ext (size : Nat) (epoch : Int) (counter : Nat)
    (ext ext1 name : List Nat) (hdot : 46 ∉ ext) (hne : ext1 ≠ ext)
    (h : build_snapshot_name size epoch counter ext = some name) :
    snapshot_entry_of ext1 name = none := by
  obtain ⟨mid, _, rfl⟩ := build_snapshot_name_shape size epoch counter ext name h
  unfold snapshot_entry_of parse_snapshot_filename
  rw [strrchr_dot_append _ _ hdot]
  simp only [List.drop_succ_cons, List.drop_zero]
  rw [if_pos (Ne.symm hne)]
  split <;> simp

/-- A name that does not start with `snapshot-` is no snapshot name. -/
theorem snapshot_entry_of_no_prefix (ext name : List Nat) (h : name.take 9 ≠ str "snapshot-") :
    snapshot_entry_of ext name = none := by
  unfold snapshot_entry_of parse_snapshot_filename
  rw [if_pos h]
  split <;> rfl

/-! ## Rotation of the last output -/

theorem log_dir_ok_remove (fs : fs_t) (d p : List Nat) (h : log_dir_ok fs d) (hp : p ≠ d) :
    log_dir_ok (fs_remove fs p) d := by
  obtain ⟨h1, h2, h3⟩ := h
  refine ⟨?_, dir_holds_files_filter fs d _ h2, paths_fit_filter fs _ h3⟩
  rw [fs_find_remove_other fs p d hp, h1]

theorem log_dir_ok_put_file (fs : fs_t) (d p content : List Nat) (h : log_dir_ok fs d)
    (hp : p ≠ d) (hfit : p.length < PATH_MAX) : log_dir_ok (fs_put fs p (.file content)) d := by
  obtain ⟨h1, h2, h3⟩ := h
  refine ⟨?_, ?_, ?_⟩
  · rw [fs_find_put_other fs p d _ hp, h1]
  · intro e he hpar hne
    unfold fs_put at he
    cases hf : fs_find fs p with
    | none =>
      rw [hf] at he
      simp only [List.mem_append, List.mem_singleton] at he
      rcases he with he | he
      · exact h2 e he hpar hne
      · rw [he]; simp
    | some m =>
      rw [hf] at he
      simp only [List.mem_map] at he
      obtain ⟨e0, he0, rfl⟩ := he
      simp only at hpar hne ⊢
      by_cases hep : e0.1 = p
      · rw [if_pos hep]; simp
      · rw [if_neg hep]; exact h2 e0 he0 hpar hne
  · intro e he
    unfold fs_put at he
    cases hf : fs_find fs p with
    | none =>
      rw [hf] at he
      simp only [List.mem_append, List.mem_singleton] at he
      rcases he with he | he
      · exact h3 e he
      · rw [he]; exact hfit
    | some m =>
      rw [hf] at he
      simp only [List.mem_map] at he
      obtain ⟨e0, he0, rfl⟩ := he
      exact h3 e0 he0

theorem sys_open_creat_cases (fs fs1 : fs_t) (p : List Nat) (t : Bool)
    (h : sys_open_creat fs p t = .ok fs1) : fs1 = fs ∨ fs1 = fs_put fs p (.file []) := by
  unfold sys_open_creat at h
  cases hf : fs_find fs p with
  | none =>
    rw [hf] at h
    simp only at h
    split at h
    · simp only [Except.ok.injEq] at h
      right
      rw [← h]
      unfold fs_put
      rw [hf]
    · cases h
    · cases h
  | some n =>
    rw [hf] at h
    cases n with
    | dir => cases h
    | file c =>
      simp only [Except.ok.injEq] at h
      rw [← h]
      cases t
      · left; rfl
      · right; rfl

/-- What the naming loop of `rotate_stdio_snapshot` does when it succeeds:
nothing (all 1000 names are taken), or it renames the last output to a free
snapshot name. -/
theorem rotate_loop_ok (fs : fs_t) (d base_path ext : List Nat) (epoch : Int) :
    ∀ (remaining counter : Nat) (fs1 : fs_t) (c : Nat),
      rotate_loop fs d base_path ext epoch remaining counter = .ok (fs1, c) →
      (fs1 = fs ∧ c = counter + remaining) ∨
      (c < counter + remaining ∧ ∃ name p content,
        build_snapshot_name 64 epoch c ext = some name ∧
        utils_join_path d name PATH_MAX = some p ∧ fs_find fs p = none ∧
        fs_find fs base_path = some (.file content) ∧
        fs1 = fs_put (fs_remove fs base_path) p (.file content)) := by
  intro remaining
  induction remaining with
  | zero =>
    intro counter fs1 c h
    simp only [rotate_loop, Except.ok.injEq, Prod.mk.injEq] at h
    exact Or.inl ⟨h.1.symm, by omega⟩
  | succ r ih =>
    intro counter fs1 c h
    rw [rotate_loop] at h
    cases hb : build_snapshot_name 64 epoch counter ext with
    | none => rw [hb] at h; cases h
    | some name =>
      rw [hb] at h
      simp only at h
      cases hj : utils_join_path d name PATH_MAX with
      | none => rw [hj] at h; cases h
      | some p =>
        rw [hj] at h
        simp only at h
        by_cases hacc : sys_access fs p = true
        · simp only [hacc, Bool.not_true, Bool.false_eq_true, if_false] at h
          rcases ih (counter + 1) fs1 c h with h1 | h1
          · exact Or.inl ⟨h1.1, by omega⟩
          · exact Or.inr ⟨by omega, h1.2⟩
        · have hnone : fs_find fs p = none := by
            unfold sys_access at hacc
            cases hf : fs_find fs p with
            | none => rfl
            | some n => rw [hf] at hacc; simp at hacc
          have hacc1 : sys_access fs p = false := by simpa using hacc
          simp only [hacc1, Bool.not_false, if_true] at h
          unfold sys_rename at h
          cases hbase : fs_find fs base_path with
          | none => rw [hbase] at h; cases h
          | some n =>
            rw [hbase] at h
            cases n with
            | dir => cases h
            | file content =>
              simp only [hnone] at h
              cases hpar : fs_find fs (parent_path p) with
              | none => rw [hpar] at h; cases h
              | some m =>
                rw [hpar] at h
                cases m with
                | file c0 => cases h
                | dir =>
                  simp only [Except.ok.injEq, Prod.mk.injEq] at h
                  obtain ⟨h1, h2⟩ := h
                  subst h2
                  exact Or.inr ⟨by omega, name, p, content, hb, hj, hnone, rfl, h1.symm⟩

theorem keep_unlink_cases (fs : fs_t) (p : List Nat) :
    keep_on_error (sys_unlink fs p) fs = fs ∨ keep_on_error (sys_unlink fs p) fs = fs_remove fs p := by
  unfold sys_unlink
  cases fs_find fs p with
  | none => left; rfl
  | some n =>
    cases n with
    | file c => right; rfl
    | dir => left; rfl

theorem str_snapshot_prefix : str "snapshot-" = [115, 110, 97, 112, 115, 104, 111, 116, 45] := by
  decide

/-- The path of a snapshot in the log directory `d`: the directory, a slash and
the snapshot name. -/
theorem snapshot_path_eq (d name p ext : List Nat) (epoch : Int) (counter : Nat) (hd : d ≠ [])
    (hlast : d.getLast? ≠ some 47)
    (hb : build_snapshot_name 64 epoch counter ext = some name)
    (hj : utils_join_path d name PATH_MAX = some p) :
    p = d ++ [47] ++ name ∧ p.length < PATH_MAX := by
  obtain ⟨hp, hfit⟩ := utils_join_path_of_dir d name p PATH_MAX hd hlast hj
  obtain ⟨mid, _, hname⟩ := build_snapshot_name_shape 64 epoch counter ext name hb
  have hdrop : name.dropWhile (fun c => decide (c = 47)) = name := by
    rw [hname, str_snapshot_prefix]
    simp [List.dropWhile]
  rw [hdrop] at hp
  exact ⟨hp, hfit⟩

theorem append_ne_self (d x : List Nat) : d ++ [47] ++ x ≠ d := by
  intro h
  have := congrArg List.length h
  simp at this

/-- A successful `rotate_stdio_snapshot` for `ext` in a log directory in
order: either nothing changed, or at most 5 snapshot files for `ext` are left;
the snapshot files for another extension did not grow in number, and the
directory is still in order. -/
theorem rotate_stdio_snapshot_bound (fs fs1 : fs_t) (d base_filename ext ext1 : List Nat)
    (epoch : Int) (hd : d ≠ []) (hlast : d.getLast? ≠ some 47) (hok : log_dir_ok fs d)
    (hdot : 46 ∉ ext) (hslash : 47 ∉ ext) (hne : ext1 ≠ ext)
    (h : rotate_stdio_snapshot fs d base_filename ext epoch = (.ok (), fs1)) :
    ((snapshot_files fs1 d ext).length ≤ 5 ∨ fs1 = fs) ∧
    (snapshot_files fs1 d ext1).length ≤ (snapshot_files fs d ext1).length ∧
    log_dir_ok fs1 d := by
  unfold rotate_stdio_snapshot at h
  cases hj : utils_join_path d base_filename PATH_MAX with
  | none => rw [hj] at h; simp at h
  | some base_path =>
    rw [hj] at h
    simp only at h
    obtain ⟨hbp, _⟩ := utils_join_path_of_dir d base_filename base_path PATH_MAX hd hlast hj
    have hbd : base_path ≠ d := by rw [hbp]; exact append_ne_self d _
    have same : fs1 = fs →
        ((snapshot_files fs1 d ext).length ≤ 5 ∨ fs1 = fs) ∧
        (snapshot_files fs1 d ext1).length ≤ (snapshot_files fs d ext1).length ∧
        log_dir_ok fs1 d := by
      intro h0; subst h0; exact ⟨Or.inr rfl, le_refl _, hok⟩
    -- the part after the `stat`: naming loop, fallback and pruning
    have main : (match rotate_loop fs d base_path ext epoch 1000 0 with
        | .error e => ((Except.error e : Except Errno Unit), fs)
        | .ok (fs2, counter) =>
          match prune_snapshots
              (if counter ≥ 1000 then keep_on_error (sys_unlink fs2 base_path) fs2 else fs2)
              d ext with
          | .error e => (.error e,
              if counter ≥ 1000 then keep_on_error (sys_unlink fs2 base_path) fs2 else fs2)
          | .ok fs3 => (.ok (), fs3)) = (.ok (), fs1) →
        ((snapshot_files fs1 d ext).length ≤ 5 ∨ fs1 = fs) ∧
        (snapshot_files fs1 d ext1).length ≤ (snapshot_files fs d ext1).length ∧
        log_dir_ok fs1 d := by
      intro hm
      cases hl : rotate_loop fs d base_path ext epoch 1000 0 with
      | error e => rw [hl] at hm; simp at hm
      | ok r =>
        obtain ⟨fs2, counter⟩ := r
        rw [hl] at hm
        simp only at hm
        have hfs3 : log_dir_ok
              (if counter ≥ 1000 then keep_on_error (sys_unlink fs2 base_path) fs2 else fs2) d ∧
            (snapshot_files
              (if counter ≥ 1000 then keep_on_error (sys_unlink fs2 base_path) fs2 else fs2)
              d ext1).length ≤ (snapshot_files fs d ext1).length := by
          rcases rotate_loop_ok fs d base_path ext epoch 1000 0 fs2 counter hl with
            ⟨h1, h2⟩ | ⟨h1, name, p, content, hb, hjp, _, _, h2⟩
          · subst h1
            rw [if_pos (by omega)]
            rcases keep_unlink_cases fs2 base_path with hk | hk
            · rw [hk]; exact ⟨hok, le_refl _⟩
            · rw [hk]
              exact ⟨log_dir_ok_remove fs2 d base_path hok hbd,
                snapshot_files_remove_le fs2 base_path d ext1⟩
          · rw [if_neg (by omega)]
            obtain ⟨hp, hfit⟩ := snapshot_path_eq d name p ext epoch counter hd hlast hb hjp
            have hns := build_snapshot_name_no_slash 64 epoch counter ext name hslash hb
            subst h2
            refine ⟨log_dir_ok_put_file _ d p content
              (log_dir_ok_remove fs d base_path hok hbd) (by rw [hp]; exact append_ne_self d _)
              hfit, ?_⟩
            rw [snapshot_files_put_other]
            · exact snapshot_files_remove_le fs base_path d ext1
            · rw [hp, base_name_join d name hns]
              exact snapshot_entry_of_other_ext 64 epoch counter ext ext1 name hdot hne hb
        cases hp : prune_snapshots
            (if counter ≥ 1000 then keep_on_error (sys_unlink fs2 base_path) fs2 else fs2)
            d ext with
        | error e => rw [hp] at hm; simp at hm
        | ok fs3 =>
          rw [hp] at hm
          simp only [Prod.mk.injEq, true_and] at hm
          subst hm
          obtain ⟨hok3, hcount3⟩ := hfs3
          obtain ⟨b1, ⟨f, b2⟩, b3⟩ := prune_snapshots_bound _ fs3 d ext hd hlast hok3.1 hok3.2.1
            hok3.2.2 hp
          refine ⟨Or.inl b1, ?_, b3, ?_, ?_⟩
          · rw [b2]
            exact le_trans (snapshot_files_filter_le _ f d ext1) hcount3
          · rw [b2]; exact dir_holds_files_filter _ d f hok3.2.1
          · rw [b2]; exact paths_fit_filter _ f hok3.2.2
    unfold sys_stat at h
    cases hf : fs_find fs base_path with
    | none =>
      rw [hf] at h
      simp only [Prod.mk.injEq, true_and] at h
      exact same h.symm
    | some n =>
      rw [hf] at h
      cases n with
      | dir => exact main h
      | file c =>
        cases c with
        | nil =>
          simp only [Prod.mk.injEq, true_and] at h
          exact same h.symm
        | cons x xs => exact main h

/-! ## History append -/

theorem ensure_directory_ok (fs fs1 : fs_t) (d : List Nat) (hfiles : dir_holds_files fs d)
    (hfit : paths_fit fs) (hdfit : d.length < PATH_MAX) (h : ensure_directory fs d = .ok fs1) :
    log_dir_ok fs1 d ∧ ∀ ext, snapshot_files fs1 d ext = snapshot_files fs d ext := by
  unfold ensure_directory sys_stat at h
  cases hf : fs_find fs d with
  | some n =>
    rw [hf] at h
    cases n with
    | file c => cases h
    | dir =>
      simp only [Except.ok.injEq] at h
      subst h
      exact ⟨⟨hf, hfiles, hfit⟩, fun _ => rfl⟩
  | none =>
    rw [hf] at h
    simp only [sys_mkdir, hf] at h
    split at h
    · simp only [Except.ok.injEq] at h
      subst h
      refine ⟨⟨?_, ?_, ?_⟩, ?_⟩
      · rw [fs_find_append, hf]; simp
      · intro e he hpar hne
        simp only [List.mem_append, List.mem_singleton] at he
        rcases he with he | he
        · exact hfiles e he hpar hne
        · rw [he] at hne; exact absurd rfl hne
      · intro e he
        simp only [List.mem_append, List.mem_singleton] at he
        rcases he with he | he
        · exact hfit e he
        · rw [he]; exact hdfit
      · intro ext
        rw [snapshot_files_append]
        have : snapshot_files [(d, node_t.dir)] d ext = [] := by
          unfold snapshot_files
          simp [List.filter_cons]
        rw [this, List.append_nil]
    · cases h
    · cases h

theorem write_stdio_file_snapshots (fs fs1 : fs_t) (p d ext : List Nat) (buf : Option (List Nat))
    (len : Nat) (hname : snapshot_entry_of ext (base_name p) = none)
    (h : write_stdio_file fs p buf len = .ok fs1) :
    snapshot_files fs1 d ext = snapshot_files fs d ext := by
  unfold write_stdio_file at h
  cases ho : sys_open_creat fs p true with
  | error e => rw [ho] at h; cases h
  | ok fs2 =>
    rw [ho] at h
    have h2 : snapshot_files fs2 d ext = snapshot_files fs d ext := by
      rcases sys_open_creat_cases fs fs2 p true ho with h0 | h0
      · rw [h0]
      · rw [h0]; exact snapshot_files_put_other fs p d ext _ hname
    cases buf with
    | none =>
      simp only [Except.ok.injEq] at h
      rw [← h, h2]
    | some data =>
      simp only at h
      split at h
      · simp only [Except.ok.injEq] at h
        rw [← h, snapshot_files_put_other _ p d ext _ hname, h2]
      · simp only [Except.ok.injEq] at h
        rw [← h, h2]

theorem append_history_line_snapshots (fs fs1 : fs_t) (d ext line : List Nat) (hd : d ≠ [])
    (hlast : d.getLast? ≠ some 47)
    (h : append_history_line fs d line = (.ok (), fs1)) :
    snapshot_files fs1 d ext = snapshot_files fs d ext := by
  unfold append_history_line at h
  cases hj : utils_join_path d (str "history.log") PATH_MAX with
  | none => rw [hj] at h; simp at h
  | some p =>
    rw [hj] at h
    simp only at h
    obtain ⟨hp, _⟩ := utils_join_path_of_dir d _ p PATH_MAX hd hlast hj
    have hname : snapshot_entry_of ext (base_name p) = none := by
      rw [hp]
      have e1 : (str "history.log").dropWhile (fun c => decide (c = 47)) = str "history.log" := by
        decide
      rw [e1, base_name_join d _ (by decide)]
      exact snapshot_entry_of_no_prefix ext _ (by decide)
    cases ho : sys_open_creat fs p false with
    | error e => rw [ho] at h; simp at h
    | ok fs2 =>
      rw [ho] at h
      simp only at h
      have h2 : snapshot_files fs2 d ext = snapshot_files fs d ext := by
        rcases sys_open_creat_cases fs fs2 p false ho with h0 | h0
        · rw [h0]
        · rw [h0]; exact snapshot_files_put_other fs p d ext _ hname
      split at h
      · simp at h
      · cases hr : sys_read_file fs2 p with
        | error e => rw [hr] at h; simp at h
        | ok old =>
          rw [hr] at h
          simp only [Prod.mk.injEq, true_and] at h
          rw [← h, snapshot_files_put_other _ p d ext _ hname, h2]

/-- The log directory of a task is a non-empty path that ends with a digit. -/
theorem log_dir_shape (logs_dir d : List Nat) (task_id : Nat)
    (h : utils_join_path logs_dir (fmt_llu task_id) PATH_MAX = some d) :
    d ≠ [] ∧ d.getLast? ≠ some 47 ∧ d.length < PATH_MAX := by
  obtain ⟨c, hc, hc48, hc57⟩ := fmt_llu_getLast task_id
  have hd2 : (fmt_llu task_id).dropWhile (fun c => decide (c = 47)) = fmt_llu task_id := by
    have := fmt_llu_append_dropWhile task_id []
    simpa using this
  have hl := join_last_byte _ _ _ _ c h hd2 hc
  obtain ⟨_, _, _, hlen⟩ := utils_join_path_eq _ _ _ _ h
  refine ⟨?_, ?_, hlen⟩
  · intro h0; rw [h0] at hl; simp at hl
  · rw [hl]; simp only [ne_eq, Option.some.injEq]; omega

theorem last_name_no_snapshot (d p ext name : List Nat) (hd : d ≠ [])
    (hlast : d.getLast? ≠ some 47) (hdrop : name.dropWhile (fun c => decide (c = 47)) = name)
    (hslash : 47 ∉ name) (hpre : name.take 9 ≠ str "snapshot-")
    (hj : utils_join_path d name PATH_MAX = some p) :
    snapshot_entry_of ext (base_name p) = none := by
  obtain ⟨hp, _⟩ := utils_join_path_of_dir d _ p PATH_MAX hd hlast hj
  rw [hp, hdrop, base_name_join d _ hslash]
  exact snapshot_entry_of_no_prefix ext _ hpre

/-- C7. Snapshot bound: for every task log directory that holds regular files,
among them at most 5 snapshot files for `stdout` and at most 5 for `stderr` (in
particular a directory that is empty or does not exist yet), after any
successful `storage_append_history` the directory again holds at most 5
snapshot files per extension. -/
theorem snapshot_bound (fs fs1 : fs_t) (paths : storage_paths_t) (task_id : Nat)
    (entry : task_run_entry_t) (stdout_buf : Option (List Nat)) (stdout_len : Nat)
    (stderr_buf : Option (List Nat)) (stderr_len : Nat) (log_dir : List Nat)
    (hlog : utils_join_path paths.logs_dir (fmt_llu task_id) PATH_MAX = some log_dir)
    (hfiles : dir_holds_files fs log_dir) (hfit : paths_fit fs)
    (hout : (snapshot_files fs log_dir (str "stdout")).length ≤ 5)
    (herr : (snapshot_files fs log_dir (str "stderr")).length ≤ 5)
    (hrun : storage_append_history fs paths task_id entry stdout_buf stdout_len stderr_buf
      stderr_len = (.ok (), fs1)) :
    (snapshot_files fs1 log_dir (str "stdout")).length ≤ 5 ∧
    (snapshot_files fs1 log_dir (str "stderr")).length ≤ 5 := by
  obtain ⟨hd, hlast, hdfit⟩ := log_dir_shape _ _ _ hlog
  unfold storage_append_history at hrun
  simp only [hlog] at hrun
  rw [if_neg (by have := fmt_llu_length task_id; omega)] at hrun
  cases he : ensure_directory fs log_dir with
  | error e => rw [he] at hrun; simp at hrun
  | ok fsa =>
    rw [he] at hrun
    simp only at hrun
    obtain ⟨hoka, hsa⟩ := ensure_directory_ok fs fsa log_dir hfiles hfit hdfit he
    cases hr1 : rotate_stdio_snapshot fsa log_dir (str "last.stdout") (str "stdout") entry.epoch with
    | mk r1 fsb =>
      rw [hr1] at hrun
      cases r1 with
      | error e => simp at hrun
      | ok u =>
        simp only at hrun
        obtain ⟨b1, b2, hokb⟩ := rotate_stdio_snapshot_bound fsa fsb log_dir _ (str "stdout")
          (str "stderr") entry.epoch hd hlast hoka (by decide) (by decide) (by decide) hr1
        have hbout : (snapshot_files fsb log_dir (str "stdout")).length ≤ 5 := by
          rcases b1 with b1 | b1
          · exact b1
          · rw [b1, hsa]; exact hout
        have hberr : (snapshot_files fsb log_dir (str "stderr")).length ≤ 5 := by
          rw [hsa] at b2; omega
        cases hr2 : rotate_stdio_snapshot fsb log_dir (str "last.stderr") (str "stderr")
            entry.epoch with
        | mk r2 fsc =>
          rw [hr2] at hrun
          cases r2 with
          | error e => simp at hrun
          | ok u2 =>
            simp only at hrun
            obtain ⟨c1, c2, hokc⟩ := rotate_stdio_snapshot_bound fsb fsc log_dir _ (str "stderr")
              (str "stdout") entry.epoch hd hlast hokb (by decide) (by decide) (by decide) hr2
            have hcerr : (snapshot_files fsc log_dir (str "stderr")).length ≤ 5 := by
              rcases c1 with c1 | c1
              · exact c1
              · rw [c1]; exact hberr
            have hcout : (snapshot_files fsc log_dir (str "stdout")).length ≤ 5 := by omega
            cases hj1 : utils_join_path log_dir (str "last.stdout") PATH_MAX with
            | none => rw [hj1] at hrun; simp at hrun
            | some stdout_path =>
              cases hj2 : utils_join_path log_dir (str "last.stderr") PATH_MAX with
              | none => rw [hj1, hj2] at hrun; simp at hrun
              | some stderr_path =>
                rw [hj1, hj2] at hrun
                simp only at hrun
                have hn1 : ∀ ext, snapshot_entry_of ext (base_name stdout_path) = none :=
                  fun ext => last_name_no_snapshot log_dir stdout_path ext _ hd hlast
                    (by decide) (by decide) (by decide) hj1
                have hn2 : ∀ ext, snapshot_entry_of ext (base_name stderr_path) = none :=
                  fun ext => last_name_no_snapshot log_dir stderr_path ext _ hd hlast
                    (by decide) (by decide) (by decide) hj2
                cases hw1 : write_stdio_file fsc stdout_path stdout_buf stdout_len with
                | error e => rw [hw1] at hrun; simp at hrun
                | ok fsd =>
                  rw [hw1] at hrun
                  simp only at hrun
                  cases hw2 : write_stdio_file fsd stderr_path stderr_buf stderr_len with
                  | error e => rw [hw2] at hrun; simp at hrun
                  | ok fse =>
                    rw [hw2] at hrun
                    simp only at hrun
                    have e1 := fun ext => write_stdio_file_snapshots fsc fsd stdout_path log_dir
                      ext stdout_buf stdout_len (hn1 ext) hw1
                    have e2 := fun ext => write_stdio_file_snapshots fsd fse stderr_path log_dir
                      ext stderr_buf stderr_len (hn2 ext) hw2
                    have e3 := fun ext => append_history_line_snapshots fse fs1 log_dir ext _
                      hd hlast hrun
                    rw [e3, e3, e2, e2, e1, e1]
                    exact ⟨hcout, hcerr⟩

/-- C7, at a concrete store: task 1 has one rotated snapshot; after a third
run the log directory holds two stdout snapshots and no stderr snapshot. -/
theorem snapshot_bound_witness :
    utils_join_path run_paths.logs_dir (fmt_llu 1) PATH_MAX = some log_dir_one ∧
    dir_holds_files fs_task_with_snapshot log_dir_one ∧ paths_fit fs_task_with_snapshot ∧
    (storage_append_history fs_task_with_snapshot run_paths 1 ⟨180, 0, 6, 0⟩
      (some (str "third\n")) 6 none 0).1 = .ok () ∧
    (snapshot_files (storage_append_history fs_task_with_snapshot run_paths 1 ⟨180, 0, 6, 0⟩
      (some (str "third\n")) 6 none 0).2 log_dir_one (str "stdout")).length ≤ 5 ∧
    (snapshot_files (storage_append_history fs_task_with_snapshot run_paths 1 ⟨180, 0, 6, 0⟩
      (some (str "third\n")) 6 none 0).2 log_dir_one (str "stderr")).length ≤ 5 :=
  ⟨by decide, by decide, by decide, by decide,
    snapshot_bound fs_task_with_snapshot _ run_paths 1 ⟨180, 0, 6, 0⟩ (some (str "third\n")) 6
      none 0 log_dir_one (by decide) (by decide) (by decide) (by decide) (by decide)
      (by decide)⟩

/-! ## Creation path -/

theorem filter_map_put (fs : fs_t) (P : List Nat → Bool) (p : List Nat) (n : node_t)
    (hp : P p = false) :
    (fs.map (fun e => (e.1, if e.1 = p then n else e.2))).filter (fun e => P e.1) =
      fs.filter (fun e => P e.1) := by
  induction fs with
  | nil => rfl
  | cons e rest ih =>
    simp only [List.map_cons, List.filter_cons]
    rw [ih]
    by_cases he : e.1 = p
    · simp [he, hp]
    · simp [he]

theorem filter_fs_put (fs : fs_t) (P : List Nat → Bool) (p : List Nat) (n : node_t)
    (hp : P p = false) :
    (fs_put fs p n).filter (fun e => P e.1) = fs.filter (fun e => P e.1) := by
  unfold fs_put
  split
  · exact filter_map_put fs P p n hp
  · simp [List.filter_append, List.filter_cons, hp]

theorem filter_fs_remove (fs : fs_t) (P : List Nat → Bool) (p : List Nat)
    (hp : P p = false) :
    (fs_remove fs p).filter (fun e => P e.1) = fs.filter (fun e => P e.1) := by
  unfold fs_remove
  rw [List.filter_filter]
  apply List.filter_congr
  intro e _
  by_cases he : e.1 = p
  · simp [he, hp]
  · simp [he]

theorem filter_keep_unlink (fs : fs_t) (P : List Nat → Bool) (p : List Nat)
    (hp : P p = false) :
    (keep_on_error (sys_unlink fs p) fs).filter (fun e => P e.1) = fs.filter (fun e => P e.1) := by
  rcases keep_unlink_cases fs p with h | h
  · rw [h]
  · rw [h]; exact filter_fs_remove fs P p hp

theorem filter_open_creat (fs fs1 : fs_t) (P : List Nat → Bool) (p : List Nat) (t : Bool)
    (hp : P p = false) (h : sys_open_creat fs p t = .ok fs1) :
    fs1.filter (fun e => P e.1) = fs.filter (fun e => P e.1) := by
  rcases sys_open_creat_cases fs fs1 p t h with h1 | h1
  · rw [h1]
  · rw [h1]; exact filter_fs_put fs P p _ hp

theorem base_name_self (b : List Nat) (h : 47 ∉ b) : base_name b = b := by
  have := base_name_join [] b h
  unfold base_name at this ⊢
  rw [List.reverse_append, List.reverse_append] at this
  rw [List.takeWhile_append_of_pos] at this
  · rw [List.takeWhile_eq_self_iff.2]
    · simp
    · intro c hc
      have : c ≠ 47 := fun h0 => h (by rw [← h0]; exact List.mem_reverse.1 hc)
      simpa using this
  · intro c hc
    have : c ≠ 47 := fun h0 => h (by rw [← h0]; exact List.mem_reverse.1 hc)
    simpa using this

theorem base_name_utils_join (a b p : List Nat) (buflen : Nat) (hb : 47 ∉ b)
    (h : utils_join_path a b buflen = some p) : base_name p = b := by
  have hdrop : b.dropWhile (fun c => decide (c = 47)) = b := by
    cases b with
    | nil => rfl
    | cons x xs =>
      have : x ≠ 47 := fun h0 => hb (by rw [h0]; exact List.mem_cons_self _ _)
      simp [List.dropWhile, this]
  by_cases hsep : (a.length > 0 ∧ a.getLast? ≠ some 47)
  · have h1 : p = a ++ [47] ++ b := by
      have hdec : decide (a.length > 0 ∧ a.getLast? ≠ some 47) = true := decide_eq_true hsep
      unfold utils_join_path at h
      simp only [hdrop, hdec, if_true] at h
      by_cases hfit : a.length + 1 + b.length + 1 > buflen
      · rw [if_pos hfit] at h; cases h
      · rw [if_neg hfit] at h; injection h with h; exact h.symm
    rw [h1]
    exact base_name_join a b hb
  · have h1 : p = a ++ b := by
      have hdec : decide (a.length > 0 ∧ a.getLast? ≠ some 47) = false := decide_eq_false hsep
      unfold utils_join_path at h
      simp only [hdrop, hdec, Bool.false_eq_true, if_false, List.append_nil] at h
      by_cases hfit : a.length + 0 + b.length + 1 > buflen
      · rw [if_pos hfit] at h; cases h
      · rw [if_neg hfit] at h; injection h with h; exact h.symm
    rw [h1]
    by_cases ha : a = []
    · subst ha; simpa using base_name_self b hb
    · have hlen : a.length > 0 := List.length_pos.2 ha
      have hl : a.getLast? = some 47 := by
        by_contra hc
        exact hsep ⟨hlen, hc⟩
      obtain ⟨a1, rfl⟩ : ∃ a1, a = a1 ++ [47] := by
        refine ⟨a.dropLast, ?_⟩
        have := List.dropLast_append_getLast? 47 (by simpa using hl)
        exact this.symm
      exact base_name_join a1 b hb

theorem fs_tree_append (fs : fs_t) (p : List Nat) (n : node_t) (htree : fs_tree fs)
    (hpar : fs_find fs (parent_path p) = some .dir) : fs_tree (fs ++ [(p, n)]) := by
  intro e he hne
  rw [fs_find_append]
  rcases List.mem_append.1 he with h | h
  · rw [htree e h hne]
  · simp only [List.mem_singleton] at h
    subst h
    rw [hpar]

theorem fs_tree_put_file (fs : fs_t) (p c c1 : List Nat) (htree : fs_tree fs)
    (hp : fs_find fs p = some (.file c)) : fs_tree (fs_put fs p (.file c1)) := by
  intro e he hne
  have hput : fs_put fs p (.file c1) =
      fs.map (fun e => (e.1, if e.1 = p then node_t.file c1 else e.2)) := by
    unfold fs_put; rw [hp]
  rw [hput] at he
  obtain ⟨e0, he0, rfl⟩ := List.mem_map.1 he
  have h0 := htree e0 he0 hne
  by_cases hq : p = parent_path e0.1
  · rw [← hq, hp] at h0; cases h0
  · rw [fs_find_put_other fs p _ _ hq]; exact h0

theorem fs_tree_open_creat (fs fs1 : fs_t) (p : List Nat) (t : Bool) (htree : fs_tree fs)
    (h : sys_open_creat fs p t = .ok fs1) : fs_tree fs1 := by
  unfold sys_open_creat at h
  cases hp : fs_find fs p with
  | some n =>
    rw [hp] at h
    cases n with
    | dir => cases h
    | file c =>
      simp only at h
      injection h with h
      subst h
      by_cases ht : t = true
      · simp only [ht, if_true]; exact fs_tree_put_file fs p c [] htree hp
      · simp only [ht, Bool.false_eq_true, if_false]; exact htree
  | none =>
    rw [hp] at h
    simp only at h
    cases hpar : fs_find fs (parent_path p) with
    | none => rw [hpar] at h; cases h
    | some n =>
      rw [hpar] at h
      cases n with
      | file c => cases h
      | dir =>
        simp only at h
        injection h with h
        subst h
        exact fs_tree_append fs p _ htree hpar

theorem write_task_file_fails (fs : fs_t) (task : task_t) (final_path : List Nat)
    (htree : fs_tree fs) (hne : final_path ≠ []) (hlast : final_path.getLast? ≠ some 47) :
    ∃ e fs1, write_task_file fs task final_path = (.error e, fs1) ∧
      ∀ P : List Nat → Bool, (∀ q, base_name q = str ".tmp" → P q = false) →
        fs1.filter (fun e => P e.1) = fs.filter (fun e => P e.1) := by
  unfold write_task_file
  cases hj : utils_join_path final_path (str ".tmp") PATH_MAX with
  | none => exact ⟨.ENAMETOOLONG, fs, rfl, fun _ _ => rfl⟩
  | some tmp_path =>
    simp only
    have hbase : base_name tmp_path = str ".tmp" :=
      base_name_utils_join _ _ _ _ (by decide) hj
    have hshape :=
      (utils_join_path_of_dir final_path (str ".tmp") tmp_path PATH_MAX hne hlast hj).1
    have hdrop : (str ".tmp").dropWhile (fun c => decide (c = 47)) = str ".tmp" := by decide
    rw [hdrop] at hshape
    have hpar : parent_path tmp_path = final_path := by
      rw [hshape]; exact parent_path_join _ _ (by decide)
    have hneq : tmp_path ≠ final_path := by rw [hshape]; exact append_ne_self _ _
    cases ho : sys_open_creat fs tmp_path true with
    | error e => exact ⟨e, fs, rfl, fun _ _ => rfl⟩
    | ok fs1 =>
      simp only
      have hf1 : ∀ P : List Nat → Bool, P tmp_path = false →
          fs1.filter (fun e => P e.1) = fs.filter (fun e => P e.1) :=
        fun P hp => filter_open_creat fs fs1 P tmp_path true hp ho
      have hdir : fs_find fs1 final_path = some .dir := by
        unfold sys_open_creat at ho
        cases hp : fs_find fs tmp_path with
        | some n =>
          rw [hp] at ho
          cases n with
          | dir => cases ho
          | file c =>
            simp only [if_true] at ho
            injection ho with ho
            subst ho
            rw [fs_find_put_other fs _ _ _ hneq]
            have hmem := fs_find_some_mem fs tmp_path _ hp
            have := htree _ hmem (by rw [hpar]; exact hne)
            rw [hpar] at this
            exact this
        | none =>
          rw [hp] at ho
          simp only at ho
          rw [hpar] at ho
          cases hf : fs_find fs final_path with
          | none => rw [hf] at ho; cases ho
          | some n =>
            rw [hf] at ho
            cases n with
            | file c => cases ho
            | dir =>
              simp only at ho
              injection ho with ho
              subst ho
              rw [fs_find_append, hf]
      cases ht : write_task_file_text task with
      | none =>
        refine ⟨.ENOSPC, _, rfl, fun P hP => ?_⟩
        rw [filter_keep_unlink _ P tmp_path (hP _ hbase)]
        exact hf1 P (hP _ hbase)
      | some text =>
        simp only
        have hren : sys_rename (fs_put fs1 tmp_path (.file text)) tmp_path final_path =
            .error .EISDIR := by
          unfold sys_rename
          rw [fs_find_put_same]
          simp only
          rw [fs_find_put_other _ _ _ _ hneq, hdir]
        rw [hren]
        refine ⟨.EISDIR, _, rfl, fun P hP => ?_⟩
        rw [filter_keep_unlink _ P tmp_path (hP _ hbase),
          filter_fs_put _ P tmp_path _ (hP _ hbase)]
        exact hf1 P (hP _ hbase)

/-- In a tree-shaped file system `storage_write_task` never succeeds: the
temporary path is `<id>.task/.tmp`, which can be opened only when `<id>.task`
is a directory, and then `rename` onto that directory fails. Only nodes named
`.tmp` differ afterwards. -/
theorem storage_write_task_fails (fs : fs_t) (paths : storage_paths_t) (task : task_t)
    (htree : fs_tree fs) :
    ∃ e fs1, storage_write_task fs paths task = (.error e, fs1) ∧
      ∀ P : List Nat → Bool, (∀ q, base_name q = str ".tmp" → P q = false) →
        fs1.filter (fun e => P e.1) = fs.filter (fun e => P e.1) := by
  unfold storage_write_task
  simp only
  split
  · exact ⟨.ENAMETOOLONG, fs, rfl, fun _ _ => rfl⟩
  · cases hj : utils_join_path paths.tasks_dir (fmt_llu task.task_id ++ str ".task") PATH_MAX with
    | none => exact ⟨.ENAMETOOLONG, fs, rfl, fun _ _ => rfl⟩
    | some final_path =>
      simp only
      have hd : (fmt_llu task.task_id ++ str ".task").dropWhile (fun c => decide (c = 47)) =
          fmt_llu task.task_id ++ str ".task" := by
        have hnn := fmt_llu_ne_nil task.task_id
        cases hf : fmt_llu task.task_id with
        | nil => exact absurd hf hnn
        | cons x xs =>
          have hx := fmt_llu_bytes task.task_id x (by rw [hf]; exact List.mem_cons_self _ _)
          have : x ≠ 47 := by omega
          simp [List.dropWhile, this]
      have hl : (fmt_llu task.task_id ++ str ".task").getLast? = some 107 := by
        rw [List.getLast?_append]
        have : (str ".task").getLast? = some 107 := by decide
        rw [this]
        rfl
      have hlast := join_last_byte _ _ _ _ 107 hj hd hl
      have hne : final_path ≠ [] := by
        intro h0; rw [h0] at hlast; cases hlast
      exact write_task_file_fails fs task final_path htree hne (by rw [hlast]; decide)

/-- The function `storage_allocate_task_id` keeps the file system a tree and
touches only nodes named `next_id`. -/
theorem storage_allocate_task_id_frame (fs : fs_t) (paths : storage_paths_t) :
    (fs_tree fs → fs_tree (storage_allocate_task_id fs paths).2) ∧
    ∀ P : List Nat → Bool, (∀ q, base_name q = str "next_id" → P q = false) →
      (storage_allocate_task_id fs paths).2.filter (fun e => P e.1) =
        fs.filter (fun e => P e.1) := by
  unfold storage_allocate_task_id
  cases hj : utils_join_path paths.tasks_dir (str "next_id") PATH_MAX with
  | none => exact ⟨fun h => h, fun _ _ => rfl⟩
  | some id_path =>
    simp only
    have hbase : base_name id_path = str "next_id" :=
      base_name_utils_join _ _ _ _ (by decide) hj
    cases ho : sys_open_creat fs id_path false with
    | error e => exact ⟨fun h => h, fun _ _ => rfl⟩
    | ok fs1 =>
      simp only
      have ht1 : fs_tree fs → fs_tree fs1 := fun h => fs_tree_open_creat fs fs1 id_path false h ho
      have hf1 : ∀ P : List Nat → Bool, P id_path = false →
          fs1.filter (fun e => P e.1) = fs.filter (fun e => P e.1) :=
        fun P hp => filter_open_creat fs fs1 P id_path false hp ho
      cases hr : sys_read_file fs1 id_path with
      | error e => exact ⟨ht1, fun P hP => hf1 P (hP _ hbase)⟩
      | ok content =>
        simp only
        have hfile : fs_find fs1 id_path = some (.file content) := by
          unfold sys_read_file at hr
          cases hp : fs_find fs1 id_path with
          | none => rw [hp] at hr; cases hr
          | some n =>
            rw [hp] at hr
            cases n with
            | dir => cases hr
            | file c => simp only at hr; injection hr with hr; rw [hr]
        split
        · exact ⟨ht1, fun P hP => hf1 P (hP _ hbase)⟩
        · refine ⟨fun h => fs_tree_put_file fs1 id_path content _ (ht1 h) hfile, fun P hP => ?_⟩
          rw [filter_fs_put _ P id_path _ (hP _ hbase)]
          exact hf1 P (hP _ hbase)

theorem send_json_response_frame (ctx : erraid_context_t) (sys : daemon_sys) (type : Nat)
    (payload : List Nat) :
    (send_json_response ctx sys type payload).2.1.tasks = ctx.tasks ∧
    (send_json_response ctx sys type payload).2.1.plan = ctx.plan ∧
    (send_json_response ctx sys type payload).2.1.paths = ctx.paths ∧
    (send_json_response ctx sys type payload).2.2.fs = sys.fs ∧
    (send_json_response ctx sys type payload).2.1.plan_count = ctx.plan_count := by
  unfold send_json_response
  simp only
  split
  · exact ⟨rfl, rfl, rfl, rfl, rfl⟩
  · rename_i ctx1 hopen
    have h1 : ctx1.tasks = ctx.tasks ∧ ctx1.plan = ctx.plan ∧ ctx1.paths = ctx.paths ∧
        ctx1.plan_count = ctx.plan_count := by
      by_cases hfd : ctx.reply_fd = true
      · rw [if_pos hfd] at hopen; injection hopen with h; subst h; exact ⟨rfl, rfl, rfl, rfl⟩
      · rw [if_neg hfd] at hopen
        cases hro : sys.reply_open with
        | error e => rw [hro] at hopen; cases hopen
        | ok u => rw [hro] at hopen; injection hopen with h; subst h; exact ⟨rfl, rfl, rfl, rfl⟩
    split
    · exact ⟨h1.1, h1.2.1, h1.2.2.1, rfl, h1.2.2.2⟩
    · split
      · split <;> exact ⟨h1.1, h1.2.1, h1.2.2.1, rfl, h1.2.2.2⟩
      · exact ⟨h1.1, h1.2.1, h1.2.2.1, rfl, h1.2.2.2⟩

theorem send_error_response_frame (ctx : erraid_context_t) (sys : daemon_sys)
    (code message : List Nat) :
    (send_error_response ctx sys code message).2.1.tasks = ctx.tasks ∧
    (send_error_response ctx sys code message).2.1.plan = ctx.plan ∧
    (send_error_response ctx sys code message).2.1.paths = ctx.paths ∧
    (send_error_response ctx sys code message).2.2.fs = sys.fs ∧
    (send_error_response ctx sys code message).2.1.plan_count = ctx.plan_count := by
  unfold send_error_response
  split
  · exact ⟨rfl, rfl, rfl, rfl, rfl⟩
  · split
    · exact ⟨rfl, rfl, rfl, rfl, rfl⟩
    · split
      · exact ⟨rfl, rfl, rfl, rfl, rfl⟩
      · split
        · exact ⟨rfl, rfl, rfl, rfl, rfl⟩
        · exact send_json_response_frame ctx sys _ _

theorem is_task_file_path_next_id (paths : storage_paths_t) (q : List Nat)
    (h : base_name q = str "next_id") : is_task_file_path paths q = false := by
  unfold is_task_file_path
  rw [h]
  have : has_suffix (str "next_id") (str ".task") = false := by decide
  rw [this, Bool.and_false]

theorem is_task_file_path_tmp (paths : storage_paths_t) (q : List Nat)
    (h : base_name q = str ".tmp") : is_task_file_path paths q = false := by
  unfold is_task_file_path
  rw [h]
  have : has_suffix (str ".tmp") (str ".task") = false := by decide
  rw [this, Bool.and_false]

/-- In a tree-shaped file system `storage_write_task` never succeeds, so
`handle_create_task` leaves by one of its first four error exits (schedule,
commands, id allocation, write of the task file); at these the task list, the
plan (the array and the number of entries in use) and the persisted task files
are what they were before the request. The exits for a failed in-memory insert
and a failed plan rebuild are not covered: no request reaches them in such a
file system. -/
theorem create_atomic_on_error (ctx : erraid_context_t) (sys : daemon_sys) (msg_type : Nat)
    (payload : List Nat) (htree : fs_tree sys.fs) :
    answers_with MSG_RSP_ERROR sys.reply_pipe
      (handle_create_task ctx sys msg_type payload).2.2.reply_pipe →
    (handle_create_task ctx sys msg_type payload).2.1.tasks = ctx.tasks ∧
    (handle_create_task ctx sys msg_type payload).2.1.plan = ctx.plan ∧
    (handle_create_task ctx sys msg_type payload).2.1.plan_count = ctx.plan_count ∧
    task_files (handle_create_task ctx sys msg_type payload).2.2.fs ctx.paths =
      task_files sys.fs ctx.paths := by
  intro _
  have halloc := storage_allocate_task_id_frame sys.fs ctx.paths
  unfold handle_create_task
  simp only
  split
  · have hf := send_error_response_frame ctx sys (str "INVALID_REQUEST")
      (str "Planification invalide")
    exact ⟨hf.1, hf.2.1, hf.2.2.2.2, by rw [hf.2.2.2.1]⟩
  · split
    · have hf := send_error_response_frame ctx sys (str "INVALID_REQUEST")
        (str "Commandes invalides")
      exact ⟨hf.1, hf.2.1, hf.2.2.2.2, by rw [hf.2.2.2.1]⟩
    · split
      · rename_i e fs1 heq
        rw [heq] at halloc
        have hf := send_error_response_frame ctx { sys with fs := fs1 } (str "PERSISTENCE_ERROR")
          (str "Allocation d'identifiant impossible")
        refine ⟨hf.1, hf.2.1, hf.2.2.2.2, ?_⟩
        rw [hf.2.2.2.1]
        exact halloc.2 (is_task_file_path ctx.paths) (is_task_file_path_next_id ctx.paths)
      · rename_i task_id fs1 heq
        rw [heq] at halloc
        have htree1 : fs_tree fs1 := halloc.1 htree
        have hfiles1 : task_files fs1 ctx.paths = task_files sys.fs ctx.paths :=
          halloc.2 (is_task_file_path ctx.paths) (is_task_file_path_next_id ctx.paths)
        split
        · rename_i e fs2 heq2
          obtain ⟨e1, fs3, hw, hfilter⟩ := storage_write_task_fails fs1 ctx.paths
            { task_id := task_id, type := task_type_from_message msg_type, commands := _
              schedule := _, last_run_epoch := -1 } htree1
          rw [hw] at heq2
          injection heq2 with _ hfs
          subst hfs
          have hf := send_error_response_frame ctx { sys with fs := fs3 }
            (str "PERSISTENCE_ERROR") (str "\xc3\x89criture de la t\xc3\xa2che impossible")
          refine ⟨hf.1, hf.2.1, hf.2.2.2.2, ?_⟩
          rw [hf.2.2.2.1, ← hfiles1]
          exact hfilter (is_task_file_path ctx.paths) (is_task_file_path_tmp ctx.paths)
        · rename_i fs2 heq2
          obtain ⟨e1, fs3, hw, _⟩ := storage_write_task_fails fs1 ctx.paths
            { task_id := task_id, type := task_type_from_message msg_type, commands := _
              schedule := _, last_run_epoch := -1 } htree1
          rw [hw] at heq2
          injection heq2 with h1 _
          cases h1

/-- The exit for a failed write at a concrete request: task 1 is loaded and
planned; a valid request to create a SIMPLE task is answered with
`PERSISTENCE_ERROR`, and the task list, the plan and the task files are as
before. -/
theorem create_atomic_on_error_witness :
    fs_tree (world_of fs_task_with_snapshot 130).fs ∧
    answers_with MSG_RSP_ERROR (world_of fs_task_with_snapshot 130).reply_pipe
      (handle_create_task loaded_ctx (world_of fs_task_with_snapshot 130) MSG_REQ_CREATE_SIMPLE
        create_true_payload).2.2.reply_pipe ∧
    (handle_create_task loaded_ctx (world_of fs_task_with_snapshot 130) MSG_REQ_CREATE_SIMPLE
        create_true_payload).2.1.tasks = loaded_ctx.tasks ∧
    (handle_create_task loaded_ctx (world_of fs_task_with_snapshot 130) MSG_REQ_CREATE_SIMPLE
        create_true_payload).2.1.plan = loaded_ctx.plan ∧
    (handle_create_task loaded_ctx (world_of fs_task_with_snapshot 130) MSG_REQ_CREATE_SIMPLE
        create_true_payload).2.1.plan_count = loaded_ctx.plan_count ∧
    task_files (handle_create_task loaded_ctx (world_of fs_task_with_snapshot 130)
        MSG_REQ_CREATE_SIMPLE create_true_payload).2.2.fs loaded_ctx.paths =
      task_files (world_of fs_task_with_snapshot 130).fs loaded_ctx.paths :=
  ⟨by decide,
   ⟨str "\x7b\"status\":\"ERROR\",\"code\":\"PERSISTENCE_ERROR\",\"message\":\"\xc3\x89criture de la t\xc3\xa2che impossible\"\x7d",
     by decide, by decide⟩,
   create_atomic_on_error loaded_ctx (world_of fs_task_with_snapshot 130) MSG_REQ_CREATE_SIMPLE
     create_true_payload (by decide)
     ⟨str "\x7b\"status\":\"ERROR\",\"code\":\"PERSISTENCE_ERROR\",\"message\":\"\xc3\x89criture de la t\xc3\xa2che impossible\"\x7d",
       by decide, by decide⟩⟩

theorem isspace_digit (c : Nat) (hc : 48 ≤ c ∧ c ≤ 57) : isspace c = false := by
  unfold isspace
  simp only [Bool.or_eq_false_iff, decide_eq_false_iff_not, Bool.and_eq_false_iff]
  constructor
  · omega
  · right; omega

theorem scan_digits_printed (n : Nat) (hn : n < 10 ^ 64) (ext : List Nat) :
    scan_digits 10 (digits_aux 10 64 n [] ++ 46 :: ext) 0 0 =
      (n, (digits_aux 10 64 n []).length, 46 :: ext) := by
  rw [scan_digits_digits_aux 10 (by omega) (by omega) 64 n hn 0 0 (46 :: ext)]
  simp [scan_digits, digit_value]

theorem digits_aux_head (n : Nat) :
    ∃ c t, digits_aux 10 64 n [] = c :: t ∧ 48 ≤ c ∧ c ≤ 57 := by
  have hne : digits_aux 10 64 n [] ≠ [] := digits_aux_ne_nil 10 63 n
  obtain ⟨c, t, hct⟩ := List.exists_cons_of_ne_nil hne
  refine ⟨c, t, hct, ?_⟩
  obtain ⟨d, hd, rfl⟩ := digits_aux_bytes 10 (by omega) (by omega) 64 n c (by rw [hct]; simp)
  unfold digit_byte
  rw [if_pos hd]
  omega

/-- Reading back a printed `long long` that a dot follows. -/
theorem strtoll_fmt_lld (e : Int) (hlo : -(2 ^ 63) ≤ e) (hhi : e < 2 ^ 63) (ext : List Nat) :
    strtoll (fmt_lld e ++ 46 :: ext) 10 =
      { value := e, rest := 46 :: ext, converted := true, erange := false } := by
  have hn : e.natAbs < 10 ^ 64 := by
    have : e.natAbs ≤ 2 ^ 63 := by omega
    exact lt_of_le_of_lt this (by norm_num)
  obtain ⟨c, t, hct, hc⟩ := digits_aux_head e.natAbs
  have hscan := scan_digits_printed e.natAbs hn ext
  have hlen : (digits_aux 10 64 e.natAbs []).length ≠ 0 := by rw [hct]; simp
  unfold strtoll fmt_lld
  by_cases hneg : e < 0
  · rw [if_pos hneg]
    have hs : strto_scan (45 :: digits_aux 10 64 e.natAbs [] ++ 46 :: ext) 10 =
        (true, e.natAbs, (digits_aux 10 64 e.natAbs []).length, 46 :: ext) := by
      unfold strto_scan
      have h45 : isspace 45 = false := by decide
      simp only [List.cons_append, List.dropWhile, h45, strto_sign, strto_prefix_ten]
      change (true, (scan_digits 10 (digits_aux 10 64 e.natAbs [] ++ 46 :: ext) 0 0).1,
        (scan_digits 10 (digits_aux 10 64 e.natAbs [] ++ 46 :: ext) 0 0).2.1,
        (scan_digits 10 (digits_aux 10 64 e.natAbs [] ++ 46 :: ext) 0 0).2.2) = _
      rw [hscan]
    rw [hs]
    simp only [hlen, if_false, if_true]
    have hle : ¬ (e.natAbs > 2 ^ 63) := by omega
    rw [if_neg hle]
    congr 1
    omega
  · rw [if_neg hneg]
    have hs : strto_scan (digits_aux 10 64 e.natAbs [] ++ 46 :: ext) 10 =
        (false, e.natAbs, (digits_aux 10 64 e.natAbs []).length, 46 :: ext) := by
      rw [hct, List.cons_append, strto_scan_digit_head c _ hc, ← List.cons_append, ← hct, hscan]
    rw [hs]
    simp only [hlen, if_false, Bool.false_eq_true]
    have hle : ¬ (e.natAbs > 2 ^ 63 - 1) := by omega
    rw [if_neg hle]
    congr 1
    omega

theorem snapshot_name_take (e : Int) (ext : List Nat) :
    (snapshot_name e ext).take 9 = str "snapshot-" := by
  unfold snapshot_name
  rw [List.append_assoc, List.append_assoc, List.take_left' (by decide)]

theorem snapshot_name_drop (e : Int) (ext : List Nat) :
    (snapshot_name e ext).drop 9 = fmt_lld e ++ 46 :: ext := by
  unfold snapshot_name
  rw [List.append_assoc, List.append_assoc, List.drop_left' (by decide)]
  simp

theorem parse_snapshot_filename_name (e : Int) (hlo : -(2 ^ 63) ≤ e) (hhi : e < 2 ^ 63)
    (ext : List Nat) (hdot : 46 ∉ ext) :
    parse_snapshot_filename (snapshot_name e ext) ext = some (e, 0) := by
  unfold parse_snapshot_filename
  rw [if_neg (by rw [snapshot_name_take]; simp)]
  have hs : strrchr_dot (snapshot_name e ext) = some (46 :: ext) :=
    strrchr_dot_append (str "snapshot-" ++ fmt_lld e) ext hdot
  rw [hs]
  simp only [List.drop_succ_cons, List.drop_zero, ne_eq, not_true_eq_false, if_false]
  rw [snapshot_name_drop, strtoll_fmt_lld e hlo hhi ext]
  simp

/-- The snapshot name for `epoch` is read back as the snapshot of `epoch` with
the counter 0. -/
theorem snapshot_entry_of_snapshot_name (e : Int) (hlo : -(2 ^ 63) ≤ e) (hhi : e < 2 ^ 63)
    (ext : List Nat) (hdot : 46 ∉ ext) :
    snapshot_entry_of ext (snapshot_name e ext) = some (snapshot_entry e ext) := by
  unfold snapshot_entry_of
  have hhead : (snapshot_name e ext).head? ≠ some 46 := by
    unfold snapshot_name
    rw [List.append_assoc, List.append_assoc, str_snapshot_prefix]
    simp
  rw [if_neg hhead, parse_snapshot_filename_name e hlo hhi ext hdot]
  rfl

theorem snapshot_name_inj (e1 e2 : Int) (h1 : -(2 ^ 63) ≤ e1 ∧ e1 < 2 ^ 63)
    (h2 : -(2 ^ 63) ≤ e2 ∧ e2 < 2 ^ 63) (ext : List Nat) (hdot : 46 ∉ ext)
    (h : snapshot_name e1 ext = snapshot_name e2 ext) : e1 = e2 := by
  have a := snapshot_entry_of_snapshot_name e1 h1.1 h1.2 ext hdot
  have b := snapshot_entry_of_snapshot_name e2 h2.1 h2.2 ext hdot
  rw [h, b] at a
  simp only [Option.some.injEq] at a
  have := congrArg snapshot_entry_t.epoch a
  exact this.symm

theorem fmt_lld_length (e : Int) (hlo : -(2 ^ 63) ≤ e) (hhi : e < 2 ^ 63) :
    (fmt_lld e).length ≤ 20 := by
  have hd : (digits_aux 10 64 e.natAbs []).length ≤ 19 := by
    apply digits_aux_length_le 10 (by omega) 64 19 _ (by omega)
    have : e.natAbs ≤ 2 ^ 63 := by omega
    exact lt_of_le_of_lt this (by norm_num)
  unfold fmt_lld
  split
  · simp only [List.length_cons]; omega
  · omega

theorem build_snapshot_name_zero (e : Int) (hlo : -(2 ^ 63) ≤ e) (hhi : e < 2 ^ 63)
    (ext : List Nat) (hext : ext.length ≤ 30) :
    build_snapshot_name 64 e 0 ext = some (snapshot_name e ext) := by
  have hl := fmt_lld_length e hlo hhi
  unfold build_snapshot_name
  simp only [if_true]
  rw [if_neg]
  · rfl
  · simp only [List.length_append, List.length_singleton]
    have : (str "snapshot-").length = 9 := by decide
    omega

/-- A name read as a snapshot for `ext` ends in a dot and `ext`. -/
theorem snapshot_entry_of_ext (ext n : List Nat) (s : snapshot_entry_t)
    (h : snapshot_entry_of ext n = some s) : strrchr_dot n = some (46 :: ext) := by
  unfold snapshot_entry_of at h
  split at h
  · cases h
  · cases hp : parse_snapshot_filename n ext with
    | none => rw [hp] at h; cases h
    | some r =>
      unfold parse_snapshot_filename at hp
      split at hp
      · cases hp
      · cases hs : strrchr_dot n with
        | none => rw [hs] at hp; cases hp
        | some dot =>
          rw [hs] at hp
          simp only at hp
          by_cases hd : dot.drop 1 ≠ ext
          · rw [if_pos hd] at hp; cases hp
          · have hd1 : dot.drop 1 = ext := by simpa using hd
            unfold strrchr_dot at hs
            split at hs
            · simp only [Option.some.injEq] at hs
              rw [← hs] at hd1
              simp only [List.drop_succ_cons, List.drop_zero] at hd1
              rw [← hs, hd1]
            · cases hs

/-! ## What an operation leaves untouched -/

theorem fs_find_filter_path (fs : fs_t) (P : List Nat → Bool) (q : List Nat) (h : P q = true) :
    fs_find (fs.filter (fun e => P e.1)) q = fs_find fs q :=
  fs_find_filter fs _ q (fun e he => by rw [he]; exact h)

theorem snapshot_files_filter_eq (fs : fs_t) (P : List Nat → Bool) (d ext : List Nat)
    (h : ∀ e ∈ fs, parent_path e.1 = d → e.1 ≠ d →
      snapshot_entry_of ext (base_name e.1) ≠ none → P e.1 = true) :
    snapshot_files (fs.filter (fun e => P e.1)) d ext = snapshot_files fs d ext := by
  unfold snapshot_files
  induction fs with
  | nil => rfl
  | cons e rest ih =>
    have ih1 := ih (fun x hx => h x (List.mem_cons_of_mem _ hx))
    by_cases hc : (parent_path e.1 = d ∧ e.1 ≠ d)
    · cases hs : snapshot_entry_of ext (base_name e.1) with
      | none =>
        by_cases hp : P e.1 = true
        · simp only [List.filter_cons, hp, if_true, hc, ne_eq, not_false_eq_true, and_self,
            decide_True, List.filterMap_cons, hs]
          simpa using ih1
        · simp only [List.filter_cons, hp, Bool.false_eq_true, if_false, hc, ne_eq,
            not_false_eq_true, and_self, decide_True, if_true, List.filterMap_cons, hs]
          simpa using ih1
      | some s =>
        have hp : P e.1 = true := h e (List.mem_cons_self _ _) hc.1 hc.2 (by rw [hs]; simp)
        simp only [List.filter_cons, hp, if_true, hc, ne_eq, not_false_eq_true, and_self,
          decide_True, List.filterMap_cons, hs]
        simpa using ih1
    · by_cases hp : P e.1 = true
      · simp only [List.filter_cons, hp, if_true, hc, decide_False, Bool.false_eq_true,
          if_false]
        simpa using ih1
      · simp only [List.filter_cons, hp, Bool.false_eq_true, if_false, hc, decide_False]
        simpa using ih1

/-- Two file systems that agree on the paths named with `ext` hold the same
snapshot files for `ext`, with the same contents. -/
theorem snapshot_files_of_agree (fs fs1 : fs_t) (d ext : List Nat)
    (h : fs1.filter (fun e => has_ext ext e.1) = fs.filter (fun e => has_ext ext e.1)) :
    snapshot_files fs1 d ext = snapshot_files fs d ext := by
  have key : ∀ f : fs_t, ∀ e ∈ f, parent_path e.1 = d → e.1 ≠ d →
      snapshot_entry_of ext (base_name e.1) ≠ none → has_ext ext e.1 = true := by
    intro f e _ _ _ hs
    cases hs1 : snapshot_entry_of ext (base_name e.1) with
    | none => exact absurd hs1 hs
    | some s =>
      unfold has_ext
      rw [snapshot_entry_of_ext ext _ s hs1]
      simp
  rw [← snapshot_files_filter_eq fs1 (has_ext ext) d ext (key fs1), h,
    snapshot_files_filter_eq fs (has_ext ext) d ext (key fs)]

theorem fs_find_of_agree (fs fs1 : fs_t) (ext q : List Nat)
    (h : fs1.filter (fun e => has_ext ext e.1) = fs.filter (fun e => has_ext ext e.1))
    (hq : has_ext ext q = true) : fs_find fs1 q = fs_find fs q := by
  rw [← fs_find_filter_path fs1 (has_ext ext) q hq, h, fs_find_filter_path fs (has_ext ext) q hq]

theorem filter_write_stdio_file (fs fs1 : fs_t) (P : List Nat → Bool) (p : List Nat)
    (buf : Option (List Nat)) (len : Nat) (hp : P p = false)
    (h : write_stdio_file fs p buf len = .ok fs1) :
    fs1.filter (fun e => P e.1) = fs.filter (fun e => P e.1) := by
  unfold write_stdio_file at h
  cases ho : sys_open_creat fs p true with
  | error e => rw [ho] at h; cases h
  | ok fs2 =>
    rw [ho] at h
    have h2 := filter_open_creat fs fs2 P p true hp ho
    cases buf with
    | none =>
      simp only [Except.ok.injEq] at h
      rw [← h, h2]
    | some data =>
      simp only at h
      split at h
      · simp only [Except.ok.injEq] at h
        rw [← h, filter_fs_put _ P p _ hp, h2]
      · simp only [Except.ok.injEq] at h
        rw [← h, h2]

theorem filter_append_history_line (fs fs1 : fs_t) (P : List Nat → Bool) (d line : List Nat)
    (hp : ∀ p, utils_join_path d (str "history.log") PATH_MAX = some p → P p = false)
    (h : append_history_line fs d line = (.ok (), fs1)) :
    fs1.filter (fun e => P e.1) = fs.filter (fun e => P e.1) := by
  unfold append_history_line at h
  cases hj : utils_join_path d (str "history.log") PATH_MAX with
  | none => rw [hj] at h; simp at h
  | some p =>
    rw [hj] at h
    simp only at h
    cases ho : sys_open_creat fs p false with
    | error e => rw [ho] at h; simp at h
    | ok fs2 =>
      rw [ho] at h
      simp only at h
      have h2 := filter_open_creat fs fs2 P p false (hp p hj) ho
      split at h
      · simp at h
      · cases hr : sys_read_file fs2 p with
        | error e => rw [hr] at h; simp at h
        | ok old =>
          rw [hr] at h
          simp only [Prod.mk.injEq, true_and] at h
          rw [← h, filter_fs_put _ P p _ (hp p hj), h2]

theorem filter_ensure_directory (fs fs1 : fs_t) (P : List Nat → Bool) (d : List Nat)
    (hp : P d = false) (h : ensure_directory fs d = .ok fs1) :
    fs1.filter (fun e => P e.1) = fs.filter (fun e => P e.1) := by
  unfold ensure_directory sys_stat at h
  cases hf : fs_find fs d with
  | some n =>
    rw [hf] at h
    cases n with
    | file c => cases h
    | dir => simp only [Except.ok.injEq] at h; rw [h]
  | none =>
    rw [hf] at h
    simp only [sys_mkdir, hf] at h
    split at h
    · simp only [Except.ok.injEq] at h
      subst h
      simp [List.filter_append, List.filter_cons, hp]
    · cases h
    · cases h

/-- The entries that `prune_snapshots` unlinks: those sorted beyond index 5. -/
theorem prune_snapshots_eq (fs fs1 : fs_t) (d ext : List Nat) (hd : d ≠ [])
    (hlast : d.getLast? ≠ some 47) (hok : log_dir_ok fs d)
    (h : prune_snapshots fs d ext = .ok fs1) :
    ∃ D : List snapshot_entry_t,
      (D = if (snapshot_files fs d ext).length ≤ 5 then []
        else (qsort_snapshots (snapshot_files fs d ext)).drop 5) ∧
      (∀ s ∈ D, s ∈ snapshot_files fs d ext) ∧
      fs1 = fs.filter (fun e => decide (∀ s ∈ D, e.1 ≠ d ++ [47] ++ s.name)) ∧
      snapshot_files fs1 d ext =
        (snapshot_files fs d ext).filter (fun t => decide (∀ s ∈ D, t.name ≠ s.name)) := by
  obtain ⟨hdir, hfiles, hfit⟩ := hok
  unfold prune_snapshots at h
  simp only [sys_readdir, hdir, collect_snapshots_readdir] at h
  by_cases hle : (snapshot_files fs d ext).length ≤ ERRAID_STDIO_SNAPSHOT_COUNT
  · rw [if_pos hle] at h
    simp only [Except.ok.injEq] at h
    subst h
    refine ⟨[], ?_, ?_, ?_, ?_⟩
    · exact (if_pos hle).symm
    · intro s hs; cases hs
    · simp
    · simp
  · rw [if_neg hle] at h
    simp only [Except.ok.injEq] at h
    have hD : ∀ s ∈ (qsort_snapshots (snapshot_files fs d ext)).drop ERRAID_STDIO_SNAPSHOT_COUNT,
        47 ∉ s.name ∧ (d ++ [47] ++ s.name).length < PATH_MAX := by
      intro s hs
      have hs1 : s ∈ snapshot_files fs d ext :=
        (List.perm_insertionSort _ _).subset (List.mem_of_mem_drop hs)
      obtain ⟨e, he, hpar, _, hent⟩ := mem_snapshot_files fs d ext s hs1
      have hname := snapshot_entry_of_name ext _ s hent
      rw [hname]
      refine ⟨base_name_no_slash e.1, ?_⟩
      rw [← child_path_eq d e.1 hd hpar]
      exact hfit e he
    rw [unlink_snapshots_eq d hd hlast _ fs hfiles hD] at h
    subst h
    refine ⟨(qsort_snapshots (snapshot_files fs d ext)).drop 5, ?_, ?_, rfl, ?_⟩
    · exact (if_neg hle).symm
    · intro s hs
      exact (List.perm_insertionSort _ _).subset (List.mem_of_mem_drop hs)
    unfold snapshot_files
    rw [filter_filterMap_comm fs _ _ _
      (fun t => decide (∀ s ∈ (qsort_snapshots (snapshot_files fs d ext)).drop
        ERRAID_STDIO_SNAPSHOT_COUNT, t.name ≠ s.name))]
    · rfl
    · intro e hc t hent
      simp only [decide_eq_true_eq] at hc
      have hname := snapshot_entry_of_name ext _ t hent
      have hpath := child_path_eq d e.1 hd hc.1
      congr 1
      apply propext
      constructor
      · intro h1 s hs heq
        apply h1 s hs
        rw [hpath, ← hname, heq]
      · intro h1 s hs heq
        apply h1 s hs
        rw [hpath] at heq
        rw [hname]
        exact List.append_cancel_left heq

theorem snapshot_entry_has_ext (fs : fs_t) (d ext : List Nat) (s : snapshot_entry_t)
    (h : s ∈ snapshot_files fs d ext) :
    has_ext ext (d ++ [47] ++ s.name) = true ∧ 47 ∉ s.name := by
  obtain ⟨e, _, _, _, hent⟩ := mem_snapshot_files fs d ext s h
  have hname := snapshot_entry_of_name ext _ s hent
  have hns : 47 ∉ s.name := by rw [hname]; exact base_name_no_slash e.1
  refine ⟨?_, hns⟩
  unfold has_ext
  rw [base_name_join d s.name hns, hname, snapshot_entry_of_ext ext _ s hent]
  simp

theorem built_name_has_ext (d name ext : List Nat) (epoch : Int) (counter : Nat)
    (hdot : 46 ∉ ext) (hslash : 47 ∉ ext)
    (hb : build_snapshot_name 64 epoch counter ext = some name) :
    has_ext ext (d ++ [47] ++ name) = true := by
  have hns := build_snapshot_name_no_slash 64 epoch counter ext name hslash hb
  obtain ⟨mid, _, hname⟩ := build_snapshot_name_shape 64 epoch counter ext name hb
  unfold has_ext
  rw [base_name_join d name hns, hname, strrchr_dot_append _ ext hdot]
  simp

theorem filter_prune_snapshots (fs fs1 : fs_t) (P : List Nat → Bool) (d ext : List Nat)
    (hd : d ≠ []) (hlast : d.getLast? ≠ some 47) (hok : log_dir_ok fs d)
    (hP : ∀ q, has_ext ext q = true → P q = false)
    (h : prune_snapshots fs d ext = .ok fs1) :
    fs1.filter (fun e => P e.1) = fs.filter (fun e => P e.1) := by
  obtain ⟨D, _, hmem, hfs1, _⟩ := prune_snapshots_eq fs fs1 d ext hd hlast hok h
  rw [hfs1, List.filter_filter]
  apply List.filter_congr
  intro e _
  by_cases hp : P e.1 = true
  · rw [hp, Bool.true_and]
    simp only [decide_eq_true_eq]
    intro s hs heq
    have := hP _ (snapshot_entry_has_ext fs d ext s (hmem s hs)).1
    rw [← heq, hp] at this
    cases this
  · have hp1 : P e.1 = false := by simpa using hp
    rw [hp1, Bool.false_and]

/-- A successful `rotate_stdio_snapshot` for `ext` touches only the last output
and paths named with `ext`. -/
theorem filter_rotate_stdio_snapshot (fs fs1 : fs_t) (P : List Nat → Bool)
    (d base_filename ext : List Nat) (epoch : Int) (hd : d ≠ [])
    (hlast : d.getLast? ≠ some 47) (hok : log_dir_ok fs d)
    (hdot : 46 ∉ ext) (hslash : 47 ∉ ext)
    (hP : ∀ q, has_ext ext q = true → P q = false)
    (hbase : ∀ p, utils_join_path d base_filename PATH_MAX = some p → P p = false)
    (h : rotate_stdio_snapshot fs d base_filename ext epoch = (.ok (), fs1)) :
    fs1.filter (fun e => P e.1) = fs.filter (fun e => P e.1) := by
  unfold rotate_stdio_snapshot at h
  cases hj : utils_join_path d base_filename PATH_MAX with
  | none => rw [hj] at h; simp at h
  | some base_path =>
    rw [hj] at h
    simp only at h
    have hPb := hbase base_path hj
    obtain ⟨hbp, _⟩ := utils_join_path_of_dir d base_filename base_path PATH_MAX hd hlast hj
    have hbd : base_path ≠ d := by rw [hbp]; exact append_ne_self d _
    have main : (match rotate_loop fs d base_path ext epoch 1000 0 with
        | .error e => ((Except.error e : Except Errno Unit), fs)
        | .ok (fs2, counter) =>
          match prune_snapshots
              (if counter ≥ 1000 then keep_on_error (sys_unlink fs2 base_path) fs2 else fs2)
              d ext with
          | .error e => (.error e,
              if counter ≥ 1000 then keep_on_error (sys_unlink fs2 base_path) fs2 else fs2)
          | .ok fs3 => (.ok (), fs3)) = (.ok (), fs1) →
        fs1.filter (fun e => P e.1) = fs.filter (fun e => P e.1) := by
      intro hm
      cases hl : rotate_loop fs d base_path ext epoch 1000 0 with
      | error e => rw [hl] at hm; simp at hm
      | ok r =>
        obtain ⟨fs2, counter⟩ := r
        rw [hl] at hm
        simp only at hm
        have hfs3 : log_dir_ok
              (if counter ≥ 1000 then keep_on_error (sys_unlink fs2 base_path) fs2 else fs2) d ∧
            (if counter ≥ 1000 then keep_on_error (sys_unlink fs2 base_path) fs2
              else fs2).filter (fun e => P e.1) = fs.filter (fun e => P e.1) := by
          rcases rotate_loop_ok fs d base_path ext epoch 1000 0 fs2 counter hl with
            ⟨h1, h2⟩ | ⟨h1, name, p, content, hb, hjp, _, _, h2⟩
          · subst h1
            rw [if_pos (by omega)]
            refine ⟨?_, filter_keep_unlink fs2 P base_path hPb⟩
            rcases keep_unlink_cases fs2 base_path with hk | hk
            · rw [hk]; exact hok
            · rw [hk]; exact log_dir_ok_remove fs2 d base_path hok hbd
          · rw [if_neg (by omega)]
            obtain ⟨hp, hfit⟩ := snapshot_path_eq d name p ext epoch counter hd hlast hb hjp
            subst h2
            refine ⟨log_dir_ok_put_file _ d p content
              (log_dir_ok_remove fs d base_path hok hbd) (by rw [hp]; exact append_ne_self d _)
              hfit, ?_⟩
            have hPp : P p = false := by
              rw [hp]
              exact hP _ (built_name_has_ext d name ext epoch counter hdot hslash hb)
            rw [filter_fs_put _ P p _ hPp, filter_fs_remove fs P base_path hPb]
        cases hp : prune_snapshots
            (if counter ≥ 1000 then keep_on_error (sys_unlink fs2 base_path) fs2 else fs2)
            d ext with
        | error e => rw [hp] at hm; simp at hm
        | ok fs3 =>
          rw [hp] at hm
          simp only [Prod.mk.injEq, true_and] at hm
          subst hm
          rw [filter_prune_snapshots _ fs3 P d ext hd hlast hfs3.1 hP hp]
          exact hfs3.2
    unfold sys_stat at h
    cases hf : fs_find fs base_path with
    | none =>
      rw [hf] at h
      simp only [Prod.mk.injEq, true_and] at h
      rw [h]
    | some n =>
      rw [hf] at h
      cases n with
      | dir => exact main h
      | file c =>
        cases c with
        | nil =>
          simp only [Prod.mk.injEq, true_and] at h
          rw [h]
        | cons x xs => exact main h

theorem write_stdio_file_ok (fs fs1 : fs_t) (d p : List Nat) (buf : Option (List Nat))
    (len : Nat) (hok : log_dir_ok fs d) (hp : p ≠ d) (hfit : p.length < PATH_MAX)
    (h : write_stdio_file fs p buf len = .ok fs1) : log_dir_ok fs1 d := by
  unfold write_stdio_file at h
  cases ho : sys_open_creat fs p true with
  | error e => rw [ho] at h; cases h
  | ok fs2 =>
    rw [ho] at h
    have h2 : log_dir_ok fs2 d := by
      rcases sys_open_creat_cases fs fs2 p true ho with h0 | h0
      · rw [h0]; exact hok
      · rw [h0]; exact log_dir_ok_put_file fs d p [] hok hp hfit
    cases buf with
    | none =>
      simp only [Except.ok.injEq] at h
      rw [← h]; exact h2
    | some data =>
      simp only at h
      split at h
      · simp only [Except.ok.injEq] at h
        rw [← h]; exact log_dir_ok_put_file fs2 d p _ h2 hp hfit
      · simp only [Except.ok.injEq] at h
        rw [← h]; exact h2

theorem append_history_line_ok (fs fs1 : fs_t) (d line : List Nat) (hd : d ≠ [])
    (hlast : d.getLast? ≠ some 47) (hok : log_dir_ok fs d)
    (h : append_history_line fs d line = (.ok (), fs1)) : log_dir_ok fs1 d := by
  unfold append_history_line at h
  cases hj : utils_join_path d (str "history.log") PATH_MAX with
  | none => rw [hj] at h; simp at h
  | some p =>
    rw [hj] at h
    simp only at h
    obtain ⟨hp, hfit⟩ := utils_join_path_of_dir d _ p PATH_MAX hd hlast hj
    have hpd : p ≠ d := by rw [hp]; exact append_ne_self d _
    cases ho : sys_open_creat fs p false with
    | error e => rw [ho] at h; simp at h
    | ok fs2 =>
      rw [ho] at h
      simp only at h
      have h2 : log_dir_ok fs2 d := by
        rcases sys_open_creat_cases fs fs2 p false ho with h0 | h0
        · rw [h0]; exact hok
        · rw [h0]; exact log_dir_ok_put_file fs d p [] hok hpd hfit
      split at h
      · simp at h
      · cases hr : sys_read_file fs2 p with
        | error e => rw [hr] at h; simp at h
        | ok old =>
          rw [hr] at h
          simp only [Prod.mk.injEq, true_and] at h
          rw [← h]; exact log_dir_ok_put_file fs2 d p _ h2 hpd hfit

/-! ## Pruning keeps the newest snapshots -/

theorem orderedInsert_oldest (a : snapshot_entry_t) (l : List snapshot_entry_t)
    (h : ∀ b ∈ l, a.epoch < b.epoch) : l.orderedInsert snapshot_before a = l ++ [a] := by
  induction l with
  | nil => rfl
  | cons b rest ih =>
    have hb := h b (List.mem_cons_self _ _)
    have hnot : ¬ snapshot_before a b := by
      unfold snapshot_before snapshot_compare_desc
      rw [if_pos (by omega), if_pos (by omega)]
      omega
    rw [List.orderedInsert, if_neg hnot, ih (fun c hc => h c (List.mem_cons_of_mem _ hc))]
    rfl

/-- Snapshots listed from the oldest to the newest are sorted into the reverse
order. -/
theorem qsort_snapshots_ascending (L : List snapshot_entry_t)
    (h : L.Pairwise (fun a b => a.epoch < b.epoch)) : qsort_snapshots L = L.reverse := by
  unfold qsort_snapshots
  induction L with
  | nil => rfl
  | cons a rest ih =>
    rw [List.pairwise_cons] at h
    rw [List.insertionSort, ih h.2, orderedInsert_oldest a rest.reverse, List.reverse_cons]
    intro b hb
    exact h.1 b (List.mem_reverse.1 hb)

theorem filter_drop_front (A B : List snapshot_entry_t)
    (h : (A ++ B).Pairwise (fun a b => a.name ≠ b.name)) :
    (A ++ B).filter (fun t => decide (∀ s ∈ A, t.name ≠ s.name)) = B := by
  rw [List.pairwise_append] at h
  obtain ⟨_, _, hAB⟩ := h
  rw [List.filter_append]
  have h1 : A.filter (fun t => decide (∀ s ∈ A, t.name ≠ s.name)) = [] := by
    rw [List.filter_eq_nil_iff]
    intro t ht
    simp only [decide_eq_true_eq, not_forall]
    exact ⟨t, ht, fun h => h rfl⟩
  have h2 : B.filter (fun t => decide (∀ s ∈ A, t.name ≠ s.name)) = B := by
    rw [List.filter_eq_self]
    intro t ht
    simp only [decide_eq_true_eq]
    intro s hs heq
    exact hAB s hs t ht heq.symm
  rw [h1, h2, List.nil_append]

/-- From a list of snapshots, oldest first, with distinct names, pruning the
entries sorted beyond index 5 leaves the five newest. -/
theorem filter_pruned (L : List snapshot_entry_t)
    (hasc : L.Pairwise (fun a b => a.epoch < b.epoch))
    (hnames : L.Pairwise (fun a b => a.name ≠ b.name)) (D : List snapshot_entry_t)
    (hD : D = if L.length ≤ 5 then [] else (qsort_snapshots L).drop 5) :
    L.filter (fun t => decide (∀ s ∈ D, t.name ≠ s.name)) = keep_recent L ∧
    ∀ s ∈ D, s ∈ L.take (L.length - 5) := by
  unfold keep_recent
  by_cases hle : L.length ≤ 5
  · rw [if_pos hle] at hD
    subst hD
    have : L.length - 5 = 0 := by omega
    rw [this]
    simp
  · rw [if_neg hle, qsort_snapshots_ascending L hasc] at hD
    have hrev : L.reverse.drop 5 = (L.take (L.length - 5)).reverse := by
      rw [List.reverse_take]
      congr 1
      omega
    rw [hrev] at hD
    subst hD
    constructor
    · have hsplit : L = L.take (L.length - 5) ++ L.drop (L.length - 5) :=
        (List.take_append_drop _ L).symm
      have := filter_drop_front (L.take (L.length - 5)) (L.drop (L.length - 5))
        (by rw [← hsplit]; exact hnames)
      rw [← hsplit] at this
      rw [← this]
      apply List.filter_congr
      intro t _
      simp only [List.mem_reverse]
    · intro s hs
      exact List.mem_reverse.1 hs

theorem keep_recent_of_le {α : Type} (E : List α) (h : E.length ≤ 5) : keep_recent E = E := by
  unfold keep_recent
  have : E.length - 5 = 0 := by omega
  rw [this, List.drop_zero]

theorem keep_recent_length {α : Type} (E : List α) : (keep_recent E).length ≤ 5 := by
  unfold keep_recent
  rw [List.length_drop]
  omega

theorem keep_recent_append {α : Type} (A B : List α) :
    keep_recent (keep_recent A ++ B) = keep_recent (A ++ B) := by
  by_cases hle : A.length ≤ 5
  · rw [keep_recent_of_le A hle]
  · have hA : (A.drop (A.length - 5)).length = 5 := by rw [List.length_drop]; omega
    unfold keep_recent
    rw [List.length_append, hA, List.length_append]
    have e1 : 5 + B.length - 5 = B.length := by omega
    have e2 : A.length + B.length - 5 = A.length - 5 + B.length := by omega
    have hR : (A ++ B).drop (A.length - 5 + B.length) =
        ((A ++ B).drop (A.length - 5)).drop B.length := by rw [List.drop_drop]
    have hS : (A ++ B).drop (A.length - 5) = A.drop (A.length - 5) ++ B :=
      List.drop_append_of_le_length (by omega)
    rw [e1, e2, hR, hS]

theorem keep_recent_sublist {α : Type} (E : List α) : (keep_recent E).Sublist E :=
  List.drop_sublist _ E

theorem snapshot_files_mem_of (fs : fs_t) (d ext q : List Nat) (n : node_t)
    (s : snapshot_entry_t) (hmem : (q, n) ∈ fs) (hpar : parent_path q = d) (hne : q ≠ d)
    (hs : snapshot_entry_of ext (base_name q) = some s) : s ∈ snapshot_files fs d ext := by
  unfold snapshot_files
  rw [List.mem_filterMap]
  refine ⟨(q, n), ?_, hs⟩
  rw [List.mem_filter]
  exact ⟨hmem, by simp [hpar, hne]⟩

theorem rotate_loop_first (fs : fs_t) (d base_path ext name p : List Nat) (epoch : Int)
    (r : Nat) (hb : build_snapshot_name 64 epoch 0 ext = some name)
    (hj : utils_join_path d name PATH_MAX = some p) (hnone : fs_find fs p = none) :
    rotate_loop fs d base_path ext epoch (r + 1) 0 =
      match sys_rename fs base_path p with
      | .error e => .error e
      | .ok fs1 => .ok (fs1, 0) := by
  rw [rotate_loop]
  simp only [hb, hj, sys_access, hnone, Option.isSome_none, Bool.not_false, if_true]

/-! ## One rotation of the last stdout -/

theorem last_stdout_path (d : List Nat) (hd : d ≠ []) (hlast : d.getLast? ≠ some 47)
    (p : List Nat) (h : utils_join_path d (str "last.stdout") PATH_MAX = some p) :
    p = d ++ [47] ++ str "last.stdout" := by
  obtain ⟨hbp, _⟩ := utils_join_path_of_dir d _ p PATH_MAX hd hlast h
  have : (str "last.stdout").dropWhile (fun c => decide (c = 47)) = str "last.stdout" := by
    decide
  rw [this] at hbp
  exact hbp

theorem snapshot_name_ne_last (e : Int) :
    snapshot_name e (str "stdout") ≠ str "last.stdout" := by
  intro h
  have := congrArg (List.take 9) h
  rw [snapshot_name_take] at this
  revert this
  decide

theorem keep_recent_map {α β : Type} (f : α → β) (E : List α) :
    keep_recent (E.map f) = (keep_recent E).map f := by
  unfold keep_recent
  rw [List.length_map, List.map_drop]

/-- The rotation of a non-empty `last.stdout` at an epoch later than those of
the snapshots present: the last output becomes the snapshot of that epoch, and
of the snapshots the five newest are kept, with their contents. -/
theorem rotate_stdout_exact (fs fs1 : fs_t) (d prev : List Nat) (E : List (Int × List Nat))
    (e : Int) (hd : d ≠ []) (hlast : d.getLast? ≠ some 47) (hok : log_dir_ok fs d)
    (hprev : prev ≠ [])
    (hlastf : fs_find fs (d ++ [47] ++ str "last.stdout") = some (.file prev))
    (hS : snapshot_files fs d (str "stdout") =
      E.map (fun p => snapshot_entry p.1 (str "stdout")))
    (hC : ∀ p ∈ E, fs_find fs (d ++ [47] ++ snapshot_name p.1 (str "stdout")) =
      some (.file p.2))
    (hasc : E.Pairwise (fun a b => a.1 < b.1))
    (hE : ∀ p ∈ E, -(2 ^ 63) ≤ p.1 ∧ p.1 < 2 ^ 63 ∧ p.1 < e)
    (hlo : -(2 ^ 63) ≤ e) (hhi : e < 2 ^ 63)
    (h : rotate_stdio_snapshot fs d (str "last.stdout") (str "stdout") e = (.ok (), fs1)) :
    fs_find fs1 (d ++ [47] ++ str "last.stdout") = none ∧
    snapshot_files fs1 d (str "stdout") =
      (keep_recent (E ++ [(e, prev)])).map (fun p => snapshot_entry p.1 (str "stdout")) ∧
    ∀ p ∈ keep_recent (E ++ [(e, prev)]),
      fs_find fs1 (d ++ [47] ++ snapshot_name p.1 (str "stdout")) = some (.file p.2) := by
  have hdot : 46 ∉ str "stdout" := by decide
  have hbuild := build_snapshot_name_zero e hlo hhi (str "stdout") (by decide)
  have hns : 47 ∉ snapshot_name e (str "stdout") :=
    build_snapshot_name_no_slash 64 e 0 _ _ (by decide) hbuild
  have hbd : d ++ [47] ++ str "last.stdout" ≠ d := append_ne_self d _
  obtain ⟨x, xs, hx⟩ := List.exists_cons_of_ne_nil hprev
  unfold rotate_stdio_snapshot at h
  cases hj : utils_join_path d (str "last.stdout") PATH_MAX with
  | none => rw [hj] at h; simp at h
  | some base =>
    have hbase := last_stdout_path d hd hlast base hj
    subst hbase
    rw [hj] at h
    simp only [sys_stat, hlastf, hx] at h
    have hunf : rotate_loop fs d (d ++ [47] ++ str "last.stdout") (str "stdout") e 1000 0 =
        rotate_loop fs d (d ++ [47] ++ str "last.stdout") (str "stdout") e (999 + 1) 0 := rfl
    cases hjs : utils_join_path d (snapshot_name e (str "stdout")) PATH_MAX with
    | none =>
      rw [hunf, rotate_loop] at h
      simp only [hbuild, hjs] at h
      simp at h
    | some p =>
      obtain ⟨hp, hpfit⟩ := snapshot_path_eq d _ p _ e 0 hd hlast hbuild hjs
      have hpar : parent_path p = d := by rw [hp]; exact parent_path_join d _ hns
      have hpd : p ≠ d := by rw [hp]; exact append_ne_self d _
      have hpb : p ≠ d ++ [47] ++ str "last.stdout" := by
        rw [hp]
        intro h0
        exact snapshot_name_ne_last e (List.append_cancel_left h0)
      have hnone : fs_find fs p = none := by
        cases hf : fs_find fs p with
        | none => rfl
        | some n =>
          exfalso
          have hmem := fs_find_some_mem fs p n hf
          have hs := snapshot_files_mem_of fs d (str "stdout") p n
            (snapshot_entry e (str "stdout")) hmem hpar hpd
            (by rw [hp, base_name_join d _ hns]
                exact snapshot_entry_of_snapshot_name e hlo hhi _ hdot)
          rw [hS, List.mem_map] at hs
          obtain ⟨q, hq, heq⟩ := hs
          have h1 : q.1 = e := congrArg snapshot_entry_t.epoch heq
          have := (hE q hq).2.2
          omega
      have hren : sys_rename fs (d ++ [47] ++ str "last.stdout") p =
          .ok (fs_put (fs_remove fs (d ++ [47] ++ str "last.stdout")) p (.file prev)) := by
        unfold sys_rename
        rw [hlastf]
        simp only [hnone, hpar, hok.1]
      rw [hunf, rotate_loop_first fs d _ _ _ p e 999 hbuild hjs hnone, hren] at h
      simp only [ge_iff_le, Nat.reduceLeDiff, if_false] at h
      have hfind' : fs_find (fs_remove fs (d ++ [47] ++ str "last.stdout")) p = none := by
        rw [fs_find_remove_other fs _ p (Ne.symm hpb)]; exact hnone
      have hput : fs_put (fs_remove fs (d ++ [47] ++ str "last.stdout")) p (.file prev) =
          fs_remove fs (d ++ [47] ++ str "last.stdout") ++ [(p, .file prev)] := by
        unfold fs_put; rw [hfind']
      have hok' : log_dir_ok
          (fs_put (fs_remove fs (d ++ [47] ++ str "last.stdout")) p (.file prev)) d :=
        log_dir_ok_put_file _ d p prev (log_dir_ok_remove fs d _ hok hbd) hpd hpfit
      have hrem : snapshot_files (fs_remove fs (d ++ [47] ++ str "last.stdout")) d
          (str "stdout") = snapshot_files fs d (str "stdout") := by
        apply snapshot_files_filter_eq fs
          (fun q => decide (q ≠ d ++ [47] ++ str "last.stdout")) d (str "stdout")
        intro e0 _ _ _ hs0
        simp only [decide_eq_true_eq]
        intro h0
        apply hs0
        rw [h0, base_name_join d _ (by decide)]
        exact snapshot_entry_of_no_prefix _ _ (by decide)
      have hone : snapshot_files [(p, node_t.file prev)] d (str "stdout") =
          [snapshot_entry e (str "stdout")] := by
        unfold snapshot_files
        have hb : base_name p = snapshot_name e (str "stdout") := by
          rw [hp]; exact base_name_join d _ hns
        simp [List.filter_cons, hpar, hpd, hb,
          snapshot_entry_of_snapshot_name e hlo hhi _ hdot]
      have hL : snapshot_files
          (fs_put (fs_remove fs (d ++ [47] ++ str "last.stdout")) p (.file prev)) d
          (str "stdout") =
          (E ++ [(e, prev)]).map (fun p => snapshot_entry p.1 (str "stdout")) := by
        rw [hput, snapshot_files_append, hrem, hS, hone, List.map_append]
        rfl
      cases hpr : prune_snapshots
          (fs_put (fs_remove fs (d ++ [47] ++ str "last.stdout")) p (.file prev)) d
          (str "stdout") with
      | error err => rw [hpr] at h; simp at h
      | ok fs3 =>
        rw [hpr] at h
        simp only [Prod.mk.injEq, true_and] at h
        subst h
        obtain ⟨D, hD, _, hfs1, hsf1⟩ := prune_snapshots_eq _ fs3 d (str "stdout") hd hlast
          hok' hpr
        rw [hL] at hD hsf1
        have hE' : ∀ q ∈ E ++ [(e, prev)], -(2 ^ 63) ≤ q.1 ∧ q.1 < 2 ^ 63 := by
          intro q hq
          rcases List.mem_append.1 hq with hq | hq
          · exact ⟨(hE q hq).1, (hE q hq).2.1⟩
          · simp only [List.mem_singleton] at hq
            rw [hq]; exact ⟨hlo, hhi⟩
        have hasc' : (E ++ [(e, prev)]).Pairwise (fun a b => a.1 < b.1) := by
          rw [List.pairwise_append]
          refine ⟨hasc, List.pairwise_singleton _ _, ?_⟩
          intro a ha b hb
          simp only [List.mem_singleton] at hb
          rw [hb]
          exact (hE a ha).2.2
        have hnames' : (E ++ [(e, prev)]).Pairwise
            (fun a b => snapshot_name a.1 (str "stdout") ≠ snapshot_name b.1 (str "stdout")) := by
          apply List.Pairwise.imp_of_mem _ hasc'
          intro a b ha hb hlt heq
          have := snapshot_name_inj a.1 b.1 (hE' a ha) (hE' b hb) _ hdot heq
          omega
        have hascL : ((E ++ [(e, prev)]).map
            (fun p => snapshot_entry p.1 (str "stdout"))).Pairwise
            (fun a b => a.epoch < b.epoch) := by
          rw [List.pairwise_map]; exact hasc'
        have hnamesL : ((E ++ [(e, prev)]).map
            (fun p => snapshot_entry p.1 (str "stdout"))).Pairwise
            (fun a b => a.name ≠ b.name) := by
          rw [List.pairwise_map]; exact hnames'
        obtain ⟨hfilt, hDtake⟩ := filter_pruned _ hascL hnamesL D hD
        have hnone3 : fs_find
            (fs_put (fs_remove fs (d ++ [47] ++ str "last.stdout")) p (.file prev))
            (d ++ [47] ++ str "last.stdout") = none := by
          rw [fs_find_put_other _ p _ _ hpb, fs_find_remove_same]
        refine ⟨?_, ?_, ?_⟩
        · rw [hfs1]
          rw [fs_find_none_iff] at hnone3 ⊢
          intro e0 he0
          exact hnone3 e0 (List.mem_of_mem_filter he0)
        · rw [hsf1, hfilt, keep_recent_map]
        · intro q hq
          have hqmem : q ∈ E ++ [(e, prev)] := (keep_recent_sublist _).subset hq
          rw [hfs1, fs_find_filter]
          · rcases List.mem_append.1 hqmem with hq1 | hq1
            · have hne : p ≠ d ++ [47] ++ snapshot_name q.1 (str "stdout") := by
                rw [hp]
                intro h0
                have := snapshot_name_inj e q.1 ⟨hlo, hhi⟩ (hE' q hqmem) _ hdot
                  (List.append_cancel_left h0)
                have := (hE q hq1).2.2
                omega
              have hne2 : d ++ [47] ++ str "last.stdout" ≠
                  d ++ [47] ++ snapshot_name q.1 (str "stdout") := by
                intro h0
                exact snapshot_name_ne_last q.1 (List.append_cancel_left h0).symm
              rw [fs_find_put_other _ p _ _ hne, fs_find_remove_other fs _ _ hne2]
              exact hC q hq1
            · simp only [List.mem_singleton] at hq1
              rw [hq1, ← hp, fs_find_put_same]
          · intro e0 he0
            simp only [decide_eq_true_eq]
            intro s hs heq
            rw [he0] at heq
            have hname : snapshot_name q.1 (str "stdout") = s.name :=
              List.append_cancel_left heq
            have hs1 := hDtake s hs
            rw [List.length_map, ← List.map_take, List.mem_map] at hs1
            obtain ⟨q0, hq0, hq0s⟩ := hs1
            have hsplit : E ++ [(e, prev)] =
                (E ++ [(e, prev)]).take ((E ++ [(e, prev)]).length - 5) ++
                keep_recent (E ++ [(e, prev)]) := (List.take_append_drop _ _).symm
            rw [hsplit, List.pairwise_append] at hnames'
            have := hnames'.2.2 q0 hq0 q hq
            apply this
            rw [hname, ← hq0s]
            rfl

/-! ## One call of `storage_append_history` -/

theorem snapshot_name_no_slash (e : Int) : 47 ∉ snapshot_name e (str "stdout") := by
  unfold snapshot_name
  intro hmem
  simp only [List.mem_append, List.mem_singleton] at hmem
  rcases hmem with ((hm | hm) | hm) | hm
  · revert hm; decide
  · rcases fmt_lld_bytes e 47 hm with h1 | h1 <;> omega
  · omega
  · revert hm; decide

theorem snapshot_name_has_ext (d : List Nat) (e : Int) :
    has_ext (str "stdout") (d ++ [47] ++ snapshot_name e (str "stdout")) = true := by
  unfold has_ext
  rw [base_name_join d _ (snapshot_name_no_slash e)]
  have : strrchr_dot (snapshot_name e (str "stdout")) = some (46 :: str "stdout") :=
    strrchr_dot_append (str "snapshot-" ++ fmt_lld e) (str "stdout") (by decide)
  rw [this]
  simp

theorem last_stdout_has_ext (d : List Nat) :
    has_ext (str "stdout") (d ++ [47] ++ str "last.stdout") = true := by
  unfold has_ext
  rw [base_name_join d _ (by decide)]
  decide

theorem has_ext_child (d name : List Nat) (hns : 47 ∉ name)
    (h : strrchr_dot name ≠ some (46 :: str "stdout")) :
    has_ext (str "stdout") (d ++ [47] ++ name) = false := by
  unfold has_ext
  rw [base_name_join d _ hns]
  simpa using h

/-- Two file systems that agree on the paths named with `stdout` give the same
view of the standard output. -/
theorem stdout_view_of_agree (fs fs1 : fs_t) (d : List Nat) (last : Option (List Nat))
    (E : List (Int × List Nat))
    (h : fs1.filter (fun e => has_ext (str "stdout") e.1) =
      fs.filter (fun e => has_ext (str "stdout") e.1))
    (hv : stdout_view fs d last E) : stdout_view fs1 d last E := by
  obtain ⟨h1, h2, h3⟩ := hv
  refine ⟨?_, ?_, ?_⟩
  · rw [fs_find_of_agree fs fs1 _ _ h (last_stdout_has_ext d)]; exact h1
  · rw [snapshot_files_of_agree fs fs1 d _ h]; exact h2
  · intro p hp
    rw [fs_find_of_agree fs fs1 _ _ h (snapshot_name_has_ext d p.1)]
    exact h3 p hp

theorem write_stdio_file_find (fs fs1 : fs_t) (p data : List Nat) (len : Nat) (hlen : len > 0)
    (h : write_stdio_file fs p (some data) len = .ok fs1) :
    fs_find fs1 p = some (.file (data.take len)) ∧ ∀ q, p ≠ q → fs_find fs1 q = fs_find fs q := by
  unfold write_stdio_file at h
  cases ho : sys_open_creat fs p true with
  | error e => rw [ho] at h; cases h
  | ok fs2 =>
    rw [ho] at h
    simp only [hlen, if_true, Except.ok.injEq] at h
    subst h
    refine ⟨fs_find_put_same _ _ _, ?_⟩
    intro q hq
    rw [fs_find_put_other _ p q _ hq]
    rcases sys_open_creat_cases fs fs2 p true ho with h0 | h0
    · rw [h0]
    · rw [h0, fs_find_put_other _ p q _ hq]

/-- Writing `last.stdout` changes that file only. -/
theorem stdout_view_write (fs fs1 : fs_t) (d out : List Nat) (last : Option (List Nat))
    (E : List (Int × List Nat)) (hout : out ≠ []) (hv : stdout_view fs d last E)
    (h : write_stdio_file fs (d ++ [47] ++ str "last.stdout") (some out) out.length = .ok fs1) :
    stdout_view fs1 d (some out) E := by
  obtain ⟨_, h2, h3⟩ := hv
  have hlen : out.length > 0 := List.length_pos.2 hout
  obtain ⟨a, b⟩ := write_stdio_file_find fs fs1 _ out out.length hlen h
  refine ⟨?_, ?_, ?_⟩
  · rw [a, List.take_length]; rfl
  · rw [write_stdio_file_snapshots fs fs1 _ d (str "stdout") _ _ ?_ h]
    · exact h2
    · rw [base_name_join d _ (by decide)]
      exact snapshot_entry_of_no_prefix _ _ (by decide)
  · intro p hp
    rw [b _ ?_]
    · exact h3 p hp
    · intro h0
      exact snapshot_name_ne_last p.1 (List.append_cancel_left h0).symm

theorem child_path_of_join (d name p : List Nat) (hd : d ≠ []) (hlast : d.getLast? ≠ some 47)
    (hdrop : name.dropWhile (fun c => decide (c = 47)) = name)
    (h : utils_join_path d name PATH_MAX = some p) :
    p = d ++ [47] ++ name ∧ p.length < PATH_MAX := by
  obtain ⟨hp, hfit⟩ := utils_join_path_of_dir d name p PATH_MAX hd hlast h
  rw [hdrop] at hp
  exact ⟨hp, hfit⟩

theorem rotate_absent (fs fs1 : fs_t) (d : List Nat) (e : Int) (hd : d ≠ [])
    (hlast : d.getLast? ≠ some 47)
    (hf : fs_find fs (d ++ [47] ++ str "last.stdout") = none)
    (h : rotate_stdio_snapshot fs d (str "last.stdout") (str "stdout") e = (.ok (), fs1)) :
    fs1 = fs := by
  unfold rotate_stdio_snapshot at h
  cases hj : utils_join_path d (str "last.stdout") PATH_MAX with
  | none => rw [hj] at h; simp at h
  | some base =>
    have hbase := last_stdout_path d hd hlast base hj
    subst hbase
    rw [hj] at h
    simp only [sys_stat, hf, Prod.mk.injEq, true_and] at h
    exact h.symm

theorem has_ext_log_dir (logs_dir d : List Nat) (task_id : Nat)
    (h : utils_join_path logs_dir (fmt_llu task_id) PATH_MAX = some d) :
    has_ext (str "stdout") d = false := by
  have hns : 47 ∉ fmt_llu task_id := by
    intro h0
    have := fmt_llu_bytes task_id 47 h0
    omega
  have hnd : 46 ∉ fmt_llu task_id := by
    intro h0
    have := fmt_llu_bytes task_id 46 h0
    omega
  unfold has_ext
  rw [base_name_utils_join _ _ _ _ hns h]
  unfold strrchr_dot
  rw [if_neg hnd]
  simp

theorem has_ext_stderr (q : List Nat) (h : has_ext (str "stderr") q = true) :
    has_ext (str "stdout") q = false := by
  unfold has_ext at h ⊢
  simp only [decide_eq_true_eq] at h
  rw [h]
  decide

/-- One successful call of `storage_append_history` with a non-empty stdout,
at an epoch later than those of the snapshots present: `last.stdout` holds the
new output, and the output it held before, if any, is the newest of the
snapshots, of which the five newest are kept. -/
theorem append_run_step (paths : storage_paths_t) (task_id : Nat) (d : List Nat)
    (fs fs1 : fs_t) (last : Option (List Nat)) (E : List (Int × List Nat)) (r : run_t)
    (hlog : utils_join_path paths.logs_dir (fmt_llu task_id) PATH_MAX = some d)
    (hfiles : dir_holds_files fs d) (hfit : paths_fit fs)
    (hv : stdout_view fs d last E)
    (hlastne : ∀ prev, last = some prev → prev ≠ [])
    (hasc : E.Pairwise (fun a b => a.1 < b.1))
    (hE : ∀ p ∈ E, -(2 ^ 63) ≤ p.1 ∧ p.1 < 2 ^ 63 ∧ p.1 < r.entry.epoch)
    (hlo : -(2 ^ 63) ≤ r.entry.epoch) (hhi : r.entry.epoch < 2 ^ 63)
    (hout : r.stdout ≠ [])
    (hrun : append_run paths task_id fs r = (.ok (), fs1)) :
    dir_holds_files fs1 d ∧ paths_fit fs1 ∧
    stdout_view fs1 d (some r.stdout) (after_rotation last E r.entry.epoch) := by
  obtain ⟨hd, hlast, hdfit⟩ := log_dir_shape _ _ _ hlog
  have hPd := has_ext_log_dir _ _ _ hlog
  unfold append_run storage_append_history at hrun
  simp only [hlog] at hrun
  rw [if_neg (by have := fmt_llu_length task_id; omega)] at hrun
  cases he : ensure_directory fs d with
  | error e => rw [he] at hrun; simp at hrun
  | ok fsa =>
    rw [he] at hrun
    simp only at hrun
    obtain ⟨hoka, _⟩ := ensure_directory_ok fs fsa d hfiles hfit hdfit he
    have hva := stdout_view_of_agree fs fsa d last E
      (filter_ensure_directory fs fsa _ d hPd he) hv
    cases hr1 : rotate_stdio_snapshot fsa d (str "last.stdout") (str "stdout")
        r.entry.epoch with
    | mk r1 fsb =>
      rw [hr1] at hrun
      cases r1 with
      | error e => simp at hrun
      | ok u =>
        simp only at hrun
        obtain ⟨_, _, hokb⟩ := rotate_stdio_snapshot_bound fsa fsb d _ (str "stdout")
          (str "stderr") r.entry.epoch hd hlast hoka (by decide) (by decide) (by decide) hr1
        have hvb : stdout_view fsb d none (after_rotation last E r.entry.epoch) := by
          cases last with
          | none =>
            have := rotate_absent fsa fsb d r.entry.epoch hd hlast hva.1 hr1
            rw [this]
            exact hva
          | some prev =>
            exact rotate_stdout_exact fsa fsb d prev E r.entry.epoch hd hlast hoka
              (hlastne prev rfl) hva.1 hva.2.1 hva.2.2 hasc hE hlo hhi hr1
        cases hr2 : rotate_stdio_snapshot fsb d (str "last.stderr") (str "stderr")
            r.entry.epoch with
        | mk r2 fsc =>
          rw [hr2] at hrun
          cases r2 with
          | error e => simp at hrun
          | ok u2 =>
            simp only at hrun
            obtain ⟨_, _, hokc⟩ := rotate_stdio_snapshot_bound fsb fsc d _ (str "stderr")
              (str "stdout") r.entry.epoch hd hlast hokb (by decide) (by decide) (by decide)
              hr2
            have hagc := filter_rotate_stdio_snapshot fsb fsc (has_ext (str "stdout")) d
              (str "last.stderr") (str "stderr") r.entry.epoch hd hlast hokb (by decide)
              (by decide) has_ext_stderr
              (fun p hp => by
                rw [(child_path_of_join d _ p hd hlast (by decide) hp).1]
                exact has_ext_child d _ (by decide) (by decide)) hr2
            have hvc := stdout_view_of_agree fsb fsc d _ _ hagc hvb
            cases hj1 : utils_join_path d (str "last.stdout") PATH_MAX with
            | none => rw [hj1] at hrun; simp at hrun
            | some stdout_path =>
              cases hj2 : utils_join_path d (str "last.stderr") PATH_MAX with
              | none => rw [hj1, hj2] at hrun; simp at hrun
              | some stderr_path =>
                rw [hj1, hj2] at hrun
                simp only at hrun
                obtain ⟨hp1, hfit1⟩ := child_path_of_join d _ stdout_path hd hlast (by decide) hj1
                obtain ⟨hp2, hfit2⟩ := child_path_of_join d _ stderr_path hd hlast (by decide) hj2
                cases hw1 : write_stdio_file fsc stdout_path (some r.stdout) r.stdout.length with
                | error e => rw [hw1] at hrun; simp at hrun
                | ok fsd =>
                  rw [hw1] at hrun
                  simp only at hrun
                  have hokd := write_stdio_file_ok fsc fsd d stdout_path _ _ hokc
                    (by rw [hp1]; exact append_ne_self d _) hfit1 hw1
                  rw [hp1] at hw1
                  have hvd := stdout_view_write fsc fsd d r.stdout _ _ hout hvc hw1
                  cases hw2 : write_stdio_file fsd stderr_path r.stderr_buf r.stderr_len with
                  | error e => rw [hw2] at hrun; simp at hrun
                  | ok fse =>
                    rw [hw2] at hrun
                    simp only at hrun
                    have hoke := write_stdio_file_ok fsd fse d stderr_path _ _ hokd
                      (by rw [hp2]; exact append_ne_self d _) hfit2 hw2
                    have hage := filter_write_stdio_file fsd fse (has_ext (str "stdout"))
                      stderr_path _ _
                      (by rw [hp2]; exact has_ext_child d _ (by decide) (by decide)) hw2
                    have hve := stdout_view_of_agree fsd fse d _ _ hage hvd
                    have hok1 := append_history_line_ok fse fs1 d _ hd hlast hoke hrun
                    have hag1 := filter_append_history_line fse fs1 (has_ext (str "stdout")) d _
                      (fun p hp => by
                        rw [(child_path_of_join d _ p hd hlast (by decide) hp).1]
                        exact has_ext_child d _ (by decide) (by decide)) hrun
                    exact ⟨hok1.2.1, hok1.2.2, stdout_view_of_agree fse fs1 d _ _ hag1 hve⟩

/-! ## Successive calls of `storage_append_history` -/

theorem rotated_snd (rs : List run_t) :
    ∀ prev : List Nat, (rotated prev rs).map Prod.snd =
      (prev :: rs.map (fun r => r.stdout)).dropLast := by
  induction rs with
  | nil => intro prev; rfl
  | cons r rest ih =>
    intro prev
    simp only [rotated, List.map_cons, ih r.stdout]
    rfl

theorem rotated_fst (rs : List run_t) :
    ∀ prev : List Nat, (rotated prev rs).map Prod.fst = rs.map (fun r => r.entry.epoch) := by
  induction rs with
  | nil => intro prev; rfl
  | cons r rest ih =>
    intro prev
    simp only [rotated, List.map_cons, ih r.stdout]

/-- After further successful calls at strictly increasing epochs, each with a
non-empty stdout: `last.stdout` holds the newest output, and the snapshots are
the five newest of those present before and those the calls created. -/
theorem append_runs_view (paths : storage_paths_t) (task_id : Nat) (d : List Nat)
    (hlog : utils_join_path paths.logs_dir (fmt_llu task_id) PATH_MAX = some d) :
    ∀ (rs : List run_t) (fs fs1 : fs_t) (prev : List Nat) (E : List (Int × List Nat))
      (b : Int),
      dir_holds_files fs d → paths_fit fs → stdout_view fs d (some prev) E → prev ≠ [] →
      E.length ≤ 5 → E.Pairwise (fun a b => a.1 < b.1) →
      (∀ p ∈ E, -(2 ^ 63) ≤ p.1 ∧ p.1 < 2 ^ 63 ∧ p.1 ≤ b) →
      (∀ r ∈ rs, b < r.entry.epoch ∧ -(2 ^ 63) ≤ r.entry.epoch ∧ r.entry.epoch < 2 ^ 63 ∧
        r.stdout ≠ []) →
      (rs.map (fun r => r.entry.epoch)).Pairwise (fun a b => a < b) →
      append_runs paths task_id rs fs = some fs1 →
      stdout_view fs1 d (prev :: rs.map (fun r => r.stdout)).getLast?
        (keep_recent (E ++ rotated prev rs)) := by
  intro rs
  induction rs with
  | nil =>
    intro fs fs1 prev E b _ _ hv _ hlen _ _ _ _ hrun
    simp only [append_runs, Option.some.injEq] at hrun
    subst hrun
    simp only [rotated, List.append_nil, List.map_nil, List.getLast?_singleton]
    rw [keep_recent_of_le E hlen]
    exact hv
  | cons r rest ih =>
    intro fs fs1 prev E b hfiles hfit hv hprev _ hasc hE hrs hep hrun
    obtain ⟨hb, hlo, hhi, hout⟩ := hrs r (List.mem_cons_self _ _)
    simp only [List.map_cons, List.pairwise_cons] at hep
    rw [append_runs] at hrun
    cases hst : append_run paths task_id fs r with
    | mk res fsm =>
      rw [hst] at hrun
      cases res with
      | error e => simp at hrun
      | ok u =>
        simp only at hrun
        obtain ⟨hfilesm, hfitm, hvm⟩ := append_run_step paths task_id d fs fsm (some prev) E r
          hlog hfiles hfit hv (fun p hp => by cases hp; exact hprev) hasc
          (fun p hp => ⟨(hE p hp).1, (hE p hp).2.1, by have := (hE p hp).2.2; omega⟩)
          hlo hhi hout hst
        simp only [after_rotation] at hvm
        have hsub := keep_recent_sublist (E ++ [(r.entry.epoch, prev)])
        have hE1 : ∀ p ∈ keep_recent (E ++ [(r.entry.epoch, prev)]),
            -(2 ^ 63) ≤ p.1 ∧ p.1 < 2 ^ 63 ∧ p.1 ≤ r.entry.epoch := by
          intro p hp
          rcases List.mem_append.1 (hsub.subset hp) with h1 | h1
          · exact ⟨(hE p h1).1, (hE p h1).2.1, by have := (hE p h1).2.2; omega⟩
          · simp only [List.mem_singleton] at h1
            rw [h1]
            exact ⟨hlo, hhi, le_refl _⟩
        have hasc1 : (keep_recent (E ++ [(r.entry.epoch, prev)])).Pairwise
            (fun a b => a.1 < b.1) := by
          apply List.Pairwise.sublist hsub
          rw [List.pairwise_append]
          refine ⟨hasc, List.pairwise_singleton _ _, ?_⟩
          intro a ha c hc
          simp only [List.mem_singleton] at hc
          rw [hc]
          have := (hE a ha).2.2
          show a.1 < r.entry.epoch
          omega
        have hrs1 : ∀ r1 ∈ rest, r.entry.epoch < r1.entry.epoch ∧ -(2 ^ 63) ≤ r1.entry.epoch ∧
            r1.entry.epoch < 2 ^ 63 ∧ r1.stdout ≠ [] := by
          intro r1 hr1
          obtain ⟨_, a, b1, c⟩ := hrs r1 (List.mem_cons_of_mem _ hr1)
          exact ⟨hep.1 _ (List.mem_map_of_mem _ hr1), a, b1, c⟩
        have := ih fsm fs1 r.stdout _ r.entry.epoch hfilesm hfitm hvm hout
          (keep_recent_length _) hasc1 hE1 hrs1 hep.2 hrun
        rw [keep_recent_append, List.append_assoc, List.singleton_append] at this
        simp only [List.map_cons, rotated]
        rw [List.getLast?_cons_cons]
        exact this

/-- C8. Snapshot rotation keeps the most recent runs: in a log directory that
holds no entry to start with, after the successful `storage_append_history`
calls for the runs `first :: rest` (`n` runs), each with a non-empty stdout, at
strictly increasing epochs, `last.stdout` holds the stdout of the last run,
the first call created no snapshot, and the `snapshot-*.stdout` files hold, in
the order of their creation, the stdout of the runs `max(1, n-5) .. n-1`; the
snapshot of a run is named for the epoch of the run after it. -/
theorem snapshot_rotation_keeps_recent (paths : storage_paths_t) (task_id : Nat)
    (log_dir : List Nat) (fs fs1 : fs_t) (first : run_t) (rest : List run_t)
    (hlog : utils_join_path paths.logs_dir (fmt_llu task_id) PATH_MAX = some log_dir)
    (hempty : ∀ e ∈ fs, parent_path e.1 = log_dir → e.1 = log_dir)
    (hfit : paths_fit fs)
    (hout : ∀ r ∈ first :: rest, r.stdout ≠ [])
    (hepochs : ((first :: rest).map (fun r => r.entry.epoch)).Pairwise (fun a b => a < b))
    (hrange : ∀ r ∈ first :: rest, -(2 ^ 63) ≤ r.entry.epoch ∧ r.entry.epoch < 2 ^ 63)
    (hrun : append_runs paths task_id (first :: rest) fs = some fs1) :
    fs_find fs1 (log_dir ++ [47] ++ str "last.stdout") =
      ((first :: rest).map (fun r => r.stdout)).getLast?.map node_t.file ∧
    snapshot_files (append_run paths task_id fs first).2 log_dir (str "stdout") = [] ∧
    snapshot_outputs fs1 log_dir (str "stdout") =
      ((((first :: rest).map (fun r => r.stdout)).dropLast).drop (rest.length - 5)).map
        (fun out => some (node_t.file out)) ∧
    (snapshot_files fs1 log_dir (str "stdout")).map (fun s => s.epoch) =
      (rest.map (fun r => r.entry.epoch)).drop (rest.length - 5) := by
  obtain ⟨hd, hlast, _⟩ := log_dir_shape _ _ _ hlog
  have hfiles : dir_holds_files fs log_dir := fun e he hpar hne => absurd (hempty e he hpar) hne
  have hv0 : stdout_view fs log_dir none [] := by
    refine ⟨?_, ?_, ?_⟩
    · show fs_find fs _ = none
      rw [fs_find_none_iff]
      intro e he h0
      have hpar : parent_path e.1 = log_dir := by rw [h0]; exact parent_path_join _ _ (by decide)
      have := hempty e he hpar
      rw [h0] at this
      exact append_ne_self log_dir _ this
    · unfold snapshot_files
      have : fs.filter (fun e => decide (parent_path e.1 = log_dir ∧ e.1 ≠ log_dir)) = [] := by
        rw [List.filter_eq_nil_iff]
        intro e he
        simp only [decide_eq_true_eq, not_and, not_not]
        exact hempty e he
      rw [this]
      rfl
    · intro p hp; cases hp
  obtain ⟨hlo, hhi⟩ := hrange first (List.mem_cons_self _ _)
  simp only [List.map_cons, List.pairwise_cons] at hepochs
  rw [append_runs] at hrun
  cases hst : append_run paths task_id fs first with
  | mk res fsm =>
    rw [hst] at hrun
    cases res with
    | error e => simp at hrun
    | ok u =>
      simp only at hrun
      obtain ⟨hfilesm, hfitm, hvm⟩ := append_run_step paths task_id log_dir fs fsm none []
        first hlog hfiles hfit hv0 (fun p hp => by cases hp) List.Pairwise.nil
        (fun p hp => by cases hp) hlo hhi (hout first (List.mem_cons_self _ _)) hst
      simp only [after_rotation] at hvm
      have hrs : ∀ r ∈ rest, first.entry.epoch < r.entry.epoch ∧ -(2 ^ 63) ≤ r.entry.epoch ∧
          r.entry.epoch < 2 ^ 63 ∧ r.stdout ≠ [] := by
        intro r hr
        have hm : r ∈ first :: rest := List.mem_cons_of_mem _ hr
        exact ⟨hepochs.1 _ (List.mem_map_of_mem _ hr), (hrange r hm).1, (hrange r hm).2,
          hout r hm⟩
      obtain ⟨v1, v2, v3⟩ := append_runs_view paths task_id log_dir hlog rest fsm fs1
        first.stdout [] first.entry.epoch hfilesm hfitm hvm (hout first (List.mem_cons_self _ _))
        (by simp) List.Pairwise.nil (fun p hp => by cases hp) hrs hepochs.2 hrun
      rw [List.nil_append] at v2 v3
      have hlenR : (rotated first.stdout rest).length = rest.length := by
        have := congrArg List.length (rotated_fst rest first.stdout)
        simpa using this
      refine ⟨v1, ?_, ?_, ?_⟩
      · rw [hvm.2.1]; rfl
      · unfold snapshot_outputs
        rw [v2, List.map_map]
        have hcongr : (keep_recent (rotated first.stdout rest)).map
            ((fun s => fs_find fs1 (log_dir ++ [47] ++ s.name)) ∘
              (fun p => snapshot_entry p.1 (str "stdout"))) =
            (keep_recent (rotated first.stdout rest)).map (fun p => some (node_t.file p.2)) := by
          apply List.map_congr_left
          intro p hp
          exact v3 p hp
        rw [hcongr]
        have : (fun p : Int × List Nat => some (node_t.file p.2)) =
            (fun out => some (node_t.file out)) ∘ Prod.snd := rfl
        rw [this, ← List.map_map, ← keep_recent_map, rotated_snd]
        unfold keep_recent
        simp only [List.length_dropLast, List.length_cons, List.length_map,
          Nat.add_sub_cancel]
        rfl
      · rw [v2, List.map_map]
        have : ((fun s : snapshot_entry_t => s.epoch) ∘
            (fun p : Int × List Nat => snapshot_entry p.1 (str "stdout"))) = Prod.fst := rfl
        rw [this, ← keep_recent_map, rotated_fst]
        unfold keep_recent
        rw [List.length_map]

/-- C8, for seven runs one minute apart on a fresh store: `last.stdout` holds
the seventh stdout, the first call creates no snapshot, and five snapshots,
named for the epochs of runs 3 to 7, hold the stdout of runs 2 to 6. -/
theorem snapshot_rotation_keeps_recent_witness :
    utils_join_path run_paths.logs_dir (fmt_llu 1) PATH_MAX = some log_dir_one ∧
    (∀ e ∈ fresh_fs, parent_path e.1 = log_dir_one → e.1 = log_dir_one) ∧
    paths_fit fresh_fs ∧
    (∀ r ∈ first_run :: later_runs, r.stdout ≠ []) ∧
    ((first_run :: later_runs).map (fun r => r.entry.epoch)).Pairwise (fun a b => a < b) ∧
    (∀ r ∈ first_run :: later_runs, -(2 ^ 63) ≤ r.entry.epoch ∧ r.entry.epoch < 2 ^ 63) ∧
    append_runs run_paths 1 (first_run :: later_runs) fresh_fs =
      some ((append_runs run_paths 1 (first_run :: later_runs) fresh_fs).getD []) ∧
    fs_find ((append_runs run_paths 1 (first_run :: later_runs) fresh_fs).getD [])
      (log_dir_one ++ [47] ++ str "last.stdout") = some (.file (str "run7\n")) ∧
    snapshot_files (append_run run_paths 1 fresh_fs first_run).2 log_dir_one (str "stdout") =
      [] ∧
    snapshot_outputs ((append_runs run_paths 1 (first_run :: later_runs) fresh_fs).getD [])
      log_dir_one (str "stdout") =
      [some (.file (str "run2\n")), some (.file (str "run3\n")), some (.file (str "run4\n")),
       some (.file (str "run5\n")), some (.file (str "run6\n"))] ∧
    (snapshot_files ((append_runs run_paths 1 (first_run :: later_runs) fresh_fs).getD [])
      log_dir_one (str "stdout")).map (fun s => s.epoch) = [180, 240, 300, 360, 420] :=
  ⟨by decide, by decide, by decide, by decide, by decide, by decide, by decide,
    snapshot_rotation_keeps_recent run_paths 1 log_dir_one fresh_fs _ first_run later_runs
      (by decide) (by decide) (by decide) (by decide) (by decide) (by decide) (by decide)⟩

/-! ## Protocol: pack, validate, read -/

/-- C17. `proto_pack` succeeds iff `payload_len <= 4095`; on success the header
holds the magic number 0x44495245, the version 1, the type (as a `uint8_t`:
the given type for every code below 256), a zero reserved word and
`payload_length = payload_len`, it passes `proto_validate_header`, and the
first `payload_len` bytes of the payload are those of the input. -/
theorem proto_pack_spec (type : Nat) (json_payload : Option (List Nat)) (payload_len : Nat)
    (out_msg : proto_message_t) :
    ((∃ msg, proto_pack type json_payload payload_len out_msg = .ok msg) ↔
      payload_len ≤ 4095) ∧
    ∀ msg, proto_pack type json_payload payload_len out_msg = .ok msg →
      msg.header = { magic := 0x44495245, version := 1, type := type % 256, reserved := 0
                     payload_length := payload_len } ∧
      (type < 256 → msg.header.type = type) ∧
      proto_validate_header msg.header = .ok () ∧
      ∀ src, json_payload = some src → payload_len ≤ src.length →
        msg.payload.take payload_len = src.take payload_len := by
  unfold proto_pack ERRAID_PIPE_MESSAGE_LIMIT
  by_cases hlen : payload_len > 4096 - 1
  · rw [if_pos hlen]
    refine ⟨⟨fun ⟨msg, h⟩ => (by cases h), fun h => (by omega)⟩, fun msg h => (by cases h)⟩
  · rw [if_neg hlen]
    refine ⟨⟨fun _ => by omega, fun _ => ⟨_, rfl⟩⟩, ?_⟩
    intro msg h
    simp only [Except.ok.injEq] at h
    subst h
    have hmod : payload_len % 2 ^ 32 = payload_len := Nat.mod_eq_of_lt (by omega)
    refine ⟨?_, ?_, ?_, ?_⟩
    · simp only [hmod, ERRAID_MAGIC, ERRAID_PROTO_VERSION]
    · intro ht
      exact Nat.mod_eq_of_lt ht
    · unfold proto_validate_header ERRAID_PIPE_MESSAGE_LIMIT
      simp only [ne_eq, not_true_eq_false, if_false, ge_iff_le, hmod]
      rw [if_neg (by omega)]
    · intro src hsrc hle
      subst hsrc
      simp only [take_set_of_le]
      by_cases h0 : payload_len > 0
      · simp only [h0, if_true]
        have hl : (src.take payload_len).length = payload_len := by
          rw [List.length_take]; omega
        have := buf_store_zero_take out_msg.payload (src.take payload_len)
        rw [hl] at this
        exact this
      · have : payload_len = 0 := by omega
        subst this
        simp

theorem proto_pack_spec_witness :
    ((∃ msg, proto_pack 0x02 (some (str "\x7b\"status\":\"OK\"\x7d")) 15 ping_message = .ok msg) ↔
      15 ≤ 4095) ∧
    (¬ ∃ msg, proto_pack 0x02 (some (List.replicate 4096 65)) 4096 ping_message = .ok msg) ∧
    (∃ msg, proto_pack 0x02 (some (List.replicate 4095 65)) 4095 ping_message = .ok msg) :=
  ⟨(proto_pack_spec 0x02 (some (str "\x7b\"status\":\"OK\"\x7d")) 15 ping_message).1,
   fun h => absurd ((proto_pack_spec 0x02 (some (List.replicate 4096 65)) 4096 ping_message).1.1 h)
     (by decide),
   (proto_pack_spec 0x02 (some (List.replicate 4095 65)) 4095 ping_message).1.2 (by decide)⟩

/-- C18. `proto_validate_header` fails iff the magic number is not 0x44495245
or the version is not 1 or `payload_length >= 4096`; its result does not
depend on the reserved word or on the type byte. -/
theorem proto_validate_header_spec (h : message_header_t) :
    (proto_validate_header h ≠ .ok () ↔
      (h.magic ≠ 0x44495245 ∨ h.version ≠ 1 ∨ h.payload_length ≥ 4096)) ∧
    ∀ reserved type : Nat,
      proto_validate_header { h with reserved := reserved, type := type } =
        proto_validate_header h := by
  unfold proto_validate_header ERRAID_MAGIC ERRAID_PROTO_VERSION ERRAID_PIPE_MESSAGE_LIMIT
  refine ⟨?_, fun _ _ => rfl⟩
  by_cases hm : h.magic ≠ 0x44495245
  · rw [if_pos hm]
    exact ⟨fun _ => Or.inl hm, fun _ h0 => (by cases h0)⟩
  · rw [if_neg hm]
    by_cases hv : h.version ≠ 1
    · rw [if_pos hv]
      exact ⟨fun _ => Or.inr (Or.inl hv), fun _ h0 => (by cases h0)⟩
    · rw [if_neg hv]
      by_cases hl : h.payload_length ≥ 4096
      · rw [if_pos hl]
        exact ⟨fun _ => Or.inr (Or.inr hl), fun _ h0 => (by cases h0)⟩
      · rw [if_neg hl]
        constructor
        · intro h0; exact absurd rfl h0
        · intro h0
          rcases h0 with h0 | h0 | h0
          · exact absurd h0 hm
          · exact absurd h0 hv
          · exact absurd h0 hl

/-- C19: `proto_read_message` reads the header straight into `out_msg`: on a
stream whose header has a bad magic number it fails with `EPROTO` and the
header of `out_msg` holds the bytes read; on a stream that ends inside the
payload it fails with `EIO` and both the header and the first payload bytes
of `out_msg` are overwritten. -/
theorem proto_read_message_fills_on_error :
    (proto_read_message bad_magic_stream ping_message).1 = .error .EPROTO ∧
    (proto_read_message bad_magic_stream ping_message).2.1.header =
      { magic := 0, version := 1, type := 2, reserved := 0, payload_length := 0 } ∧
    (proto_read_message bad_magic_stream ping_message).2.1 ≠ ping_message ∧
    (proto_read_message short_payload_stream ping_message).1 = .error .EIOERR ∧
    (proto_read_message short_payload_stream ping_message).2.1.header =
      { magic := ERRAID_MAGIC, version := 1, type := 2, reserved := 0, payload_length := 5 } ∧
    (proto_read_message short_payload_stream ping_message).2.1.payload.take 2 = [104, 105] ∧
    ping_message.payload.take 2 = [0, 0] := by
  refine ⟨by decide, by decide, ?_, by decide, by decide, by decide, by decide⟩
  intro h
  have := congrArg (fun m => m.header.magic) h
  revert this
  decide

/-! ## Plan computation -/

theorem compute_plan_entries_length (localtime_r : Int → Option tm) (reference_epoch : Int) :
    ∀ (tasks : List task_t) (i : Nat),
      (compute_plan_entries localtime_r reference_epoch tasks i).length = tasks.length := by
  intro tasks
  induction tasks with
  | nil => intro i; rfl
  | cons t rest ih => intro i; simp only [compute_plan_entries, List.length_cons, ih]

theorem compute_plan_entries_get (localtime_r : Int → Option tm) (reference_epoch : Int) :
    ∀ (tasks : List task_t) (i k : Nat) (t : task_t), tasks[k]? = some t →
      (compute_plan_entries localtime_r reference_epoch tasks i)[k]? =
        some { task_id := t.task_id, task_index := i + k
               next_epoch := scheduler_next_occurrence localtime_r t.schedule reference_epoch } := by
  intro tasks
  induction tasks with
  | nil => intro i k t h; cases h
  | cons t0 rest ih =>
    intro i k t h
    cases k with
    | zero =>
      simp only [List.getElem?_cons_zero, Option.some.injEq] at h
      subst h
      simp only [compute_plan_entries, List.getElem?_cons_zero, Nat.add_zero]
    | succ k =>
      simp only [List.getElem?_cons_succ] at h
      simp only [compute_plan_entries, List.getElem?_cons_succ]
      rw [ih (i + 1) k t h]
      congr 2
      omega

theorem int_of_unsigned_small (n : Nat) (h : n < 2 ^ 31) : int_of_unsigned n = n := by
  unfold int_of_unsigned
  have : n % 2 ^ 32 = n := Nat.mod_eq_of_lt (by omega)
  rw [this, if_pos h]
  omega

/-- C16. `scheduler_compute_plan` on a task list of length `n` (below `2 ^ 31`,
so that `(int)n` is `n`) and an array of at least `capacity` entries: when
`capacity >= n` it returns `n`, the array keeps its size, entry `i < n` is
`(tasks[i].task_id, i, scheduler_next_occurrence(tasks[i].schedule,
reference_epoch))` and the entries at index `>= n` are unchanged; when
`capacity < n` it returns -1 and the array is unchanged. -/
theorem scheduler_compute_plan_spec (localtime_r : Int → Option tm) (tasks : List task_t)
    (reference_epoch : Int) (old : List schedule_entry_t) (capacity : Nat)
    (hsize : capacity ≤ old.length) (hn : tasks.length < 2 ^ 31) :
    (tasks.length ≤ capacity →
      (scheduler_compute_plan localtime_r tasks reference_epoch (some old) capacity).1 =
        tasks.length ∧
      ∃ entries,
        (scheduler_compute_plan localtime_r tasks reference_epoch (some old) capacity).2 =
          some entries ∧
        entries.length = old.length ∧
        (∀ (i : Nat) (t : task_t), tasks[i]? = some t →
          entries[i]? = some
            ({ task_id := t.task_id, task_index := i
               next_epoch := scheduler_next_occurrence localtime_r t.schedule reference_epoch } :
              schedule_entry_t)) ∧
        (∀ i : Nat, tasks.length ≤ i → entries[i]? = old[i]?)) ∧
    (capacity < tasks.length →
      scheduler_compute_plan localtime_r tasks reference_epoch (some old) capacity =
        (-1, some old)) := by
  unfold scheduler_compute_plan
  constructor
  · intro hcap
    have hc : ¬ ((tasks.length > 0 ∧ (some old : Option (List schedule_entry_t)) = none) ∨
        capacity < tasks.length) := by
      rintro (⟨_, h⟩ | h)
      · cases h
      · omega
    rw [if_neg hc]
    refine ⟨int_of_unsigned_small _ hn, _, rfl, ?_, ?_, ?_⟩
    · rw [List.length_append, compute_plan_entries_length, List.length_drop]
      omega
    · intro i t ht
      have hi : i < tasks.length := by
        rcases Nat.lt_or_ge i tasks.length with h | h
        · exact h
        · rw [List.getElem?_eq_none h] at ht; cases ht
      rw [List.getElem?_append_left (by rw [compute_plan_entries_length]; exact hi),
        compute_plan_entries_get localtime_r reference_epoch tasks 0 i t ht, Nat.zero_add]
    · intro i hi
      rw [List.getElem?_append_right (by rw [compute_plan_entries_length]; exact hi),
        compute_plan_entries_length, List.getElem?_drop]
      congr 1
      omega
  · intro hcap
    rw [if_pos (Or.inr hcap)]

/-- C16 on two tasks and an array of four entries: a capacity of 4 gives 2 and
rewrites the first two entries; a capacity of 1 gives -1 and writes nothing. -/
theorem scheduler_compute_plan_spec_witness :
    (4 ≤ loaded_ctx.plan.length ∧ [echo_task, echo_task].length < 2 ^ 31) ∧
    ((scheduler_compute_plan (fun t => some (utc_offset_localtime 0 t)) [echo_task, echo_task] 130
        (some loaded_ctx.plan) 4).1 = 2 ∧
      (scheduler_compute_plan (fun t => some (utc_offset_localtime 0 t)) [echo_task, echo_task] 130
        (some loaded_ctx.plan) 4).2 =
        some [⟨1, 0, 180⟩, ⟨1, 1, 180⟩, ⟨0, 0, 0⟩, ⟨0, 0, 0⟩]) ∧
    scheduler_compute_plan (fun t => some (utc_offset_localtime 0 t)) [echo_task, echo_task] 130
        (some loaded_ctx.plan) 1 = (-1, some loaded_ctx.plan) :=
  ⟨⟨by decide, by decide⟩, ⟨by decide, by decide⟩,
   (scheduler_compute_plan_spec (fun t => some (utc_offset_localtime 0 t)) [echo_task, echo_task]
     130 loaded_ctx.plan 1 (by decide) (by decide)).2 (by decide)⟩

/-! ## Sequence execution -/

theorem command_status_of_wait (sys : exec_sys) (command : command_t) (r : command_result_t)
    (h : run_single_command sys command = some r) :
    command_status sys command = r.status ∧
    ∀ child, sys.spawn command = some child → child.wait.map exit_status = some r.status := by
  refine ⟨by unfold command_status; rw [h], ?_⟩
  intro child hc
  unfold run_single_command at h
  split at h
  · cases h
  · rw [hc] at h
    simp only at h
    split at h
    · rename_i o e w _ _ hw
      simp only [Option.some.injEq] at h
      subst h
      rw [hw]
      cases w <;> rfl
    · cases h

/-- The loop of `executor_run_task` leaves in `status` the status of the last
command it runs. -/
theorem run_commands_loop_status (sys : exec_sys) (type : task_type_t) :
    ∀ (commands : List command_t) (st st1 : run_state_t),
      run_commands_loop sys type commands st = .ok st1 →
      st1.status =
        (((executed_of type commands).getLast?).map (command_status sys)).getD st.status := by
  intro commands
  induction commands with
  | nil =>
    intro st st1 h
    simp only [run_commands_loop, Except.ok.injEq] at h
    subst h
    have e : executed_of type [] = [] := by unfold executed_of; split <;> rfl
    rw [e]
    rfl
  | cons c rest ih =>
    intro st st1 h
    rw [run_commands_loop] at h
    cases hr : run_single_command sys c with
    | none => rw [hr] at h; cases h
    | some r =>
      have hst := (command_status_of_wait sys c r hr).1
      simp only [hr] at h
      cases ha : append_buffer sys.realloc_ok { st.out with truncated := r.stdout_truncated }
          (some r.stdout_buf) r.stdout_buf.length ERRAID_MAX_STDIO_SNAPSHOT with
      | none => rw [ha] at h; cases h
      | some out1 =>
        rw [ha] at h
        simp only at h
        cases hb : append_buffer sys.realloc_ok { st.err with truncated := r.stderr_truncated }
            (some r.stderr_buf) r.stderr_buf.length ERRAID_MAX_STDIO_SNAPSHOT with
        | none => rw [hb] at h; cases h
        | some err1 =>
          rw [hb] at h
          simp only at h
          by_cases hs : type = .TASK_TYPE_SIMPLE
          · simp only [hs, if_true, Except.ok.injEq] at h
            subst h
            have e : executed_of type (c :: rest) = [c] := by
              unfold executed_of; rw [if_pos hs]; rfl
            rw [e]
            simp only [List.getLast?_singleton, Option.map_some', Option.getD_some, hst]
          · rw [if_neg hs] at h
            have e : executed_of type (c :: rest) = c :: executed_of type rest := by
              unfold executed_of; rw [if_neg hs, if_neg hs]
            rw [ih _ st1 h, e]
            cases hrest : executed_of type rest with
            | nil => simp only [List.getLast?_nil, List.getLast?_singleton, Option.map_none',
                Option.map_some', Option.getD_none, Option.getD_some, hst]
            | cons c2 rest2 =>
              rw [List.getLast?_cons_cons]
              cases hl : (c2 :: rest2).getLast? with
              | none => simp at hl
              | some x => rfl

/-- C11. Sequence execution, in a system whose allocator succeeds. For a
SEQUENCE task whose commands can all be spawned, read and waited for,
`executor_run_task` succeeds, its status is the status of the last command
(whatever the statuses of the others: the status word of the last child as
`run_single_command` decodes it), and its stdout (stderr) is the concatenation
of the captures of all the commands in order, cut at 65536 bytes. For a SIMPLE
task whose first command can be run, the status and the two streams are those
of the first command alone. -/
theorem sequence_execution (sys : exec_sys) (hok : ∀ n, sys.realloc_ok n = true) (task : task_t) :
    (task.type = .TASK_TYPE_SEQUENCE → (∀ c ∈ task.commands, command_runs sys c) →
      (executor_run_task sys task).1 = true ∧
      (executor_run_task sys task).2.stdout_buf.getD [] =
        ((task.commands.map (command_stdout sys)).flatten).take 65536 ∧
      (executor_run_task sys task).2.stderr_buf.getD [] =
        ((task.commands.map (command_stderr sys)).flatten).take 65536 ∧
      ∀ cn child, task.commands.getLast? = some cn → sys.spawn cn = some child →
        child.wait.map exit_status = some (executor_run_task sys task).2.status) ∧
    (task.type = .TASK_TYPE_SIMPLE → ∀ c1 rest, task.commands = c1 :: rest →
      command_runs sys c1 →
      (executor_run_task sys task).1 = true ∧
      (executor_run_task sys task).2.stdout_buf.getD [] = (command_stdout sys c1).take 65536 ∧
      (executor_run_task sys task).2.stderr_buf.getD [] = (command_stderr sys c1).take 65536 ∧
      ∀ child, sys.spawn c1 = some child →
        child.wait.map exit_status = some (executor_run_task sys task).2.status) := by
  have key : ∀ cs : List command_t, task.commands = cs →
      (∀ c ∈ executed_of task.type cs, command_runs sys c) →
      (executor_run_task sys task).1 = true ∧
      (executor_run_task sys task).2.stdout_buf.getD [] =
        (((executed_of task.type cs).map (command_stdout sys)).flatten).take 65536 ∧
      (executor_run_task sys task).2.stderr_buf.getD [] =
        (((executed_of task.type cs).map (command_stderr sys)).flatten).take 65536 ∧
      ∀ cn child, (executed_of task.type cs).getLast? = some cn → sys.spawn cn = some child →
        child.wait.map exit_status = some (executor_run_task sys task).2.status := by
    intro cs hcs hall
    unfold executor_run_task
    rw [hcs]
    by_cases h0 : cs.length = 0
    · rw [if_pos h0]
      have : cs = [] := List.eq_nil_of_length_eq_zero h0
      subst this
      have e : executed_of task.type [] = [] := by unfold executed_of; split <;> rfl
      rw [e]
      refine ⟨rfl, rfl, rfl, ?_⟩
      intro cn child h
      cases h
    · rw [if_neg h0]
      obtain ⟨st1, hst1⟩ := run_commands_loop_total sys hok task.type cs
        { out := { buffer := none, capacity := 0, truncated := false }
          err := { buffer := none, capacity := 0, truncated := false }
          status := 0 } hall
      have hb := run_commands_loop_bytes sys task.type cs _ st1 (Nat.zero_le _) (Nat.zero_le _) hst1
      have hs := run_commands_loop_status sys task.type cs _ st1 hst1
      rw [hst1]
      refine ⟨rfl, ?_, ?_, ?_⟩
      · exact hb.1
      · exact hb.2
      · intro cn child hlast hspawn
        rw [hlast] at hs
        simp only [Option.map_some', Option.getD_some] at hs
        have hrun : command_runs sys cn := hall cn (List.mem_of_getLast?_eq_some hlast)
        obtain ⟨r, hr⟩ := run_single_command_total sys hok cn hrun
        obtain ⟨h1, h2⟩ := command_status_of_wait sys cn r hr
        rw [h2 child hspawn]
        simp only [hs, h1]
  constructor
  · intro ht hall
    have e : executed_of task.type task.commands = task.commands := by
      unfold executed_of; rw [ht]; rfl
    have := key task.commands rfl (by rw [e]; exact hall)
    rw [e] at this
    exact this
  · intro ht c1 rest hcs hrun
    have e : executed_of task.type (c1 :: rest) = [c1] := by
      unfold executed_of; rw [if_pos ht]; rfl
    have := key (c1 :: rest) hcs (by rw [e]; intro c hc; rw [List.mem_singleton.mp hc]; exact hrun)
    rw [e] at this
    simp only [List.map_cons, List.map_nil, List.flatten_cons, List.flatten_nil,
      List.append_nil, List.getLast?_singleton, Option.some.injEq] at this
    exact ⟨this.1, this.2.1, this.2.2.1, fun child hc => this.2.2.2 c1 child rfl hc⟩

theorem echo_exit_commands_run : ∀ c ∈ echo_exit_task.commands, command_runs echo_exit_sys c := by
  intro c hc
  simp only [echo_exit_task, echo_exit_commands, List.mem_cons, List.mem_singleton,
    List.not_mem_nil, or_false] at hc
  rcases hc with h | h | h <;> subst h
  · exact ⟨by decide, _, rfl, by simp [stream_clean, str], by simp [stream_clean], rfl⟩
  · exact ⟨by decide, _, rfl, by simp [stream_clean, str], by simp [stream_clean], rfl⟩
  · exact ⟨by decide, _, rfl, by simp [stream_clean, str], by simp [stream_clean], rfl⟩

/-- C11 on `echo A`, `echo B` with exit 2, `echo C`: the run gives status 0,
stdout `A\nB\nC\n` and an empty stderr. -/
theorem sequence_execution_witness :
    executor_run_task echo_exit_sys echo_exit_task =
      (true, { stdout_buf := some (str "A\nB\nC\n"), stderr_buf := none, status := 0,
               stdout_truncated := false, stderr_truncated := false }) ∧
    command_status echo_exit_sys ⟨[str "/bin/sh", str "-c", str "echo B; exit 2"]⟩ = 2 ∧
    (executor_run_task echo_exit_sys echo_exit_task).1 = true ∧
    (executor_run_task echo_exit_sys echo_exit_task).2.stdout_buf.getD [] =
      ((echo_exit_task.commands.map (command_stdout echo_exit_sys)).flatten).take 65536 :=
  ⟨by decide, by decide,
   ((sequence_execution echo_exit_sys (fun _ => rfl) echo_exit_task).1 rfl
      echo_exit_commands_run).1,
   ((sequence_execution echo_exit_sys (fun _ => rfl) echo_exit_task).1 rfl
      echo_exit_commands_run).2.1⟩

/-! ## Validation of the command list of a creation request -/

/-- C12: `parse_commands_array` never looks at the number of arguments of a
command it has closed, so a SEQUENCE request holding the empty command `[]`
passes `parse_commands_field`; `handle_create_task` goes on to allocate an
identifier and to write the task, and the reply is `PERSISTENCE_ERROR`, not
`INVALID_REQUEST`. The bound of 16 arguments is checked: a command of 16
arguments passes and one of 17 is rejected with `INVALID_REQUEST`. -/
theorem create_accepts_empty_command :
    parse_commands_field create_empty_command_payload .TASK_TYPE_SEQUENCE = some [⟨[]⟩] ∧
    (handle_create_task loaded_ctx (world_of fs_task_with_snapshot 130) MSG_REQ_CREATE_SEQUENCE
        create_empty_command_payload).2.2.reply_pipe.written =
      (world_of fs_task_with_snapshot 130).reply_pipe.written ++
        record_bytes MSG_RSP_ERROR
          (str "\x7b\"status\":\"ERROR\",\"code\":\"PERSISTENCE_ERROR\",\"message\":\"\xc3\x89criture de la t\xc3\xa2che impossible\"\x7d") ∧
    parse_commands_field (create_args_payload 15) .TASK_TYPE_SIMPLE =
      some [⟨List.replicate 16 (str "a")⟩] ∧
    parse_commands_field (create_args_payload 16) .TASK_TYPE_SIMPLE = none ∧
    (handle_create_task loaded_ctx (world_of fs_task_with_snapshot 130) MSG_REQ_CREATE_SIMPLE
        (create_args_payload 16)).2.2.reply_pipe.written =
      (world_of fs_task_with_snapshot 130).reply_pipe.written ++
        record_bytes MSG_RSP_ERROR
          (str "\x7b\"status\":\"ERROR\",\"code\":\"INVALID_REQUEST\",\"message\":\"Commandes invalides\"\x7d") := by
  refine ⟨by decide, by decide, by decide, by decide, by decide⟩

/-! ## Replies -/

/-- A record that fits the pipe is packed and written whole. -/
theorem proto_write_packed (type : Nat) (htype : type < 256) (payload : List Nat)
    (hlen : payload.length < 4096) (out_msg : proto_message_t) (fd : wfd)
    (hroom : 12 + payload.length ≤ fd.room) :
    ∃ msg, proto_pack type (some payload) payload.length out_msg = .ok msg ∧
      proto_write_message fd msg =
        (.ok (), { fd with written := fd.written ++ record_bytes type payload
                           room := fd.room - (12 + payload.length) }) := by
  obtain ⟨msg, hpack, hhdr, hpay⟩ := proto_pack_ok type payload hlen out_msg
  have hmod : type % 256 = type := Nat.mod_eq_of_lt htype
  rw [hmod] at hhdr
  have hval : proto_validate_header msg.header = .ok () := by
    rw [hhdr]
    unfold proto_validate_header ERRAID_PIPE_MESSAGE_LIMIT
    simp only [ne_eq, not_true_eq_false, if_false, ge_iff_le]
    rw [if_neg (by omega)]
  have hpl : msg.header.payload_length = payload.length := by rw [hhdr]
  have hbl := header_bytes_length msg.header
  refine ⟨msg, hpack, ?_⟩
  unfold proto_write_message record_bytes
  rw [hval]
  simp only [write_exact, hbl]
  rw [if_pos (by omega)]
  by_cases h0 : payload.length > 0
  · simp only [hpl, h0, if_true, hpay]
    rw [if_pos (by omega)]
    simp only [hhdr, List.append_assoc, Nat.sub_sub]
  · have hnil : payload = [] := List.eq_nil_of_length_eq_zero (by omega)
    subst hnil
    simp [hpl, hhdr]

theorem send_json_response_written (ctx : erraid_context_t) (sys : daemon_sys) (type : Nat)
    (payload : List Nat) (hopen : ctx.reply_fd = true ∨ sys.reply_open = .ok ())
    (htype : type < 256) (hlen : payload.length < 4096)
    (hroom : 12 + payload.length ≤ sys.reply_pipe.room) :
    send_json_response ctx sys type payload =
      (.ok (), { ctx with reply_fd := true },
        { sys with reply_pipe :=
            { sys.reply_pipe with
              written := sys.reply_pipe.written ++ record_bytes type payload
              room := sys.reply_pipe.room - (12 + payload.length) } }) := by
  obtain ⟨msg, hpack, hwrite⟩ := proto_write_packed type htype payload hlen stack_message
    sys.reply_pipe hroom
  unfold send_json_response
  by_cases hfd : ctx.reply_fd = true
  · simp only [hfd, if_true, hpack, hwrite]
    cases ctx
    simp only at hfd
    subst hfd
    rfl
  · have ho : sys.reply_open = .ok () := by
      rcases hopen with h | h
      · exact absurd h hfd
      · exact h
    simp only [hfd, ho, hpack, hwrite]
    rfl
/-! ## Base64 -/

theorem base64_char_alphabet : ∀ i, i < 64 → base64_char i = base64_alphabet i := by decide

theorem base64_triple (a b c : Nat) (hb : b < 256) (hc : c < 256) :
    (a <<< 16 ||| b <<< 8 ||| c) = 65536 * a + 256 * b + c := by
  have h1 : 2 ^ 8 * b ||| c = 2 ^ 8 * b + c := (Nat.mul_add_lt_is_or (by omega) b).symm
  have h2 : 2 ^ 16 * a ||| (2 ^ 8 * b + c) = 2 ^ 16 * a + (2 ^ 8 * b + c) :=
    (Nat.mul_add_lt_is_or (by omega) a).symm
  rw [Nat.or_assoc, Nat.shiftLeft_eq, Nat.shiftLeft_eq, Nat.mul_comm a, Nat.mul_comm b, h1, h2]
  omega

theorem and_63 (x : Nat) : x &&& 0x3F = x % 64 := Nat.and_pow_two_sub_one_eq_mod x 6

theorem base64_sextets (a b c : Nat) (ha : a < 256) (hb : b < 256) (hc : c < 256) :
    ((a <<< 16 ||| b <<< 8 ||| c) >>> 18) &&& 0x3F = a / 4 ∧
    ((a <<< 16 ||| b <<< 8 ||| c) >>> 12) &&& 0x3F = a % 4 * 16 + b / 16 ∧
    ((a <<< 16 ||| b <<< 8 ||| c) >>> 6) &&& 0x3F = b % 16 * 4 + c / 64 ∧
    (a <<< 16 ||| b <<< 8 ||| c) &&& 0x3F = c % 64 := by
  rw [base64_triple a b c hb hc]
  simp only [and_63, Nat.shiftRight_eq_div_pow]
  refine ⟨?_, ?_, ?_, ?_⟩ <;> omega

/-- The encoder of `utils_base64_encode` computes Base64 of RFC 4648 on
bytes. -/
theorem base64_encode_loop_eq :
    ∀ l : List Nat, (∀ x ∈ l, x < 256) → base64_encode_loop l = base64 l
  | [], _ => rfl
  | [a], h => by
    have ha : a < 256 := h a (by simp)
    obtain ⟨s1, s2, _, _⟩ := base64_sextets a 0 0 ha (by omega) (by omega)
    simp only [base64_encode_loop, base64, s1, s2]
    rw [base64_char_alphabet _ (by omega), base64_char_alphabet _ (by omega)]
    simp
  | [a, b], h => by
    have ha : a < 256 := h a (by simp)
    have hb : b < 256 := h b (by simp)
    obtain ⟨s1, s2, s3, _⟩ := base64_sextets a b 0 ha hb (by omega)
    simp only [base64_encode_loop, base64, s1, s2, s3]
    rw [base64_char_alphabet _ (by omega), base64_char_alphabet _ (by omega),
      base64_char_alphabet _ (by omega)]
    simp
  | a :: b :: c :: rest, h => by
    have ha : a < 256 := h a (by simp)
    have hb : b < 256 := h b (by simp)
    have hc : c < 256 := h c (by simp)
    obtain ⟨s1, s2, s3, s4⟩ := base64_sextets a b c ha hb hc
    simp only [base64_encode_loop, base64, s1, s2, s3, s4]
    rw [base64_char_alphabet _ (by omega), base64_char_alphabet _ (by omega),
      base64_char_alphabet _ (by omega), base64_char_alphabet _ (by omega),
      base64_encode_loop_eq rest (fun x hx => h x (by simp [hx]))]

theorem base64_length : ∀ l : List Nat, (base64 l).length = (l.length + 2) / 3 * 4
  | [] => rfl
  | [_] => by simp [base64]
  | [_, _] => by simp [base64]
  | _ :: _ :: _ :: rest => by
    simp only [base64, List.length_cons, base64_length rest]
    omega
/-! ## Capture requests -/

theorem respond_stdio_too_long (ctx : erraid_context_t) (sys : daemon_sys) (task_id : Nat)
    (stdout_request : Bool) (out err : Option (List Nat))
    (hload : storage_load_last_stdio sys.fs ctx.paths task_id = .ok (out, err))
    (hlen : 3021 < ((if stdout_request then out else err).getD []).length) :
    respond_stdio ctx sys task_id stdout_request = (.error .EMSGSIZE, ctx, sys) := by
  unfold respond_stdio
  rw [hload]
  simp only
  rw [if_pos (by unfold ERRAID_PIPE_MESSAGE_LIMIT; omega)]

theorem respond_stdio_ok (ctx : erraid_context_t) (sys : daemon_sys) (task_id : Nat)
    (stdout_request : Bool) (out err : Option (List Nat))
    (hload : storage_load_last_stdio sys.fs ctx.paths task_id = .ok (out, err))
    (hbytes : ∀ x ∈ (if stdout_request then out else err).getD [], x < 256)
    (hlen : ((if stdout_request then out else err).getD []).length ≤ 3021) :
    respond_stdio ctx sys task_id stdout_request =
      send_json_response ctx sys
        (if stdout_request then MSG_RSP_GET_STDOUT else MSG_RSP_GET_STDERR)
        (stdio_reply stdout_request ((if stdout_request then out else err).getD [])) := by
  unfold respond_stdio
  rw [hload]
  simp only
  rw [if_neg (by unfold ERRAID_PIPE_MESSAGE_LIMIT; omega)]
  unfold utils_base64_encode
  rw [if_neg (by unfold ERRAID_PIPE_MESSAGE_LIMIT; omega)]
  simp only [base64_encode_loop_eq _ hbytes]
  have hfit : buffer_append ERRAID_PIPE_MESSAGE_LIMIT []
      (stdio_reply stdout_request ((if stdout_request then out else err).getD [])) =
      some (stdio_reply stdout_request ((if stdout_request then out else err).getD [])) := by
    unfold buffer_append ERRAID_PIPE_MESSAGE_LIMIT
    have hl : (stdio_reply stdout_request ((if stdout_request then out else err).getD [])).length
        < 4096 := by
      unfold stdio_reply
      simp only [List.length_append, base64_length]
      have h1 : (str "\x7b\"status\":\"OK\",\"").length = 16 := by decide
      have h2 : (if stdout_request then str "stdout" else str "stderr").length = 6 := by
        cases stdout_request <;> decide
      have h3 : (str "\":\"").length = 3 := by decide
      have h4 : (str "\"\x7d").length = 2 := by decide
      rw [h1, h2, h3, h4]
      omega
    rw [if_neg (by simp), if_neg (by simp only [List.length_nil]; omega)]
    rfl
  unfold stdio_reply at hfit ⊢
  rw [hfit]

/-- The captures `storage_load_last_stdio` loads when `last.stdout` holds the
bytes `b` and `last.stderr` is a file or is missing. -/
theorem storage_load_last_stdio_of_files (fs : fs_t) (paths : storage_paths_t) (task_id : Nat)
    (p_out p_err b : List Nat)
    (hp1 : utils_join_path3 paths.logs_dir (fmt_llu task_id) (str "last.stdout") PATH_MAX =
      some p_out)
    (hp2 : utils_join_path3 paths.logs_dir (fmt_llu task_id) (str "last.stderr") PATH_MAX =
      some p_err)
    (h1 : sys_read_file fs p_out = .ok b)
    (h2 : (∃ e, sys_read_file fs p_err = .ok e) ∨ sys_read_file fs p_err = .error Errno.ENOENT) :
    ∃ out err, storage_load_last_stdio fs paths task_id = .ok (out, err) ∧ out.getD [] = b := by
  unfold storage_load_last_stdio
  have hl := fmt_llu_length task_id
  rw [if_neg (by omega), hp1, hp2]
  simp only [read_stdio_file, h1]
  by_cases hb : b.length > 0
  · simp only [hb, if_true]
    rcases h2 with ⟨e, h2⟩ | h2
    · rw [h2]
      simp only
      by_cases he : e.length > 0
      · simp only [he, if_true]
        exact ⟨_, _, rfl, rfl⟩
      · simp only [he, if_false]
        exact ⟨_, _, rfl, rfl⟩
    · rw [h2]
      simp only [if_true]
      exact ⟨_, _, rfl, rfl⟩
  · have hnil : b = [] := List.eq_nil_of_length_eq_zero (by omega)
    subst hnil
    simp only [List.length_nil, Nat.lt_irrefl, gt_iff_lt, if_false]
    rcases h2 with ⟨e, h2⟩ | h2
    · rw [h2]
      simp only
      by_cases he : e.length > 0
      · simp only [he, if_true]
        exact ⟨_, _, rfl, rfl⟩
      · simp only [he, if_false]
        exact ⟨_, _, rfl, rfl⟩
    · rw [h2]
      simp only [if_true]
      exact ⟨_, _, rfl, rfl⟩

theorem stdio_reply_length (stdout_request : Bool) (b : List Nat) (h : b.length ≤ 3021) :
    (stdio_reply stdout_request b).length < 4096 := by
  unfold stdio_reply
  simp only [List.length_append, base64_length]
  have h1 : (str "\x7b\"status\":\"OK\",\"").length = 16 := by decide
  have h2 : (if stdout_request then str "stdout" else str "stderr").length = 6 := by
    cases stdout_request <;> decide
  have h3 : (str "\":\"").length = 3 := by decide
  have h4 : (str "\"\x7d").length = 2 := by decide
  rw [h1, h2, h3, h4]
  omega

/-- What `erraid_handle_message` does with a capture request. -/
theorem handle_stdio_request (ctx : erraid_context_t) (sys : daemon_sys)
    (request : proto_message_t) (stdout_request : Bool) (task_id : Nat)
    (htype : request.header.type =
      if stdout_request then MSG_REQ_GET_STDOUT else MSG_REQ_GET_STDERR)
    (hid : json_extract_uint64 (request.payload.takeWhile (fun c => decide (c ≠ 0)))
      (str "task_id") = some task_id) :
    erraid_handle_message ctx sys request =
      match respond_stdio ctx sys task_id stdout_request with
      | (.error _, ctx1, sys1) =>
        rc_of (send_json_response ctx1 sys1 MSG_RSP_ERROR (stdio_failed stdout_request))
      | (.ok (), s) => (0, s) := by
  unfold erraid_handle_message
  cases stdout_request with
  | true =>
    simp only [if_true] at htype
    simp only [htype, hid, MSG_REQ_GET_STDOUT, MSG_PING, MSG_REQ_LIST_TASKS, MSG_REQ_CREATE_SIMPLE,
      MSG_REQ_CREATE_SEQUENCE, MSG_REQ_CREATE_ABSTRACT, MSG_REQ_REMOVE, MSG_REQ_LIST_HISTORY,
      Nat.reduceEqDiff, or_self, if_false, if_true]
    rfl
  | false =>
    simp only [Bool.false_eq_true, if_false] at htype
    simp only [htype, hid, MSG_REQ_GET_STDOUT, MSG_REQ_GET_STDERR, MSG_PING, MSG_REQ_LIST_TASKS,
      MSG_REQ_CREATE_SIMPLE, MSG_REQ_CREATE_SEQUENCE, MSG_REQ_CREATE_ABSTRACT, MSG_REQ_REMOVE,
      MSG_REQ_LIST_HISTORY, Nat.reduceEqDiff, or_self, if_false, if_true]
    rfl

/-- C20, as the code has it. A request for the stdout (stderr) capture of a
task whose captures `storage_load_last_stdio` loads, the requested one being
the bytes `b`, on a reply pipe that can be opened and has room for a record:
when `|b| <= 3021` the reply is one record `RSP_GET_STDOUT` (`RSP_GET_STDERR`)
whose payload is the status `OK` with the field `stdout` (`stderr`) set to
the Base64 text of the whole of `b`, and the handler returns 0; when
`|b| > 3021` the encoded text does not fit a record and the reply is one
record `RSP_ERROR` with the code `STDOUT_FAILED` (`STDERR_FAILED`). -/
theorem get_stdio_returns_capture (ctx : erraid_context_t) (sys : daemon_sys)
    (request : proto_message_t) (stdout_request : Bool) (task_id : Nat)
    (out err : Option (List Nat)) (b : List Nat)
    (htype : request.header.type =
      if stdout_request then MSG_REQ_GET_STDOUT else MSG_REQ_GET_STDERR)
    (hid : json_extract_uint64 (request.payload.takeWhile (fun c => decide (c ≠ 0)))
      (str "task_id") = some task_id)
    (hload : storage_load_last_stdio sys.fs ctx.paths task_id = .ok (out, err))
    (hb : (if stdout_request then out else err).getD [] = b)
    (hbytes : ∀ x ∈ b, x < 256)
    (hopen : ctx.reply_fd = true ∨ sys.reply_open = .ok ())
    (hroom : 12 + ERRAID_PIPE_MESSAGE_LIMIT ≤ sys.reply_pipe.room) :
    (b.length ≤ 3021 →
      (erraid_handle_message ctx sys request).1 = 0 ∧
      (erraid_handle_message ctx sys request).2.2.reply_pipe.written =
        sys.reply_pipe.written ++
          record_bytes (if stdout_request then MSG_RSP_GET_STDOUT else MSG_RSP_GET_STDERR)
            (stdio_reply stdout_request b)) ∧
    (3021 < b.length →
      (erraid_handle_message ctx sys request).2.2.reply_pipe.written =
        sys.reply_pipe.written ++ record_bytes MSG_RSP_ERROR (stdio_failed stdout_request)) := by
  rw [handle_stdio_request ctx sys request stdout_request task_id htype hid]
  unfold ERRAID_PIPE_MESSAGE_LIMIT at hroom
  subst hb
  constructor
  · intro hlen
    rw [respond_stdio_ok ctx sys task_id stdout_request out err hload hbytes hlen,
      send_json_response_written ctx sys _ _ hopen (by cases stdout_request <;> decide)
        (stdio_reply_length _ _ hlen) (by have := stdio_reply_length stdout_request _ hlen; omega)]
    exact ⟨rfl, rfl⟩
  · intro hlen
    rw [respond_stdio_too_long ctx sys task_id stdout_request out err hload hlen]
    simp only
    rw [send_json_response_written ctx sys _ _ hopen (by decide)
      (by cases stdout_request <;> decide) (by cases stdout_request <;> simp [stdio_failed, str] <;> omega)]
    rfl

theorem capture_fs_loaded (b : List Nat) (hb : 0 < b.length) :
    storage_load_last_stdio (capture_fs b) run_paths 1 = .ok (some b, none) := by
  have h1 : sys_read_file (capture_fs b) (str "/run/logs/1/last.stdout") = .ok b := rfl
  have h2 : sys_read_file (capture_fs b) (str "/run/logs/1/last.stderr") = .error .ENOENT := rfl
  have p1 : utils_join_path3 run_paths.logs_dir (fmt_llu 1) (str "last.stdout") PATH_MAX =
      some (str "/run/logs/1/last.stdout") := by decide
  have p2 : utils_join_path3 run_paths.logs_dir (fmt_llu 1) (str "last.stderr") PATH_MAX =
      some (str "/run/logs/1/last.stderr") := by decide
  unfold storage_load_last_stdio
  rw [if_neg (by decide), p1, p2]
  simp only [read_stdio_file, h1, h2, hb, if_true]

/-- C20 fails on the capture of a truncated run: with 65536 bytes in
`last.stdout` of task 1, the request `GET_STDOUT` for task 1 is answered with
the record `RSP_ERROR` of code `STDOUT_FAILED`, not with `RSP_GET_STDOUT`. -/
theorem get_stdout_full_capture_fails :
    sys_read_file (capture_fs (List.replicate 65536 65)) (str "/run/logs/1/last.stdout") =
      .ok (List.replicate 65536 65) ∧
    (erraid_handle_message loaded_ctx (world_of (capture_fs (List.replicate 65536 65)) 130)
        (request_of MSG_REQ_GET_STDOUT (str "\x7b\"task_id\":1\x7d"))).2.2.reply_pipe.written =
      record_bytes MSG_RSP_ERROR
        (str "\x7b\"status\":\"ERROR\",\"code\":\"STDOUT_FAILED\",\"message\":\"Impossible de charger stdout\"\x7d") ∧
    MSG_RSP_ERROR ≠ MSG_RSP_GET_STDOUT := by
  refine ⟨rfl, ?_, by decide⟩
  rw [handle_stdio_request loaded_ctx _ _ true 1 rfl (by decide),
    respond_stdio_too_long loaded_ctx (world_of (capture_fs (List.replicate 65536 65)) 130) 1 true
      (some (List.replicate 65536 65)) none
      (capture_fs_loaded _ (by rw [List.length_replicate]; omega))
      (by simp only [if_true, Option.getD_some, List.length_replicate]; omega)]
  simp only
  rw [send_json_response_written loaded_ctx _ _ _ (Or.inl rfl) (by decide) (by decide)
    (by decide)]
  rfl

/-- C20 on a small capture: `last.stdout` of task 1 holds `A\nB\n`, and the
reply to `GET_STDOUT` carries its Base64 text `QQpCCg==`. -/
theorem get_stdio_returns_capture_witness :
    storage_load_last_stdio small_capture_fs run_paths 1 =
      .ok (some (str "A\nB\n"), some (str "oops")) ∧
    stdio_reply true (str "A\nB\n") = str "\x7b\"status\":\"OK\",\"stdout\":\"QQpCCg==\"\x7d" ∧
    ((erraid_handle_message loaded_ctx (world_of small_capture_fs 130)
        (request_of MSG_REQ_GET_STDOUT (str "\x7b\"task_id\":1\x7d"))).1 = 0 ∧
      (erraid_handle_message loaded_ctx (world_of small_capture_fs 130)
        (request_of MSG_REQ_GET_STDOUT (str "\x7b\"task_id\":1\x7d"))).2.2.reply_pipe.written =
        (world_of small_capture_fs 130).reply_pipe.written ++
          record_bytes (if true = true then MSG_RSP_GET_STDOUT else MSG_RSP_GET_STDERR)
            (stdio_reply true (str "A\nB\n"))) :=
  ⟨by decide, by decide,
   (get_stdio_returns_capture loaded_ctx (world_of small_capture_fs 130)
      (request_of MSG_REQ_GET_STDOUT (str "\x7b\"task_id\":1\x7d")) true 1
      (some (str "A\nB\n")) (some (str "oops")) (str "A\nB\n") rfl (by decide) (by decide) rfl
      (by decide) (Or.inl rfl) (by decide)).1 (by decide)⟩

/-! ## The due-scan -/

/-- One turn of the loop of `process_due_tasks` at an index whose entry points
to the task of the same index. -/
theorem due_step_spec (now : Int) (x : Bool) (c : erraid_context_t) (s : daemon_sys) (k : Nat)
    (e : schedule_entry_t) (t : task_t) (he : c.plan[k]? = some e) (ht : c.tasks[k]? = some t)
    (hidx : e.task_index = k) :
    (entry_due e now = false ∧ due_step now (x, c, s) k = (x, c, s)) ∨
    (entry_due e now = true ∧ fireable t = false ∧
      due_step now (x, c, s) k =
        (true, { c with plan := c.plan.set k { e with next_epoch := -1 } }, s)) ∨
    (entry_due e now = true ∧ fireable t = true ∧ ∃ fs2,
      due_step now (x, c, s) k =
        (true,
          { c with
            tasks := c.tasks.set k { t with last_run_epoch := now }
            plan := c.plan.set k
              { e with next_epoch := scheduler_next_occurrence s.localtime_r t.schedule now } },
          { s with fs := fs2, fired := s.fired ++ [⟨k, t, run_entry s t now⟩] })) := by
  unfold due_step
  simp only [he]
  by_cases hdue : e.next_epoch ≥ 0 ∧ e.next_epoch ≤ now
  · have hd : entry_due e now = true := by unfold entry_due; exact decide_eq_true hdue
    rw [if_pos hdue]
    right
    unfold run_task_instance
    simp only [he, hidx, ht]
    by_cases hf : fireable t = true
    · right
      refine ⟨hd, hf, ?_⟩
      have hg : ¬ ((!t.schedule.enabled || decide (t.commands.length = 0)) = true) := by
        unfold fireable at hf
        cases h1 : t.schedule.enabled <;> simp_all
      rw [if_neg hg]
      exact ⟨_, rfl⟩
    · left
      have hf0 : fireable t = false := by simpa using hf
      refine ⟨hd, hf0, ?_⟩
      have hg : (!t.schedule.enabled || decide (t.commands.length = 0)) = true := by
        unfold fireable at hf0
        cases h1 : t.schedule.enabled <;> simp_all
      rw [if_pos hg]
  · have hd : entry_due e now = false := by unfold entry_due; exact decide_eq_false hdue
    rw [if_neg hdue]
    exact Or.inl ⟨hd, rfl⟩

theorem aligned_get (ctx : erraid_context_t) (h : aligned ctx) (k : Nat)
    (hk : k < ctx.plan_count) :
    ∃ e t, ctx.plan[k]? = some e ∧ ctx.tasks[k]? = some t ∧ e.task_index = k ∧
      e.task_id = t.task_id := by
  obtain ⟨hn, hall⟩ := h
  have hk2 : k < ctx.tasks.length := by omega
  have := hall k hk2
  rw [List.getElem?_eq_getElem hk2] at this
  cases hp : ctx.plan[k]? with
  | none => rw [hp] at this; cases this
  | some e =>
    rw [hp] at this
    simp only [Option.map_some', Option.some.injEq, Prod.mk.injEq] at this
    exact ⟨e, _, rfl, List.getElem?_eq_getElem hk2, this.1, this.2⟩

theorem due_pass_prefix (ctx : erraid_context_t) (sys : daemon_sys) (now : Int)
    (h : aligned ctx) :
    ∀ k, k ≤ ctx.plan_count →
      pass_prefix ctx sys now k ((List.range k).foldl (due_step now) (false, ctx, sys)) := by
  intro k
  induction k with
  | zero =>
    intro _
    refine ⟨rfl, rfl, fun i => by simp, fun i => by simp, by simp, ?_⟩
    simp
  | succ k ih =>
    intro hk
    have ihk := ih (by omega)
    rw [List.range_succ, List.foldl_append]
    simp only [List.foldl_cons, List.foldl_nil]
    generalize (List.range k).foldl (due_step now) (false, ctx, sys) = st at ihk ⊢
    obtain ⟨x, c, s⟩ := st
    obtain ⟨hc, hs, hplan, htasks, hfired, hexec⟩ := ihk
    simp only at hc hs hplan htasks hfired hexec
    obtain ⟨e, t, he, ht, hidx, _⟩ := aligned_get ctx h k (by omega)
    have hek : c.plan[k]? = some e := by rw [hplan k, if_neg (Nat.lt_irrefl k), he]
    have htk : c.tasks[k]? = some t := by rw [htasks k, if_neg (Nat.lt_irrefl k), ht]
    have hlt : s.localtime_r = sys.localtime_r := by rw [hs]
    have hre : run_entry s t now = run_entry sys t now := by
      have h1 : s.spawn = sys.spawn := by rw [hs]
      have h2 : s.realloc_ok = sys.realloc_ok := by rw [hs]
      unfold run_entry
      rw [h1, h2]
    have hfm : (List.range (k + 1)).filterMap (fire_of ctx sys now) =
        (List.range k).filterMap (fire_of ctx sys now) ++
          (match fire_of ctx sys now k with
            | some f => [f]
            | none => []) := by
      rw [List.range_succ, List.filterMap_append]
      congr 1
      simp only [List.filterMap_cons, List.filterMap_nil]
      cases fire_of ctx sys now k <;> rfl
    have hex : (∃ i e0, i < k + 1 ∧ ctx.plan[i]? = some e0 ∧ entry_due e0 now = true) ↔
        ((∃ i e0, i < k ∧ ctx.plan[i]? = some e0 ∧ entry_due e0 now = true) ∨
          entry_due e now = true) := by
      constructor
      · rintro ⟨i, e0, hi, hp, hd⟩
        rcases Nat.lt_or_ge i k with h1 | h1
        · exact Or.inl ⟨i, e0, h1, hp, hd⟩
        · have : i = k := by omega
          subst this
          rw [he] at hp
          injection hp with hp
          subst hp
          exact Or.inr hd
      · rintro (⟨i, e0, hi, hp, hd⟩ | hd)
        · exact ⟨i, e0, by omega, hp, hd⟩
        · exact ⟨k, e, by omega, he, hd⟩
    have hsplit : ∀ i : Nat, i < k + 1 ↔ (i < k ∨ i = k) := fun i => by omega
    rcases due_step_spec now x c s k e t hek htk hidx with
      ⟨hd, hstep⟩ | ⟨hd, hf, hstep⟩ | ⟨hd, hf, fs2, hstep⟩
    · -- the entry is not due
      rw [hstep]
      refine ⟨hc, hs, ?_, ?_, ?_, ?_⟩
      · intro i
        simp only
        rw [hplan i]
        by_cases hik : i = k
        · subst hik
          rw [if_neg (Nat.lt_irrefl i), if_pos (Nat.lt_succ_self i)]
          unfold entry_after
          simp only [he, ht, hd, Bool.false_eq_true, if_false]
        · by_cases hlt2 : i < k
          · rw [if_pos hlt2, if_pos (by omega)]
          · rw [if_neg hlt2, if_neg (by omega)]
      · intro i
        simp only
        rw [htasks i]
        by_cases hik : i = k
        · subst hik
          rw [if_neg (Nat.lt_irrefl i), if_pos (Nat.lt_succ_self i)]
          unfold task_after
          simp only [he, ht, hd, Bool.false_and, Bool.false_eq_true, if_false]
        · by_cases hlt2 : i < k
          · rw [if_pos hlt2, if_pos (by omega)]
          · rw [if_neg hlt2, if_neg (by omega)]
      · simp only
        rw [hfired, hfm]
        unfold fire_of
        simp only [he, ht, hd, Bool.false_and, Bool.false_eq_true, if_false, List.append_nil]
      · simp only
        rw [hexec, hex, hd]
        simp
    · -- the entry is due and its task does not pass the guard
      rw [hstep]
      refine ⟨?_, hs, ?_, ?_, ?_, ?_⟩
      · simp only
        rw [hc]
      · intro i
        simp only
        by_cases hik : i = k
        · subst hik
          rw [List.getElem?_set_self (by
            rcases List.getElem?_eq_some_iff.mp hek with ⟨hl, _⟩; exact hl),
            if_pos (Nat.lt_succ_self i)]
          unfold entry_after
          simp only [he, ht, hd, hf, if_true, Bool.false_eq_true, if_false]
        · rw [List.getElem?_set_ne (Ne.symm hik), hplan i]
          by_cases hlt2 : i < k
          · rw [if_pos hlt2, if_pos (by omega)]
          · rw [if_neg hlt2, if_neg (by omega)]
      · intro i
        simp only
        rw [htasks i]
        by_cases hik : i = k
        · subst hik
          rw [if_neg (Nat.lt_irrefl i), if_pos (Nat.lt_succ_self i)]
          unfold task_after
          simp only [he, ht, hd, hf, Bool.and_false, Bool.false_eq_true, if_false]
        · by_cases hlt2 : i < k
          · rw [if_pos hlt2, if_pos (by omega)]
          · rw [if_neg hlt2, if_neg (by omega)]
      · simp only
        rw [hfired, hfm]
        unfold fire_of
        simp only [he, ht, hd, hf, Bool.and_false, Bool.false_eq_true, if_false, List.append_nil]
      · simp only
        rw [hex, hd]
        simp
    · -- the entry is due and its task is fired
      rw [hstep]
      refine ⟨?_, ?_, ?_, ?_, ?_, ?_⟩
      · simp only
        rw [hc]
      · simp only
        rw [hs]
      · intro i
        simp only
        by_cases hik : i = k
        · subst hik
          rw [List.getElem?_set_self (by
            rcases List.getElem?_eq_some_iff.mp hek with ⟨hl, _⟩; exact hl),
            if_pos (Nat.lt_succ_self i)]
          unfold entry_after
          simp only [he, ht, hd, hf, if_true, hlt]
        · rw [List.getElem?_set_ne (Ne.symm hik), hplan i]
          by_cases hlt2 : i < k
          · rw [if_pos hlt2, if_pos (by omega)]
          · rw [if_neg hlt2, if_neg (by omega)]
      · intro i
        simp only
        by_cases hik : i = k
        · subst hik
          rw [List.getElem?_set_self (by
            rcases List.getElem?_eq_some_iff.mp htk with ⟨hl, _⟩; exact hl),
            if_pos (Nat.lt_succ_self i)]
          unfold task_after
          simp only [he, ht, hd, hf, Bool.and_self, if_true]
        · rw [List.getElem?_set_ne (Ne.symm hik), htasks i]
          by_cases hlt2 : i < k
          · rw [if_pos hlt2, if_pos (by omega)]
          · rw [if_neg hlt2, if_neg (by omega)]
      · simp only
        rw [hfired, hfm, hre]
        unfold fire_of
        simp only [he, ht, hd, hf, Bool.and_self, if_true, List.append_assoc]
      · simp only
        rw [hex, hd]
        simp

theorem due_pass_spec (ctx : erraid_context_t) (sys : daemon_sys) (now : Int)
    (h : aligned ctx) : pass_prefix ctx sys now ctx.plan_count (due_pass ctx sys now) :=
  due_pass_prefix ctx sys now h ctx.plan_count (Nat.le_refl _)

theorem fire_of_index (ctx : erraid_context_t) (sys : daemon_sys) (now : Int) (i : Nat)
    (f : fire_t) (h : fire_of ctx sys now i = some f) :
    f.task_index = i ∧ f.entry.epoch = now ∧ ctx.tasks[i]? = some f.task ∧
    fireable f.task = true ∧ ∃ e, ctx.plan[i]? = some e ∧ entry_due e now = true := by
  unfold fire_of at h
  split at h
  · rename_i e t he ht
    split at h
    · rename_i hc
      injection h with h
      subst h
      simp only [Bool.and_eq_true] at hc
      exact ⟨rfl, rfl, ht, hc.2, e, he, hc.1⟩
    · cases h
  · cases h

theorem entry_after_ids (ctx : erraid_context_t) (sys : daemon_sys) (now : Int) (i : Nat) :
    (entry_after ctx sys now i).map (fun e => (e.task_index, e.task_id)) =
      (ctx.plan[i]?).map (fun e => (e.task_index, e.task_id)) := by
  unfold entry_after
  split
  · rename_i e t he ht
    rw [he]
    split <;> rfl
  · rfl

theorem task_after_ids (ctx : erraid_context_t) (now : Int) (i : Nat) :
    (task_after ctx now i).map (fun t => (i, t.task_id)) =
      (ctx.tasks[i]?).map (fun t => (i, t.task_id)) := by
  unfold task_after
  split
  · rename_i e t he ht
    rw [ht]
    split <;> rfl
  · rfl

theorem task_after_isSome (ctx : erraid_context_t) (now : Int) (i : Nat) :
    (task_after ctx now i).isSome = (ctx.tasks[i]?).isSome := by
  unfold task_after
  split
  · rename_i e t he ht
    rw [ht]
    split <;> rfl
  · rfl

theorem length_eq_of_isSome {α : Type} (l1 l2 : List α)
    (h : ∀ i : Nat, (l1[i]?).isSome = (l2[i]?).isSome) : l1.length = l2.length := by
  rcases Nat.lt_trichotomy l1.length l2.length with hlt | heq | hgt
  · have := h l1.length
    rw [List.getElem?_eq_none (Nat.le_refl _), List.getElem?_eq_getElem hlt] at this
    cases this
  · exact heq
  · have := h l2.length
    rw [List.getElem?_eq_none (Nat.le_refl _), List.getElem?_eq_getElem hgt] at this
    cases this

/-- A pass keeps plan/task alignment, the number of tasks and the fields of
the context other than the task list and the plan array. -/
theorem due_pass_aligned (ctx : erraid_context_t) (sys : daemon_sys) (now : Int)
    (h : aligned ctx) :
    aligned (due_pass ctx sys now).2.1 ∧
    (due_pass ctx sys now).2.1.tasks.length = ctx.tasks.length ∧
    (due_pass ctx sys now).2.1.plan_count = ctx.plan_count ∧
    (due_pass ctx sys now).2.1.plan_capacity = ctx.plan_capacity ∧
    (due_pass ctx sys now).2.1.should_quit = ctx.should_quit := by
  obtain ⟨hc, _, hplan, htasks, _, _⟩ := due_pass_spec ctx sys now h
  have hlen : (due_pass ctx sys now).2.1.tasks.length = ctx.tasks.length := by
    apply length_eq_of_isSome
    intro i
    rw [htasks i]
    split
    · exact task_after_isSome ctx now i
    · rfl
  have hcount : (due_pass ctx sys now).2.1.plan_count = ctx.plan_count := by rw [hc]
  refine ⟨⟨by rw [hcount, hlen, h.1], ?_⟩, hlen, hcount, by rw [hc], by rw [hc]⟩
  intro i hi
  rw [hlen] at hi
  have hik : i < ctx.plan_count := by rw [h.1]; exact hi
  simp only [hplan i, htasks i, if_pos hik, entry_after_ids, task_after_ids]
  exact h.2 i hi

/-- The guard of `run_task_instance`, in any state: a disabled task is left as
it is, and a firing is of an enabled task at another index. -/
theorem run_task_instance_guard (c : erraid_context_t) (s : daemon_sys) (k : Nat) (now : Int)
    (i : Nat) (t : task_t) (ht : c.tasks[i]? = some t) (hen : t.schedule.enabled = false) :
    (run_task_instance c s k now).1.tasks[i]? = some t ∧
    ∃ fired, (run_task_instance c s k now).2.fired = s.fired ++ fired ∧
      ∀ f ∈ fired, f.task_index ≠ i ∧ f.task.schedule.enabled = true := by
  unfold run_task_instance
  cases hp : c.plan[k]? with
  | none => exact ⟨ht, [], by simp, by simp⟩
  | some entry =>
    simp only
    cases hq : c.tasks[entry.task_index]? with
    | none => exact ⟨ht, [], by simp, by simp⟩
    | some task =>
      simp only
      by_cases hg : (!task.schedule.enabled || decide (task.commands.length = 0)) = true
      · rw [if_pos hg]
        exact ⟨ht, [], by simp, by simp⟩
      · rw [if_neg hg]
        have hte : task.schedule.enabled = true := by
          cases h1 : task.schedule.enabled
          · rw [h1] at hg; simp at hg
          · rfl
        have hne : entry.task_index ≠ i := by
          intro h
          rw [h, ht] at hq
          injection hq with hq
          rw [hq, hte] at hen
          cases hen
        refine ⟨?_, [⟨entry.task_index, task, _⟩], rfl, ?_⟩
        · simp only
          rw [List.getElem?_set_ne hne]
          exact ht
        · intro f hf
          rw [List.mem_singleton] at hf
          subst hf
          exact ⟨hne, hte⟩

theorem due_steps_guard (now : Int) (i : Nat) (t : task_t) (hen : t.schedule.enabled = false) :
    ∀ (indices : List Nat) (st : Bool × erraid_context_t × daemon_sys),
      st.2.1.tasks[i]? = some t →
      (indices.foldl (due_step now) st).2.1.tasks[i]? = some t ∧
      ∃ fired, (indices.foldl (due_step now) st).2.2.fired = st.2.2.fired ++ fired ∧
        ∀ f ∈ fired, f.task_index ≠ i ∧ f.task.schedule.enabled = true := by
  intro indices
  induction indices with
  | nil => intro st ht; exact ⟨ht, [], by simp, by simp⟩
  | cons k rest ih =>
    intro st ht
    simp only [List.foldl_cons]
    have hstep : (due_step now st k).2.1.tasks[i]? = some t ∧
        ∃ fired, (due_step now st k).2.2.fired = st.2.2.fired ++ fired ∧
          ∀ f ∈ fired, f.task_index ≠ i ∧ f.task.schedule.enabled = true := by
      unfold due_step
      split
      · exact ⟨ht, [], by simp, by simp⟩
      · split
        · exact run_task_instance_guard st.2.1 st.2.2 k now i t ht hen
        · exact ⟨ht, [], by simp, by simp⟩
    obtain ⟨ht1, f1, hf1, hall1⟩ := hstep
    obtain ⟨ht2, f2, hf2, hall2⟩ := ih (due_step now st k) ht1
    refine ⟨ht2, f1 ++ f2, by rw [hf2, hf1, List.append_assoc], ?_⟩
    intro f hf
    rcases List.mem_append.mp hf with h1 | h1
    · exact hall1 f h1
    · exact hall2 f h1

/-- Disabled tasks through a whole due-scan, in any state: whatever the clock
shows at the successive passes, a disabled task is left as it is and no
firing is made for its index. -/
theorem process_due_tasks_guard (i : Nat) (t : task_t) (hen : t.schedule.enabled = false) :
    ∀ (clock : List (Option Int)) (ctx : erraid_context_t) (sys : daemon_sys),
      ctx.tasks[i]? = some t →
      (process_due_tasks clock ctx sys).2.1.tasks[i]? = some t ∧
      ∃ fired, (process_due_tasks clock ctx sys).2.2.fired = sys.fired ++ fired ∧
        ∀ f ∈ fired, f.task_index ≠ i ∧ f.task.schedule.enabled = true := by
  intro clock
  induction clock with
  | nil =>
    intro ctx sys ht
    exact ⟨ht, [], by simp [process_due_tasks], by simp⟩
  | cons reading clock ih =>
    intro ctx sys ht
    unfold process_due_tasks
    split
    · exact ⟨ht, [], by simp, by simp⟩
    · cases reading with
      | none => exact ⟨ht, [], by simp, by simp⟩
      | some now =>
        simp only
        obtain ⟨ht1, f1, hf1, hall1⟩ := due_steps_guard now i t hen (List.range ctx.plan_count)
          (false, ctx, sys) ht
        split
        · exact ⟨ht1, f1, hf1, hall1⟩
        · obtain ⟨ht2, f2, hf2, hall2⟩ := ih (due_pass ctx sys now).2.1
            (due_pass ctx sys now).2.2 ht1
          refine ⟨ht2, f1 ++ f2, ?_, ?_⟩
          · rw [hf2]
            unfold due_pass
            rw [hf1, List.append_assoc]
          · intro f hf
            rcases List.mem_append.mp hf with h1 | h1
            · exact hall1 f h1
            · exact hall2 f h1

/-- C15. An ABSTRACT task never fires. (1) The schedule `parse_schedule_field`
gives a request `REQ_CREATE_ABSTRACT` is disabled, with or without a schedule
object; so is the schedule of an ABSTRACT task read from a task file. (2) For
a disabled schedule `scheduler_next_occurrence` returns -1 (none) at every
reference epoch. (3) In every state, whatever the clock shows at the passes of
a due-scan, a task with a disabled schedule is left as it is (so its
`last_run_epoch` is kept), and no firing of the scan (a run by the executor
followed by a history entry) is made for its index or for any disabled
task. -/
theorem abstract_never_fires :
    (∀ payload s, parse_schedule_field payload .TASK_TYPE_ABSTRACT = some s →
      s.enabled = false) ∧
    (∀ buffer t, parse_task_file buffer = some t → t.type = .TASK_TYPE_ABSTRACT →
      t.schedule.enabled = false) ∧
    (∀ localtime_r s reference_epoch, s.enabled = false →
      scheduler_next_occurrence localtime_r s reference_epoch = -1) ∧
    ∀ (clock : List (Option Int)) (ctx : erraid_context_t) (sys : daemon_sys) (i : Nat)
      (t : task_t), ctx.tasks[i]? = some t → t.schedule.enabled = false →
      (process_due_tasks clock ctx sys).2.1.tasks[i]? = some t ∧
      ∃ fired, (process_due_tasks clock ctx sys).2.2.fired = sys.fired ++ fired ∧
        ∀ f ∈ fired, f.task_index ≠ i ∧ f.task.schedule.enabled = true := by
  refine ⟨?_, ?_, ?_, ?_⟩
  · intro payload s h
    unfold parse_schedule_field at h
    simp only at h
    split at h
    · simp only [if_true, Option.some.injEq] at h
      rw [← h]
    · split at h
      · simp only [if_true, Option.some.injEq] at h
        rw [← h]
      · split at h
        · split at h
          · simp only [Option.some.injEq] at h
            rw [← h]
            simp
          · cases h
        · cases h
  · intro buffer t h ht
    unfold parse_task_file at h
    simp only at h
    split at h
    · cases h
    · split at h
      · split at h
        · cases h
        · split at h
          · cases h
          · split at h
            · cases h
            · split at h
              · cases h
              · split at h
                · split at h
                  · simp only [Option.some.injEq] at h
                    rw [← h] at ht ⊢
                    simp only at ht ⊢
                    rw [ht]
                    rfl
                  · cases h
                · cases h
      · cases h
  · intro localtime_r s reference_epoch h
    unfold scheduler_next_occurrence
    rw [h]
    rfl
  · intro clock ctx sys i t ht hen
    exact process_due_tasks_guard i t hen clock ctx sys ht

/-- C15 on the state `due_ctx`: its second task is ABSTRACT and disabled, and
its plan entry shows the epoch 60; a due-scan whose passes read the clock
values 130 and 131 leaves the task as it is and fires the first task only. -/
theorem abstract_never_fires_witness :
    (due_ctx.tasks[1]?).map (fun t => (t.type, t.schedule.enabled)) =
      some (.TASK_TYPE_ABSTRACT, false) ∧
    (process_due_tasks [some 130, some 131] due_ctx due_world).2.2.fired.map
      (fun f => f.task_index) = [0] ∧
    ((process_due_tasks [some 130, some 131] due_ctx due_world).2.1.tasks[1]? = due_ctx.tasks[1]? ∧
      ∃ fired, (process_due_tasks [some 130, some 131] due_ctx due_world).2.2.fired =
          due_world.fired ++ fired ∧
        ∀ f ∈ fired, f.task_index ≠ 1 ∧ f.task.schedule.enabled = true) :=
  ⟨by decide, by decide,
    abstract_never_fires.2.2.2 [some 130, some 131] due_ctx due_world 1 _ rfl rfl⟩

/-! ## The plan invariant -/

theorem send_json_response_ctx (ctx : erraid_context_t) (sys : daemon_sys) (type : Nat)
    (payload : List Nat) :
    ∃ fd, (send_json_response ctx sys type payload).2.1 = { ctx with reply_fd := fd } := by
  unfold send_json_response
  simp only
  split
  · exact ⟨ctx.reply_fd, rfl⟩
  · rename_i ctx1 hopen
    have h1 : ∃ fd, ctx1 = { ctx with reply_fd := fd } := by
      by_cases hfd : ctx.reply_fd = true
      · rw [if_pos hfd] at hopen; injection hopen with h; subst h; exact ⟨ctx.reply_fd, rfl⟩
      · rw [if_neg hfd] at hopen
        cases hro : sys.reply_open with
        | error e => rw [hro] at hopen; cases hopen
        | ok u => rw [hro] at hopen; injection hopen with h; subst h; exact ⟨true, rfl⟩
    obtain ⟨fd, h1⟩ := h1
    subst h1
    split
    · exact ⟨fd, rfl⟩
    · split
      · split
        · exact ⟨false, rfl⟩
        · exact ⟨fd, rfl⟩
      · exact ⟨fd, rfl⟩

theorem send_error_response_ctx (ctx : erraid_context_t) (sys : daemon_sys)
    (code message : List Nat) :
    ∃ fd, (send_error_response ctx sys code message).2.1 = { ctx with reply_fd := fd } := by
  unfold send_error_response
  split
  · exact ⟨ctx.reply_fd, rfl⟩
  · split
    · exact ⟨ctx.reply_fd, rfl⟩
    · split
      · exact ⟨ctx.reply_fd, rfl⟩
      · split
        · exact ⟨ctx.reply_fd, rfl⟩
        · exact send_json_response_ctx ctx sys _ _

theorem rc_of_ctx (r : Except Errno Unit × erraid_context_t × daemon_sys) :
    (rc_of r).2.1 = r.2.1 := by
  obtain ⟨x, c, s⟩ := r
  cases x <;> rfl

theorem respond_list_tasks_ctx (ctx : erraid_context_t) (sys : daemon_sys) :
    ∃ fd, (respond_list_tasks ctx sys).2.1 = { ctx with reply_fd := fd } := by
  unfold respond_list_tasks
  split
  · exact ⟨ctx.reply_fd, rfl⟩
  · split
    · exact ⟨ctx.reply_fd, rfl⟩
    · split
      · exact ⟨ctx.reply_fd, rfl⟩
      · exact send_json_response_ctx ctx sys _ _

theorem respond_history_ctx (ctx : erraid_context_t) (sys : daemon_sys) (task_id : Nat) :
    ∃ fd, (respond_history ctx sys task_id).2.1 = { ctx with reply_fd := fd } := by
  unfold respond_history
  split
  · exact ⟨ctx.reply_fd, rfl⟩
  · split
    · exact ⟨ctx.reply_fd, rfl⟩
    · split
      · exact ⟨ctx.reply_fd, rfl⟩
      · split
        · exact ⟨ctx.reply_fd, rfl⟩
        · exact send_json_response_ctx ctx sys _ _

theorem respond_stdio_ctx (ctx : erraid_context_t) (sys : daemon_sys) (task_id : Nat)
    (stdout_request : Bool) :
    ∃ fd, (respond_stdio ctx sys task_id stdout_request).2.1 = { ctx with reply_fd := fd } := by
  unfold respond_stdio
  cases storage_load_last_stdio sys.fs ctx.paths task_id with
  | error e => exact ⟨ctx.reply_fd, rfl⟩
  | ok bufs =>
    obtain ⟨o, e⟩ := bufs
    simp only
    by_cases hbig : (((if stdout_request = true then o else e).getD []).length + 2) / 3 * 4 + 64 ≥
        ERRAID_PIPE_MESSAGE_LIMIT
    · rw [if_pos hbig]
      exact ⟨ctx.reply_fd, rfl⟩
    · rw [if_neg hbig]
      cases utils_base64_encode ((if stdout_request = true then o else e).getD [])
          ERRAID_PIPE_MESSAGE_LIMIT with
      | none => exact ⟨ctx.reply_fd, rfl⟩
      | some encoded =>
        simp only
        cases buffer_append ERRAID_PIPE_MESSAGE_LIMIT []
            (str "\x7b\"status\":\"OK\",\"" ++
              (if stdout_request = true then str "stdout" else str "stderr") ++ str "\":\"" ++
              encoded ++ str "\"\x7d") with
        | none => exact ⟨ctx.reply_fd, rfl⟩
        | some payload => exact send_json_response_ctx ctx sys _ _

/-- A reply that follows a failed responder: the context still differs from
`ctx` in `reply_fd` only. -/
theorem reply_after_ctx (ctx : erraid_context_t)
    (r : Except Errno Unit × erraid_context_t × daemon_sys) (code message : List Nat)
    (h : ∃ fd, r.2.1 = { ctx with reply_fd := fd }) :
    ∃ fd, (match r with
      | (.error _, ctx1, sys1) => rc_of (send_error_response ctx1 sys1 code message)
      | (.ok (), s) => (0, s)).2.1 = { ctx with reply_fd := fd } := by
  obtain ⟨x, c, s⟩ := r
  obtain ⟨fd, h⟩ := h
  simp only at h
  subst h
  cases x with
  | error e =>
    simp only [rc_of_ctx]
    obtain ⟨fd2, h2⟩ := send_error_response_ctx { ctx with reply_fd := fd } s code message
    exact ⟨fd2, by rw [h2]⟩
  | ok u => exact ⟨fd, rfl⟩

theorem handle_create_task_ctx (ctx : erraid_context_t) (sys : daemon_sys) (msg_type : Nat)
    (payload : List Nat) (htree : fs_tree sys.fs) :
    ∃ fd, (handle_create_task ctx sys msg_type payload).2.1 = { ctx with reply_fd := fd } := by
  have halloc := storage_allocate_task_id_frame sys.fs ctx.paths
  unfold handle_create_task
  simp only
  split
  · exact send_error_response_ctx ctx sys _ _
  · split
    · exact send_error_response_ctx ctx sys _ _
    · split
      · exact send_error_response_ctx ctx _ _ _
      · rename_i task_id fs1 heq
        rw [heq] at halloc
        have htree1 : fs_tree fs1 := halloc.1 htree
        split
        · exact send_error_response_ctx ctx _ _ _
        · rename_i fs2 heq2
          obtain ⟨e1, fs3, hw, _⟩ := storage_write_task_fails fs1 ctx.paths
            { task_id := task_id, type := task_type_from_message msg_type, commands := _
              schedule := _, last_run_epoch := -1 } htree1
          rw [hw] at heq2
          injection heq2 with h1 _
          cases h1

theorem plan_invariant_reply (ctx : erraid_context_t) (fd quit : Bool)
    (h : plan_invariant ctx) :
    plan_invariant { ctx with reply_fd := fd, should_quit := quit } := h

theorem double_until_ge (capacity : Nat) :
    ∀ (fuel c : Nat), 1 ≤ c → capacity ≤ c * 2 ^ fuel → capacity ≤ double_until fuel c capacity := by
  intro fuel
  induction fuel with
  | zero => intro c _ h; simpa [double_until] using h
  | succ f ih =>
    intro c hc h
    unfold double_until
    split
    · apply ih (c * 2) (by omega)
      rw [Nat.pow_succ] at h
      rw [Nat.mul_assoc, Nat.mul_comm 2]
      exact h
    · omega

theorem ensure_plan_capacity_spec (ctx ctx1 : erraid_context_t) (sys : daemon_sys)
    (capacity : Nat) (h : ensure_plan_capacity ctx sys capacity = some ctx1) :
    capacity ≤ ctx1.plan_capacity ∧ ctx.plan_capacity ≤ ctx1.plan_capacity ∧
    ∃ plan, ctx1 = { ctx with plan := plan, plan_capacity := ctx1.plan_capacity } := by
  unfold ensure_plan_capacity at h
  by_cases hle : capacity ≤ ctx.plan_capacity
  · rw [if_pos hle] at h
    injection h with h
    subst h
    exact ⟨hle, Nat.le_refl _, ctx.plan, rfl⟩
  · rw [if_neg hle] at h
    simp only at h
    have hge : capacity ≤ double_until capacity (if ctx.plan_capacity = 0 then 4
        else ctx.plan_capacity) capacity := by
      apply double_until_ge
      · split <;> omega
      · have : capacity < 2 ^ capacity := Nat.lt_two_pow capacity
        have h1 : 1 ≤ (if ctx.plan_capacity = 0 then 4 else ctx.plan_capacity) := by
          split <;> omega
        calc capacity ≤ 1 * 2 ^ capacity := by omega
          _ ≤ _ := Nat.mul_le_mul_right _ h1
    generalize double_until capacity (if ctx.plan_capacity = 0 then 4
      else ctx.plan_capacity) capacity = nc at h hge
    by_cases hr : sys.realloc_ok (nc * sizeof_schedule_entry_t) = true
    · rw [if_pos hr] at h
      injection h with h
      subst h
      exact ⟨hge, by simp only; omega, _, rfl⟩
    · rw [if_neg hr] at h
      cases h

/-- A successful `rebuild_plan` over fewer than `2 ^ 31` tasks establishes the
invariant and keeps the task list. -/
theorem rebuild_plan_ok (ctx ctx1 : erraid_context_t) (sys : daemon_sys)
    (h : rebuild_plan ctx sys = (true, ctx1)) (hn : ctx.tasks.length < 2 ^ 31) :
    plan_invariant ctx1 ∧
    ∃ plan cap count, ctx1 = { ctx with plan := plan, plan_capacity := cap, plan_count := count } := by
  unfold rebuild_plan at h
  cases he : ensure_plan_capacity ctx sys ctx.tasks.length with
  | none => rw [he] at h; cases h
  | some c1 =>
    rw [he] at h
    simp only at h
    obtain ⟨hcap, _, plan1, hc1⟩ := ensure_plan_capacity_spec ctx c1 sys _ he
    have ht1 : c1.tasks = ctx.tasks := by rw [hc1]
    rw [ht1] at h
    by_cases h0 : ctx.tasks.length = 0
    · rw [if_pos h0] at h
      injection h with _ h
      subst h
      refine ⟨⟨⟨?_, ?_⟩, ?_, ?_⟩, ?_⟩
      · simp only [ht1, h0]
      · intro i hi
        simp only [ht1, h0] at hi
        omega
      · simp only; omega
      · simp only [ht1]; exact hn
      · exact ⟨plan1, c1.plan_capacity, 0, by rw [hc1]⟩
    · rw [if_neg h0] at h
      have hcne : c1.plan_capacity ≠ 0 := by omega
      rw [if_neg hcne] at h
      unfold scheduler_compute_plan at h
      have hc : ¬ ((ctx.tasks.length > 0 ∧ (some c1.plan : Option (List schedule_entry_t)) = none) ∨
          c1.plan_capacity < ctx.tasks.length) := by
        rintro (⟨_, h⟩ | h)
        · cases h
        · omega
      rw [if_neg hc] at h
      simp only [int_of_unsigned_small _ hn, Option.map_some', Option.getD_some] at h
      rw [if_neg (by omega)] at h
      injection h with _ h
      subst h
      simp only [Int.toNat_ofNat]
      refine ⟨⟨⟨?_, ?_⟩, ?_, ?_⟩, ?_⟩
      · simp only [ht1]
      · intro i hi
        simp only [ht1] at hi ⊢
        rw [List.getElem?_append_left (by rw [compute_plan_entries_length]; exact hi),
          compute_plan_entries_get _ _ ctx.tasks 0 i _ (List.getElem?_eq_getElem hi),
          List.getElem?_eq_getElem hi]
        simp
      · simp only; exact hcap
      · simp only [ht1]; exact hn
      · exact ⟨_, c1.plan_capacity, ctx.tasks.length, by rw [hc1]⟩

/-- With room in the plan array for every task, `rebuild_plan` succeeds. -/
theorem rebuild_plan_total (ctx : erraid_context_t) (sys : daemon_sys)
    (hcap : ctx.tasks.length ≤ ctx.plan_capacity) (hn : ctx.tasks.length < 2 ^ 31) :
    (rebuild_plan ctx sys).1 = true := by
  unfold rebuild_plan
  have he : ensure_plan_capacity ctx sys ctx.tasks.length = some ctx := by
    unfold ensure_plan_capacity
    rw [if_pos hcap]
  rw [he]
  simp only
  by_cases h0 : ctx.tasks.length = 0
  · rw [if_pos h0]
  · rw [if_neg h0]
    have hcne : ctx.plan_capacity ≠ 0 := by omega
    rw [if_neg hcne]
    unfold scheduler_compute_plan
    have hc : ¬ ((ctx.tasks.length > 0 ∧ (some ctx.plan : Option (List schedule_entry_t)) = none) ∨
        ctx.plan_capacity < ctx.tasks.length) := by
      rintro (⟨_, h⟩ | h)
      · cases h
      · omega
    rw [if_neg hc]
    simp only [int_of_unsigned_small _ hn]
    rw [if_neg (by omega)]

theorem find_task_index_lt (task_id : Nat) :
    ∀ (tasks : List task_t) (i j : Nat), find_task_index task_id tasks i = some j →
      j < i + tasks.length := by
  intro tasks
  induction tasks with
  | nil => intro i j h; cases h
  | cons t rest ih =>
    intro i j h
    unfold find_task_index at h
    split at h
    · injection h with h
      subst h
      simp
    · have := ih (i + 1) j h
      simp only [List.length_cons]
      omega

theorem handle_remove_task_inv (ctx : erraid_context_t) (sys : daemon_sys) (payload : List Nat)
    (h : plan_invariant ctx) : plan_invariant (handle_remove_task ctx sys payload).2.1 := by
  have hreply : ∀ (s : daemon_sys) (code message : List Nat),
      plan_invariant (send_error_response ctx s code message).2.1 := by
    intro s code message
    obtain ⟨fd, hfd⟩ := send_error_response_ctx ctx s code message
    rw [hfd]
    exact h
  unfold handle_remove_task
  split
  · exact hreply _ _ _
  · rename_i task_id _
    split
    · exact hreply _ _ _
    · rename_i index hfind
      split
      · exact hreply _ _ _
      · rename_i fs1 _
        have hidx : index < ctx.tasks.length := by
          have := find_task_index_lt task_id ctx.tasks 0 index hfind
          omega
        have hrem : context_remove_task ctx index =
            some { ctx with tasks := ctx.tasks.eraseIdx index } := by
          unfold context_remove_task
          rw [if_neg (by omega)]
        simp only [hrem]
        have hlen : (ctx.tasks.eraseIdx index).length = ctx.tasks.length - 1 :=
          List.length_eraseIdx_of_lt hidx
        have hal := h.1.1
        have htot := rebuild_plan_total { ctx with tasks := ctx.tasks.eraseIdx index }
          { sys with fs := fs1 } (by simp only [hlen]; have := h.2.1; omega)
          (by simp only [hlen]; have := h.2.2; omega)
        cases hrb : rebuild_plan { ctx with tasks := ctx.tasks.eraseIdx index }
            { sys with fs := fs1 } with
        | mk ok ctx2 =>
          rw [hrb] at htot
          simp only at htot
          subst htot
          simp only
          obtain ⟨hinv, _⟩ := rebuild_plan_ok _ ctx2 _ hrb
            (by simp only [hlen]; have := h.2.2; omega)
          have hfin : ∀ r : Except Errno Unit × erraid_context_t × daemon_sys,
              (∃ fd, r.2.1 = { ctx2 with reply_fd := fd }) →
              plan_invariant (match r with
                | (.error _, r1) => ((-1 : Int), r1)
                | (.ok (), r1) => ((0 : Int), r1)).2.1 := by
            intro r hr
            obtain ⟨x, c, s⟩ := r
            obtain ⟨fd, hr⟩ := hr
            simp only at hr
            subst hr
            cases x <;> exact hinv
          exact hfin _ (send_json_response_ctx ctx2 _ _ _)

theorem rebuild_plan_tasks (ctx : erraid_context_t) (sys : daemon_sys) :
    (rebuild_plan ctx sys).2.tasks = ctx.tasks := by
  unfold rebuild_plan
  cases he : ensure_plan_capacity ctx sys ctx.tasks.length with
  | none => rfl
  | some c1 =>
    simp only
    obtain ⟨_, _, plan1, hc1⟩ := ensure_plan_capacity_spec ctx c1 sys _ he
    have ht1 : c1.tasks = ctx.tasks := by rw [hc1]
    by_cases h0 : c1.tasks.length = 0
    · rw [if_pos h0]
      exact ht1
    · rw [if_neg h0]
      split <;> split <;> exact ht1

theorem erraid_reload_tasks_inv (ctx : erraid_context_t) (sys : daemon_sys)
    (hok : (erraid_reload_tasks ctx sys).1 = true)
    (hn : (erraid_reload_tasks ctx sys).2.tasks.length < 2 ^ 31) :
    plan_invariant (erraid_reload_tasks ctx sys).2 := by
  unfold erraid_reload_tasks at hok hn ⊢
  simp only at hok hn ⊢
  cases hl : storage_load_tasks sys.fs ctx.paths with
  | error e => rw [hl] at hok; cases hok
  | ok tasks =>
    rw [hl] at hok hn
    simp only at hok hn ⊢
    rw [rebuild_plan_tasks] at hn
    cases hrb : rebuild_plan { ctx with tasks := tasks } sys with
    | mk ok ctx2 =>
      rw [hrb] at hok
      simp only at hok ⊢
      subst hok
      exact (rebuild_plan_ok _ ctx2 sys hrb hn).1

theorem due_pass_inv (ctx : erraid_context_t) (sys : daemon_sys) (now : Int)
    (h : plan_invariant ctx) : plan_invariant (due_pass ctx sys now).2.1 := by
  obtain ⟨hal, hlen, hcount, hcap, _⟩ := due_pass_aligned ctx sys now h.1
  exact ⟨hal, by rw [hcount, hcap]; exact h.2.1, by rw [hlen]; exact h.2.2⟩

theorem process_due_tasks_inv :
    ∀ (clock : List (Option Int)) (ctx : erraid_context_t) (sys : daemon_sys),
      plan_invariant ctx → plan_invariant (process_due_tasks clock ctx sys).2.1 := by
  intro clock
  induction clock with
  | nil => intro ctx sys h; exact h
  | cons reading clock ih =>
    intro ctx sys h
    unfold process_due_tasks
    split
    · exact h
    · cases reading with
      | none => exact h
      | some now =>
        simp only
        split
        · exact due_pass_inv ctx sys now h
        · exact ih _ _ (due_pass_inv ctx sys now h)

/-- A `rebuild_plan` over `2 ^ 31` tasks fails: the count that
`scheduler_compute_plan` returns as an `int` is negative. -/
theorem rebuild_plan_true_lt (ctx ctx1 : erraid_context_t) (sys : daemon_sys)
    (h : rebuild_plan ctx sys = (true, ctx1)) (hle : ctx.tasks.length ≤ 2 ^ 31) :
    ctx.tasks.length < 2 ^ 31 := by
  by_contra hnot
  have hlen : ctx.tasks.length = 2 ^ 31 := by omega
  unfold rebuild_plan at h
  cases he : ensure_plan_capacity ctx sys ctx.tasks.length with
  | none => rw [he] at h; cases h
  | some c1 =>
    rw [he] at h
    simp only at h
    obtain ⟨_, _, plan1, hc1⟩ := ensure_plan_capacity_spec ctx c1 sys _ he
    have ht1 : c1.tasks = ctx.tasks := by rw [hc1]
    rw [ht1] at h
    rw [if_neg (by omega)] at h
    have hneg : (scheduler_compute_plan sys.localtime_r ctx.tasks sys.now
        (if c1.plan_capacity = 0 then none else some c1.plan) c1.plan_capacity).1 < 0 := by
      unfold scheduler_compute_plan
      split_ifs <;>
        first
        | (show (-1 : Int) < 0; decide)
        | (show int_of_unsigned ctx.tasks.length < 0; rw [hlen]; decide)
    rw [if_pos hneg] at h
    cases h

/-- The context after `handle_create_task`: the invariant holds again when the
call of `erraid_reload_tasks` in the exit for a failed plan rebuild, if the
request reaches it, succeeds with fewer than `2 ^ 31` tasks. No condition is
put on the store. -/
theorem handle_create_task_inv (ctx : erraid_context_t) (sys : daemon_sys) (msg_type : Nat)
    (payload : List Nat) (h : plan_invariant ctx)
    (hreload : ∀ r, create_reload ctx sys msg_type payload = some r →
      r.1 = true ∧ r.2.tasks.length < 2 ^ 31) :
    plan_invariant (handle_create_task ctx sys msg_type payload).2.1 := by
  have hof : ∀ (c0 c : erraid_context_t), plan_invariant c0 →
      (∃ fd, c = { c0 with reply_fd := fd }) → plan_invariant c := by
    intro c0 c h0 hc
    obtain ⟨fd, hc⟩ := hc
    rw [hc]
    exact h0
  unfold handle_create_task
  unfold create_reload at hreload
  simp only at hreload ⊢
  cases hps : parse_schedule_field payload (task_type_from_message msg_type) with
  | none => exact hof ctx _ h (send_error_response_ctx ctx sys _ _)
  | some schedule =>
    simp only [hps] at hreload
    dsimp only
    cases hpc : parse_commands_field payload (task_type_from_message msg_type) with
    | none =>
      dsimp only
      exact hof ctx _ h (send_error_response_ctx ctx sys _ _)
    | some commands =>
      simp only [hpc] at hreload
      dsimp only
      cases hal : storage_allocate_task_id sys.fs ctx.paths with
      | mk res fs1 =>
        cases res with
        | error e =>
          dsimp only
          exact hof ctx _ h (send_error_response_ctx ctx _ _ _)
        | ok task_id =>
          simp only [hal] at hreload
          dsimp only
          cases hw : storage_write_task fs1 ctx.paths
              { task_id := task_id, type := task_type_from_message msg_type, commands := commands
                schedule := schedule, last_run_epoch := -1 } with
          | mk wres fs2 =>
            cases wres with
            | error e =>
              dsimp only
              exact hof ctx _ h (send_error_response_ctx ctx _ _ _)
            | ok u =>
              simp only [hw] at hreload
              dsimp only
              cases hadd : context_add_task ctx sys
                  { task_id := task_id, type := task_type_from_message msg_type
                    commands := commands, schedule := schedule, last_run_epoch := -1 } with
              | none =>
                dsimp only
                exact hof ctx _ h (send_error_response_ctx ctx _ _ _)
              | some ctx1 =>
                simp only [hadd] at hreload
                dsimp only
                have hlen1 : ctx1.tasks.length ≤ 2 ^ 31 := by
                  unfold context_add_task at hadd
                  split at hadd
                  · injection hadd with hadd
                    rw [← hadd]
                    simp only [List.length_append, List.length_singleton]
                    have := h.2.2
                    omega
                  · cases hadd
                cases hrb : rebuild_plan ctx1 { sys with fs := fs2 } with
                | mk ok ctx2 =>
                  cases ok with
                  | false =>
                    simp only [hrb] at hreload
                    obtain ⟨r1, r2⟩ := hreload _ rfl
                    have hinv := erraid_reload_tasks_inv ctx2 { sys with fs := fs2 } r1 r2
                    dsimp only
                    exact hof _ _ hinv (send_error_response_ctx _ _ _ _)
                  | true =>
                    have hlt := rebuild_plan_true_lt ctx1 ctx2 _ hrb hlen1
                    obtain ⟨hinv, _⟩ := rebuild_plan_ok ctx1 ctx2 _ hrb hlt
                    dsimp only
                    split
                    · exact hof _ _ hinv (send_error_response_ctx _ _ _ _)
                    · have hfin : ∀ r : Except Errno Unit × erraid_context_t × daemon_sys,
                          (∃ fd, r.2.1 = { ctx2 with reply_fd := fd }) →
                          plan_invariant (match r with
                            | (.error _, r1) => ((-1 : Int), r1)
                            | (.ok (), r1) => ((0 : Int), r1)).2.1 := by
                        intro r hr
                        obtain ⟨x, c, s⟩ := r
                        obtain ⟨fd, hr⟩ := hr
                        simp only at hr
                        subst hr
                        cases x <;> exact hinv
                      exact hfin _ (send_json_response_ctx ctx2 _ _ _)

theorem erraid_handle_message_inv (ctx : erraid_context_t) (sys : daemon_sys)
    (request : proto_message_t) (h : plan_invariant ctx)
    (hreload : ∀ r, message_reload ctx sys request = some r →
      r.1 = true ∧ r.2.tasks.length < 2 ^ 31) :
    plan_invariant (erraid_handle_message ctx sys request).2.1 := by
  have hof : ∀ c : erraid_context_t, (∃ fd, c = { ctx with reply_fd := fd }) →
      plan_invariant c := by
    intro c hc
    obtain ⟨fd, hc⟩ := hc
    rw [hc]
    exact h
  unfold erraid_handle_message
  unfold message_reload at hreload
  simp only at hreload ⊢
  split
  · rw [rc_of_ctx]
    exact hof _ (send_json_response_ctx ctx sys _ _)
  · split
    · exact hof _ (reply_after_ctx ctx _ _ _ (respond_list_tasks_ctx ctx sys))
    · split
      · rename_i hc
        rw [if_pos hc] at hreload
        exact handle_create_task_inv ctx sys _ _ h hreload
      · split
        · exact handle_remove_task_inv ctx sys _ h
        · split
          · split
            · rw [rc_of_ctx]
              exact hof _ (send_error_response_ctx ctx sys _ _)
            · exact hof _ (reply_after_ctx ctx _ _ _ (respond_history_ctx ctx sys _))
          · split
            · split
              · rw [rc_of_ctx]
                exact hof _ (send_error_response_ctx ctx sys _ _)
              · exact hof _ (reply_after_ctx ctx _ _ _ (respond_stdio_ctx ctx sys _ _))
            · split
              · split
                · rw [rc_of_ctx]
                  exact hof _ (send_error_response_ctx ctx sys _ _)
                · exact hof _ (reply_after_ctx ctx _ _ _ (respond_stdio_ctx ctx sys _ _))
              · split
                · obtain ⟨fd, hfd⟩ := send_json_response_ctx { ctx with should_quit := true } sys
                    MSG_RSP_SHUTDOWN (str "\x7b\"status\":\"OK\"\x7d")
                  simp only [send_status_ok]
                  rw [hfd]
                  exact h
                · rw [rc_of_ctx]
                  exact hof _ (send_error_response_ctx ctx sys _ _)

/-- A creation request built by `request_of` from a payload without a zero
byte is handled by `handle_create_task` on that payload. -/
theorem erraid_handle_message_create (ctx : erraid_context_t) (sys : daemon_sys) (type : Nat)
    (payload : List Nat)
    (htype : type = MSG_REQ_CREATE_SIMPLE ∨ type = MSG_REQ_CREATE_SEQUENCE ∨
      type = MSG_REQ_CREATE_ABSTRACT)
    (hz : ∀ c ∈ payload, c ≠ 0) :
    erraid_handle_message ctx sys (request_of type payload) =
      handle_create_task ctx sys type payload ∧
    message_reload ctx sys (request_of type payload) = create_reload ctx sys type payload := by
  have htake : ∀ n : Nat,
      (payload ++ List.replicate n 0).takeWhile (fun c => decide (c ≠ 0)) = payload := by
    intro n
    rw [List.takeWhile_append_of_pos (by simpa using hz)]
    cases n with
    | zero => simp
    | succ k => simp [List.replicate_succ]
  have h1 : type ≠ MSG_PING := by
    rcases htype with h | h | h <;> subst h <;> decide
  have h2 : type ≠ MSG_REQ_LIST_TASKS := by
    rcases htype with h | h | h <;> subst h <;> decide
  constructor
  · unfold erraid_handle_message request_of
    simp only [htake]
    rw [if_neg h1, if_neg h2, if_pos htype]
  · unfold message_reload request_of
    simp only [htake]
    rw [if_pos htype]

/-- In a tree-shaped store no creation request reaches the exit for a failed
plan rebuild: the write of the task file fails before. -/
theorem create_reload_tree (ctx : erraid_context_t) (sys : daemon_sys) (msg_type : Nat)
    (payload : List Nat) (htree : fs_tree sys.fs) :
    create_reload ctx sys msg_type payload = none := by
  have halloc := storage_allocate_task_id_frame sys.fs ctx.paths
  unfold create_reload
  simp only
  split
  · rfl
  · split
    · rfl
    · split
      · rfl
      · rename_i task_id fs1 heq
        rw [heq] at halloc
        have htree1 : fs_tree fs1 := halloc.1 htree
        split
        · rfl
        · rename_i fs2 heq2
          obtain ⟨e1, fs3, hw, _⟩ := storage_write_task_fails fs1 ctx.paths
            { task_id := task_id, type := task_type_from_message msg_type, commands := _
              schedule := _, last_run_epoch := -1 } htree1
          rw [hw] at heq2
          injection heq2 with h1 _
          cases h1

theorem message_reload_tree (ctx : erraid_context_t) (sys : daemon_sys)
    (request : proto_message_t) (htree : fs_tree sys.fs) :
    message_reload ctx sys request = none := by
  unfold message_reload
  simp only
  split
  · exact create_reload_tree ctx sys _ _ htree
  · rfl

/-- C13, as the code has it. Plan/task alignment (with `plan_count` inside the
plan array and fewer than `2 ^ 31` tasks) holds after every successful
`erraid_reload_tasks`. From a state in which it holds it holds again after
every message handled by `erraid_handle_message` (create, remove, queries,
shutdown and unknown types, on success and on every error path), over any
store, unless the message is a creation request that leaves by the exit for a
failed plan rebuild and the call of `erraid_reload_tasks` made there, whose
result the source ignores, fails; no message reaches that exit over a
tree-shaped store. It holds again after every pass of the due-scan and after
every due-scan. In such a state `plan_count = task_count` and, for every
`i < task_count`, `plan[i].task_index = i` and
`plan[i].task_id = tasks[i].task_id`. -/
theorem plan_alignment_invariant :
    (∀ ctx sys, (erraid_reload_tasks ctx sys).1 = true →
      (erraid_reload_tasks ctx sys).2.tasks.length < 2 ^ 31 →
      plan_invariant (erraid_reload_tasks ctx sys).2) ∧
    (∀ ctx sys request, plan_invariant ctx →
      (∀ r, message_reload ctx sys request = some r → r.1 = true ∧ r.2.tasks.length < 2 ^ 31) →
      plan_invariant (erraid_handle_message ctx sys request).2.1) ∧
    (∀ ctx sys request, fs_tree sys.fs → message_reload ctx sys request = none) ∧
    (∀ ctx sys now, plan_invariant ctx → plan_invariant (due_pass ctx sys now).2.1) ∧
    (∀ clock ctx sys, plan_invariant ctx →
      plan_invariant (process_due_tasks clock ctx sys).2.1) ∧
    ∀ ctx, plan_invariant ctx →
      ctx.plan_count = ctx.tasks.length ∧
      ∀ (i : Nat) (t : task_t), ctx.tasks[i]? = some t →
        ∃ e, ctx.plan[i]? = some e ∧ e.task_index = i ∧ e.task_id = t.task_id := by
  refine ⟨erraid_reload_tasks_inv, erraid_handle_message_inv, message_reload_tree, due_pass_inv,
    process_due_tasks_inv, ?_⟩
  intro ctx h
  refine ⟨h.1.1, ?_⟩
  intro i t ht
  have hi : i < ctx.plan_count := by
    rw [h.1.1]
    exact (List.getElem?_eq_some_iff.mp ht).1
  obtain ⟨e, t1, he, ht1, h1, h2⟩ := aligned_get ctx h.1 i hi
  rw [ht] at ht1
  injection ht1 with ht1
  subst ht1
  exact ⟨e, he, h1, h2⟩

/-- C13 at concrete states. On a store with one task the state after
`erraid_reload_tasks` satisfies the invariant, and so does the state after the
request to remove task 1, which leaves no task and no plan entry in use. Over
the store `writable_fs`, where the write of a task file succeeds, the request
to create a SIMPLE task from the idle context succeeds and leaves one task and
one plan entry in use, aligned. -/
theorem plan_alignment_invariant_witness :
    ((erraid_reload_tasks idle_ctx (world_of zero_command_fs 100)).1 = true ∧
      (erraid_reload_tasks idle_ctx (world_of zero_command_fs 100)).2.tasks.length < 2 ^ 31 ∧
      plan_invariant (erraid_reload_tasks idle_ctx (world_of zero_command_fs 100)).2) ∧
    (plan_invariant zero_command_ctx ∧ fs_tree (world_of zero_command_fs 130).fs ∧
      plan_invariant (erraid_handle_message zero_command_ctx (world_of zero_command_fs 130)
        (request_of MSG_REQ_REMOVE (str "\x7b\"task_id\":1\x7d"))).2.1) ∧
    (erraid_handle_message zero_command_ctx (world_of zero_command_fs 130)
        (request_of MSG_REQ_REMOVE (str "\x7b\"task_id\":1\x7d"))).2.1.tasks = [] ∧
    (erraid_handle_message zero_command_ctx (world_of zero_command_fs 130)
        (request_of MSG_REQ_REMOVE (str "\x7b\"task_id\":1\x7d"))).2.1.plan_count = 0 ∧
    (plan_invariant idle_ctx ∧ ¬ fs_tree (world_of writable_fs 100).fs ∧
      (message_reload idle_ctx (world_of writable_fs 100)
        (request_of MSG_REQ_CREATE_SIMPLE create_true_payload)).isNone = true ∧
      plan_invariant (erraid_handle_message idle_ctx (world_of writable_fs 100)
        (request_of MSG_REQ_CREATE_SIMPLE create_true_payload)).2.1) ∧
    (erraid_handle_message idle_ctx (world_of writable_fs 100)
        (request_of MSG_REQ_CREATE_SIMPLE create_true_payload)).1 = 0 ∧
    (erraid_handle_message idle_ctx (world_of writable_fs 100)
        (request_of MSG_REQ_CREATE_SIMPLE create_true_payload)).2.1.tasks.length = 1 ∧
    (erraid_handle_message idle_ctx (world_of writable_fs 100)
        (request_of MSG_REQ_CREATE_SIMPLE create_true_payload)).2.1.plan_count = 1 :=
  ⟨⟨by decide, by decide,
      plan_alignment_invariant.1 idle_ctx (world_of zero_command_fs 100) (by decide) (by decide)⟩,
    ⟨by decide, by decide,
      plan_alignment_invariant.2.1 zero_command_ctx (world_of zero_command_fs 130)
        (request_of MSG_REQ_REMOVE (str "\x7b\"task_id\":1\x7d")) (by decide)
        (fun r hr => by
          rw [plan_alignment_invariant.2.2.1 zero_command_ctx (world_of zero_command_fs 130) _
            (by decide)] at hr
          cases hr)⟩,
    by decide, by decide,
    ⟨by decide, by decide,
      by
        rw [(erraid_handle_message_create idle_ctx (world_of writable_fs 100)
          MSG_REQ_CREATE_SIMPLE create_true_payload (Or.inl rfl) (by decide)).2]
        decide,
      plan_alignment_invariant.2.1 idle_ctx (world_of writable_fs 100)
        (request_of MSG_REQ_CREATE_SIMPLE create_true_payload) (by decide)
        (fun r hr => by
          rw [(erraid_handle_message_create idle_ctx (world_of writable_fs 100)
            MSG_REQ_CREATE_SIMPLE create_true_payload (Or.inl rfl) (by decide)).2] at hr
          have hnone : (create_reload idle_ctx (world_of writable_fs 100)
              MSG_REQ_CREATE_SIMPLE create_true_payload).isNone = true := by decide
          rw [hr] at hnone
          cases hnone)⟩,
    by
      rw [(erraid_handle_message_create idle_ctx (world_of writable_fs 100)
        MSG_REQ_CREATE_SIMPLE create_true_payload (Or.inl rfl) (by decide)).1]
      decide,
    by
      rw [(erraid_handle_message_create idle_ctx (world_of writable_fs 100)
        MSG_REQ_CREATE_SIMPLE create_true_payload (Or.inl rfl) (by decide)).1]
      decide,
    by
      rw [(erraid_handle_message_create idle_ctx (world_of writable_fs 100)
        MSG_REQ_CREATE_SIMPLE create_true_payload (Or.inl rfl) (by decide)).1]
      decide⟩

/-- C13 fails after a failed `erraid_reload_tasks`. (1) At start-up over a
store with one task file, when the allocator refuses the plan array, the
function returns -1 with one task loaded and `plan_count = 0`. (2) From the
aligned state `zero_command_ctx`, over a store whose task file does not parse,
the function returns -1 with the task list emptied and `plan_count = 1`.
(3) From the aligned state `four_task_ctx`, whose plan array of four entries
is full, in a world where the write of the task file of task 5 succeeds and
the allocator refuses the plan array of eight entries, the request to create a
SIMPLE task leaves by the exit for a failed plan rebuild: the
`erraid_reload_tasks` made there fails on the task file just written, and the
message is answered with the task list emptied and `plan_count = 4`. (4) In
the same state and world the request to create an ABSTRACT task without
command leaves by the same exit: the reload reads five tasks and fails on the
plan array again, and the message is answered with five tasks and
`plan_count = 4`. -/
theorem reload_failure_breaks_alignment :
    ((erraid_reload_tasks idle_ctx no_memory_world).1 = false ∧
      (erraid_reload_tasks idle_ctx no_memory_world).2.tasks.length = 1 ∧
      (erraid_reload_tasks idle_ctx no_memory_world).2.plan_count = 0 ∧
      ¬ aligned (erraid_reload_tasks idle_ctx no_memory_world).2) ∧
    (aligned zero_command_ctx ∧
      (erraid_reload_tasks zero_command_ctx (world_of garbled_fs 130)).1 = false ∧
      (erraid_reload_tasks zero_command_ctx (world_of garbled_fs 130)).2.tasks.length = 0 ∧
      (erraid_reload_tasks zero_command_ctx (world_of garbled_fs 130)).2.plan_count = 1 ∧
      ¬ aligned (erraid_reload_tasks zero_command_ctx (world_of garbled_fs 130)).2) ∧
    (plan_invariant four_task_ctx ∧ four_task_ctx.tasks.length = 4 ∧
      four_task_ctx.plan_count = 4 ∧
      (message_reload four_task_ctx full_plan_world
        (request_of MSG_REQ_CREATE_SIMPLE create_true_payload)).map (fun r => r.1) =
          some false ∧
      (erraid_handle_message four_task_ctx full_plan_world
        (request_of MSG_REQ_CREATE_SIMPLE create_true_payload)).1 = -1 ∧
      (erraid_handle_message four_task_ctx full_plan_world
        (request_of MSG_REQ_CREATE_SIMPLE create_true_payload)).2.2.reply_pipe.written =
          record_bytes MSG_RSP_ERROR
            (error_payload (str "SCHEDULER_ERROR") (str "Reconstruction de plan impossible")) ∧
      (erraid_handle_message four_task_ctx full_plan_world
        (request_of MSG_REQ_CREATE_SIMPLE create_true_payload)).2.1.tasks.length = 0 ∧
      (erraid_handle_message four_task_ctx full_plan_world
        (request_of MSG_REQ_CREATE_SIMPLE create_true_payload)).2.1.plan_count = 4 ∧
      ¬ aligned (erraid_handle_message four_task_ctx full_plan_world
        (request_of MSG_REQ_CREATE_SIMPLE create_true_payload)).2.1) ∧
    ((message_reload four_task_ctx full_plan_world
        (request_of MSG_REQ_CREATE_ABSTRACT create_abstract_empty_payload)).map (fun r => r.1) =
          some false ∧
      (erraid_handle_message four_task_ctx full_plan_world
        (request_of MSG_REQ_CREATE_ABSTRACT create_abstract_empty_payload)).1 = -1 ∧
      (erraid_handle_message four_task_ctx full_plan_world
        (request_of MSG_REQ_CREATE_ABSTRACT create_abstract_empty_payload)).2.1.tasks.length = 5 ∧
      (erraid_handle_message four_task_ctx full_plan_world
        (request_of MSG_REQ_CREATE_ABSTRACT create_abstract_empty_payload)).2.1.plan_count = 4 ∧
      ¬ aligned (erraid_handle_message four_task_ctx full_plan_world
        (request_of MSG_REQ_CREATE_ABSTRACT create_abstract_empty_payload)).2.1) := by
  have e1 := erraid_handle_message_create four_task_ctx full_plan_world MSG_REQ_CREATE_SIMPLE
    create_true_payload (Or.inl rfl) (by decide)
  have e2 := erraid_handle_message_create four_task_ctx full_plan_world MSG_REQ_CREATE_ABSTRACT
    create_abstract_empty_payload (Or.inr (Or.inr rfl)) (by decide)
  rw [e1.1, e1.2, e2.1, e2.2]
  refine ⟨⟨by decide, by decide, by decide, by decide⟩,
    ⟨by decide, by decide, by decide, by decide, by decide⟩,
    ⟨by decide, by decide, by decide, by decide, by decide, by decide, by decide, by decide,
      by decide⟩,
    ⟨by decide, by decide, by decide, by decide, by decide⟩⟩

/-! ## Schedules that never fire, schedules that fire within a week -/

/-- C25. For every schedule (enabled or not) whose `minute_mask` has no bit
among 0..59 set, or whose `hour_mask` has no bit among 0..23 set,
`scheduler_next_occurrence` returns -1 (none), for every `from_epoch` and every
local-time decomposition. -/
theorem empty_mask_never_fires (localtime_r : Int → Option tm) (schedule : schedule_t)
    (from_epoch : Int)
    (h : (∀ b : Nat, b < 60 → schedule.minute_mask.testBit b = false) ∨
      (∀ b : Nat, b < 24 → schedule.hour_mask.testBit b = false)) :
    scheduler_next_occurrence localtime_r schedule from_epoch = -1 := by
  unfold scheduler_next_occurrence
  split
  · rfl
  · apply next_occurrence_loop_none
    intro j _ hhit
    obtain ⟨x, _, _, hh, hm⟩ := hhit
    rw [is_hour_allowed_iff] at hh
    rw [is_minute_allowed_iff] at hm
    rcases h with h | h
    · have := h x.tm_min.toNat (by omega)
      rw [hm.2.2] at this
      cases this
    · have := h x.tm_hour.toNat (by omega)
      rw [hh.2.2] at this
      cases this

/-- C25 on a schedule whose minute mask has bit 60 only, from the epoch 0 in
UTC. -/
theorem empty_mask_never_fires_witness :
    ((∀ b : Nat, b < 60 → schedule_no_minute.minute_mask.testBit b = false) ∨
      (∀ b : Nat, b < 24 → schedule_no_minute.hour_mask.testBit b = false)) ∧
    schedule_no_minute.enabled = true ∧
    scheduler_next_occurrence (fun t => some (utc_offset_localtime 0 t)) schedule_no_minute 0 =
      -1 :=
  ⟨Or.inl (by decide), rfl,
    empty_mask_never_fires (fun t => some (utc_offset_localtime 0 t)) schedule_no_minute 0
      (Or.inl (by decide))⟩

/-- In a zone at a fixed offset, every minute, hour and weekday is met by one
of 10080 successive minute probes. -/
theorem week_covers (off start : Int) (m h w : Nat) (hm : m < 60) (hh : h < 24) (hw : w < 7) :
    ∃ k : Nat, k < 10080 ∧
      (utc_offset_localtime off (start + 60 * (k : Int))).tm_min = m ∧
      (utc_offset_localtime off (start + 60 * (k : Int))).tm_hour = h ∧
      (utc_offset_localtime off (start + 60 * (k : Int))).tm_wday = w := by
  refine ⟨(((((w : Int) + 3) % 7) * 1440 + h * 60 + m - (start + off) / 60) % 10080).toNat,
    ?_, ?_, ?_, ?_⟩
  · omega
  · unfold utc_offset_localtime
    simp only
    omega
  · unfold utc_offset_localtime
    simp only
    omega
  · unfold utc_offset_localtime
    simp only
    omega

/-- With a total local-time decomposition, a hit at the probe of index `k`
makes the loop return a probe of index at most `k`. -/
theorem next_occurrence_loop_le (ltz : Int → tm) (s : schedule_t) :
    ∀ (k remaining : Nat) (current : Int), k < remaining →
      probe_hit (fun t => some (ltz t)) s (current + 60 * (k : Int)) →
      ∃ k1 : Nat, k1 ≤ k ∧
        next_occurrence_loop (fun t => some (ltz t)) s remaining current =
          current + 60 * (k1 : Int) := by
  intro k
  induction k with
  | zero =>
    intro remaining current hk hhit
    obtain ⟨n, rfl⟩ : ∃ n, remaining = n + 1 := ⟨remaining - 1, by omega⟩
    simp only [Nat.cast_zero, mul_zero, add_zero] at hhit
    exact ⟨0, Nat.le_refl _, by
      rw [next_occurrence_loop_hit _ s n current hhit]; simp⟩
  | succ k ih =>
    intro remaining current hk hhit
    obtain ⟨n, rfl⟩ : ∃ n, remaining = n + 1 := ⟨remaining - 1, by omega⟩
    by_cases h0 : probe_hit (fun t => some (ltz t)) s current
    · exact ⟨0, Nat.zero_le _, by
        rw [next_occurrence_loop_hit _ s n current h0]; simp⟩
    · rw [next_occurrence_loop_miss _ s n current (probe_miss_of_not_hit ltz s current h0)]
      have e : current + 60 * ((k + 1 : Nat) : Int) = (current + 60) + 60 * (k : Int) := by
        push_cast; ring
      rw [e] at hhit
      obtain ⟨k1, hk1, hr⟩ := ih n (current + 60) (by omega) hhit
      exact ⟨k1 + 1, by omega, by rw [hr]; push_cast; ring⟩

/-- A hit at the probe of index `k` makes the loop return a probe of index at
most `k`, when local time is defined on the probes up to that one. -/
theorem next_occurrence_loop_le_defined (lt : Int → Option tm) (s : schedule_t) :
    ∀ (k remaining : Nat) (current : Int), k < remaining →
      (∀ j : Nat, j ≤ k → (lt (current + 60 * (j : Int))).isSome = true) →
      probe_hit lt s (current + 60 * (k : Int)) →
      ∃ k1 : Nat, k1 ≤ k ∧
        next_occurrence_loop lt s remaining current = current + 60 * (k1 : Int) := by
  intro k
  induction k with
  | zero =>
    intro remaining current hk _ hhit
    obtain ⟨n, rfl⟩ : ∃ n, remaining = n + 1 := ⟨remaining - 1, by omega⟩
    simp only [Nat.cast_zero, mul_zero, add_zero] at hhit
    exact ⟨0, Nat.le_refl _, by
      rw [next_occurrence_loop_hit _ s n current hhit]; simp⟩
  | succ k ih =>
    intro remaining current hk hdef hhit
    obtain ⟨n, rfl⟩ : ∃ n, remaining = n + 1 := ⟨remaining - 1, by omega⟩
    by_cases h0 : probe_hit lt s current
    · exact ⟨0, Nat.zero_le _, by
        rw [next_occurrence_loop_hit _ s n current h0]; simp⟩
    · have hd0 := hdef 0 (Nat.zero_le _)
      simp only [Nat.cast_zero, mul_zero, add_zero] at hd0
      obtain ⟨x, hx⟩ := Option.isSome_iff_exists.mp hd0
      have hmiss : probe_miss lt s current :=
        ⟨x, hx, fun ⟨hw, hh, hm⟩ => h0 ⟨x, hx, hw, hh, hm⟩⟩
      rw [next_occurrence_loop_miss _ s n current hmiss]
      have e : current + 60 * ((k + 1 : Nat) : Int) = (current + 60) + 60 * (k : Int) := by
        push_cast; ring
      rw [e] at hhit
      have hdef1 : ∀ j : Nat, j ≤ k → (lt (current + 60 + 60 * (j : Int))).isSome = true := by
        intro j hj
        have := hdef (j + 1) (by omega)
        have e2 : current + 60 * ((j + 1 : Nat) : Int) = (current + 60) + 60 * (j : Int) := by
          push_cast; ring
        rw [e2] at this
        exact this
      obtain ⟨k1, hk1, hr⟩ := ih n (current + 60) (by omega) hdef1 hhit
      exact ⟨k1 + 1, by omega, by rw [hr]; push_cast; ring⟩

/-- From 1970 to the end of the year 2147485547 of the local calendar, the
last year an `int tm_year` holds, `localtime_r` succeeds with the fixed-offset
decomposition. -/
theorem fixed_offset_localtime_r_defined (off t : Int) (h0 : 0 ≤ t + off)
    (h1 : t + off ≤ 67768036191676799) :
    fixed_offset_localtime_r off t = some (utc_offset_localtime off t) := by
  unfold fixed_offset_localtime_r year_of_days
  simp only
  split_ifs with h2 h3 h3
  · omega
  · rfl
  · omega
  · rfl

/-- C30, as the code has it. In a zone at a fixed offset `off` from UTC, for
every enabled schedule with a bit set among the minute bits 0..59, one among
the hour bits 0..23 and one among the weekday bits 0..6, and every
`from_epoch >= 0` such that `localtime_r` succeeds on the minute boundaries
of the week that follows `from_epoch`, `scheduler_next_occurrence` returns an
epoch `t` with
`from_epoch < t <= from_epoch + 604800` (so not -1). -/
theorem satisfiable_fires_within_week (localtime_r : Int → Option tm) (off : Int)
    (schedule : schedule_t) (from_epoch : Int)
    (hlt : ∀ t : Int, from_epoch < t → t ≤ from_epoch + 604800 → t % 60 = 0 →
      localtime_r t = some (utc_offset_localtime off t))
    (hen : schedule.enabled = true)
    (hm : ∃ b : Nat, b < 60 ∧ schedule.minute_mask.testBit b = true)
    (hh : ∃ b : Nat, b < 24 ∧ schedule.hour_mask.testBit b = true)
    (hw : ∃ b : Nat, b < 7 ∧ schedule.weekday_mask.testBit b = true)
    (h0 : 0 ≤ from_epoch) :
    from_epoch < scheduler_next_occurrence localtime_r schedule from_epoch ∧
    scheduler_next_occurrence localtime_r schedule from_epoch ≤ from_epoch + 604800 ∧
    scheduler_next_occurrence localtime_r schedule from_epoch ≠ -1 := by
  obtain ⟨m, hm1, hm2⟩ := hm
  obtain ⟨h, hh1, hh2⟩ := hh
  obtain ⟨w, hw1, hw2⟩ := hw
  have hstart : (if from_epoch < 0 then 0 else from_epoch) = from_epoch := by
    rw [if_neg (by omega)]
  have htmod : Int.tmod from_epoch 60 = from_epoch % 60 := by
    rw [Int.tmod_eq_emod h0 (by omega)]
  obtain ⟨k, hk, e1, e2, e3⟩ := week_covers off (from_epoch - from_epoch % 60 + 60) m h w
    hm1 hh1 hw1
  have hprobe : ∀ j : Nat, j ≤ k →
      localtime_r ((from_epoch - from_epoch % 60 + 60) + 60 * (j : Int)) =
        some (utc_offset_localtime off ((from_epoch - from_epoch % 60 + 60) + 60 * (j : Int))) := by
    intro j hj
    exact hlt _ (by omega) (by omega) (by omega)
  have hhit : probe_hit localtime_r schedule
      ((from_epoch - from_epoch % 60 + 60) + 60 * (k : Int)) := by
    refine ⟨_, hprobe k (Nat.le_refl _), ?_, ?_, ?_⟩
    · rw [is_weekday_allowed_iff, e3]
      exact ⟨by omega, by omega, by simpa using hw2⟩
    · rw [is_hour_allowed_iff, e2]
      exact ⟨by omega, by omega, by simpa using hh2⟩
    · rw [is_minute_allowed_iff, e1]
      exact ⟨by omega, by omega, by simpa using hm2⟩
  obtain ⟨k1, hk1, hr⟩ := next_occurrence_loop_le_defined localtime_r schedule k
    max_iterations (from_epoch - from_epoch % 60 + 60) (by unfold max_iterations; omega)
    (fun j hj => by rw [hprobe j hj]; rfl) hhit
  have hres : scheduler_next_occurrence localtime_r schedule
      from_epoch = (from_epoch - from_epoch % 60 + 60) + 60 * (k1 : Int) := by
    unfold scheduler_next_occurrence
    rw [hen]
    simp only [Bool.not_true, Bool.false_eq_true, if_false, hstart, htmod]
    exact hr
  rw [hres]
  refine ⟨?_, ?_, ?_⟩ <;> omega

/-- The loop reads local time on its probes only: two decompositions that
agree on the probes give the same result. -/
theorem next_occurrence_loop_congr (lt1 lt2 : Int → Option tm) (s : schedule_t) :
    ∀ (remaining : Nat) (current : Int),
      (∀ j : Nat, j < remaining → lt1 (current + 60 * (j : Int)) = lt2 (current + 60 * (j : Int))) →
      next_occurrence_loop lt1 s remaining current =
        next_occurrence_loop lt2 s remaining current := by
  intro remaining
  induction remaining with
  | zero => intro current _; rfl
  | succ n ih =>
    intro current h
    have h0 := h 0 (by omega)
    simp only [Nat.cast_zero, mul_zero, add_zero] at h0
    have hrec := ih (current + 60) (by
      intro j hj
      have := h (j + 1) (by omega)
      have e2 : current + 60 * ((j + 1 : Nat) : Int) = (current + 60) + 60 * (j : Int) := by
        push_cast; ring
      rw [e2] at this
      exact this)
    rw [next_occurrence_loop, next_occurrence_loop, h0, hrec]

/-- The search of `scheduler_next_occurrence` reads local time only on the
366 days after `from_epoch`. -/
theorem scheduler_next_occurrence_congr (lt1 lt2 : Int → Option tm) (s : schedule_t)
    (from_epoch : Int) (h0 : 0 ≤ from_epoch)
    (h : ∀ t : Int, from_epoch < t → t ≤ from_epoch + 31622400 → lt1 t = lt2 t) :
    scheduler_next_occurrence lt1 s from_epoch = scheduler_next_occurrence lt2 s from_epoch := by
  unfold scheduler_next_occurrence
  split
  · rfl
  · simp only
    rw [if_neg (by omega), Int.tmod_eq_emod h0 (by omega)]
    apply next_occurrence_loop_congr
    intro j hj
    unfold max_iterations at hj
    exact h _ (by omega) (by omega)

/-- C30 from the epoch 259200 (Sunday 00:00 UTC) for the schedule "minute 4,
hour 1, Monday", with the `localtime_r` of the C library at UTC: the next
occurrence is 90240 seconds later, within the week. -/
theorem satisfiable_fires_within_week_witness :
    schedule_monday_0104.enabled = true ∧
    (∃ b : Nat, b < 60 ∧ schedule_monday_0104.minute_mask.testBit b = true) ∧
    scheduler_next_occurrence (fixed_offset_localtime_r 0) schedule_monday_0104 259200 =
      259200 + 90240 ∧
    (259200 < scheduler_next_occurrence (fixed_offset_localtime_r 0) schedule_monday_0104 259200 ∧
    scheduler_next_occurrence (fixed_offset_localtime_r 0) schedule_monday_0104 259200 ≤
      259200 + 604800 ∧
    scheduler_next_occurrence (fixed_offset_localtime_r 0) schedule_monday_0104 259200 ≠ -1) :=
  ⟨rfl, ⟨4, by decide, by decide⟩,
    (scheduler_next_occurrence_congr (fixed_offset_localtime_r 0)
      (fun t => some (utc_offset_localtime 0 t)) schedule_monday_0104 259200 (by decide)
      (fun t h1 h2 => fixed_offset_localtime_r_defined 0 t (by omega) (by omega))).trans
      (scheduler_next_occurrence_sunday_to_monday 0 259200 (by decide) (by decide) (by decide)),
    satisfiable_fires_within_week (fixed_offset_localtime_r 0) 0 schedule_monday_0104 259200
      (fun t h1 h2 _ => fixed_offset_localtime_r_defined 0 t (by omega) (by omega))
      rfl ⟨4, by decide, by decide⟩
      ⟨1, by decide, by decide⟩ ⟨1, by decide, by decide⟩ (by decide)⟩

/-- C30 fails at the end of the range of `struct tm`: at UTC the second
67768036191676799 is the last of the year 2147485547, the largest year an
`int tm_year` holds. From the epoch 67768036191676740 (one minute earlier,
non-negative and far inside `int64_t`, where `localtime_r` still succeeds) the
first probe is 67768036191676800, `localtime_r` returns NULL there and
`scheduler_next_occurrence` returns -1 for the schedule that allows every
minute, hour and weekday. -/
theorem next_occurrence_none_at_year_overflow :
    schedule_always.enabled = true ∧
    (∃ b : Nat, b < 60 ∧ schedule_always.minute_mask.testBit b = true) ∧
    (∃ b : Nat, b < 24 ∧ schedule_always.hour_mask.testBit b = true) ∧
    (∃ b : Nat, b < 7 ∧ schedule_always.weekday_mask.testBit b = true) ∧
    (0 : Int) ≤ 67768036191676740 ∧ (67768036191676740 : Int) + 604800 < 2 ^ 63 ∧
    fixed_offset_localtime_r 0 67768036191676740 =
      some { tm_min := 59, tm_hour := 23, tm_wday := 3 } ∧
    year_of_days (67768036191676740 / 86400) - 1900 = 2147483647 ∧
    fixed_offset_localtime_r 0 67768036191676800 = none ∧
    scheduler_next_occurrence (fixed_offset_localtime_r 0) schedule_always 67768036191676740 =
      -1 := by
  refine ⟨rfl, ⟨0, by decide, by decide⟩, ⟨0, by decide, by decide⟩, ⟨0, by decide, by decide⟩,
    by decide, by decide, by decide, by decide, by decide, by decide⟩

/-! ## The temporary path of a task file -/

/-- The temporary path `write_task_file` builds is below the final path: the
final path ends with `.task`, so `utils_join_path` puts a slash in front of
`.tmp`. -/
theorem task_tmp_path_below_final (tasks_dir : List Nat) (task_id : Nat)
    (final_path tmp_path : List Nat)
    (h1 : utils_join_path tasks_dir (fmt_llu task_id ++ str ".task") PATH_MAX = some final_path)
    (h2 : utils_join_path final_path (str ".tmp") PATH_MAX = some tmp_path) :
    tmp_path = final_path ++ str "/.tmp" ∧ tmp_path ≠ final_path ++ str ".tmp" := by
  have hdrop : (fmt_llu task_id ++ str ".task").dropWhile (fun c => decide (c = 47)) =
      fmt_llu task_id ++ str ".task" := by
    have hne := fmt_llu_ne_nil task_id
    cases hf : fmt_llu task_id with
    | nil => exact absurd hf hne
    | cons c t =>
      have hc := fmt_llu_bytes task_id c (by rw [hf]; exact List.mem_cons_self _ _)
      rw [List.cons_append]
      exact dropWhile_slash_of_head c _ (by omega)
  have hlast : final_path.getLast? = some 107 :=
    join_last_byte tasks_dir _ final_path PATH_MAX 107 h1 hdrop (by
      rw [List.getLast?_append_of_ne_nil _ (by decide)]
      decide)
  have hne : final_path ≠ [] := by
    intro h0
    rw [h0] at hlast
    cases hlast
  obtain ⟨htmp, _⟩ := utils_join_path_of_dir final_path (str ".tmp") tmp_path PATH_MAX hne
    (by rw [hlast]; decide) h2
  have hd : (str ".tmp").dropWhile (fun c => decide (c = 47)) = str ".tmp" := by decide
  rw [hd] at htmp
  refine ⟨by rw [htmp, List.append_assoc]; rfl, ?_⟩
  rw [htmp, List.append_assoc]
  intro h
  have := List.append_cancel_left h
  revert this
  decide

/-- C29: for the store `/run` and task 1 the final path is
`/run/tasks/1.task` and the temporary path `write_task_file` builds is
`/run/tasks/1.task/.tmp`, a path below the final path and not the sibling
`/run/tasks/1.task.tmp`; in a fresh store the `open` of the temporary path
fails and `storage_write_task` returns an error, leaving the store as it
was. -/
theorem task_tmp_path_is_below_final :
    utils_join_path run_paths.tasks_dir (fmt_llu 1 ++ str ".task") PATH_MAX =
      some (str "/run/tasks/1.task") ∧
    utils_join_path (str "/run/tasks/1.task") (str ".tmp") PATH_MAX =
      some (str "/run/tasks/1.task/.tmp") ∧
    str "/run/tasks/1.task/.tmp" ≠ str "/run/tasks/1.task" ++ str ".tmp" ∧
    parent_path (str "/run/tasks/1.task/.tmp") = str "/run/tasks/1.task" ∧
    storage_write_task fresh_fs run_paths task_true = (.error .ENOENT, fresh_fs) := by
  refine ⟨by decide, by decide, by decide, by decide, by decide⟩
/-! ## The poll timeout -/

/-- The loop of `next_deadline` from a value `best` that is -1 or an epoch:
the result is -1 exactly when `best` is -1 and no entry has an epoch; otherwise
it is the smallest of `best` and the epochs of the entries. -/
theorem next_deadline_fold :
    ∀ (entries : List schedule_entry_t) (best : Int), -1 ≤ best →
      (entries.foldl next_deadline_step best = -1 ↔
        (best = -1 ∧ ∀ e ∈ entries, e.next_epoch < 0)) ∧
      -1 ≤ entries.foldl next_deadline_step best ∧
      (0 ≤ best → entries.foldl next_deadline_step best ≤ best) ∧
      (∀ e ∈ entries, 0 ≤ e.next_epoch → entries.foldl next_deadline_step best ≤ e.next_epoch) ∧
      (entries.foldl next_deadline_step best = best ∨
        ∃ e ∈ entries, 0 ≤ e.next_epoch ∧ entries.foldl next_deadline_step best = e.next_epoch) := by
  intro entries
  induction entries with
  | nil =>
    intro best hb
    refine ⟨⟨fun h => ⟨h, fun e he => absurd he (List.not_mem_nil e)⟩, fun h => h.1⟩, hb,
      fun _ => Int.le_refl _, fun e he => absurd he (List.not_mem_nil e), Or.inl rfl⟩
  | cons e rest ih =>
    intro best hb
    simp only [List.foldl_cons]
    have hstep : -1 ≤ next_deadline_step best e := by
      unfold next_deadline_step
      split
      · exact hb
      · split <;> omega
    obtain ⟨h1, h2, h3, h4, h5⟩ := ih (next_deadline_step best e) hstep
    by_cases hneg : e.next_epoch < 0
    · have hs : next_deadline_step best e = best := by
        unfold next_deadline_step
        rw [if_pos hneg]
      rw [hs] at h1 h2 h3 h4 h5 ⊢
      refine ⟨?_, h2, h3, ?_, ?_⟩
      · rw [h1]
        constructor
        · rintro ⟨hb1, hall⟩
          refine ⟨hb1, ?_⟩
          intro x hx
          rcases List.mem_cons.mp hx with h | h
          · rw [h]; exact hneg
          · exact hall x h
        · rintro ⟨hb1, hall⟩
          exact ⟨hb1, fun x hx => hall x (List.mem_cons_of_mem _ hx)⟩
      · intro x hx hx0
        rcases List.mem_cons.mp hx with h | h
        · rw [h] at hx0; omega
        · exact h4 x h hx0
      · rcases h5 with h | ⟨x, hx, hx0, hr⟩
        · exact Or.inl h
        · exact Or.inr ⟨x, List.mem_cons_of_mem _ hx, hx0, hr⟩
    · have hs : next_deadline_step best e = if best < 0 ∨ e.next_epoch < best then e.next_epoch
          else best := by
        unfold next_deadline_step
        rw [if_neg hneg]
      have hs0 : 0 ≤ next_deadline_step best e := by
        rw [hs]; split <;> omega
      have hsle : next_deadline_step best e ≤ e.next_epoch := by
        rw [hs]; split <;> omega
      have hsb : 0 ≤ best → next_deadline_step best e ≤ best := by
        intro hb0; rw [hs]; split <;> omega
      have hse : next_deadline_step best e = best ∨ next_deadline_step best e = e.next_epoch := by
        rw [hs]; split
        · exact Or.inr rfl
        · exact Or.inl rfl
      have hr0 := h3 hs0
      refine ⟨?_, h2, ?_, ?_, ?_⟩
      · constructor
        · intro hr
          have := h1.mp hr
          omega
        · rintro ⟨_, hall⟩
          have := hall e (List.mem_cons_self _ _)
          omega
      · intro hb0
        exact Int.le_trans hr0 (hsb hb0)
      · intro x hx hx0
        rcases List.mem_cons.mp hx with h | h
        · rw [h]; exact Int.le_trans hr0 hsle
        · exact h4 x h hx0
      · rcases h5 with h | ⟨x, hx, hx0, hr⟩
        · rcases hse with h6 | h6
          · exact Or.inl (by rw [h, h6])
          · exact Or.inr ⟨e, List.mem_cons_self _ _, by omega, by rw [h, h6]⟩
        · exact Or.inr ⟨x, List.mem_cons_of_mem _ hx, hx0, hr⟩

theorem int64_of_small (x : Int) (h1 : -(2 ^ 63) ≤ x) (h2 : x < 2 ^ 63) : int64_of x = x := by
  unfold int64_of
  rw [Int.emod_eq_of_lt (by omega) (by omega)]
  omega

theorem int_of_int64_small (x : Int) (h1 : -(2 ^ 31) ≤ x) (h2 : x < 2 ^ 31) :
    int_of_int64 x = x := by
  unfold int_of_int64
  rw [Int.emod_eq_of_lt (by omega) (by omega)]
  omega

/-- C28. The timeout `erraid_schedule_loop` computes for the plan entries in
use and the clock value `now`, where the subtraction `deadline - now` is
defined in `int64_t`: it is -1 exactly when no entry has `next_epoch >= 0`;
otherwise, `d` being the smallest non-negative `next_epoch`, it is
`1000 * min(max(0, d - now), INT_MAX / 1000)`, it lies between 0 and `INT_MAX`,
and `next_deadline` returns `d`. -/
theorem schedule_loop_timeout_spec (ctx : erraid_context_t) (now : Int)
    (hsub : ∀ e ∈ ctx.plan.take ctx.plan_count, 0 ≤ e.next_epoch →
      -(2 ^ 63) ≤ e.next_epoch - now ∧ e.next_epoch - now < 2 ^ 63) :
    (schedule_loop_timeout ctx now = -1 ↔
      ∀ e ∈ ctx.plan.take ctx.plan_count, e.next_epoch < 0) ∧
    ∀ d, (∃ e ∈ ctx.plan.take ctx.plan_count, e.next_epoch = d) → 0 ≤ d →
      (∀ e ∈ ctx.plan.take ctx.plan_count, 0 ≤ e.next_epoch → d ≤ e.next_epoch) →
      next_deadline ctx = d ∧
      schedule_loop_timeout ctx now = 1000 * min (max 0 (d - now)) (INT_MAX / 1000) ∧
      0 ≤ schedule_loop_timeout ctx now ∧ schedule_loop_timeout ctx now ≤ INT_MAX := by
  obtain ⟨h1, h2, _, h4, h5⟩ := next_deadline_fold (ctx.plan.take ctx.plan_count) (-1)
    (Int.le_refl _)
  have hval : ∀ d, 0 ≤ d → -(2 ^ 63) ≤ d - now → d - now < 2 ^ 63 → next_deadline ctx = d →
      schedule_loop_timeout ctx now = 1000 * min (max 0 (d - now)) (INT_MAX / 1000) ∧
      0 ≤ schedule_loop_timeout ctx now ∧ schedule_loop_timeout ctx now ≤ INT_MAX := by
    intro d hd0 hlo hhi hnd
    have e1 : int64_of (d - now) = d - now := int64_of_small _ hlo hhi
    have e2 : ∀ v : Int, 0 ≤ v → v ≤ 2147483 →
        int_of_int64 (int64_of (v * 1000)) = 1000 * v := by
      intro v hv0 hv1
      rw [int64_of_small _ (by omega) (by omega), int_of_int64_small _ (by omega) (by omega)]
      omega
    unfold schedule_loop_timeout
    simp only [hnd, e1]
    rw [if_pos (by omega)]
    unfold INT_MAX
    have hq : (2147483647 : Int) / 1000 = 2147483 := by decide
    rw [hq]
    have hcases : (d - now < 0) ∨ (0 ≤ d - now ∧ d - now ≤ 2147483) ∨ (2147483 < d - now) := by
      omega
    rcases hcases with hc | hc | hc
    · simp only [if_pos hc, show ¬ ((0 : Int) > 2147483) by omega, if_false]
      rw [e2 0 (by omega) (by omega), max_eq_left (by omega), min_eq_left (by omega)]
      omega
    · have hn : ¬ (d - now < 0) := by omega
      have hn2 : ¬ (d - now > 2147483) := by omega
      simp only [if_neg hn, if_neg hn2]
      rw [e2 _ hc.1 hc.2, max_eq_right (by omega), min_eq_left (by omega)]
      omega
    · have hn : ¬ (d - now < 0) := by omega
      have hn2 : d - now > 2147483 := by omega
      simp only [if_neg hn, if_pos hn2]
      rw [e2 _ (by omega) (by omega), max_eq_right (by omega), min_eq_right (by omega)]
      omega
  constructor
  · constructor
    · intro ht
      by_contra hne
      have hnd : next_deadline ctx ≠ -1 := by
        intro h
        exact hne ((h1.mp h).2)
      have h0 : 0 ≤ next_deadline ctx := by
        have : -1 ≤ next_deadline ctx := h2
        omega
      rcases h5 with h | ⟨e, he, he0, hr⟩
      · exact hnd h
      · have hs := hsub e he he0
        have := hval e.next_epoch he0 hs.1 hs.2 hr
        omega
    · intro hall
      have hnd : next_deadline ctx = -1 := h1.mpr ⟨rfl, hall⟩
      unfold schedule_loop_timeout
      simp only [hnd]
      rfl
  · rintro d ⟨e, he, hed⟩ hd0 hmin
    have hle : next_deadline ctx ≤ d := by
      rw [← hed]
      exact h4 e he (by omega)
    have hnd : next_deadline ctx = d := by
      rcases h5 with h | ⟨x, hx, hx0, hr⟩
      · have : next_deadline ctx = -1 := h
        have := (h1.mp this).2 e he
        omega
      · have hx1 := hmin x hx hx0
        have : next_deadline ctx = x.next_epoch := hr
        omega
    have hs := hsub e he (by omega)
    rw [hed] at hs
    exact ⟨hnd, hval d hd0 hs.1 hs.2 hnd⟩

/-- C28 on the plan of `due_ctx` (epochs 120, 60 and 180 in use): at the clock
value 50 the deadline is 60 and the timeout 10000 ms; at the clock value 130
the timeout is 0. -/
theorem schedule_loop_timeout_spec_witness :
    (∀ e ∈ due_ctx.plan.take due_ctx.plan_count, 0 ≤ e.next_epoch →
      -(2 ^ 63) ≤ e.next_epoch - 50 ∧ e.next_epoch - 50 < 2 ^ 63) ∧
    schedule_loop_timeout due_ctx 50 = 10000 ∧
    schedule_loop_timeout due_ctx 130 = 0 ∧
    schedule_loop_timeout idle_ctx 130 = -1 ∧
    (next_deadline due_ctx = 60 ∧
      schedule_loop_timeout due_ctx 50 = 1000 * min (max 0 (60 - 50)) (INT_MAX / 1000) ∧
      0 ≤ schedule_loop_timeout due_ctx 50 ∧ schedule_loop_timeout due_ctx 50 ≤ INT_MAX) :=
  ⟨by decide, by decide, by decide, by decide,
    (schedule_loop_timeout_spec due_ctx 50 (by decide)).2 60 ⟨⟨2, 1, 60⟩, by decide, rfl⟩
      (by decide) (by decide)⟩

/-! ## The schedule of a creation request -/

/-- A creation request whose schedule is refused is answered with
`INVALID_REQUEST`, and the context is left as it is but for the reply
descriptor. -/
theorem create_refused_schedule (ctx : erraid_context_t) (sys : daemon_sys) (msg_type : Nat)
    (payload : List Nat)
    (h : parse_schedule_field payload (task_type_from_message msg_type) = none)
    (hopen : ctx.reply_fd = true ∨ sys.reply_open = .ok ())
    (hroom : 12 + ERRAID_PIPE_MESSAGE_LIMIT ≤ sys.reply_pipe.room) :
    (handle_create_task ctx sys msg_type payload).1 = -1 ∧
    (handle_create_task ctx sys msg_type payload).2.1 = { ctx with reply_fd := true } ∧
    (handle_create_task ctx sys msg_type payload).2.2.reply_pipe.written =
      sys.reply_pipe.written ++ record_bytes MSG_RSP_ERROR schedule_refused ∧
    (handle_create_task ctx sys msg_type payload).2.2.fs = sys.fs := by
  unfold handle_create_task
  simp only [h]
  have e : send_error_response ctx sys (str "INVALID_REQUEST") (str "Planification invalide") =
      send_json_response ctx sys MSG_RSP_ERROR schedule_refused := rfl
  unfold ERRAID_PIPE_MESSAGE_LIMIT at hroom
  rw [e, send_json_response_written ctx sys _ _ hopen (by decide) (by decide)
    (by have : schedule_refused.length < 256 := by decide
        omega)]
  exact ⟨trivial, rfl, rfl, rfl⟩

/-- C27. Null or missing schedule. For a creation payload with no `schedule`
field at all, or whose `schedule` value starts with `null`:
`parse_schedule_field` accepts it for ABSTRACT and gives the disabled schedule
with zero masks; it refuses it for SIMPLE and for SEQUENCE, and the requests
`REQ_CREATE_SIMPLE` and `REQ_CREATE_SEQUENCE` are answered (on a reply pipe
that can be written) with one record `RSP_ERROR` of code `INVALID_REQUEST`,
the task list and the store being left as they are. -/
theorem null_or_missing_schedule (payload : List Nat)
    (h : strstr payload (str "\"schedule\"") = none ∨
      ∃ v, find_field_pointer payload (str "schedule") = .ok v ∧ v.take 4 = str "null") :
    parse_schedule_field payload .TASK_TYPE_ABSTRACT = some schedule_disabled ∧
    parse_schedule_field payload .TASK_TYPE_SIMPLE = none ∧
    parse_schedule_field payload .TASK_TYPE_SEQUENCE = none ∧
    ∀ (ctx : erraid_context_t) (sys : daemon_sys) (msg_type : Nat),
      msg_type = MSG_REQ_CREATE_SIMPLE ∨ msg_type = MSG_REQ_CREATE_SEQUENCE →
      ctx.reply_fd = true ∨ sys.reply_open = .ok () →
      12 + ERRAID_PIPE_MESSAGE_LIMIT ≤ sys.reply_pipe.room →
      (handle_create_task ctx sys msg_type payload).1 = -1 ∧
      (handle_create_task ctx sys msg_type payload).2.1.tasks = ctx.tasks ∧
      (handle_create_task ctx sys msg_type payload).2.2.reply_pipe.written =
        sys.reply_pipe.written ++ record_bytes MSG_RSP_ERROR schedule_refused ∧
      (handle_create_task ctx sys msg_type payload).2.2.fs = sys.fs := by
  have hparse : ∀ type : task_type_t, parse_schedule_field payload type =
      if type = .TASK_TYPE_ABSTRACT then some schedule_disabled else none := by
    intro type
    unfold parse_schedule_field
    simp only
    rcases h with h | ⟨v, hv, hnull⟩
    · have hf : find_field_pointer payload (str "schedule") = .error .ENOENT := by
        unfold find_field_pointer
        simp only
        rw [if_neg (by decide)]
        have hp : [34] ++ str "schedule" ++ [34] = str "\"schedule\"" := by decide
        rw [hp, h]
      rw [hf]
      rfl
    · rw [hv]
      simp only [hnull, if_true]
      rfl
  refine ⟨by rw [hparse]; rfl, by rw [hparse]; rfl, by rw [hparse]; rfl, ?_⟩
  intro ctx sys msg_type hmsg hopen hroom
  have hnone : parse_schedule_field payload (task_type_from_message msg_type) = none := by
    rcases hmsg with h1 | h1 <;> rw [h1, hparse] <;> rfl
  obtain ⟨h1, h2, h3, h4⟩ := create_refused_schedule ctx sys msg_type payload hnone hopen hroom
  exact ⟨h1, by rw [h2], h3, h4⟩

/-- C27 on two requests: commands with `"schedule":null`, and commands with
no schedule. As `REQ_CREATE_ABSTRACT` over a store in which the task file can
be written, the first creates task 1 with the disabled schedule; as
`REQ_CREATE_SIMPLE` both are answered with `INVALID_REQUEST`. -/
theorem null_or_missing_schedule_witness :
    (strstr create_unscheduled_payload (str "\"schedule\"") = none ∧
      find_field_pointer create_null_payload (str "schedule") = .ok (str "null\x7d")) ∧
    (handle_create_task idle_ctx (world_of writable_fs 100) MSG_REQ_CREATE_ABSTRACT
        create_null_payload).2.1.tasks =
      [{ task_id := 1, type := .TASK_TYPE_ABSTRACT, commands := [⟨[str "/bin/true"]⟩]
         schedule := schedule_disabled, last_run_epoch := -1 }] ∧
    (parse_schedule_field create_unscheduled_payload .TASK_TYPE_ABSTRACT =
        some schedule_disabled ∧
      parse_schedule_field create_unscheduled_payload .TASK_TYPE_SIMPLE = none) ∧
    (parse_schedule_field create_null_payload .TASK_TYPE_ABSTRACT = some schedule_disabled ∧
      (handle_create_task idle_ctx (world_of fresh_fs 100) MSG_REQ_CREATE_SIMPLE
        create_null_payload).2.2.reply_pipe.written =
        (world_of fresh_fs 100).reply_pipe.written ++
          record_bytes MSG_RSP_ERROR schedule_refused) :=
  ⟨⟨by decide, by decide⟩, by decide,
    ⟨(null_or_missing_schedule create_unscheduled_payload (Or.inl (by decide))).1,
      (null_or_missing_schedule create_unscheduled_payload (Or.inl (by decide))).2.1⟩,
    ⟨(null_or_missing_schedule create_null_payload
        (Or.inr ⟨str "null\x7d", by decide, by decide⟩)).1,
      ((null_or_missing_schedule create_null_payload
        (Or.inr ⟨str "null\x7d", by decide, by decide⟩)).2.2.2 idle_ctx (world_of fresh_fs 100)
        MSG_REQ_CREATE_SIMPLE (Or.inl rfl) (Or.inr rfl) (by decide)).2.2.1⟩⟩

theorem parse_json_string_token_loop_plain :
    ∀ (v buffer rest : List Nat), json_plain v →
      parse_json_string_token_loop (v ++ 34 :: rest) buffer = some (buffer ++ v, rest) := by
  intro v
  induction v with
  | nil =>
    intro buffer rest _
    rw [List.nil_append, List.append_nil]
    unfold parse_json_string_token_loop
    rw [if_pos rfl]
  | cons c t ih =>
    intro buffer rest hv
    have hc := hv c (List.mem_cons_self _ _)
    have ht : json_plain t := fun x hx => hv x (List.mem_cons_of_mem _ hx)
    rw [List.cons_append]
    unfold parse_json_string_token_loop
    rw [if_neg hc.1, if_neg hc.2, ih (buffer ++ [c]) rest ht]
    simp

theorem skip_ws_blank (ws : List Nat) (c : Nat) (t : List Nat) (hws : json_blank ws)
    (hc : isspace c = false) : skip_ws (ws ++ c :: t) = c :: t := by
  unfold skip_ws
  induction ws with
  | nil => simp [List.dropWhile, hc]
  | cons w rest ih =>
    have hw := hws w (List.mem_cons_self _ _)
    rw [List.cons_append, List.dropWhile_cons, if_pos hw]
    exact ih (fun x hx => hws x (List.mem_cons_of_mem _ hx))

/-- One turn of the loop of `parse_schedule_field` over a member: the cursor
after the member and the strings collected. -/
theorem parse_schedule_loop_pair (turns : Nat) (p : json_member) (c : Nat) (tail : List Nat)
    (acc : schedule_strings_t) (hp : json_member_ok p) (hc : isspace c = false) :
    parse_schedule_loop (turns + 1) (json_pair p ++ c :: tail) acc =
      match c :: tail with
      | 44 :: c6 => parse_schedule_loop turns c6 (schedule_assign acc p)
      | 125 :: _ => some (schedule_assign acc p)
      | c6 => parse_schedule_loop turns c6 (schedule_assign acc p) := by
  obtain ⟨h1, h2, h3, h4, h5, h6⟩ := hp
  have hcur : json_pair p ++ c :: tail =
      p.lead ++ 34 :: (p.key ++ 34 :: (p.before_colon ++ 58 :: (p.after_colon ++ 34 ::
        (p.value ++ 34 :: (p.trail ++ c :: tail))))) := by
    simp [json_pair]
  rw [hcur, parse_schedule_loop]
  rw [skip_ws_blank p.lead 34 _ h1 (by decide)]
  simp only [parse_json_string_token, parse_json_string_token_loop_plain p.key [] _ h2,
    List.nil_append]
  rw [skip_ws_blank p.before_colon 58 _ h3 (by decide)]
  simp only
  rw [skip_ws_blank p.after_colon 34 _ h4 (by decide)]
  simp only [parse_json_string_token_loop_plain p.value [] _ h5, List.nil_append]
  rw [skip_ws_blank p.trail c _ h6 hc]
  rfl

/-- The loop of `parse_schedule_field` over an object of members: it reads the
first `turns` members. -/
theorem parse_schedule_loop_body :
    ∀ (ps : List json_member) (turns : Nat) (tail : List Nat)
      (acc : schedule_strings_t), ps ≠ [] →
      (∀ p ∈ ps, json_member_ok p) →
      parse_schedule_loop turns (json_object_body ps ++ tail) acc =
        some ((ps.take turns).foldl schedule_assign acc) := by
  intro ps
  induction ps with
  | nil => intro turns tail acc h; exact absurd rfl h
  | cons p rest ih =>
    intro turns tail acc _ hok
    have hp := hok p (List.mem_cons_self _ _)
    cases turns with
    | zero => rfl
    | succ turns =>
      cases rest with
      | nil =>
        have hb : json_object_body [p] ++ tail = json_pair p ++ (125 :: tail) := by
          simp [json_object_body]
        rw [hb, parse_schedule_loop_pair turns p 125 _ acc hp (by decide)]
        simp
      | cons q rest2 =>
        have hb : json_object_body (p :: q :: rest2) ++ tail =
            json_pair p ++ (44 :: (json_object_body (q :: rest2) ++ tail)) := by
          simp [json_object_body]
        rw [hb, parse_schedule_loop_pair turns p 44 _ acc hp (by decide)]
        simp only
        rw [ih turns tail (schedule_assign acc p) (by simp)
          (fun x hx => hok x (List.mem_cons_of_mem _ hx))]
        rfl

theorem schedule_assign_keeps (ps : List json_member) :
    ∀ acc : schedule_strings_t,
      (str "minutes" ∉ ps.map json_member.key →
        (ps.foldl schedule_assign acc).minutes_str = acc.minutes_str) ∧
      (str "hours" ∉ ps.map json_member.key →
        (ps.foldl schedule_assign acc).hours_str = acc.hours_str) ∧
      (str "weekdays" ∉ ps.map json_member.key →
        (ps.foldl schedule_assign acc).weekdays_str = acc.weekdays_str) := by
  induction ps with
  | nil => intro acc; exact ⟨fun _ => rfl, fun _ => rfl, fun _ => rfl⟩
  | cons p rest ih =>
    intro acc
    simp only [List.foldl_cons, List.map_cons, List.mem_cons, not_or]
    obtain ⟨i1, i2, i3⟩ := ih (schedule_assign acc p)
    refine ⟨?_, ?_, ?_⟩
    · rintro ⟨hne, hrest⟩
      rw [i1 hrest]
      unfold schedule_assign
      rw [if_neg (Ne.symm hne)]
      split
      · rfl
      · split <;> rfl
    · rintro ⟨hne, hrest⟩
      rw [i2 hrest]
      unfold schedule_assign
      split
      · rfl
      · rw [if_neg (Ne.symm hne)]
        split <;> rfl
    · rintro ⟨hne, hrest⟩
      rw [i3 hrest]
      unfold schedule_assign
      split
      · rfl
      · split
        · rfl
        · rw [if_neg (Ne.symm hne)]

theorem schedule_assign_minutes (acc : schedule_strings_t) (p : json_member)
    (h : p.key = str "minutes") :
    schedule_assign acc p = { acc with minutes_str := some p.value } := by
  unfold schedule_assign
  rw [if_pos h]

theorem schedule_assign_hours (acc : schedule_strings_t) (p : json_member)
    (h : p.key = str "hours") :
    schedule_assign acc p = { acc with hours_str := some p.value } := by
  unfold schedule_assign
  rw [h, if_neg (by decide), if_pos rfl]

theorem schedule_assign_weekdays (acc : schedule_strings_t) (p : json_member)
    (h : p.key = str "weekdays") :
    schedule_assign acc p = { acc with weekdays_str := some p.value } := by
  unfold schedule_assign
  rw [h, if_neg (by decide), if_neg (by decide), if_pos rfl]

/-- The result of `parse_schedule_field` on a schedule object of members: the
first three members decide. -/
theorem parse_schedule_field_object (payload tail : List Nat) (type : task_type_t)
    (ps : List json_member) (hne : ps ≠ [])
    (hok : ∀ p ∈ ps, json_member_ok p)
    (hfind : find_field_pointer payload (str "schedule") =
      .ok (123 :: (json_object_body ps ++ tail))) :
    parse_schedule_field payload type =
      match (ps.take 3).foldl schedule_assign ⟨none, none, none⟩ with
      | ⟨some minutes_str, some hours_str, some weekdays_str⟩ =>
        some { minute_mask := (strtoull minutes_str 16).value
               hour_mask := (strtoull hours_str 16).value % 2 ^ 32
               weekday_mask := (strtoull weekdays_str 16).value % 2 ^ 8
               enabled := decide (type ≠ .TASK_TYPE_ABSTRACT) }
      | _ => none := by
  unfold parse_schedule_field
  simp only [hfind]
  have hn : ¬ ((123 :: (json_object_body ps ++ tail)).take 4 = str "null") := by
    intro h
    have := congrArg List.head? h
    simp [str] at this
  rw [if_neg hn, parse_schedule_loop_body ps 3 tail _ hne hok]
  generalize List.foldl schedule_assign _ (List.take 3 ps) = r
  obtain ⟨a, b, c⟩ := r
  cases a <;> cases b <;> cases c <;> rfl

/-- A schedule object that lacks one of the three keys is refused by
`parse_schedule_field`. -/
theorem parse_schedule_field_missing (payload tail : List Nat) (type : task_type_t)
    (ps : List json_member) (hok : ∀ p ∈ ps, json_member_ok p)
    (hfind : find_field_pointer payload (str "schedule") =
      .ok (123 :: (json_object_body ps ++ tail)))
    (hmiss : str "minutes" ∉ ps.map json_member.key ∨ str "hours" ∉ ps.map json_member.key ∨
      str "weekdays" ∉ ps.map json_member.key) :
    parse_schedule_field payload type = none := by
  cases ps with
  | nil =>
    unfold parse_schedule_field
    simp only [hfind]
    rw [if_neg (by intro h; have := congrArg List.head? h; simp [str] at this)]
    rfl
  | cons p rest =>
    rw [parse_schedule_field_object payload tail type (p :: rest) (by simp) hok hfind]
    have hsub : ∀ k, k ∉ (p :: rest).map json_member.key →
        k ∉ ((p :: rest).take 3).map json_member.key := by
      intro k hk hin
      apply hk
      obtain ⟨m, hm, rfl⟩ := List.mem_map.1 hin
      exact List.mem_map.2 ⟨m, List.mem_of_mem_take hm, rfl⟩
    obtain ⟨k1, k2, k3⟩ := schedule_assign_keeps ((p :: rest).take 3) ⟨none, none, none⟩
    generalize hr : List.foldl schedule_assign _ (List.take 3 (p :: rest)) = r at k1 k2 k3
    obtain ⟨a, b, c⟩ := r
    rcases hmiss with h | h | h
    · have := k1 (hsub _ h)
      simp only at this
      subst this
      rfl
    · have := k2 (hsub _ h)
      simp only at this
      subst this
      cases a <;> rfl
    · have := k3 (hsub _ h)
      simp only at this
      subst this
      cases a <;> cases b <;> rfl

/-- A schedule object that lacks one of the three keys among its first three
members is refused by `parse_schedule_field`. -/
theorem parse_schedule_field_lacking (payload tail : List Nat) (type : task_type_t)
    (ps : List json_member) (hok : ∀ p ∈ ps, json_member_ok p)
    (hfind : find_field_pointer payload (str "schedule") =
      .ok (123 :: (json_object_body ps ++ tail)))
    (hmiss : str "minutes" ∉ (ps.take 3).map json_member.key ∨
      str "hours" ∉ (ps.take 3).map json_member.key ∨
      str "weekdays" ∉ (ps.take 3).map json_member.key) :
    parse_schedule_field payload type = none := by
  cases ps with
  | nil =>
    unfold parse_schedule_field
    simp only [hfind]
    rw [if_neg (by intro h; have := congrArg List.head? h; simp [str] at this)]
    rfl
  | cons p rest =>
    rw [parse_schedule_field_object payload tail type (p :: rest) (by simp) hok hfind]
    obtain ⟨k1, k2, k3⟩ := schedule_assign_keeps ((p :: rest).take 3) ⟨none, none, none⟩
    generalize hr : List.foldl schedule_assign _ (List.take 3 (p :: rest)) = r at k1 k2 k3
    obtain ⟨a, b, c⟩ := r
    rcases hmiss with h | h | h
    · have := k1 h
      simp only at this
      subst this
      rfl
    · have := k2 h
      simp only at this
      subst this
      cases a <;> rfl
    · have := k3 h
      simp only at this
      subst this
      cases a <;> cases b <;> rfl

/-- C26, as the code has it. The loop of `parse_schedule_field` reads the
first three members of the schedule object and no more. For a SIMPLE or
SEQUENCE creation payload whose schedule object has string values and has the
three members minutes, hours and weekdays as its first three members, in any
of the six orders (other members may follow), `parse_schedule_field` succeeds
with the masks read from the three values (base 16, the hours cut to 32 bits
and the weekdays to 8 bits) and the schedule enabled: the same masks for every
order. When one of the three keys is not among the first three members, in
particular when the object lacks it, `parse_schedule_field` fails and
`handle_create_task` answers with one `RSP_ERROR` record of code
`INVALID_REQUEST`, and neither the task list nor the files change. -/
theorem schedule_keys_order_insensitive (payload tail : List Nat) (msg_type : Nat)
    (ps : List json_member)
    (htype : msg_type = MSG_REQ_CREATE_SIMPLE ∨ msg_type = MSG_REQ_CREATE_SEQUENCE)
    (hok : ∀ p ∈ ps, json_member_ok p)
    (hfind : find_field_pointer payload (str "schedule") =
      .ok (123 :: (json_object_body ps ++ tail))) :
    (∀ m h w : json_member, m.key = str "minutes" → h.key = str "hours" →
      w.key = str "weekdays" → ps.take 3 ∈ orderings m h w →
      parse_schedule_field payload (task_type_from_message msg_type) =
        some { minute_mask := (strtoull m.value 16).value
               hour_mask := (strtoull h.value 16).value % 2 ^ 32
               weekday_mask := (strtoull w.value 16).value % 2 ^ 8
               enabled := true }) ∧
    ((str "minutes" ∉ (ps.take 3).map json_member.key ∨
        str "hours" ∉ (ps.take 3).map json_member.key ∨
        str "weekdays" ∉ (ps.take 3).map json_member.key) →
      parse_schedule_field payload (task_type_from_message msg_type) = none ∧
      ∀ (ctx : erraid_context_t) (sys : daemon_sys),
        (ctx.reply_fd = true ∨ sys.reply_open = .ok ()) →
        12 + ERRAID_PIPE_MESSAGE_LIMIT ≤ sys.reply_pipe.room →
        (handle_create_task ctx sys msg_type payload).1 = -1 ∧
        (handle_create_task ctx sys msg_type payload).2.1.tasks = ctx.tasks ∧
        (handle_create_task ctx sys msg_type payload).2.1.plan = ctx.plan ∧
        (handle_create_task ctx sys msg_type payload).2.1.plan_count = ctx.plan_count ∧
        (handle_create_task ctx sys msg_type payload).2.2.reply_pipe.written =
          sys.reply_pipe.written ++ record_bytes MSG_RSP_ERROR schedule_refused ∧
        (handle_create_task ctx sys msg_type payload).2.2.fs = sys.fs) := by
  have hen : decide (task_type_from_message msg_type ≠ .TASK_TYPE_ABSTRACT) = true := by
    rcases htype with h | h <;> subst h <;> decide
  refine ⟨?_, ?_⟩
  · intro m h w hm hh hw hps
    have hne : ps ≠ [] := by
      intro e
      subst e
      simp [orderings] at hps
    rw [parse_schedule_field_object payload tail _ ps hne hok hfind, hen]
    simp only [orderings, List.mem_cons, List.mem_singleton, List.not_mem_nil, or_false] at hps
    rcases hps with e | e | e | e | e | e <;> rw [e] <;>
      simp only [List.foldl, schedule_assign_minutes _ m hm,
        schedule_assign_hours _ h hh, schedule_assign_weekdays _ w hw]
  · intro hmiss
    have hnone := parse_schedule_field_lacking payload tail (task_type_from_message msg_type)
      ps hok hfind hmiss
    refine ⟨hnone, ?_⟩
    intro ctx sys hopen hroom
    obtain ⟨r1, r2, r3, r4⟩ := create_refused_schedule ctx sys msg_type payload hnone hopen hroom
    refine ⟨r1, ?_, ?_, ?_, r3, r4⟩ <;> rw [r2]

/-- C26 at concrete payloads: the three members in two orders, with and
without white space, and with a fourth member after them, give the same masks;
a payload without the key `hours` is refused with `INVALID_REQUEST`. -/
theorem schedule_keys_order_insensitive_witness :
    (parse_schedule_field create_spaced_payload .TASK_TYPE_SIMPLE =
      some { minute_mask := 16, hour_mask := 2, weekday_mask := 127, enabled := true }) ∧
    (parse_schedule_field create_reordered_payload .TASK_TYPE_SEQUENCE =
      some { minute_mask := 16, hour_mask := 2, weekday_mask := 127, enabled := true }) ∧
    (parse_schedule_field create_trailing_note_payload .TASK_TYPE_SIMPLE =
      some { minute_mask := 16, hour_mask := 2, weekday_mask := 127, enabled := true }) ∧
    (parse_schedule_field create_no_hours_payload .TASK_TYPE_SIMPLE = none ∧
      (handle_create_task idle_ctx (world_of fresh_fs 100) MSG_REQ_CREATE_SIMPLE
        create_no_hours_payload).1 = -1 ∧
      (handle_create_task idle_ctx (world_of fresh_fs 100) MSG_REQ_CREATE_SIMPLE
        create_no_hours_payload).2.1.tasks = [] ∧
      (handle_create_task idle_ctx (world_of fresh_fs 100) MSG_REQ_CREATE_SIMPLE
        create_no_hours_payload).2.2.reply_pipe.written =
          record_bytes MSG_RSP_ERROR schedule_refused ∧
      (handle_create_task idle_ctx (world_of fresh_fs 100) MSG_REQ_CREATE_SIMPLE
        create_no_hours_payload).2.2.fs = fresh_fs) :=
  ⟨(schedule_keys_order_insensitive create_spaced_payload [125] MSG_REQ_CREATE_SIMPLE
      [⟨[32], str "hours", [32], [32], str "2", [32]⟩, json_compact (str "weekdays") (str "7F"),
        ⟨[10], str "minutes", [], [32], str "10", [32]⟩]
      (Or.inl rfl) (by decide) (by decide)).1
      ⟨[10], str "minutes", [], [32], str "10", [32]⟩
      ⟨[32], str "hours", [32], [32], str "2", [32]⟩
      (json_compact (str "weekdays") (str "7F")) rfl rfl rfl (by decide),
   (schedule_keys_order_insensitive create_reordered_payload [125] MSG_REQ_CREATE_SEQUENCE
      [json_compact (str "weekdays") (str "7F"), json_compact (str "minutes") (str "10"),
        json_compact (str "hours") (str "2")]
      (Or.inr rfl) (by decide) (by decide)).1
      (json_compact (str "minutes") (str "10")) (json_compact (str "hours") (str "2"))
      (json_compact (str "weekdays") (str "7F")) rfl rfl rfl (by decide),
   (schedule_keys_order_insensitive create_trailing_note_payload [125] MSG_REQ_CREATE_SIMPLE
      [json_compact (str "minutes") (str "10"), json_compact (str "hours") (str "2"),
        json_compact (str "weekdays") (str "7F"), json_compact (str "note") (str "x")]
      (Or.inl rfl) (by decide) (by decide)).1
      (json_compact (str "minutes") (str "10")) (json_compact (str "hours") (str "2"))
      (json_compact (str "weekdays") (str "7F")) rfl rfl rfl (by decide),
   ((schedule_keys_order_insensitive create_no_hours_payload [125] MSG_REQ_CREATE_SIMPLE
      [json_compact (str "weekdays") (str "7F"), json_compact (str "minutes") (str "10")]
      (Or.inl rfl) (by decide) (by decide)).2 (Or.inr (Or.inl (by decide)))).1,
   (((schedule_keys_order_insensitive create_no_hours_payload [125] MSG_REQ_CREATE_SIMPLE
      [json_compact (str "weekdays") (str "7F"), json_compact (str "minutes") (str "10")]
      (Or.inl rfl) (by decide) (by decide)).2 (Or.inr (Or.inl (by decide)))).2
      idle_ctx (world_of fresh_fs 100) (Or.inr rfl) (by decide)).1,
   (((schedule_keys_order_insensitive create_no_hours_payload [125] MSG_REQ_CREATE_SIMPLE
      [json_compact (str "weekdays") (str "7F"), json_compact (str "minutes") (str "10")]
      (Or.inl rfl) (by decide) (by decide)).2 (Or.inr (Or.inl (by decide)))).2
      idle_ctx (world_of fresh_fs 100) (Or.inr rfl) (by decide)).2.1,
   (((schedule_keys_order_insensitive create_no_hours_payload [125] MSG_REQ_CREATE_SIMPLE
      [json_compact (str "weekdays") (str "7F"), json_compact (str "minutes") (str "10")]
      (Or.inl rfl) (by decide) (by decide)).2 (Or.inr (Or.inl (by decide)))).2
      idle_ctx (world_of fresh_fs 100) (Or.inr rfl) (by decide)).2.2.2.2.1,
   (((schedule_keys_order_insensitive create_no_hours_payload [125] MSG_REQ_CREATE_SIMPLE
      [json_compact (str "weekdays") (str "7F"), json_compact (str "minutes") (str "10")]
      (Or.inl rfl) (by decide) (by decide)).2 (Or.inr (Or.inl (by decide)))).2
      idle_ctx (world_of fresh_fs 100) (Or.inr rfl) (by decide)).2.2.2.2.2⟩

/-- C26 fails for a schedule object with a fourth member in front of one of
the three keys. The object of `create_noted_payload` holds the members
minutes, hours, note and weekdays, all with string values, so it contains the
three keys; the loop `for (i = 0; i < 3; ++i)` of `parse_schedule_field` stops
after the member `note`, the string for `weekdays` is still NULL and the
request is refused with `INVALID_REQUEST`. The same three members without
`note`, or with `note` after them, are accepted. -/
theorem schedule_fourth_member_refused :
    find_field_pointer create_noted_payload (str "schedule") =
      .ok (123 :: (json_object_body
        [json_compact (str "minutes") (str "10"), json_compact (str "hours") (str "2"),
          json_compact (str "note") (str "x"), json_compact (str "weekdays") (str "7F")] ++
        [125])) ∧
    parse_schedule_field create_noted_payload .TASK_TYPE_SIMPLE = none ∧
    parse_schedule_field create_noted_payload .TASK_TYPE_SEQUENCE = none ∧
    (handle_create_task idle_ctx (world_of fresh_fs 100) MSG_REQ_CREATE_SIMPLE
      create_noted_payload).1 = -1 ∧
    (handle_create_task idle_ctx (world_of fresh_fs 100) MSG_REQ_CREATE_SIMPLE
      create_noted_payload).2.2.reply_pipe.written =
        record_bytes MSG_RSP_ERROR schedule_refused ∧
    parse_schedule_field create_trailing_note_payload .TASK_TYPE_SIMPLE =
      some { minute_mask := 16, hour_mask := 2, weekday_mask := 127, enabled := true } := by
  refine ⟨by decide, by decide, by decide, by decide, by decide, by decide⟩

/-! ## Replies to requests -/

theorem send_error_response_eq (ctx : erraid_context_t) (sys : daemon_sys)
    (code message : List Nat) (h : code.length + message.length ≤ 200) :
    send_error_response ctx sys code message =
      send_json_response ctx sys MSG_RSP_ERROR (error_payload code message) := by
  have h1 : (str "\x7b\"status\":\"ERROR\"").length = 17 := by decide
  have h2 : (str ",\"code\":\"").length = 9 := by decide
  have h3 : (str "\"").length = 1 := by decide
  have h4 : (str ",\"message\":\"").length = 12 := by decide
  have h5 : (str "\x7d").length = 1 := by decide
  unfold send_error_response buffer_append error_payload
  simp only [List.length_nil, List.length_append, h1, h2, h3, h4, h5, List.nil_append]
  rw [if_neg (by omega), if_neg (by omega)]
  simp only [List.length_append, h1, h2, h3, h4, h5]
  rw [if_neg (by omega), if_neg (by omega)]
  simp only [List.length_append, h1, h2, h3, h4, h5]
  rw [if_neg (by omega), if_neg (by omega)]
  simp only [List.length_append, h1, h2, h3, h4, h5]
  rw [if_neg (by omega), if_neg (by omega)]

theorem error_payload_length (code message : List Nat) :
    (error_payload code message).length = 41 + code.length + message.length := by
  have h1 : (str "\x7b\"status\":\"ERROR\"").length = 17 := by decide
  have h2 : (str ",\"code\":\"").length = 9 := by decide
  have h3 : (str "\"").length = 1 := by decide
  have h4 : (str ",\"message\":\"").length = 12 := by decide
  have h5 : (str "\x7d").length = 1 := by decide
  unfold error_payload
  simp only [List.length_append, h1, h2, h3, h4, h5]
  omega

/-- A reply on a pipe that can be written: one record goes out, the reply
descriptor is open afterwards and nothing else changes. -/
theorem send_json_response_after (ctx : erraid_context_t) (sys : daemon_sys) (type : Nat)
    (payload : List Nat) (hopen : ctx.reply_fd = true ∨ sys.reply_open = .ok ())
    (htype : type < 256) (hlen : payload.length < 4096)
    (hroom : 12 + ERRAID_PIPE_MESSAGE_LIMIT ≤ sys.reply_pipe.room) :
    send_json_response ctx sys type payload =
      (.ok (), { ctx with reply_fd := true }, after_reply sys type payload) := by
  unfold ERRAID_PIPE_MESSAGE_LIMIT at hroom
  rw [send_json_response_written ctx sys type payload hopen htype hlen (by omega)]
  rfl

theorem send_error_response_after (ctx : erraid_context_t) (sys : daemon_sys)
    (code message : List Nat) (h : code.length + message.length ≤ 200)
    (hopen : ctx.reply_fd = true ∨ sys.reply_open = .ok ())
    (hroom : 12 + ERRAID_PIPE_MESSAGE_LIMIT ≤ sys.reply_pipe.room) :
    send_error_response ctx sys code message =
      (.ok (), { ctx with reply_fd := true },
        after_reply sys MSG_RSP_ERROR (error_payload code message)) := by
  rw [send_error_response_eq ctx sys code message h,
    send_json_response_after ctx sys _ _ hopen (by decide)
      (by rw [error_payload_length]; omega) hroom]

theorem find_task_index_none (task_id : Nat) :
    ∀ (tasks : List task_t) (i : Nat), (∀ t ∈ tasks, t.task_id ≠ task_id) →
      find_task_index task_id tasks i = none := by
  intro tasks
  induction tasks with
  | nil => intro i _; rfl
  | cons t rest ih =>
    intro i h
    unfold find_task_index
    rw [if_neg (h t (List.mem_cons_self _ _))]
    exact ih (i + 1) (fun x hx => h x (List.mem_cons_of_mem _ hx))

theorem find_task_index_split (task_id : Nat) (t : task_t) (post : List task_t)
    (ht : t.task_id = task_id) :
    ∀ (pre : List task_t) (i : Nat), (∀ x ∈ pre, x.task_id ≠ task_id) →
      find_task_index task_id (pre ++ t :: post) i = some (i + pre.length) := by
  intro pre
  induction pre with
  | nil =>
    intro i _
    simp only [List.nil_append, List.length_nil, Nat.add_zero]
    unfold find_task_index
    rw [if_pos ht]
  | cons x rest ih =>
    intro i h
    rw [List.cons_append]
    unfold find_task_index
    rw [if_neg (h x (List.mem_cons_self _ _)),
      ih (i + 1) (fun y hy => h y (List.mem_cons_of_mem _ hy))]
    simp only [List.length_cons]
    congr 1
    omega

theorem eraseIdx_split (t : task_t) (post : List task_t) :
    ∀ pre : List task_t, (pre ++ t :: post).eraseIdx pre.length = pre ++ post := by
  intro pre
  induction pre with
  | nil => rfl
  | cons x rest ih =>
    simp only [List.cons_append, List.length_cons, List.eraseIdx_cons_succ, ih]

/-- What `erraid_handle_message` does with a removal request. -/
theorem handle_remove_request (ctx : erraid_context_t) (sys : daemon_sys)
    (request : proto_message_t) (htype : request.header.type = MSG_REQ_REMOVE) :
    erraid_handle_message ctx sys request =
      handle_remove_task ctx sys (request.payload.takeWhile (fun c => decide (c ≠ 0))) := by
  unfold erraid_handle_message
  simp only [htype, MSG_PING, MSG_REQ_LIST_TASKS, MSG_REQ_CREATE_SIMPLE,
    MSG_REQ_CREATE_SEQUENCE, MSG_REQ_CREATE_ABSTRACT, MSG_REQ_REMOVE,
    Nat.reduceEqDiff, or_self, if_false, if_true]

theorem rebuild_plan_reply_fd (ctx : erraid_context_t) (sys : daemon_sys) :
    (rebuild_plan ctx sys).2.reply_fd = ctx.reply_fd ∧
    (rebuild_plan ctx sys).2.should_quit = ctx.should_quit ∧
    (rebuild_plan ctx sys).2.paths = ctx.paths := by
  unfold rebuild_plan
  cases he : ensure_plan_capacity ctx sys ctx.tasks.length with
  | none => exact ⟨rfl, rfl, rfl⟩
  | some c1 =>
    simp only
    obtain ⟨_, _, plan1, hc1⟩ := ensure_plan_capacity_spec ctx c1 sys _ he
    have ht1 : c1.reply_fd = ctx.reply_fd ∧ c1.should_quit = ctx.should_quit ∧
        c1.paths = ctx.paths := by rw [hc1]; exact ⟨rfl, rfl, rfl⟩
    by_cases h0 : c1.tasks.length = 0
    · rw [if_pos h0]
      exact ht1
    · rw [if_neg h0]
      split <;> split <;> exact ht1

theorem erraid_reload_tasks_reply_fd (ctx : erraid_context_t) (sys : daemon_sys) :
    (erraid_reload_tasks ctx sys).2.reply_fd = ctx.reply_fd ∧
    (erraid_reload_tasks ctx sys).2.should_quit = ctx.should_quit ∧
    (erraid_reload_tasks ctx sys).2.paths = ctx.paths := by
  unfold erraid_reload_tasks
  simp only
  cases storage_load_tasks sys.fs ctx.paths with
  | error e => exact ⟨rfl, rfl, rfl⟩
  | ok tasks => exact rebuild_plan_reply_fd _ sys

/-- The removal of a task that the task list holds, in a state that satisfies
the plan invariant, when the removal from the store succeeds: the plan is
rebuilt over the other tasks and one `RSP_REMOVE` record is written. -/
theorem handle_remove_task_known (ctx : erraid_context_t) (sys : daemon_sys)
    (payload : List Nat) (task_id : Nat) (pre post : List task_t) (t : task_t)
    (hid : json_extract_uint64 payload (str "task_id") = some task_id)
    (hopen : ctx.reply_fd = true ∨ sys.reply_open = .ok ())
    (hroom : 12 + ERRAID_PIPE_MESSAGE_LIMIT ≤ sys.reply_pipe.room)
    (htasks : ctx.tasks = pre ++ t :: post) (ht : t.task_id = task_id)
    (hpre : ∀ x ∈ pre, x.task_id ≠ task_id) (hinv : plan_invariant ctx)
    (hdisk : (storage_remove_task sys.fs ctx.paths task_id).1 = .ok ()) :
    ∃ ctx2 : erraid_context_t, plan_invariant ctx2 ∧ ctx2.tasks = pre ++ post ∧
      ctx2.paths = ctx.paths ∧ ctx2.should_quit = ctx.should_quit ∧
      handle_remove_task ctx sys payload =
        (0, { ctx2 with reply_fd := true },
          after_reply
            (wake_scheduler { sys with fs := (storage_remove_task sys.fs ctx.paths task_id).2 })
            MSG_RSP_REMOVE status_ok_payload) := by
  have hfind : context_find_task_index ctx task_id = some pre.length := by
    unfold context_find_task_index
    rw [htasks, find_task_index_split task_id t post ht pre 0 hpre, Nat.zero_add]
  have hrem : context_remove_task ctx pre.length = some { ctx with tasks := pre ++ post } := by
    unfold context_remove_task
    rw [if_neg (by rw [htasks]; simp), htasks, eraseIdx_split]
  have hlen : ctx.tasks.length = pre.length + post.length + 1 := by
    rw [htasks]; simp; omega
  have hn : (pre ++ post).length < 2 ^ 31 := by
    have := hinv.2.2
    simp only [List.length_append]
    omega
  have htot := rebuild_plan_total { ctx with tasks := pre ++ post }
    { sys with fs := (storage_remove_task sys.fs ctx.paths task_id).2 }
    (by have := hinv.2.1
        have := hinv.1.1
        simp only [List.length_append]
        omega) hn
  unfold handle_remove_task
  simp only [hid, hfind]
  cases hst : storage_remove_task sys.fs ctx.paths task_id with
  | mk res fs1 =>
    rw [hst] at hdisk htot
    simp only at hdisk htot
    subst hdisk
    simp only [hrem]
    cases hrb : rebuild_plan { ctx with tasks := pre ++ post } { sys with fs := fs1 } with
    | mk ok ctx2 =>
      rw [hrb] at htot
      simp only at htot
      subst htot
      obtain ⟨hinv2, plan, cap, count, hc2⟩ := rebuild_plan_ok _ ctx2 _ hrb hn
      have hfd : ctx2.reply_fd = ctx.reply_fd := by rw [hc2]
      have hopen2 : ctx2.reply_fd = true ∨
          (wake_scheduler { sys with fs := fs1 }).reply_open = .ok () :=
        hopen.imp (fun h => by rw [hfd]; exact h) id
      simp only [send_status_ok]
      rw [send_json_response_after ctx2 (wake_scheduler { sys with fs := fs1 }) MSG_RSP_REMOVE
        _ hopen2 (by decide) (by decide) hroom]
      exact ⟨ctx2, hinv2, by rw [hc2], by rw [hc2], by rw [hc2], rfl⟩

/-- C23. Removal requests. A `REQ_REMOVE` request that names the task
`task_id`, on a reply pipe that can be written. When no task of the task list
has this identifier, the handler returns -1 and answers with one `RSP_ERROR`
record of code `TASK_NOT_FOUND`; the context (task list and plan) is the same
but for the open reply descriptor, and the outside world (the files) is the
same but for the record written. When the task list is `pre ++ t :: post`
with `t` the first task of this identifier, the state satisfies the plan
invariant and the removal from the store succeeds, the handler returns 0, the
task list becomes `pre ++ post` (the other tasks in their order), the plan
invariant holds again, the files are the ones `storage_remove_task` leaves and
the answer is one `RSP_REMOVE` record with the status `OK`. -/
theorem remove_task_spec (ctx : erraid_context_t) (sys : daemon_sys)
    (request : proto_message_t) (task_id : Nat)
    (htype : request.header.type = MSG_REQ_REMOVE)
    (hid : json_extract_uint64 (request.payload.takeWhile (fun c => decide (c ≠ 0)))
      (str "task_id") = some task_id)
    (hopen : ctx.reply_fd = true ∨ sys.reply_open = .ok ())
    (hroom : 12 + ERRAID_PIPE_MESSAGE_LIMIT ≤ sys.reply_pipe.room) :
    ((∀ t ∈ ctx.tasks, t.task_id ≠ task_id) →
      erraid_handle_message ctx sys request =
        (-1, { ctx with reply_fd := true },
          after_reply sys MSG_RSP_ERROR
            (error_payload (str "TASK_NOT_FOUND") (str "T\xc3\xa2che inconnue")))) ∧
    (∀ (pre post : List task_t) (t : task_t), ctx.tasks = pre ++ t :: post →
      t.task_id = task_id → (∀ x ∈ pre, x.task_id ≠ task_id) → plan_invariant ctx →
      (storage_remove_task sys.fs ctx.paths task_id).1 = .ok () →
      (erraid_handle_message ctx sys request).1 = 0 ∧
      (erraid_handle_message ctx sys request).2.1.tasks = pre ++ post ∧
      plan_invariant (erraid_handle_message ctx sys request).2.1 ∧
      (erraid_handle_message ctx sys request).2.2.fs =
        (storage_remove_task sys.fs ctx.paths task_id).2 ∧
      (erraid_handle_message ctx sys request).2.2.reply_pipe.written =
        sys.reply_pipe.written ++ record_bytes MSG_RSP_REMOVE status_ok_payload) := by
  rw [handle_remove_request ctx sys request htype]
  refine ⟨?_, ?_⟩
  · intro hnone
    unfold handle_remove_task
    simp only [hid, context_find_task_index, find_task_index_none task_id ctx.tasks 0 hnone]
    rw [send_error_response_after ctx sys _ _ (by decide) hopen hroom]
  · intro pre post t htasks ht hpre hinv hdisk
    obtain ⟨ctx2, hinv2, ht2, _, _, heq⟩ := handle_remove_task_known ctx sys _ task_id pre post t
      hid hopen hroom htasks ht hpre hinv hdisk
    rw [heq]
    exact ⟨rfl, ht2, hinv2, rfl, rfl⟩

theorem remove_task_spec_witness :
    (erraid_handle_message due_ctx (world_of three_task_fs 130)
        (request_of MSG_REQ_REMOVE (task_id_payload 7)) =
      (-1, { due_ctx with reply_fd := true },
        after_reply (world_of three_task_fs 130) MSG_RSP_ERROR
          (error_payload (str "TASK_NOT_FOUND") (str "T\xc3\xa2che inconnue")))) ∧
    ((erraid_handle_message due_ctx (world_of three_task_fs 130)
        (request_of MSG_REQ_REMOVE (task_id_payload 2))).1 = 0 ∧
      (erraid_handle_message due_ctx (world_of three_task_fs 130)
        (request_of MSG_REQ_REMOVE (task_id_payload 2))).2.1.tasks =
          due_ctx.tasks.take 1 ++ due_ctx.tasks.drop 2 ∧
      plan_invariant (erraid_handle_message due_ctx (world_of three_task_fs 130)
        (request_of MSG_REQ_REMOVE (task_id_payload 2))).2.1 ∧
      (erraid_handle_message due_ctx (world_of three_task_fs 130)
        (request_of MSG_REQ_REMOVE (task_id_payload 2))).2.2.fs =
          (storage_remove_task three_task_fs run_paths 2).2 ∧
      (erraid_handle_message due_ctx (world_of three_task_fs 130)
        (request_of MSG_REQ_REMOVE (task_id_payload 2))).2.2.reply_pipe.written =
          [] ++ record_bytes MSG_RSP_REMOVE status_ok_payload) :=
  ⟨(remove_task_spec due_ctx (world_of three_task_fs 130)
      (request_of MSG_REQ_REMOVE (task_id_payload 7)) 7 rfl (by decide) (Or.inl rfl)
      (by decide)).1 (by decide),
   (remove_task_spec due_ctx (world_of three_task_fs 130)
      (request_of MSG_REQ_REMOVE (task_id_payload 2)) 2 rfl (by decide) (Or.inl rfl)
      (by decide)).2 (due_ctx.tasks.take 1) (due_ctx.tasks.drop 2)
      { task_id := 2, type := .TASK_TYPE_ABSTRACT, commands := [⟨[str "/bin/echo", str "A"]⟩]
        schedule := { schedule_always with enabled := false }, last_run_epoch := -1 }
      rfl rfl (by decide) (by decide) (by decide)⟩

/-! ## Queries about a removed task -/

theorem buffer_append_length (buflen : Nat) (buffer text r : List Nat)
    (h : buffer_append buflen buffer text = some r) : r = buffer ++ text ∧ r.length < buflen := by
  unfold buffer_append at h
  split at h
  · cases h
  · split at h
    · cases h
    · injection h with h
      subst h
      simp only [List.length_append]
      exact ⟨trivial, by omega⟩

theorem error_reply_once (t : Nat) (ctx1 : erraid_context_t) (sys sys1 : daemon_sys)
    (code message : List Nat) (hfit : code.length + message.length ≤ 200)
    (hpipe : sys1.reply_pipe = sys.reply_pipe)
    (hopen1 : ctx1.reply_fd = true ∨ sys1.reply_open = .ok ())
    (hroom : 12 + ERRAID_PIPE_MESSAGE_LIMIT ≤ sys.reply_pipe.room) :
    replied_once t sys (send_error_response ctx1 sys1 code message).2.2 := by
  rw [send_error_response_after ctx1 sys1 code message hfit hopen1 (by rw [hpipe]; exact hroom)]
  refine ⟨MSG_RSP_ERROR, error_payload code message, Or.inr rfl, ?_, ?_⟩
  · rw [error_payload_length]
    unfold ERRAID_PIPE_MESSAGE_LIMIT
    omega
  · simp only [after_reply, hpipe]

theorem json_reply_once (t : Nat) (ctx1 : erraid_context_t) (sys sys1 : daemon_sys)
    (payload : List Nat) (ht : t < 256) (hlen : payload.length < ERRAID_PIPE_MESSAGE_LIMIT)
    (hpipe : sys1.reply_pipe = sys.reply_pipe)
    (hopen1 : ctx1.reply_fd = true ∨ sys1.reply_open = .ok ())
    (hroom : 12 + ERRAID_PIPE_MESSAGE_LIMIT ≤ sys.reply_pipe.room) :
    send_json_response ctx1 sys1 t payload =
      (.ok (), { ctx1 with reply_fd := true }, after_reply sys1 t payload) ∧
    replied_once t sys (send_json_response ctx1 sys1 t payload).2.2 := by
  have h := send_json_response_after ctx1 sys1 t payload hopen1 ht hlen
    (by rw [hpipe]; exact hroom)
  refine ⟨h, ?_⟩
  rw [h]
  exact ⟨t, payload, Or.inl rfl, hlen, by simp only [after_reply, hpipe]⟩

theorem respond_list_tasks_cases (ctx : erraid_context_t) (sys : daemon_sys) :
    (∃ e, respond_list_tasks ctx sys = (.error e, ctx, sys)) ∨
    ∃ p, p.length < ERRAID_PIPE_MESSAGE_LIMIT ∧
      respond_list_tasks ctx sys = send_json_response ctx sys MSG_RSP_LIST_TASKS p := by
  unfold respond_list_tasks
  cases buffer_append ERRAID_PIPE_MESSAGE_LIMIT [] (str "\x7b\"status\":\"OK\",\"tasks\":[") with
  | none => exact Or.inl ⟨_, rfl⟩
  | some b1 =>
    simp only
    cases append_items ERRAID_PIPE_MESSAGE_LIMIT (ctx.tasks.map list_tasks_item) true b1 with
    | none => exact Or.inl ⟨_, rfl⟩
    | some b2 =>
      simp only
      cases h3 : buffer_append ERRAID_PIPE_MESSAGE_LIMIT b2 (str "]\x7d") with
      | none => exact Or.inl ⟨_, rfl⟩
      | some b3 => exact Or.inr ⟨b3, (buffer_append_length _ _ _ _ h3).2, rfl⟩

theorem respond_history_cases (ctx : erraid_context_t) (sys : daemon_sys) (task_id : Nat) :
    (∃ e, respond_history ctx sys task_id = (.error e, ctx, sys)) ∨
    ∃ p, p.length < ERRAID_PIPE_MESSAGE_LIMIT ∧
      respond_history ctx sys task_id = send_json_response ctx sys MSG_RSP_LIST_HISTORY p := by
  unfold respond_history
  cases storage_load_history sys.fs ctx.paths task_id with
  | error e => exact Or.inl ⟨_, rfl⟩
  | ok entries =>
    simp only
    cases buffer_append ERRAID_PIPE_MESSAGE_LIMIT []
        (str "\x7b\"status\":\"OK\",\"history\":[") with
    | none => exact Or.inl ⟨_, rfl⟩
    | some b1 =>
      simp only
      cases append_items ERRAID_PIPE_MESSAGE_LIMIT (entries.map history_item) true b1 with
      | none => exact Or.inl ⟨_, rfl⟩
      | some b2 =>
        simp only
        cases h3 : buffer_append ERRAID_PIPE_MESSAGE_LIMIT b2 (str "]\x7d") with
        | none => exact Or.inl ⟨_, rfl⟩
        | some b3 => exact Or.inr ⟨b3, (buffer_append_length _ _ _ _ h3).2, rfl⟩

theorem respond_stdio_cases (ctx : erraid_context_t) (sys : daemon_sys) (task_id : Nat)
    (stdout_request : Bool) :
    (∃ e, respond_stdio ctx sys task_id stdout_request = (.error e, ctx, sys)) ∨
    ∃ p, p.length < ERRAID_PIPE_MESSAGE_LIMIT ∧
      respond_stdio ctx sys task_id stdout_request =
        send_json_response ctx sys
          (if stdout_request then MSG_RSP_GET_STDOUT else MSG_RSP_GET_STDERR) p := by
  unfold respond_stdio
  cases storage_load_last_stdio sys.fs ctx.paths task_id with
  | error e => exact Or.inl ⟨_, rfl⟩
  | ok bufs =>
    obtain ⟨o, e⟩ := bufs
    simp only
    by_cases hbig : (((if stdout_request = true then o else e).getD []).length + 2) / 3 * 4 + 64 ≥
        ERRAID_PIPE_MESSAGE_LIMIT
    · rw [if_pos hbig]
      exact Or.inl ⟨_, rfl⟩
    · rw [if_neg hbig]
      cases utils_base64_encode ((if stdout_request = true then o else e).getD [])
          ERRAID_PIPE_MESSAGE_LIMIT with
      | none => exact Or.inl ⟨_, rfl⟩
      | some encoded =>
        simp only
        cases h3 : buffer_append ERRAID_PIPE_MESSAGE_LIMIT []
            (str "\x7b\"status\":\"OK\",\"" ++
              (if stdout_request = true then str "stdout" else str "stderr") ++ str "\":\"" ++
              encoded ++ str "\"\x7d") with
        | none => exact Or.inl ⟨_, rfl⟩
        | some payload => exact Or.inr ⟨payload, (buffer_append_length _ _ _ _ h3).2, rfl⟩

/-- The reply to a query: the record of the responder, or the error record
that follows a responder that failed before it wrote. -/
theorem responder_reply_once (t : Nat) (ctx : erraid_context_t) (sys : daemon_sys)
    (r : Except Errno Unit × erraid_context_t × daemon_sys) (code message : List Nat)
    (hr : (∃ e, r = (.error e, ctx, sys)) ∨
      ∃ p, p.length < ERRAID_PIPE_MESSAGE_LIMIT ∧ r = send_json_response ctx sys t p)
    (ht : t < 256) (hfit : code.length + message.length ≤ 200)
    (hopen : ctx.reply_fd = true ∨ sys.reply_open = .ok ())
    (hroom : 12 + ERRAID_PIPE_MESSAGE_LIMIT ≤ sys.reply_pipe.room) :
    replied_once t sys (match r with
      | (.error _, ctx1, sys1) => rc_of (send_error_response ctx1 sys1 code message)
      | (.ok (), s) => ((0 : Int), s)).2.2 := by
  rcases hr with ⟨e, hr⟩ | ⟨p, hp, hr⟩
  · subst hr
    simp only
    have h := send_error_response_after ctx sys code message hfit hopen hroom
    rw [h]
    have := error_reply_once t ctx sys sys code message hfit rfl hopen hroom
    rw [h] at this
    exact this
  · obtain ⟨h1, h2⟩ := json_reply_once t ctx sys sys p ht hp rfl hopen hroom
    subst hr
    rw [h1] at h2 ⊢
    exact h2

theorem rc_of_sys (r : Except Errno Unit × erraid_context_t × daemon_sys) :
    (rc_of r).2.2 = r.2.2 := by
  obtain ⟨x, c, s⟩ := r
  cases x <;> rfl

theorem rebuild_plan_result_fd (ctx : erraid_context_t) (sys : daemon_sys) (b : Bool)
    (ctx2 : erraid_context_t) (h : rebuild_plan ctx sys = (b, ctx2)) :
    ctx2.reply_fd = ctx.reply_fd := by
  have := (rebuild_plan_reply_fd ctx sys).1
  rw [h] at this
  exact this

theorem handle_create_task_reply_once (ctx : erraid_context_t) (sys : daemon_sys)
    (msg_type : Nat) (payload : List Nat)
    (hopen : ctx.reply_fd = true ∨ sys.reply_open = .ok ())
    (hroom : 12 + ERRAID_PIPE_MESSAGE_LIMIT ≤ sys.reply_pipe.room) :
    replied_once MSG_RSP_CREATE sys (handle_create_task ctx sys msg_type payload).2.2 := by
  unfold handle_create_task
  simp only
  split
  · exact error_reply_once _ ctx sys sys _ _ (by decide) rfl hopen hroom
  · split
    · exact error_reply_once _ ctx sys sys _ _ (by decide) rfl hopen hroom
    · split
      · exact error_reply_once _ ctx sys _ _ _ (by decide) rfl hopen hroom
      · split
        · exact error_reply_once _ ctx sys _ _ _ (by decide) rfl hopen hroom
        · split
          · exact error_reply_once _ ctx sys _ _ _ (by decide) rfl hopen hroom
          · rename_i ctx1 hadd
            have hfd1 : ctx1.reply_fd = ctx.reply_fd := by
              unfold context_add_task at hadd
              split at hadd
              · injection hadd with hadd
                subst hadd
                rfl
              · cases hadd
            split
            · rename_i ctx2 hrb
              have hfd2 : ctx2.reply_fd = ctx1.reply_fd :=
                rebuild_plan_result_fd _ _ _ _ hrb
              refine error_reply_once _ _ sys _ _ _ (by decide) rfl ?_ hroom
              exact hopen.imp
                (fun h => by rw [(erraid_reload_tasks_reply_fd ctx2 _).1, hfd2, hfd1]; exact h) id
            · rename_i ctx2 hrb
              have hfd2 : ctx2.reply_fd = ctx1.reply_fd :=
                rebuild_plan_result_fd _ _ _ _ hrb
              have hopen2 : ctx2.reply_fd = true ∨ sys.reply_open = .ok () :=
                hopen.imp (fun h => by rw [hfd2, hfd1]; exact h) id
              split
              · exact error_reply_once _ ctx2 sys _ _ _ (by decide) rfl hopen2 hroom
              · rename_i payload_buf hbuf
                have hlen : payload_buf.length < ERRAID_PIPE_MESSAGE_LIMIT := by
                  have := (buffer_append_length _ _ _ _ hbuf).2
                  unfold ERRAID_PIPE_MESSAGE_LIMIT
                  omega
                obtain ⟨h1, h2⟩ := json_reply_once MSG_RSP_CREATE ctx2 sys
                  (wake_scheduler { sys with fs := _ }) payload_buf (by decide) hlen rfl hopen2 hroom
                rw [h1] at h2 ⊢
                exact h2

theorem handle_remove_task_reply_once (ctx : erraid_context_t) (sys : daemon_sys)
    (payload : List Nat)
    (hopen : ctx.reply_fd = true ∨ sys.reply_open = .ok ())
    (hroom : 12 + ERRAID_PIPE_MESSAGE_LIMIT ≤ sys.reply_pipe.room) :
    replied_once MSG_RSP_REMOVE sys (handle_remove_task ctx sys payload).2.2 := by
  unfold handle_remove_task
  split
  · exact error_reply_once _ ctx sys sys _ _ (by decide) rfl hopen hroom
  · split
    · exact error_reply_once _ ctx sys sys _ _ (by decide) rfl hopen hroom
    · split
      · exact error_reply_once _ ctx sys _ _ _ (by decide) rfl hopen hroom
      · simp only
        split
        · refine error_reply_once _ _ sys _ _ _ (by decide) rfl ?_ hroom
          exact hopen.imp (fun h => by rw [(erraid_reload_tasks_reply_fd ctx _).1]; exact h) id
        · rename_i ctx1 hrem
          have hfd1 : ctx1.reply_fd = ctx.reply_fd := by
            unfold context_remove_task at hrem
            split at hrem
            · cases hrem
            · injection hrem with hrem
              subst hrem
              rfl
          split
          · rename_i ctx2 hrb
            have hfd2 : ctx2.reply_fd = ctx1.reply_fd :=
              rebuild_plan_result_fd _ _ _ _ hrb
            refine error_reply_once _ _ sys _ _ _ (by decide) rfl ?_ hroom
            exact hopen.imp
              (fun h => by rw [(erraid_reload_tasks_reply_fd ctx2 _).1, hfd2, hfd1]; exact h) id
          · rename_i ctx2 hrb
            have hfd2 : ctx2.reply_fd = ctx1.reply_fd :=
              rebuild_plan_result_fd _ _ _ _ hrb
            have hopen2 : ctx2.reply_fd = true ∨ sys.reply_open = .ok () :=
              hopen.imp (fun h => by rw [hfd2, hfd1]; exact h) id
            obtain ⟨h1, h2⟩ := json_reply_once MSG_RSP_REMOVE ctx2 sys
              (wake_scheduler { sys with fs := _ }) status_ok_payload (by decide) (by decide) rfl
              hopen2 hroom
            simp only [send_status_ok]
            unfold status_ok_payload at h1 h2
            rw [h1] at h2 ⊢
            exact h2

/-- C22. Request/response discipline. For every daemon state and every
request record (any type code, any payload), on a reply pipe that can be
opened and has room for a record: `erraid_handle_message` writes exactly one
record to the reply pipe, whose type is the reply type paired with the request
type or `RSP_ERROR`. A `PING` returns 0 and is answered with one `PONG` record
whose payload is the status `OK`, and a type code that is no request type
returns 0 and is answered with one `RSP_ERROR` record of code
`UNKNOWN_REQUEST`; in both cases the context is the same but for the open
reply descriptor and the outside world is the same but for the record
written. -/
theorem request_response_discipline (ctx : erraid_context_t) (sys : daemon_sys)
    (request : proto_message_t)
    (hopen : ctx.reply_fd = true ∨ sys.reply_open = .ok ())
    (hroom : 12 + ERRAID_PIPE_MESSAGE_LIMIT ≤ sys.reply_pipe.room) :
    replied_once (paired_reply request.header.type) sys
      (erraid_handle_message ctx sys request).2.2 ∧
    (request.header.type = MSG_PING →
      erraid_handle_message ctx sys request =
        (0, { ctx with reply_fd := true }, after_reply sys MSG_PONG status_ok_payload)) ∧
    (request.header.type ∉ request_types →
      erraid_handle_message ctx sys request =
        (0, { ctx with reply_fd := true },
          after_reply sys MSG_RSP_ERROR
            (error_payload (str "UNKNOWN_REQUEST") (str "Type de message inconnu")))) := by
  refine ⟨?_, ?_, ?_⟩
  · unfold erraid_handle_message paired_reply
    simp only
    split_ifs with h1 h2 h3 h4 h5 h6 h7 h8
    · rw [rc_of_sys]
      exact (json_reply_once MSG_PONG ctx sys sys _ (by decide) (by decide) rfl hopen hroom).2
    · exact responder_reply_once MSG_RSP_LIST_TASKS ctx sys _ _ _
        (respond_list_tasks_cases ctx sys) (by decide) (by decide) hopen hroom
    · exact handle_create_task_reply_once ctx sys _ _ hopen hroom
    · exact handle_remove_task_reply_once ctx sys _ hopen hroom
    · split
      · rw [rc_of_sys]
        exact error_reply_once _ ctx sys sys _ _ (by decide) rfl hopen hroom
      · exact responder_reply_once MSG_RSP_LIST_HISTORY ctx sys _ _ _
          (respond_history_cases ctx sys _) (by decide) (by decide) hopen hroom
    · split
      · rw [rc_of_sys]
        exact error_reply_once _ ctx sys sys _ _ (by decide) rfl hopen hroom
      · exact responder_reply_once MSG_RSP_GET_STDOUT ctx sys _ _ _
          (respond_stdio_cases ctx sys _ true) (by decide) (by decide) hopen hroom
    · split
      · rw [rc_of_sys]
        exact error_reply_once _ ctx sys sys _ _ (by decide) rfl hopen hroom
      · exact responder_reply_once MSG_RSP_GET_STDERR ctx sys _ _ _
          (respond_stdio_cases ctx sys _ false) (by decide) (by decide) hopen hroom
    · exact (json_reply_once MSG_RSP_SHUTDOWN { ctx with should_quit := true } sys sys _
        (by decide) (by decide) rfl hopen hroom).2
    · rw [rc_of_sys]
      exact error_reply_once _ ctx sys sys _ _ (by decide) rfl hopen hroom
  · intro h
    unfold erraid_handle_message
    simp only [h, if_true, send_status_ok]
    rw [send_json_response_after ctx sys MSG_PONG _ hopen (by decide) (by decide) hroom]
    rfl
  · intro h
    simp only [request_types, List.mem_cons, List.mem_singleton, List.not_mem_nil, or_false,
      not_or] at h
    obtain ⟨h1, h2, h3, h4, h5, h6, h7, h8, h9, h10⟩ := h
    unfold erraid_handle_message
    simp only [h1, h2, h3, h4, h5, h6, h7, h8, h9, h10, or_self, if_false]
    rw [send_error_response_after ctx sys _ _ (by decide) hopen hroom]
    rfl

theorem request_response_discipline_witness :
    replied_once (paired_reply ping_message.header.type) (world_of fresh_fs 100)
      (erraid_handle_message idle_ctx (world_of fresh_fs 100) ping_message).2.2 ∧
    erraid_handle_message idle_ctx (world_of fresh_fs 100) ping_message =
      (0, { idle_ctx with reply_fd := true },
        after_reply (world_of fresh_fs 100) MSG_PONG status_ok_payload) ∧
    erraid_handle_message loaded_ctx (world_of fresh_fs 100) (request_of 0x02 []) =
      (0, { loaded_ctx with reply_fd := true },
        after_reply (world_of fresh_fs 100) MSG_RSP_ERROR
          (error_payload (str "UNKNOWN_REQUEST") (str "Type de message inconnu"))) :=
  ⟨(request_response_discipline idle_ctx (world_of fresh_fs 100) ping_message (Or.inr rfl)
      (by decide)).1,
   (request_response_discipline idle_ctx (world_of fresh_fs 100) ping_message (Or.inr rfl)
      (by decide)).2.1 rfl,
   (request_response_discipline loaded_ctx (world_of fresh_fs 100) (request_of 0x02 [])
      (Or.inl rfl) (by decide)).2.2 (by decide)⟩

/-! ## What a firing writes -/

theorem filter_sys_rename (fs fs1 : fs_t) (P : List Nat → Bool) (old new : List Nat)
    (ho : P old = false) (hn : P new = false) (h : sys_rename fs old new = .ok fs1) :
    fs1.filter (fun e => P e.1) = fs.filter (fun e => P e.1) := by
  unfold sys_rename at h
  split at h
  · cases h
  · cases h
  · split at h
    · cases h
    · split at h
      · injection h with h
        rw [← h]
      · injection h with h
        rw [← h, filter_fs_put _ P new _ hn, filter_fs_remove fs P old ho]
    · split at h
      · injection h with h
        rw [← h, filter_fs_put _ P new _ hn, filter_fs_remove fs P old ho]
      · cases h
      · cases h

theorem filter_rotate_loop (P : List Nat → Bool) (d base_path ext : List Nat) (epoch : Int)
    (hb : P base_path = false)
    (hs : ∀ counter name p, build_snapshot_name 64 epoch counter ext = some name →
      utils_join_path d name PATH_MAX = some p → P p = false) :
    ∀ (remaining counter : Nat) (fs fs2 : fs_t) (c : Nat),
      rotate_loop fs d base_path ext epoch remaining counter = .ok (fs2, c) →
      fs2.filter (fun e => P e.1) = fs.filter (fun e => P e.1) := by
  intro remaining
  induction remaining with
  | zero =>
    intro counter fs fs2 c h
    unfold rotate_loop at h
    injection h with h
    injection h with h1 _
    rw [← h1]
  | succ r ih =>
    intro counter fs fs2 c h
    unfold rotate_loop at h
    cases hbn : build_snapshot_name 64 epoch counter ext with
    | none => rw [hbn] at h; cases h
    | some name =>
      rw [hbn] at h
      simp only at h
      cases hj : utils_join_path d name PATH_MAX with
      | none => rw [hj] at h; cases h
      | some p =>
        rw [hj] at h
        simp only at h
        split at h
        · cases hr : sys_rename fs base_path p with
          | error e => rw [hr] at h; cases h
          | ok fs1 =>
            rw [hr] at h
            injection h with h
            injection h with h1 _
            rw [← h1]
            exact filter_sys_rename fs fs1 P base_path p hb (hs counter name p hbn hj) hr
        · exact ih (counter + 1) fs fs2 c h

theorem filter_unlink_snapshots (P : List Nat → Bool) (d : List Nat) :
    ∀ (entries : List snapshot_entry_t) (fs : fs_t),
      (∀ e ∈ entries, ∀ p, utils_join_path d e.name PATH_MAX = some p → P p = false) →
      (unlink_snapshots fs d entries).filter (fun e => P e.1) = fs.filter (fun e => P e.1) := by
  intro entries
  induction entries with
  | nil => intro fs _; rfl
  | cons e rest ih =>
    intro fs h
    unfold unlink_snapshots
    simp only
    rw [ih _ (fun x hx => h x (List.mem_cons_of_mem _ hx))]
    cases hj : utils_join_path d e.name PATH_MAX with
    | none => rfl
    | some p =>
      simp only
      exact filter_keep_unlink fs P p (h e (List.mem_cons_self _ _) p hj)

theorem mem_collect_snapshots (names : List (List Nat)) (ext : List Nat) (e : snapshot_entry_t)
    (h : e ∈ collect_snapshots names ext) :
    e.name ∈ names ∧ e.name.take 9 = str "snapshot-" := by
  unfold collect_snapshots at h
  obtain ⟨n, hn, he⟩ := List.mem_filterMap.1 h
  split at he
  · cases he
  · cases hp : parse_snapshot_filename n ext with
    | none => rw [hp] at he; cases he
    | some r =>
      rw [hp] at he
      simp only [Option.some.injEq] at he
      subst he
      refine ⟨hn, ?_⟩
      simp only
      unfold parse_snapshot_filename at hp
      by_cases h9 : n.take 9 = str "snapshot-"
      · exact h9
      · rw [if_pos h9] at hp
        cases hp

theorem filter_prune_snapshots_any (fs fs1 : fs_t) (P : List Nat → Bool) (d ext : List Nat)
    (hs : ∀ name p, name.take 9 = str "snapshot-" → 47 ∉ name →
      utils_join_path d name PATH_MAX = some p → P p = false)
    (h : prune_snapshots fs d ext = .ok fs1) :
    fs1.filter (fun e => P e.1) = fs.filter (fun e => P e.1) := by
  unfold prune_snapshots at h
  cases hr : sys_readdir fs d with
  | error e =>
    rw [hr] at h
    cases e <;> first | (injection h with h; rw [← h]) | cases h
  | ok names =>
    rw [hr] at h
    simp only at h
    have hnames : ∀ n ∈ names, 47 ∉ n := by
      unfold sys_readdir at hr
      split at hr
      · injection hr with hr
        intro n hn
        rw [← hr] at hn
        obtain ⟨e, _, he⟩ := List.mem_map.1 hn
        rw [← he]
        exact base_name_no_slash e.1
      · cases hr
      · cases hr
    split at h
    · injection h with h
      rw [← h]
    · injection h with h
      rw [← h]
      apply filter_unlink_snapshots
      intro e he p hj
      have he1 : e ∈ collect_snapshots names ext :=
        (List.perm_insertionSort _ _).subset (List.mem_of_mem_drop he)
      obtain ⟨hn, h9⟩ := mem_collect_snapshots names ext e he1
      exact hs e.name p h9 (hnames _ hn) hj

theorem build_snapshot_name_start (size : Nat) (epoch : Int) (counter : Nat)
    (ext name : List Nat) (h : build_snapshot_name size epoch counter ext = some name) :
    name.take 9 = str "snapshot-" := by
  obtain ⟨mid, _, hname⟩ := build_snapshot_name_shape size epoch counter ext name h
  rw [hname]
  simp [str]

/-- Whatever its result, `rotate_stdio_snapshot` touches only the last output
and paths of snapshot names. -/
theorem filter_rotate_any (fs : fs_t) (P : List Nat → Bool)
    (d base_filename ext : List Nat) (epoch : Int) (hslash : 47 ∉ ext)
    (hb : ∀ p, utils_join_path d base_filename PATH_MAX = some p → P p = false)
    (hs : ∀ name p, name.take 9 = str "snapshot-" → 47 ∉ name →
      utils_join_path d name PATH_MAX = some p → P p = false) :
    (rotate_stdio_snapshot fs d base_filename ext epoch).2.filter (fun e => P e.1) =
      fs.filter (fun e => P e.1) := by
  unfold rotate_stdio_snapshot
  cases hj : utils_join_path d base_filename PATH_MAX with
  | none => rfl
  | some base_path =>
    simp only
    have hPb := hb base_path hj
    have main : (match rotate_loop fs d base_path ext epoch 1000 0 with
        | .error e => ((Except.error e : Except Errno Unit), fs)
        | .ok (fs1, counter) =>
          match prune_snapshots
              (if counter ≥ 1000 then keep_on_error (sys_unlink fs1 base_path) fs1 else fs1)
              d ext with
          | .error e => (.error e,
              if counter ≥ 1000 then keep_on_error (sys_unlink fs1 base_path) fs1 else fs1)
          | .ok fs3 => (.ok (), fs3)).2.filter (fun e => P e.1) =
        fs.filter (fun e => P e.1) := by
      cases hl : rotate_loop fs d base_path ext epoch 1000 0 with
      | error e => rfl
      | ok r =>
        obtain ⟨fs1, counter⟩ := r
        simp only
        have h1 := filter_rotate_loop P d base_path ext epoch hPb
          (fun c name p hbn hjp => hs name p (build_snapshot_name_start 64 epoch c ext name hbn)
            (build_snapshot_name_no_slash 64 epoch c ext name hslash hbn) hjp)
          1000 0 fs fs1 counter hl
        have h2 : (if counter ≥ 1000 then keep_on_error (sys_unlink fs1 base_path) fs1
            else fs1).filter (fun e => P e.1) = fs.filter (fun e => P e.1) := by
          split
          · rw [filter_keep_unlink fs1 P base_path hPb, h1]
          · exact h1
        cases hp : prune_snapshots
            (if counter ≥ 1000 then keep_on_error (sys_unlink fs1 base_path) fs1 else fs1)
            d ext with
        | error e => exact h2
        | ok fs3 =>
          simp only
          rw [filter_prune_snapshots_any _ fs3 P d ext hs hp, h2]
    unfold sys_stat
    cases hf : fs_find fs base_path with
    | none => rfl
    | some n =>
      cases n with
      | dir => exact main
      | file c =>
        cases c with
        | nil => rfl
        | cons x xs => exact main

theorem filter_append_history_line_any (fs : fs_t) (P : List Nat → Bool) (d line : List Nat)
    (hp : ∀ p, utils_join_path d (str "history.log") PATH_MAX = some p → P p = false) :
    (append_history_line fs d line).2.filter (fun e => P e.1) = fs.filter (fun e => P e.1) := by
  unfold append_history_line
  cases hj : utils_join_path d (str "history.log") PATH_MAX with
  | none => rfl
  | some p =>
    simp only
    cases ho : sys_open_creat fs p false with
    | error e => rfl
    | ok fs2 =>
      simp only
      have h2 := filter_open_creat fs fs2 P p false (hp p hj) ho
      split
      · exact h2
      · cases hr : sys_read_file fs2 p with
        | error e => exact h2
        | ok old =>
          simp only
          rw [filter_fs_put _ P p _ (hp p hj), h2]

/-- Whatever its result, `storage_write_task` touches only the task file and
its temporary file. -/
theorem filter_storage_write_task_any (fs : fs_t) (P : List Nat → Bool)
    (paths : storage_paths_t) (task : task_t)
    (htmp : ∀ q, base_name q = str ".tmp" → P q = false)
    (hfile : ∀ q, base_name q = fmt_llu task.task_id ++ str ".task" → P q = false) :
    (storage_write_task fs paths task).2.filter (fun e => P e.1) =
      fs.filter (fun e => P e.1) := by
  unfold storage_write_task
  simp only
  split
  · rfl
  · cases hj : utils_join_path paths.tasks_dir (fmt_llu task.task_id ++ str ".task") PATH_MAX with
    | none => rfl
    | some final_path =>
      simp only
      have hns : 47 ∉ fmt_llu task.task_id ++ str ".task" := by
        intro hin
        rcases List.mem_append.1 hin with h1 | h1
        · have := fmt_llu_bytes task.task_id 47 h1
          omega
        · revert h1
          decide
      have hPf : P final_path = false := hfile _ (base_name_utils_join _ _ _ _ hns hj)
      unfold write_task_file
      cases hjt : utils_join_path final_path (str ".tmp") PATH_MAX with
      | none => rfl
      | some tmp_path =>
        simp only
        have hPt : P tmp_path = false := htmp _ (base_name_utils_join _ _ _ _ (by decide) hjt)
        cases ho : sys_open_creat fs tmp_path true with
        | error e => rfl
        | ok fs1 =>
          simp only
          have h1 := filter_open_creat fs fs1 P tmp_path true hPt ho
          cases write_task_file_text task with
          | none =>
            simp only
            rw [filter_keep_unlink fs1 P tmp_path hPt, h1]
          | some text =>
            simp only
            have h2 : (fs_put fs1 tmp_path (.file text)).filter (fun e => P e.1) =
                fs.filter (fun e => P e.1) := by
              rw [filter_fs_put _ P tmp_path _ hPt, h1]
            cases hr : sys_rename (fs_put fs1 tmp_path (.file text)) tmp_path final_path with
            | error e =>
              simp only
              rw [filter_keep_unlink _ P tmp_path hPt, h2]
            | ok fs3 =>
              simp only
              rw [filter_sys_rename _ fs3 P tmp_path final_path hPt hPf hr, h2]

theorem fs_find_of_filter (fs fs1 : fs_t) (h : List Nat)
    (hf : fs1.filter (fun e => (fun q => decide (q = h)) e.1) =
      fs.filter (fun e => (fun q => decide (q = h)) e.1)) :
    fs_find fs1 h = fs_find fs h := by
  have h1 := fs_find_filter_path fs1 (fun q => decide (q = h)) h (by simp)
  have h2 := fs_find_filter_path fs (fun q => decide (q = h)) h (by simp)
  rw [← h1, ← h2, hf]

theorem appended_to_same (fs fs1 : fs_t) (h : List Nat) (hf : fs_find fs1 h = fs_find fs h) :
    appended_to fs fs1 h [] := Or.inl ⟨hf, rfl⟩

theorem appended_to_content (fs fs1 : fs_t) (h text : List Nat)
    (ha : appended_to fs fs1 h text) :
    file_content fs1 h = file_content fs h ++ text ∧
    (fs_find fs h ≠ some .dir → fs_find fs1 h ≠ some .dir) := by
  rcases ha with ⟨hf, ht⟩ | ⟨hd, hf⟩
  · subst ht
    refine ⟨?_, fun hd => by rw [hf]; exact hd⟩
    unfold file_content
    rw [hf, List.append_nil]
  · refine ⟨?_, fun _ => by rw [hf]; simp⟩
    have : file_content fs1 h = file_content fs h ++ text := by
      conv_lhs => unfold file_content
      rw [hf]
    exact this

theorem appended_to_trans (fs fs1 fs2 : fs_t) (h t1 t2 : List Nat)
    (h1 : appended_to fs fs1 h t1) (h2 : appended_to fs1 fs2 h t2) :
    appended_to fs fs2 h (t1 ++ t2) := by
  obtain ⟨hc1, hd1⟩ := appended_to_content fs fs1 h t1 h1
  rcases h2 with ⟨hf2, ht2⟩ | ⟨hd2, hf2⟩
  · subst ht2
    rw [List.append_nil]
    rcases h1 with ⟨hf1, ht1⟩ | ⟨hd, hf1⟩
    · exact Or.inl ⟨by rw [hf2, hf1], ht1⟩
    · exact Or.inr ⟨hd, by rw [hf2, hf1]⟩
  · right
    rw [hf2, hc1, List.append_assoc]
    refine ⟨?_, rfl⟩
    rcases h1 with ⟨hf1, _⟩ | ⟨hd, _⟩
    · rw [← hf1]
      exact hd2
    · exact hd

theorem history_text_append (a b : List task_run_entry_t) :
    history_text (a ++ b) = history_text a ++ history_text b := by
  induction a with
  | nil => rfl
  | cons e rest ih =>
    show entry_line e ++ history_text (rest ++ b) = (entry_line e ++ history_text rest) ++ history_text b
    rw [ih, List.append_assoc]

/-- The path is none that is named `name`, when `name` is not `history.log`. -/
theorem not_history_path (h p name : List Nat) (hbase : base_name h = str "history.log")
    (hp : base_name p = name) (hname : name ≠ str "history.log") :
    (fun q => decide (q = h)) p = false := by
  simp only [decide_eq_false_iff_not]
  intro e
  rw [e, hbase] at hp
  exact hname hp.symm

theorem fmt_llu_not_history (n : Nat) (s : List Nat) : fmt_llu n ++ s ≠ str "history.log" := by
  intro e
  obtain ⟨c, t, hct⟩ := List.exists_cons_of_ne_nil (fmt_llu_ne_nil n)
  have hc := fmt_llu_bytes n c (by rw [hct]; exact List.mem_cons_self _ _)
  rw [hct] at e
  have : c = 104 := by
    have := congrArg List.head? e
    simpa [str] using this
  omega

/-- The end of `storage_append_history` on the file it appends to: the line
is appended or the content is left as it is. -/
theorem append_history_line_content (fs : fs_t) (d line h : List Nat)
    (hj : utils_join_path d (str "history.log") PATH_MAX = some h) :
    appended_to fs (append_history_line fs d line).2 h [] ∨
    appended_to fs (append_history_line fs d line).2 h line := by
  unfold append_history_line
  rw [hj]
  simp only
  cases ho : sys_open_creat fs h false with
  | error e => exact Or.inl (appended_to_same fs fs h rfl)
  | ok fs2 =>
    simp only
    have h2 : appended_to fs fs2 h [] ∧ fs_find fs h ≠ some .dir := by
      unfold sys_open_creat at ho
      cases hf : fs_find fs h with
      | some n =>
        rw [hf] at ho
        cases n with
        | file c =>
          simp only [Bool.false_eq_true, if_false] at ho
          injection ho with ho
          rw [← ho]
          exact ⟨appended_to_same fs fs h rfl, by simp⟩
        | dir => cases ho
      | none =>
        rw [hf] at ho
        simp only at ho
        split at ho
        · injection ho with ho
          rw [← ho]
          refine ⟨Or.inr ⟨by rw [hf]; simp, ?_⟩, by simp⟩
          rw [fs_find_append, hf]
          simp [file_content, hf]
        · cases ho
        · cases ho
    split
    · exact Or.inl h2.1
    · cases hr : sys_read_file fs2 h with
      | error e => exact Or.inl h2.1
      | ok old =>
        simp only
        right
        have hold : file_content fs2 h = old := by
          unfold sys_read_file at hr
          unfold file_content
          cases hf : fs_find fs2 h with
          | none => rw [hf] at hr; cases hr
          | some n =>
            rw [hf] at hr
            cases n with
            | dir => cases hr
            | file c =>
              injection hr
        refine Or.inr ⟨h2.2, ?_⟩
        rw [fs_find_put_same, ← hold, (appended_to_content fs fs2 h [] h2.1).1, List.append_nil]

/-- What `storage_append_history` does to a file named `history.log`, whatever
its result: the history line of the entry is appended, or the content is left
as it is. -/
theorem storage_append_history_content (fs : fs_t) (paths : storage_paths_t) (task_id : Nat)
    (entry : task_run_entry_t) (stdout_buf : Option (List Nat)) (stdout_len : Nat)
    (stderr_buf : Option (List Nat)) (stderr_len : Nat) (h : List Nat)
    (hbase : base_name h = str "history.log") :
    appended_to fs (storage_append_history fs paths task_id entry stdout_buf stdout_len
        stderr_buf stderr_len).2 h [] ∨
    appended_to fs (storage_append_history fs paths task_id entry stdout_buf stdout_len
        stderr_buf stderr_len).2 h (history_line entry stdout_len stderr_len) := by
  have hdigits : 47 ∉ fmt_llu task_id := by
    intro hin
    have := fmt_llu_bytes task_id 47 hin
    omega
  have hsnap : ∀ (d name p : List Nat), name.take 9 = str "snapshot-" → 47 ∉ name →
      utils_join_path d name PATH_MAX = some p → (fun q => decide (q = h)) p = false := by
    intro d name p h9 hns hjp
    apply not_history_path h p name hbase (base_name_utils_join _ _ _ _ hns hjp)
    intro e
    rw [e] at h9
    revert h9
    decide
  unfold storage_append_history
  simp only
  split
  · exact Or.inl (appended_to_same fs fs h rfl)
  · cases hjd : utils_join_path paths.logs_dir (fmt_llu task_id) PATH_MAX with
    | none => exact Or.inl (appended_to_same fs fs h rfl)
    | some d =>
      simp only
      have hPd : (fun q => decide (q = h)) d = false :=
        not_history_path h d _ hbase (base_name_utils_join _ _ _ _ hdigits hjd)
          (by have := fmt_llu_not_history task_id []
              rwa [List.append_nil] at this)
      cases he : ensure_directory fs d with
      | error e => exact Or.inl (appended_to_same fs fs h rfl)
      | ok fs1 =>
        simp only
        have f1 := filter_ensure_directory fs fs1 (fun q => decide (q = h)) d hPd he
        have f2 := filter_rotate_any fs1 (fun q => decide (q = h)) d (str "last.stdout")
          (str "stdout") entry.epoch (by decide)
          (fun p hjp => not_history_path h p _ hbase
            (base_name_utils_join _ _ _ _ (by decide) hjp) (by decide))
          (hsnap d)
        cases hr1 : rotate_stdio_snapshot fs1 d (str "last.stdout") (str "stdout") entry.epoch with
        | mk res1 fs2 =>
          rw [hr1] at f2
          simp only at f2
          have c2 : fs_find fs2 h = fs_find fs h :=
            fs_find_of_filter fs fs2 h (by rw [f2, f1])
          cases res1 with
          | error e => exact Or.inl (appended_to_same _ _ h c2)
          | ok u =>
            simp only
            have f3 := filter_rotate_any fs2 (fun q => decide (q = h)) d (str "last.stderr")
              (str "stderr") entry.epoch (by decide)
              (fun p hjp => not_history_path h p _ hbase
                (base_name_utils_join _ _ _ _ (by decide) hjp) (by decide))
              (hsnap d)
            cases hr2 : rotate_stdio_snapshot fs2 d (str "last.stderr") (str "stderr")
                entry.epoch with
            | mk res2 fs3 =>
              rw [hr2] at f3
              simp only at f3
              have c3 : fs_find fs3 h = fs_find fs h :=
                fs_find_of_filter fs fs3 h (by rw [f3, f2, f1])
              cases res2 with
              | error e => exact Or.inl (appended_to_same _ _ h c3)
              | ok u2 =>
                simp only
                cases hjo : utils_join_path d (str "last.stdout") PATH_MAX with
                | none => exact Or.inl (appended_to_same _ _ h c3)
                | some stdout_path =>
                  cases hje : utils_join_path d (str "last.stderr") PATH_MAX with
                  | none => exact Or.inl (appended_to_same _ _ h c3)
                  | some stderr_path =>
                    simp only
                    have hPo : (fun q => decide (q = h)) stdout_path = false :=
                      not_history_path h _ _ hbase
                        (base_name_utils_join _ _ _ _ (by decide) hjo) (by decide)
                    have hPe : (fun q => decide (q = h)) stderr_path = false :=
                      not_history_path h _ _ hbase
                        (base_name_utils_join _ _ _ _ (by decide) hje) (by decide)
                    cases hw1 : write_stdio_file fs3 stdout_path stdout_buf stdout_len with
                    | error e => exact Or.inl (appended_to_same _ _ h c3)
                    | ok fs4 =>
                      simp only
                      have f4 := filter_write_stdio_file fs3 fs4 (fun q => decide (q = h))
                        stdout_path stdout_buf stdout_len hPo hw1
                      have c4 : fs_find fs4 h = fs_find fs h :=
                        fs_find_of_filter fs fs4 h (by rw [f4, f3, f2, f1])
                      cases hw2 : write_stdio_file fs4 stderr_path stderr_buf stderr_len with
                      | error e => exact Or.inl (appended_to_same _ _ h c4)
                      | ok fs5 =>
                        simp only
                        have f5 := filter_write_stdio_file fs4 fs5 (fun q => decide (q = h))
                          stderr_path stderr_buf stderr_len hPe hw2
                        have c5 : fs_find fs5 h = fs_find fs h :=
                          fs_find_of_filter fs fs5 h (by rw [f5, f4, f3, f2, f1])
                        have h5 := appended_to_same fs fs5 h c5
                        by_cases hh : utils_join_path d (str "history.log") PATH_MAX = some h
                        · rcases append_history_line_content fs5 d
                            (history_line entry stdout_len stderr_len) h hh with ha | ha
                          · exact Or.inl (appended_to_trans fs fs5 _ h [] [] h5 ha)
                          · exact Or.inr (appended_to_trans fs fs5 _ h [] _ h5 ha)
                        · left
                          refine appended_to_same fs _ h ?_
                          rw [← c5]
                          apply fs_find_of_filter
                          refine filter_append_history_line_any fs5 (fun q => decide (q = h)) d _ ?_
                          intro p hp
                          simp only [decide_eq_false_iff_not]
                          intro e
                          exact hh (by rw [hp, e])

/-- What a firing does to a file named `history.log`: the line of one entry of
the epoch `when` is appended, or the content is left as it is. -/
theorem run_task_instance_content (ctx : erraid_context_t) (sys : daemon_sys) (i : Nat)
    (when : Int) (h : List Nat) (hbase : base_name h = str "history.log") :
    ∃ entries : List task_run_entry_t,
      appended_to sys.fs (run_task_instance ctx sys i when).2.fs h (history_text entries) ∧
      ∀ e ∈ entries, e.epoch = when := by
  have hnone : ∃ entries : List task_run_entry_t,
      appended_to sys.fs sys.fs h (history_text entries) ∧
      ∀ e ∈ entries, e.epoch = when :=
    ⟨[], appended_to_same _ _ h rfl, fun e he => by cases he⟩
  unfold run_task_instance
  cases ctx.plan[i]? with
  | none => exact hnone
  | some entry =>
    simp only
    cases ctx.tasks[entry.task_index]? with
    | none => exact hnone
    | some task =>
      simp only
      split
      · exact hnone
      · simp only
        have hw : ∀ fs1 : fs_t,
            appended_to fs1 (storage_write_task fs1 ctx.paths
              { task with last_run_epoch := when }).2 h [] := by
          intro fs1
          apply appended_to_same
          apply fs_find_of_filter
          exact filter_storage_write_task_any fs1 (fun q => decide (q = h)) ctx.paths _
            (fun q hq => not_history_path h q _ hbase hq (by decide))
            (fun q hq => not_history_path h q _ hbase hq (fmt_llu_not_history _ _))
        rcases storage_append_history_content sys.fs ctx.paths task.task_id
          { epoch := when
            status := if (executor_run_task { spawn := sys.spawn, realloc_ok := sys.realloc_ok }
                task).1 = true then
              (executor_run_task { spawn := sys.spawn, realloc_ok := sys.realloc_ok } task).2.status
              else -1
            stdout_len :=
              (executor_run_task { spawn := sys.spawn, realloc_ok := sys.realloc_ok }
                task).2.stdout_len
            stderr_len :=
              (executor_run_task { spawn := sys.spawn, realloc_ok := sys.realloc_ok }
                task).2.stderr_len } _ _ _ _ h hbase with hc | hc
        · refine ⟨[], ?_, fun e he => by cases he⟩
          have := appended_to_trans _ _ _ h [] [] hc (hw _)
          exact this
        · refine ⟨[{ epoch := when
                     status := if (executor_run_task
                         { spawn := sys.spawn, realloc_ok := sys.realloc_ok } task).1 = true then
                       (executor_run_task { spawn := sys.spawn, realloc_ok := sys.realloc_ok }
                         task).2.status
                       else -1
                     stdout_len := if (executor_run_task
                         { spawn := sys.spawn, realloc_ok := sys.realloc_ok } task).1 = true then
                       (executor_run_task { spawn := sys.spawn, realloc_ok := sys.realloc_ok }
                         task).2.stdout_len
                       else 0
                     stderr_len := if (executor_run_task
                         { spawn := sys.spawn, realloc_ok := sys.realloc_ok } task).1 = true then
                       (executor_run_task { spawn := sys.spawn, realloc_ok := sys.realloc_ok }
                         task).2.stderr_len
                       else 0 }], ?_, ?_⟩
          · have := appended_to_trans _ _ _ h _ [] hc (hw _)
            simp only [List.append_nil] at this
            simp only [history_text, List.append_nil]
            exact this
          · intro e he
            simp only [List.mem_singleton] at he
            rw [he]

theorem due_steps_content (now : Int) (h : List Nat) (hbase : base_name h = str "history.log") :
    ∀ (l : List Nat) (st : Bool × erraid_context_t × daemon_sys),
      ∃ entries : List task_run_entry_t,
        appended_to st.2.2.fs (l.foldl (due_step now) st).2.2.fs h (history_text entries) ∧
        ∀ e ∈ entries, e.epoch = now := by
  intro l
  induction l with
  | nil => intro st; exact ⟨[], appended_to_same _ _ h rfl, fun e he => by cases he⟩
  | cons i rest ih =>
    intro st
    rw [List.foldl_cons]
    obtain ⟨e2, hc2, he2⟩ := ih (due_step now st i)
    have hstep : ∃ entries : List task_run_entry_t,
        appended_to st.2.2.fs (due_step now st i).2.2.fs h (history_text entries) ∧
        ∀ e ∈ entries, e.epoch = now := by
      unfold due_step
      cases st.2.1.plan[i]? with
      | none => exact ⟨[], appended_to_same _ _ h rfl, fun e he => by cases he⟩
      | some entry =>
        simp only
        split
        · exact run_task_instance_content st.2.1 st.2.2 i now h hbase
        · exact ⟨[], appended_to_same _ _ h rfl, fun e he => by cases he⟩
    obtain ⟨e1, hc1, he1⟩ := hstep
    refine ⟨e1 ++ e2, ?_, ?_⟩
    · rw [history_text_append]
      exact appended_to_trans _ _ _ h _ _ hc1 hc2
    · intro e he
      rcases List.mem_append.1 he with h1 | h1
      · exact he1 e h1
      · exact he2 e h1

/-- What a call of `process_due_tasks` does to a file named `history.log`:
lines are appended whose epochs are clock readings of the call, in the order
of the readings. -/
theorem process_due_tasks_content (h : List Nat) (hbase : base_name h = str "history.log") :
    ∀ (clock : List (Option Int)) (ctx : erraid_context_t) (sys : daemon_sys),
      (clock.filterMap id).Pairwise (fun a b => a ≤ b) →
      ∃ entries : List task_run_entry_t,
        appended_to sys.fs (process_due_tasks clock ctx sys).2.2.fs h (history_text entries) ∧
        (entries.map (fun e => e.epoch)).Pairwise (fun a b => a ≤ b) ∧
        ∀ e ∈ entries, some e.epoch ∈ clock := by
  intro clock
  induction clock with
  | nil =>
    intro ctx sys _
    exact ⟨[], appended_to_same _ _ h rfl, by simp, fun e he => by cases he⟩
  | cons reading rest ih =>
    intro ctx sys hmono
    have hnone : ∃ entries : List task_run_entry_t,
        appended_to sys.fs sys.fs h (history_text entries) ∧
        (entries.map (fun e => e.epoch)).Pairwise (fun a b => a ≤ b) ∧
        ∀ e ∈ entries, some e.epoch ∈ reading :: rest :=
      ⟨[], appended_to_same _ _ h rfl, by simp, fun e he => by cases he⟩
    unfold process_due_tasks
    split
    · exact hnone
    · cases reading with
      | none => exact hnone
      | some now =>
        simp only
        have hm : (∀ b ∈ rest.filterMap id, now ≤ b) ∧
            (rest.filterMap id).Pairwise (fun a b => a ≤ b) := by
          simpa [List.filterMap_cons] using hmono
        obtain ⟨e1, hc1, he1⟩ := due_steps_content now h hbase (List.range ctx.plan_count)
          (false, ctx, sys)
        have hpass : appended_to sys.fs (due_pass ctx sys now).2.2.fs h (history_text e1) := hc1
        have hsorted1 : (e1.map (fun e => e.epoch)).Pairwise (fun a b => a ≤ b) := by
          rw [List.pairwise_map]
          apply List.pairwise_of_forall_mem_list
          intro a ha b hb
          rw [he1 a ha, he1 b hb]
        split
        · refine ⟨e1, hpass, hsorted1, ?_⟩
          intro e he
          rw [he1 e he]
          exact List.mem_cons_self _ _
        · obtain ⟨e2, hc2, hs2, he2⟩ := ih (due_pass ctx sys now).2.1 (due_pass ctx sys now).2.2
            hm.2
          refine ⟨e1 ++ e2, ?_, ?_, ?_⟩
          · rw [history_text_append]
            exact appended_to_trans _ _ _ h _ _ hpass hc2
          · rw [List.map_append, List.pairwise_append]
            refine ⟨hsorted1, hs2, ?_⟩
            intro a ha b hb
            obtain ⟨x, hx, rfl⟩ := List.mem_map.1 ha
            obtain ⟨y, hy, rfl⟩ := List.mem_map.1 hb
            rw [he1 x hx]
            apply hm.1
            exact List.mem_filterMap.2 ⟨some y.epoch, he2 y hy, rfl⟩
          · intro e he
            rcases List.mem_append.1 he with h1 | h1
            · rw [he1 e h1]
              exact List.mem_cons_self _ _
            · exact List.mem_cons_of_mem _ (he2 e h1)

theorem scan_run_content (h : List Nat) (hbase : base_name h = str "history.log") :
    ∀ (run : List (List (Option Int))) (ctx : erraid_context_t) (sys : daemon_sys),
      (run.flatten.filterMap id).Pairwise (fun a b => a ≤ b) →
      ∃ entries : List task_run_entry_t,
        appended_to sys.fs (scan_run run ctx sys).2.fs h (history_text entries) ∧
        (entries.map (fun e => e.epoch)).Pairwise (fun a b => a ≤ b) ∧
        ∀ e ∈ entries, some e.epoch ∈ run.flatten := by
  intro run
  induction run with
  | nil =>
    intro ctx sys _
    exact ⟨[], appended_to_same _ _ h rfl, by simp, fun e he => by cases he⟩
  | cons clock rest ih =>
    intro ctx sys hmono
    rw [List.flatten_cons, List.filterMap_append, List.pairwise_append] at hmono
    obtain ⟨hm1, hm2, hcross⟩ := hmono
    obtain ⟨e1, hc1, hs1, he1⟩ := process_due_tasks_content h hbase clock ctx sys hm1
    obtain ⟨e2, hc2, hs2, he2⟩ := ih (process_due_tasks clock ctx sys).2.1
      (process_due_tasks clock ctx sys).2.2 hm2
    refine ⟨e1 ++ e2, ?_, ?_, ?_⟩
    · unfold scan_run
      rw [history_text_append]
      exact appended_to_trans _ _ _ h _ _ hc1 hc2
    · rw [List.map_append, List.pairwise_append]
      refine ⟨hs1, hs2, ?_⟩
      intro a ha b hb
      obtain ⟨x, hx, rfl⟩ := List.mem_map.1 ha
      obtain ⟨y, hy, rfl⟩ := List.mem_map.1 hb
      exact hcross _ (List.mem_filterMap.2 ⟨some x.epoch, he1 x hx, rfl⟩) _
        (List.mem_filterMap.2 ⟨some y.epoch, he2 y hy, rfl⟩)
    · intro e he
      rw [List.flatten_cons]
      rcases List.mem_append.1 he with h1 | h1
      · exact List.mem_append_left _ (he1 e h1)
      · exact List.mem_append_right _ (he2 e h1)

/-! ## Reading the history back -/

theorem scan_digits_printed_end (n : Nat) (hn : n < 10 ^ 64) :
    scan_digits 10 (digits_aux 10 64 n []) 0 0 = (n, (digits_aux 10 64 n []).length, []) := by
  have h := scan_digits_digits_aux 10 (by omega) (by omega) 64 n hn 0 0 []
  rw [List.append_nil] at h
  rw [h]
  simp [scan_digits]

/-- Reading back a printed `long long` at the end of a string. -/
theorem strtoll_fmt_lld_end (e : Int) (hlo : -(2 ^ 63) ≤ e) (hhi : e < 2 ^ 63) :
    strtoll (fmt_lld e) 10 = { value := e, rest := [], converted := true, erange := false } := by
  have hn : e.natAbs < 10 ^ 64 := by
    have : e.natAbs ≤ 2 ^ 63 := by omega
    exact lt_of_le_of_lt this (by norm_num)
  obtain ⟨c, t, hct, hc⟩ := digits_aux_head e.natAbs
  have hscan := scan_digits_printed_end e.natAbs hn
  have hlen : (digits_aux 10 64 e.natAbs []).length ≠ 0 := by rw [hct]; simp
  unfold strtoll fmt_lld
  by_cases hneg : e < 0
  · rw [if_pos hneg]
    have hs : strto_scan (45 :: digits_aux 10 64 e.natAbs []) 10 =
        (true, e.natAbs, (digits_aux 10 64 e.natAbs []).length, []) := by
      unfold strto_scan
      have h45 : isspace 45 = false := by decide
      simp only [List.dropWhile, h45, strto_sign, strto_prefix_ten]
      change (true, (scan_digits 10 (digits_aux 10 64 e.natAbs []) 0 0).1,
        (scan_digits 10 (digits_aux 10 64 e.natAbs []) 0 0).2.1,
        (scan_digits 10 (digits_aux 10 64 e.natAbs []) 0 0).2.2) = _
      rw [hscan]
    rw [hs]
    simp only [hlen, if_false, if_true]
    have hle : ¬ (e.natAbs > 2 ^ 63) := by omega
    rw [if_neg hle]
    congr 1
    omega
  · rw [if_neg hneg]
    have hs : strto_scan (digits_aux 10 64 e.natAbs []) 10 =
        (false, e.natAbs, (digits_aux 10 64 e.natAbs []).length, []) := by
      rw [hct, strto_scan_digit_head c _ hc, ← hct, hscan]
    rw [hs]
    simp only [hlen, if_false, Bool.false_eq_true]
    have hle : ¬ (e.natAbs > 2 ^ 63 - 1) := by omega
    rw [if_neg hle]
    congr 1
    omega

/-- Reading back a printed `unsigned long long` at the end of a string. -/
theorem strtoull_fmt_llu_end (n : Nat) (hn : n < 2 ^ 64) :
    strtoull (fmt_llu n) 10 = { value := n, rest := [], converted := true, erange := false } := by
  have hmod : n % 2 ^ 64 = n := Nat.mod_eq_of_lt hn
  have hlt : n < 10 ^ 64 := lt_trans hn (by norm_num)
  obtain ⟨c, t, hct, hc⟩ := digits_aux_head n
  have hscan := scan_digits_printed_end n hlt
  have hlen : (digits_aux 10 64 n []).length ≠ 0 := by rw [hct]; simp
  unfold strtoull fmt_llu
  rw [hmod]
  have hs : strto_scan (digits_aux 10 64 n []) 10 =
      (false, n, (digits_aux 10 64 n []).length, []) := by
    rw [hct, strto_scan_digit_head c _ hc, ← hct, hscan]
  rw [hs]
  simp only [hlen, if_false, Bool.false_eq_true]
  have hle : ¬ (n > 2 ^ 64 - 1) := by omega
  rw [if_neg hle]

theorem strtok_space_token (tok rest : List Nat) (hne : tok ≠ [])
    (hns : ∀ c ∈ tok, c ≠ 32) :
    strtok_space (tok ++ 32 :: rest) = some (tok, rest) := by
  obtain ⟨c, t, rfl⟩ := List.exists_cons_of_ne_nil hne
  have hc : c ≠ 32 := hns c (List.mem_cons_self _ _)
  have hd : (c :: t ++ 32 :: rest).dropWhile (fun c => decide (c = 32)) = c :: t ++ 32 :: rest := by
    simp [List.dropWhile, hc]
  have htw : (c :: t ++ 32 :: rest).takeWhile (fun c => decide (c ≠ 32)) = c :: t := by
    rw [List.takeWhile_append_of_pos (by simpa using hns)]
    simp [List.takeWhile]
  have hdw : (c :: t ++ 32 :: rest).dropWhile (fun c => decide (c ≠ 32)) = 32 :: rest := by
    rw [List.dropWhile_append_of_pos (by simpa using hns)]
    simp [List.dropWhile]
  unfold strtok_space
  simp only [hd, htw, hdw]
  simp

theorem strtok_space_last (tok : List Nat) (hne : tok ≠ []) (hns : ∀ c ∈ tok, c ≠ 32) :
    strtok_space tok = some (tok, []) := by
  obtain ⟨c, t, rfl⟩ := List.exists_cons_of_ne_nil hne
  have hc : c ≠ 32 := hns c (List.mem_cons_self _ _)
  have hd : (c :: t).dropWhile (fun c => decide (c = 32)) = c :: t := by
    simp [List.dropWhile, hc]
  have htw : (c :: t).takeWhile (fun c => decide (c ≠ 32)) = c :: t := by
    rw [List.takeWhile_eq_self_iff]
    simpa using hns
  have hdw : (c :: t).dropWhile (fun c => decide (c ≠ 32)) = [] := by
    rw [List.dropWhile_eq_nil_iff]
    simpa using hns
  unfold strtok_space
  simp only [hd, htw, hdw]
  simp

theorem fmt_lld_ne_nil (n : Int) : fmt_lld n ≠ [] := by
  unfold fmt_lld
  split
  · simp
  · exact digits_aux_ne_nil 10 63 _

theorem fmt_lld_plain (n : Int) : ∀ c ∈ fmt_lld n, c ≠ 32 ∧ c ≠ 10 ∧ c ≠ 0 := by
  intro c hc
  rcases fmt_lld_bytes n c hc with h | h <;> omega

theorem fmt_llu_plain (n : Nat) : ∀ c ∈ fmt_llu n, c ≠ 32 ∧ c ≠ 10 ∧ c ≠ 0 := by
  intro c hc
  have := fmt_llu_bytes n c hc
  omega

/-- The history line of an entry without its newline. -/
theorem entry_line_eq (e : task_run_entry_t) :
    entry_line e = (fmt_lld e.epoch ++ 32 :: (fmt_lld e.status ++ 32 ::
      (fmt_llu e.stdout_len ++ 32 :: fmt_llu e.stderr_len))) ++ [10] := by
  unfold entry_line history_line
  simp

/-- A history line is read back as its entry. -/
theorem parse_history_entry_line (e : task_run_entry_t) (hr : entry_in_range e) :
    parse_history_entry (fmt_lld e.epoch ++ 32 :: (fmt_lld e.status ++ 32 ::
      (fmt_llu e.stdout_len ++ 32 :: fmt_llu e.stderr_len))) = some e := by
  obtain ⟨⟨h1, h2⟩, ⟨h3, h4⟩, h5, h6⟩ := hr
  unfold parse_history_entry
  rw [strtok_space_token _ _ (fmt_lld_ne_nil _) (fun c hc => (fmt_lld_plain _ c hc).1)]
  simp only
  have hp : parse_int64 (fmt_lld e.epoch) = some e.epoch := by
    unfold parse_int64
    rw [strtoll_fmt_lld_end e.epoch h1 h2]
    simp [trim_whitespace]
  rw [hp]
  simp only
  rw [strtok_space_token _ _ (fmt_lld_ne_nil _) (fun c hc => (fmt_lld_plain _ c hc).1)]
  simp only
  rw [strtoll_fmt_lld_end e.status (by omega) (by omega)]
  simp only [Bool.true_eq_false, ne_eq, not_true_eq_false, or_self, if_false]
  rw [strtok_space_token _ _ (fmt_llu_ne_nil _) (fun c hc => (fmt_llu_plain _ c hc).1)]
  simp only
  rw [strtoull_fmt_llu_end e.stdout_len h5]
  simp only [Bool.true_eq_false, ne_eq, not_true_eq_false, or_self, if_false]
  rw [strtok_space_last _ (fmt_llu_ne_nil _) (fun c hc => (fmt_llu_plain _ c hc).1)]
  simp only
  rw [strtoull_fmt_llu_end e.stderr_len h6]
  simp only [Bool.true_eq_false, ne_eq, not_true_eq_false, or_self, if_false]
  have hs : int32_of_long e.status = e.status := by
    unfold int32_of_long
    split <;> omega
  rw [hs]

theorem entry_body_plain (e : task_run_entry_t) :
    ∀ c ∈ fmt_lld e.epoch ++ 32 :: (fmt_lld e.status ++ 32 ::
      (fmt_llu e.stdout_len ++ 32 :: fmt_llu e.stderr_len)), c ≠ 10 ∧ c ≠ 0 := by
  intro c hc
  simp only [List.mem_append, List.mem_cons] at hc
  rcases hc with h | h | h | h | h | h | h
  · exact (fmt_lld_plain _ c h).2
  · omega
  · exact (fmt_lld_plain _ c h).2
  · omega
  · exact (fmt_llu_plain _ c h).2
  · omega
  · exact (fmt_llu_plain _ c h).2

/-- The loop of `storage_load_history` reads the lines of entries back in
their order. -/
theorem load_history_loop_text :
    ∀ (entries : List task_run_entry_t) (fuel : Nat) (acc : List task_run_entry_t),
      (∀ e ∈ entries, entry_in_range e) → entries.length < fuel →
      load_history_loop fuel (history_text entries) acc = some (acc ++ entries) := by
  intro entries
  induction entries with
  | nil =>
    intro fuel acc _ hf
    obtain ⟨f, rfl⟩ : ∃ f, fuel = f + 1 := ⟨fuel - 1, by simp at hf; omega⟩
    simp [load_history_loop, history_text]
  | cons e rest ih =>
    intro fuel acc hr hf
    obtain ⟨f, rfl⟩ : ∃ f, fuel = f + 1 := ⟨fuel - 1, by simp at hf; omega⟩
    have hbody := entry_body_plain e
    generalize hb : fmt_lld e.epoch ++ 32 :: (fmt_lld e.status ++ 32 ::
      (fmt_llu e.stdout_len ++ 32 :: fmt_llu e.stderr_len)) = body at hbody
    have hparse : parse_history_entry body = some e := by
      rw [← hb]
      exact parse_history_entry_line e (hr e (List.mem_cons_self _ _))
    have hne : body ≠ [] := by
      rw [← hb]
      intro h0
      have := congrArg List.length h0
      simp at this
    have htext : history_text (e :: rest) = body ++ 10 :: history_text rest := by
      show entry_line e ++ history_text rest = _
      rw [entry_line_eq, hb]
      simp
    have htw : (body ++ 10 :: history_text rest).takeWhile (fun c => decide (c ≠ 10)) = body := by
      rw [List.takeWhile_append_of_pos (by
        intro c hc
        simpa using (hbody c hc).1)]
      simp [List.takeWhile]
    unfold load_history_loop
    rw [htext, if_neg (by simp), htw]
    simp only [hne, ne_eq, not_false_eq_true, if_true, hparse, Option.map_some']
    rw [if_pos (by simp)]
    have hdrop : (body ++ 10 :: history_text rest).drop (body.length + 1) = history_text rest := by
      rw [List.drop_append_eq_append_drop]
      simp
    rw [hdrop, ih f (acc ++ [e]) (fun x hx => hr x (List.mem_cons_of_mem _ hx))
      (by simp only [List.length_cons] at hf; omega)]
    simp

theorem history_text_plain (entries : List task_run_entry_t) :
    ∀ c ∈ history_text entries, c ≠ 0 := by
  induction entries with
  | nil => intro c hc; cases hc
  | cons e rest ih =>
    intro c hc
    have hc1 : c ∈ entry_line e ++ history_text rest := hc
    rw [entry_line_eq] at hc1
    rcases List.mem_append.1 hc1 with h | h
    · rcases List.mem_append.1 h with h | h
      · exact (entry_body_plain e c h).2
      · simp only [List.mem_singleton] at h
        omega
    · exact ih c h

theorem history_text_length (entries : List task_run_entry_t) :
    entries.length ≤ (history_text entries).length := by
  induction entries with
  | nil => simp [history_text]
  | cons e rest ih =>
    have h1 : (history_text (e :: rest)).length =
        (entry_line e).length + (history_text rest).length := by
      show (entry_line e ++ history_text rest).length = _
      rw [List.length_append]
    rw [h1, entry_line_eq]
    simp only [List.length_cons, List.length_append, List.length_nil]
    omega

/-- C24. History is monotone per task. For every task identifier, with `h` the
path of the task's `history.log`, every state and every run of due-scans (the
successive calls of `process_due_tasks`, each with the clock readings of its
passes) whose clock readings are non-decreasing: the content of `history.log`
after the run is its content before the run followed by the history lines of
a list of entries, so lines are only appended; the epochs of these entries, in
the order of their lines, are non-decreasing, and each is a clock reading of
the run. When `history.log` was absent or empty before the run and the fields
of the entries are values of their C types, `storage_load_history` reads back
exactly these entries, in the same order. -/
theorem history_monotone (run : List (List (Option Int))) (ctx : erraid_context_t)
    (sys : daemon_sys) (task_id : Nat) (h : List Nat)
    (hpath : utils_join_path3 ctx.paths.logs_dir (fmt_llu task_id) (str "history.log") PATH_MAX =
      some h)
    (hmono : (run.flatten.filterMap id).Pairwise (fun a b => a ≤ b)) :
    ∃ entries : List task_run_entry_t,
      file_content (scan_run run ctx sys).2.fs h =
        file_content sys.fs h ++ history_text entries ∧
      (entries.map (fun e => e.epoch)).Pairwise (fun a b => a ≤ b) ∧
      (∀ e ∈ entries, some e.epoch ∈ run.flatten) ∧
      ((fs_find sys.fs h = none ∨ fs_find sys.fs h = some (.file [])) →
        (∀ e ∈ entries, entry_in_range e) →
        storage_load_history (scan_run run ctx sys).2.fs ctx.paths task_id = .ok entries) := by
  have hbase : base_name h = str "history.log" := by
    unfold utils_join_path3 at hpath
    cases hj : utils_join_path ctx.paths.logs_dir (fmt_llu task_id) PATH_MAX with
    | none => rw [hj] at hpath; cases hpath
    | some d =>
      rw [hj] at hpath
      exact base_name_utils_join _ _ _ _ (by decide) hpath
  obtain ⟨entries, ha, hs, he⟩ := scan_run_content h hbase run ctx sys hmono
  obtain ⟨hc, hd⟩ := appended_to_content _ _ h _ ha
  refine ⟨entries, hc, hs, he, ?_⟩
  intro hstart hrange
  have hc0 : file_content sys.fs h = [] := by
    unfold file_content
    rcases hstart with h0 | h0 <;> rw [h0]
  have hnd : fs_find (scan_run run ctx sys).2.fs h ≠ some .dir :=
    hd (by rcases hstart with h0 | h0 <;> rw [h0] <;> simp)
  rw [hc0, List.nil_append] at hc
  unfold storage_load_history
  have hl := fmt_llu_length task_id
  simp only
  rw [if_neg (by omega), hpath]
  simp only [sys_read_file]
  cases hf : fs_find (scan_run run ctx sys).2.fs h with
  | none =>
    simp only [if_true]
    have h0 : history_text entries = [] := by
      rw [← hc]
      unfold file_content
      rw [hf]
    have hlen := history_text_length entries
    rw [h0] at hlen
    have : entries = [] := List.eq_nil_of_length_eq_zero (by simpa using hlen)
    rw [this]
  | some n =>
    cases n with
    | dir => exact absurd hf hnd
    | file data =>
      simp only
      have hdata : data = history_text entries := by
        rw [← hc]
        unfold file_content
        rw [hf]
      have htw : data.takeWhile (fun c => decide (c ≠ 0)) = data := by
        rw [List.takeWhile_eq_self_iff]
        intro c hc1
        rw [hdata] at hc1
        simpa using history_text_plain entries c hc1
      rw [htw, hdata, load_history_loop_text entries _ [] hrange
        (by have := history_text_length entries; omega)]
      rfl

theorem history_monotone_witness :
    (∃ entries : List task_run_entry_t,
      file_content (scan_run [[some 130, some 131], [some 200, some 201]] due_ctx due_world).2.fs
          (str "/run/logs/1/history.log") =
        file_content due_world.fs (str "/run/logs/1/history.log") ++ history_text entries ∧
      (entries.map (fun e => e.epoch)).Pairwise (fun a b => a ≤ b) ∧
      (∀ e ∈ entries,
        some e.epoch ∈ [[some 130, some 131], [some (200 : Int), some 201]].flatten) ∧
      ((fs_find due_world.fs (str "/run/logs/1/history.log") = none ∨
          fs_find due_world.fs (str "/run/logs/1/history.log") = some (.file [])) →
        (∀ e ∈ entries, entry_in_range e) →
        storage_load_history
          (scan_run [[some 130, some 131], [some 200, some 201]] due_ctx due_world).2.fs
          due_ctx.paths 1 = .ok entries)) ∧
    file_content (scan_run [[some 130, some 131], [some 200, some 201]] due_ctx due_world).2.fs
      (str "/run/logs/1/history.log") = str "130 0 6 0\n200 0 6 0\n" :=
  ⟨history_monotone [[some 130, some 131], [some 200, some 201]] due_ctx due_world 1
    (str "/run/logs/1/history.log") (by decide) (by decide), by decide⟩

/-- The flag `append_buffer` leaves, under a positive limit: the old flag, or
true when bytes were offered that do not all fit. -/
theorem append_buffer_flag (ok : Nat → Bool) (b b1 : capture_t) (src : List Nat)
    (n limit : Nat) (hlimit : 0 < limit)
    (h : append_buffer ok b (some src) n limit = some b1) :
    b1.truncated = (b.truncated || decide (n ≠ 0 ∧ limit < b.length + n)) := by
  unfold append_buffer at h
  simp only at h
  by_cases hn : n = 0
  · simp only [hn, if_true, Option.some.injEq] at h
    subst h
    simp [hn]
  · simp only [hn, if_false] at h
    by_cases hfull : limit > 0 ∧ b.length ≥ limit
    · simp only [hfull, and_self, if_true, Option.some.injEq] at h
      subst h
      have : limit < b.length + n := by omega
      simp [hn, this]
    · rw [if_neg hfull] at h
      by_cases hclip : limit > 0 ∧ b.length + n > limit
      · have hlt : limit < b.length + n := hclip.2
        simp only [hclip, and_self, decide_True, if_true] at h
        have e : (b.truncated || decide (n ≠ 0 ∧ limit < b.length + n)) = true := by
          simp [hn, hlt]
        rw [e]
        repeat' split at h
        all_goals first
          | (simp only [Option.some.injEq] at h; subst h; rfl)
          | cases h
      · have hnlt : ¬ limit < b.length + n := fun h' => hclip ⟨hlimit, h'⟩
        simp only [hclip, decide_False, if_false, Bool.false_eq_true] at h
        have e : (b.truncated || decide (n ≠ 0 ∧ limit < b.length + n)) = b.truncated := by
          simp [hnlt]
        rw [e]
        repeat' split at h
        all_goals first
          | (simp only [Option.some.injEq] at h; subst h; rfl)
          | cases h

/-- The flag `read_fd_into_buffer` keeps while it reads: true exactly when the
buffer holds `limit` bytes. -/
theorem read_fd_loop_flag (ok : Nat → Bool) (limit : Nat) (hlimit : 0 < limit) :
    ∀ (fd : List read_result) (b b1 : capture_t), stream_clean fd → b.length ≤ limit →
      b.truncated = decide (limit ≤ b.length) →
      read_fd_loop ok limit fd b = some b1 →
      b1.truncated = decide (limit ≤ b1.length) := by
  intro fd
  induction fd with
  | nil =>
    intro b b1 _ _ hf h
    simp only [read_fd_loop, Option.some.injEq] at h
    subst h
    exact hf
  | cons r rest ih =>
    intro b b1 hclean hb hf h
    cases r with
    | eintr =>
      simp only [read_fd_loop] at h
      exact ih b b1 hclean hb hf h
    | error => exact absurd hclean (by simp [stream_clean])
    | data chunk =>
      obtain ⟨hne, hrest⟩ := hclean
      have hlen : chunk.length ≠ 0 := fun h0 => hne (List.eq_nil_of_length_eq_zero h0)
      simp only [read_fd_loop, hlen, if_false] at h
      generalize hcl : (if limit > 0 then
          (if (if limit > b.length then limit - b.length else 0) < chunk.length
            then (if limit > b.length then limit - b.length else 0) else chunk.length)
          else chunk.length) = copy_len at h
      have hcopy : copy_len ≤ chunk.length ∧ b.length + copy_len ≤ limit := by
        rw [← hcl]
        rw [if_pos hlimit]
        split_ifs <;> omega
      cases ha : append_buffer ok b (some chunk) copy_len limit with
      | none => rw [ha] at h; cases h
      | some b2 =>
        rw [ha] at h
        simp only at h
        have hbytes := append_buffer_bytes ok b b2 chunk copy_len limit hlimit hb ha
        have hflag := append_buffer_flag ok b b2 chunk copy_len limit hlimit ha
        have hb2len : b2.length = b.length + copy_len := by
          unfold capture_t.length
          rw [hbytes, List.length_take, List.length_append, List.length_take]
          have : b.bytes.length = b.length := rfl
          omega
        have hfl2 : b2.truncated = b.truncated := by
          rw [hflag]
          have : ¬ (copy_len ≠ 0 ∧ limit < b.length + copy_len) := by omega
          simp [this]
        apply ih _ b1 hrest _ _ h
        · split
          · show b2.length ≤ limit
            omega
          · omega
        · split
          · rename_i hc
            show true = decide (limit ≤ b2.length)
            simp [hc.2.1]
          · rename_i hc
            rw [hfl2, hf]
            by_cases h1 : limit ≤ b2.length
            · have : b2.truncated = true := by
                by_contra hneg
                apply hc
                refine ⟨hlimit, h1, ?_⟩
                simp [hneg]
              rw [hfl2, hf] at this
              rw [this]
              simp [h1]
            · have : ¬ limit ≤ b.length := by omega
              simp [h1, this]

/-- The flag `read_fd_into_buffer` reports for a fresh buffer: true exactly
when the pipe delivers at least `limit` bytes. -/
theorem read_fd_into_buffer_flag (ok : Nat → Bool) (limit : Nat) (hlimit : 0 < limit)
    (fd : List read_result) (hclean : stream_clean fd) (b : capture_t)
    (h : read_fd_into_buffer ok fd none false limit = some b) :
    b.truncated = decide (limit ≤ (stream_bytes fd).length) := by
  have hbytes := read_fd_into_buffer_bytes ok limit hlimit fd hclean b h
  have hlenb : b.length = min limit (stream_bytes fd).length := by
    unfold capture_t.length
    rw [hbytes, List.length_take]
  have key : b.truncated = decide (limit ≤ b.length) := by
    unfold read_fd_into_buffer at h
    simp only at h
    cases hl : read_fd_loop ok limit fd { buffer := none, capacity := 0, truncated := false } with
    | none => rw [hl] at h; cases h
    | some b1 =>
      rw [hl] at h
      have hf1 := read_fd_loop_flag ok limit hlimit fd _ b1 hclean
        (by simp [capture_t.length, capture_t.bytes])
        (by simp [capture_t.length, capture_t.bytes]; omega) hl
      cases hbuf : b1.buffer with
      | some bytes =>
        simp only [hbuf, Option.some.injEq] at h
        subst h
        exact hf1
      | none =>
        simp only [hbuf] at h
        split at h
        · simp only [Option.some.injEq] at h
          subst h
          have e : b1.length = 0 := by simp [capture_t.length, capture_t.bytes, hbuf]
          rw [e] at hf1
          simpa [capture_t.length, capture_t.bytes] using hf1
        · cases h
  rw [key, hlenb]
  by_cases h1 : limit ≤ (stream_bytes fd).length
  · simp [h1]
  · have : ¬ limit ≤ min limit (stream_bytes fd).length := by omega
    simp [h1, this]

/-- What `run_single_command` reports for a command whose pipes deliver their
bytes without error: in each stream the first 65536 bytes, and a flag that is
true exactly when the stream delivered at least 65536 bytes. -/
theorem run_single_command_flags (sys : exec_sys) (command : command_t) (child : child_t)
    (r : command_result_t) (hsp : sys.spawn command = some child)
    (hco : stream_clean child.stdout_pipe) (hce : stream_clean child.stderr_pipe)
    (h : run_single_command sys command = some r) :
    r.stdout_buf = (stream_bytes child.stdout_pipe).take 65536 ∧
    r.stdout_truncated = decide (65536 ≤ (stream_bytes child.stdout_pipe).length) ∧
    r.stderr_buf = (stream_bytes child.stderr_pipe).take 65536 ∧
    r.stderr_truncated = decide (65536 ≤ (stream_bytes child.stderr_pipe).length) := by
  unfold run_single_command at h
  split at h
  · cases h
  · rw [hsp] at h
    simp only at h
    cases ho : read_fd_into_buffer sys.realloc_ok child.stdout_pipe none false
        ERRAID_MAX_STDIO_SNAPSHOT with
    | none => rw [ho] at h; simp at h
    | some o =>
      rw [ho] at h
      simp only at h
      cases he : read_fd_into_buffer sys.realloc_ok child.stderr_pipe none false
          ERRAID_MAX_STDIO_SNAPSHOT with
      | none => rw [he] at h; simp at h
      | some e =>
        rw [he] at h
        cases hw : child.wait with
        | none => rw [hw] at h; simp at h
        | some w =>
          rw [hw] at h
          simp only [Option.some.injEq] at h
          subst h
          exact ⟨read_fd_into_buffer_bytes sys.realloc_ok _ (by decide) _ hco o ho,
            read_fd_into_buffer_flag sys.realloc_ok _ (by decide) _ hco o ho,
            read_fd_into_buffer_bytes sys.realloc_ok _ (by decide) _ hce e he,
            read_fd_into_buffer_flag sys.realloc_ok _ (by decide) _ hce e he⟩

/-- One turn of the loop of `executor_run_task`: the flags of the command just
run replace the flags held so far, and become true when the capture of that
command does not fit in what is left of the 65536 bytes. -/
theorem run_commands_loop_step (sys : exec_sys) (type : task_type_t) (command : command_t)
    (rest : List command_t) (st st1 : run_state_t) (r : command_result_t)
    (hr : run_single_command sys command = some r)
    (hout : st.out.length ≤ ERRAID_MAX_STDIO_SNAPSHOT)
    (herr : st.err.length ≤ ERRAID_MAX_STDIO_SNAPSHOT)
    (h : run_commands_loop sys type (command :: rest) st = .ok st1) :
    ∃ mid : run_state_t,
      mid.out.bytes = (st.out.bytes ++ r.stdout_buf).take 65536 ∧
      mid.err.bytes = (st.err.bytes ++ r.stderr_buf).take 65536 ∧
      mid.out.truncated = (r.stdout_truncated ||
        decide (r.stdout_buf.length ≠ 0 ∧ 65536 < st.out.length + r.stdout_buf.length)) ∧
      mid.err.truncated = (r.stderr_truncated ||
        decide (r.stderr_buf.length ≠ 0 ∧ 65536 < st.err.length + r.stderr_buf.length)) ∧
      (if type = .TASK_TYPE_SIMPLE then st1 = mid
       else run_commands_loop sys type rest mid = .ok st1) := by
  rw [run_commands_loop] at h
  simp only [hr] at h
  cases ho : append_buffer sys.realloc_ok { st.out with truncated := r.stdout_truncated }
      (some r.stdout_buf) r.stdout_buf.length ERRAID_MAX_STDIO_SNAPSHOT with
  | none => rw [ho] at h; cases h
  | some o1 =>
    rw [ho] at h
    simp only at h
    cases he : append_buffer sys.realloc_ok { st.err with truncated := r.stderr_truncated }
        (some r.stderr_buf) r.stderr_buf.length ERRAID_MAX_STDIO_SNAPSHOT with
    | none => rw [he] at h; cases h
    | some e1 =>
      rw [he] at h
      simp only at h
      refine ⟨{ out := o1, err := e1, status := r.status }, ?_, ?_, ?_, ?_, ?_⟩
      · have := append_buffer_bytes sys.realloc_ok _ o1 r.stdout_buf r.stdout_buf.length
          ERRAID_MAX_STDIO_SNAPSHOT (by decide) (by exact hout) ho
        rw [List.take_length] at this
        exact this
      · have := append_buffer_bytes sys.realloc_ok _ e1 r.stderr_buf r.stderr_buf.length
          ERRAID_MAX_STDIO_SNAPSHOT (by decide) (by exact herr) he
        rw [List.take_length] at this
        exact this
      · exact append_buffer_flag sys.realloc_ok _ o1 r.stdout_buf r.stdout_buf.length
          ERRAID_MAX_STDIO_SNAPSHOT (by decide) ho
      · exact append_buffer_flag sys.realloc_ok _ e1 r.stderr_buf r.stderr_buf.length
          ERRAID_MAX_STDIO_SNAPSHOT (by decide) he
      · split
        · rename_i hs
          rw [if_pos hs] at h
          cases h
          rfl
        · rename_i hs
          rw [if_neg hs] at h
          exact h

/-- The length of what a pipe of `k` equal chunks delivers. -/
theorem stream_bytes_replicate (chunk : List Nat) :
    ∀ k : Nat, (stream_bytes (List.replicate k (.data chunk))).length = k * chunk.length := by
  intro k
  induction k with
  | zero => simp [stream_bytes]
  | succ k ih =>
    rw [List.replicate_succ, stream_bytes, List.length_append, ih]
    rw [Nat.succ_mul]
    omega

theorem stream_clean_replicate (chunk : List Nat) (hne : chunk ≠ []) :
    ∀ k : Nat, stream_clean (List.replicate k (.data chunk)) := by
  intro k
  induction k with
  | zero => simp [stream_clean]
  | succ k ih =>
    rw [List.replicate_succ]
    exact ⟨hne, ih⟩

theorem flood_sys_full :
    flood_sys.spawn ⟨[str "/bin/full"]⟩ =
      some { stdout_pipe := full_pipe, stderr_pipe := full_pipe, wait := some (.exited 0) } := by
  simp [flood_sys, str]

theorem flood_sys_flood :
    flood_sys.spawn ⟨[str "/bin/flood"]⟩ =
      some { stdout_pipe := flood_pipe, stderr_pipe := flood_pipe, wait := some (.exited 0) } := by
  simp [flood_sys, str]

theorem flood_sys_true :
    flood_sys.spawn ⟨[str "/bin/true"]⟩ =
      some { stdout_pipe := [], stderr_pipe := [], wait := some (.exited 0) } := by
  simp [flood_sys, str]

theorem chunk_ne_nil : List.replicate 4096 65 ≠ ([] : List Nat) := by
  intro h
  have := congrArg List.length h
  rw [List.length_replicate] at this
  cases this

theorem full_pipe_facts :
    stream_clean full_pipe ∧ (stream_bytes full_pipe).length = 65536 :=
  ⟨stream_clean_replicate _ chunk_ne_nil 16, by
    unfold full_pipe
    rw [stream_bytes_replicate, List.length_replicate]⟩

theorem flood_pipe_facts :
    stream_clean flood_pipe ∧ (stream_bytes flood_pipe).length = 69632 :=
  ⟨stream_clean_replicate _ chunk_ne_nil 17, by
    unfold flood_pipe
    rw [stream_bytes_replicate, List.length_replicate]⟩

theorem flood_sys_runs (c : command_t)
    (hc : c = ⟨[str "/bin/full"]⟩ ∨ c = ⟨[str "/bin/flood"]⟩ ∨ c = ⟨[str "/bin/true"]⟩) :
    command_runs flood_sys c := by
  rcases hc with h | h | h
  · subst h
    exact ⟨by simp, _, flood_sys_full, full_pipe_facts.1, full_pipe_facts.1, rfl⟩
  · subst h
    exact ⟨by simp, _, flood_sys_flood, flood_pipe_facts.1, flood_pipe_facts.1, rfl⟩
  · subst h
    exact ⟨by simp, _, flood_sys_true, trivial, trivial, rfl⟩

/-- C31. The truncation flag of `executor_run_task` is not "some byte of the
stream was discarded". (1) The SIMPLE task `/bin/full` prints exactly 65536
bytes on each stream; the run completes, every byte is kept, and both flags
are true. (2) The SEQUENCE task `/bin/flood; /bin/true` prints 69632 bytes on
each stream; the run completes, 65536 bytes are kept in each stream (4096 are
discarded), and both flags are false, because the second command prints
nothing and `run_single_command` overwrites the flags of the task with those
of the command it ran. -/
theorem truncation_flag_diverges :
    (stream_bytes full_pipe).length = 65536 ∧
    (∃ res, executor_run_task flood_sys full_task = (true, res) ∧
      res.stdout_buf.getD [] = stream_bytes full_pipe ∧ res.stdout_truncated = true ∧
      res.stderr_buf.getD [] = stream_bytes full_pipe ∧ res.stderr_truncated = true) ∧
    (stream_bytes flood_pipe).length = 69632 ∧
    (∃ res, executor_run_task flood_sys flood_task = (true, res) ∧
      res.stdout_len = 65536 ∧ res.stdout_truncated = false ∧
      res.stderr_len = 65536 ∧ res.stderr_truncated = false) := by
  have hok : ∀ n, flood_sys.realloc_ok n = true := fun _ => rfl
  have hst0 : ∀ st : run_state_t,
      st = { out := { buffer := none, capacity := 0, truncated := false }
             err := { buffer := none, capacity := 0, truncated := false }
             status := 0 } →
      st.out.length = 0 ∧ st.err.length = 0 ∧ st.out.bytes = [] ∧ st.err.bytes = [] := by
    intro st h; subst h; exact ⟨rfl, rfl, rfl, rfl⟩
  refine ⟨full_pipe_facts.2, ?_, flood_pipe_facts.2, ?_⟩
  · obtain ⟨st1, h1⟩ := run_commands_loop_total flood_sys hok full_task.type full_task.commands
      { out := { buffer := none, capacity := 0, truncated := false }
        err := { buffer := none, capacity := 0, truncated := false }
        status := 0 }
      (by
        intro c hc
        apply flood_sys_runs
        left
        simpa [executed_of, full_task] using hc)
    obtain ⟨r, hr⟩ := run_single_command_total flood_sys hok ⟨[str "/bin/full"]⟩
      (flood_sys_runs _ (Or.inl rfl))
    obtain ⟨rb, rf, eb, ef⟩ := run_single_command_flags flood_sys _ _ r flood_sys_full
      full_pipe_facts.1 full_pipe_facts.1 hr
    simp only at rb rf eb ef
    have hlen := full_pipe_facts.2
    rw [List.take_of_length_le (by omega)] at rb eb
    obtain ⟨z1, z2, z3, z4⟩ := hst0 _ rfl
    obtain ⟨mid, m1, m2, m3, m4, m5⟩ := run_commands_loop_step flood_sys full_task.type
      ⟨[str "/bin/full"]⟩ [] _ st1 r hr (by rw [z1]; decide) (by rw [z2]; decide) h1
    rw [if_pos (by rfl)] at m5
    subst m5
    rw [z3, List.nil_append, rb, List.take_of_length_le (by omega)] at m1
    rw [z4, List.nil_append, eb, List.take_of_length_le (by omega)] at m2
    rw [rf, hlen] at m3
    rw [ef, hlen] at m4
    refine ⟨{ stdout_buf := st1.out.buffer, stderr_buf := st1.err.buffer, status := st1.status,
                stdout_truncated := st1.out.truncated, stderr_truncated := st1.err.truncated },
      ?_, ?_, ?_, ?_, ?_⟩
    · unfold executor_run_task
      rw [if_neg (by decide)]
      rw [h1]
    · exact m1
    · rw [m3]; rfl
    · exact m2
    · rw [m4]; rfl
  · obtain ⟨st1, h1⟩ := run_commands_loop_total flood_sys hok flood_task.type
      flood_task.commands
      { out := { buffer := none, capacity := 0, truncated := false }
        err := { buffer := none, capacity := 0, truncated := false }
        status := 0 }
      (by
        intro c hc
        apply flood_sys_runs
        right
        simpa [executed_of, flood_task] using hc)
    obtain ⟨r, hr⟩ := run_single_command_total flood_sys hok ⟨[str "/bin/flood"]⟩
      (flood_sys_runs _ (Or.inr (Or.inl rfl)))
    obtain ⟨rb, rf, eb, ef⟩ := run_single_command_flags flood_sys _ _ r flood_sys_flood
      flood_pipe_facts.1 flood_pipe_facts.1 hr
    simp only at rb rf eb ef
    obtain ⟨r2, hr2⟩ := run_single_command_total flood_sys hok ⟨[str "/bin/true"]⟩
      (flood_sys_runs _ (Or.inr (Or.inr rfl)))
    obtain ⟨rb2, rf2, eb2, ef2⟩ := run_single_command_flags flood_sys _ _ r2 flood_sys_true
      trivial trivial hr2
    have hlen := flood_pipe_facts.2
    obtain ⟨z1, z2, z3, z4⟩ := hst0 _ rfl
    obtain ⟨mid, m1, m2, m3, m4, m5⟩ := run_commands_loop_step flood_sys flood_task.type
      ⟨[str "/bin/flood"]⟩ [⟨[str "/bin/true"]⟩] _ st1 r hr (by rw [z1]; decide)
      (by rw [z2]; decide) h1
    rw [if_neg (by decide)] at m5
    rw [z3, List.nil_append, rb, List.take_take] at m1
    rw [z4, List.nil_append, eb, List.take_take] at m2
    have l1 : mid.out.length = 65536 := by
      unfold capture_t.length; rw [m1, List.length_take]; omega
    have l2 : mid.err.length = 65536 := by
      unfold capture_t.length; rw [m2, List.length_take]; omega
    obtain ⟨fin, f1, f2, f3, f4, f5⟩ := run_commands_loop_step flood_sys flood_task.type
      ⟨[str "/bin/true"]⟩ [] mid st1 r2 hr2 (by rw [l1]; decide) (by rw [l2]; decide) m5
    rw [if_neg (by decide)] at f5
    simp only [run_commands_loop, Except.ok.injEq] at f5
    subst f5
    simp only [stream_bytes, List.take_nil, List.length_nil] at rb2 rf2 eb2 ef2
    rw [rb2, List.append_nil] at f1
    rw [eb2, List.append_nil] at f2
    rw [rf2, rb2] at f3
    rw [ef2, eb2] at f4
    refine ⟨{ stdout_buf := fin.out.buffer, stderr_buf := fin.err.buffer, status := fin.status,
                stdout_truncated := fin.out.truncated, stderr_truncated := fin.err.truncated },
      ?_, ?_, ?_, ?_, ?_⟩
    · unfold executor_run_task
      rw [if_neg (by decide)]
      rw [h1]
    · show (fin.out.buffer.getD []).length = 65536
      have : fin.out.bytes.length = 65536 := by
        rw [f1, List.length_take]; have := l1; unfold capture_t.length at this; omega
      exact this
    · rw [f3]; rfl
    · show (fin.err.buffer.getD []).length = 65536
      have : fin.err.bytes.length = 65536 := by
        rw [f2, List.length_take]; have := l2; unfold capture_t.length at this; omega
      exact this
    · rw [f4]; rfl

/-- The loop of `executor_run_task` treats every type other than SIMPLE
alike. -/
theorem run_commands_loop_not_simple (sys : exec_sys) (t1 t2 : task_type_t)
    (h1 : t1 ≠ .TASK_TYPE_SIMPLE) (h2 : t2 ≠ .TASK_TYPE_SIMPLE) :
    ∀ (commands : List command_t) (st : run_state_t),
      run_commands_loop sys t1 commands st = run_commands_loop sys t2 commands st := by
  intro commands
  induction commands with
  | nil => intro st; rfl
  | cons c rest ih =>
    intro st
    rw [run_commands_loop, run_commands_loop]
    cases run_single_command sys c with
    | none => rfl
    | some r =>
      simp only
      cases append_buffer sys.realloc_ok { st.out with truncated := r.stdout_truncated }
          (some r.stdout_buf) r.stdout_buf.length ERRAID_MAX_STDIO_SNAPSHOT with
      | none => rfl
      | some o1 =>
        simp only
        cases append_buffer sys.realloc_ok { st.err with truncated := r.stderr_truncated }
            (some r.stderr_buf) r.stderr_buf.length ERRAID_MAX_STDIO_SNAPSHOT with
        | none => rfl
        | some e1 =>
          simp only
          rw [if_neg h1, if_neg h2]
          exact ih _

/-- C34, counterexample. `executor_run_task` does not look at the ABSTRACT type:
given an ABSTRACT task that holds the command `/bin/echo A`, it forks the
command and returns its output `A\n`. -/
theorem abstract_task_command_is_run :
    abstract_echo_task.type = .TASK_TYPE_ABSTRACT ∧
    executor_run_task echo_sys abstract_echo_task =
      (true, { stdout_buf := some (str "A\n"), stderr_buf := none, status := 0,
               stdout_truncated := false, stderr_truncated := false }) := by
  decide

/-- C34, amended. For every task of type ABSTRACT without commands,
`executor_run_task` returns success with status 0 and empty stdout and stderr
buffers (NULL pointers, lengths 0, flags false) whatever the system does, in
particular in a system where every fork fails: no command is run. An ABSTRACT
task that holds commands is run exactly like the SEQUENCE task with the same
commands. -/
theorem abstract_task_run (task : task_t) (habs : task.type = .TASK_TYPE_ABSTRACT) :
    (task.commands = [] →
      (∀ sys, executor_run_task sys task = (true, executor_result_zero)) ∧
      executor_run_task dead_sys task = (true, executor_result_zero) ∧
      executor_result_zero.status = 0 ∧
      executor_result_zero.stdout_len = 0 ∧ executor_result_zero.stderr_len = 0) ∧
    (∀ sys, executor_run_task sys task =
      executor_run_task sys { task with type := .TASK_TYPE_SEQUENCE }) := by
  constructor
  · intro h0
    have key : ∀ sys, executor_run_task sys task = (true, executor_result_zero) := by
      intro sys
      unfold executor_run_task
      rw [if_pos (by rw [h0]; rfl)]
      rfl
    exact ⟨key, key dead_sys, rfl, rfl, rfl⟩
  · intro sys
    unfold executor_run_task
    simp only
    rw [habs, run_commands_loop_not_simple sys .TASK_TYPE_ABSTRACT .TASK_TYPE_SEQUENCE
      (by decide) (by decide)]

/-- C34, at concrete tasks: the ABSTRACT task without commands returns the
zeroed result in `echo_sys`, and the ABSTRACT task holding `/bin/echo A` runs
like its SEQUENCE twin. -/
theorem abstract_task_run_witness :
    abstract_empty_task.type = .TASK_TYPE_ABSTRACT ∧
    executor_run_task echo_sys abstract_empty_task = (true, executor_result_zero) ∧
    executor_run_task echo_sys abstract_echo_task =
      executor_run_task echo_sys { abstract_echo_task with type := .TASK_TYPE_SEQUENCE } :=
  ⟨rfl, ((abstract_task_run abstract_empty_task rfl).1 rfl).1 echo_sys,
    (abstract_task_run abstract_echo_task rfl).2 echo_sys⟩

/-- The end of `storage_append_history`, when it succeeds: the line is
appended to `history.log`. -/
theorem append_history_line_ok_content (fs : fs_t) (d line h : List Nat)
    (hj : utils_join_path d (str "history.log") PATH_MAX = some h) :
    (append_history_line fs d line).1 = .ok () →
    appended_to fs (append_history_line fs d line).2 h line := by
  unfold append_history_line
  rw [hj]
  simp only
  cases ho : sys_open_creat fs h false with
  | error e => intro hok; cases hok
  | ok fs2 =>
    simp only
    have h2 : appended_to fs fs2 h [] ∧ fs_find fs h ≠ some .dir := by
      unfold sys_open_creat at ho
      cases hf : fs_find fs h with
      | some n =>
        rw [hf] at ho
        cases n with
        | file c =>
          simp only [Bool.false_eq_true, if_false] at ho
          injection ho with ho
          rw [← ho]
          exact ⟨appended_to_same fs fs h rfl, by simp⟩
        | dir => cases ho
      | none =>
        rw [hf] at ho
        simp only at ho
        split at ho
        · injection ho with ho
          rw [← ho]
          refine ⟨Or.inr ⟨by rw [hf]; simp, ?_⟩, by simp⟩
          rw [fs_find_append, hf]
          simp [file_content, hf]
        · cases ho
        · cases ho
    split
    · intro hok; cases hok
    · cases hr : sys_read_file fs2 h with
      | error e => intro hok; cases hok
      | ok old =>
        simp only
        intro _
        have hold : file_content fs2 h = old := by
          unfold sys_read_file at hr
          unfold file_content
          cases hf : fs_find fs2 h with
          | none => rw [hf] at hr; cases hr
          | some n =>
            rw [hf] at hr
            cases n with
            | dir => cases hr
            | file c =>
              injection hr
        refine Or.inr ⟨h2.2, ?_⟩
        rw [fs_find_put_same, ← hold, (appended_to_content fs fs2 h [] h2.1).1, List.append_nil]

/-- What a successful `storage_append_history` does to the `history.log` of
the task: the history line of the entry is appended. -/
theorem storage_append_history_ok_content (fs : fs_t) (paths : storage_paths_t) (task_id : Nat)
    (entry : task_run_entry_t) (stdout_buf : Option (List Nat)) (stdout_len : Nat)
    (stderr_buf : Option (List Nat)) (stderr_len : Nat) (h : List Nat)
    (hpath : utils_join_path3 paths.logs_dir (fmt_llu task_id) (str "history.log") PATH_MAX =
      some h) :
    (storage_append_history fs paths task_id entry stdout_buf stdout_len
        stderr_buf stderr_len).1 = .ok () →
    appended_to fs (storage_append_history fs paths task_id entry stdout_buf stdout_len
        stderr_buf stderr_len).2 h (history_line entry stdout_len stderr_len) := by
  have hdigits : 47 ∉ fmt_llu task_id := by
    intro hin
    have := fmt_llu_bytes task_id 47 hin
    omega
  unfold utils_join_path3 at hpath
  cases hjd : utils_join_path paths.logs_dir (fmt_llu task_id) PATH_MAX with
  | none => rw [hjd] at hpath; cases hpath
  | some d =>
  rw [hjd] at hpath
  simp only at hpath
  have hbase : base_name h = str "history.log" :=
    base_name_utils_join _ _ _ _ (by decide) hpath
  have hsnap : ∀ (d name p : List Nat), name.take 9 = str "snapshot-" → 47 ∉ name →
      utils_join_path d name PATH_MAX = some p → (fun q => decide (q = h)) p = false := by
    intro d name p h9 hns hjp
    apply not_history_path h p name hbase (base_name_utils_join _ _ _ _ hns hjp)
    intro e
    rw [e] at h9
    revert h9
    decide
  unfold storage_append_history
  simp only
  split
  · intro hok; cases hok
  · rw [hjd]
    simp only
    have hPd : (fun q => decide (q = h)) d = false :=
      not_history_path h d _ hbase (base_name_utils_join _ _ _ _ hdigits hjd)
        (by have := fmt_llu_not_history task_id []
            rwa [List.append_nil] at this)
    cases he : ensure_directory fs d with
    | error e => intro hok; cases hok
    | ok fs1 =>
      simp only
      have f1 := filter_ensure_directory fs fs1 (fun q => decide (q = h)) d hPd he
      have f2 := filter_rotate_any fs1 (fun q => decide (q = h)) d (str "last.stdout")
        (str "stdout") entry.epoch (by decide)
        (fun p hjp => not_history_path h p _ hbase
          (base_name_utils_join _ _ _ _ (by decide) hjp) (by decide))
        (hsnap d)
      cases hr1 : rotate_stdio_snapshot fs1 d (str "last.stdout") (str "stdout") entry.epoch with
      | mk res1 fs2 =>
        rw [hr1] at f2
        simp only at f2
        cases res1 with
        | error e => intro hok; cases hok
        | ok u =>
          simp only
          have f3 := filter_rotate_any fs2 (fun q => decide (q = h)) d (str "last.stderr")
            (str "stderr") entry.epoch (by decide)
            (fun p hjp => not_history_path h p _ hbase
              (base_name_utils_join _ _ _ _ (by decide) hjp) (by decide))
            (hsnap d)
          cases hr2 : rotate_stdio_snapshot fs2 d (str "last.stderr") (str "stderr")
              entry.epoch with
          | mk res2 fs3 =>
            rw [hr2] at f3
            simp only at f3
            cases res2 with
            | error e => intro hok; cases hok
            | ok u2 =>
              simp only
              cases hjo : utils_join_path d (str "last.stdout") PATH_MAX with
              | none => intro hok; cases hok
              | some stdout_path =>
                cases hje : utils_join_path d (str "last.stderr") PATH_MAX with
                | none => intro hok; cases hok
                | some stderr_path =>
                  simp only
                  have hPo : (fun q => decide (q = h)) stdout_path = false :=
                    not_history_path h _ _ hbase
                      (base_name_utils_join _ _ _ _ (by decide) hjo) (by decide)
                  have hPe : (fun q => decide (q = h)) stderr_path = false :=
                    not_history_path h _ _ hbase
                      (base_name_utils_join _ _ _ _ (by decide) hje) (by decide)
                  cases hw1 : write_stdio_file fs3 stdout_path stdout_buf stdout_len with
                  | error e => intro hok; cases hok
                  | ok fs4 =>
                    simp only
                    have f4 := filter_write_stdio_file fs3 fs4 (fun q => decide (q = h))
                      stdout_path stdout_buf stdout_len hPo hw1
                    cases hw2 : write_stdio_file fs4 stderr_path stderr_buf stderr_len with
                    | error e => intro hok; cases hok
                    | ok fs5 =>
                      simp only
                      have f5 := filter_write_stdio_file fs4 fs5 (fun q => decide (q = h))
                        stderr_path stderr_buf stderr_len hPe hw2
                      have c5 : fs_find fs5 h = fs_find fs h :=
                        fs_find_of_filter fs fs5 h (by rw [f5, f4, f3, f2, f1])
                      have h5 := appended_to_same fs fs5 h c5
                      intro hok
                      have ha := append_history_line_ok_content fs5 d
                        (history_line entry stdout_len stderr_len) h hpath hok
                      exact appended_to_trans fs fs5 _ h [] _ h5 ha

/-- What `storage_load_history` returns when `history.log` holds the history
lines of `entries`: these entries, in the order of their lines. -/
theorem storage_load_history_text (fs : fs_t) (paths : storage_paths_t) (task_id : Nat)
    (h : List Nat) (entries : List task_run_entry_t)
    (hpath : utils_join_path3 paths.logs_dir (fmt_llu task_id) (str "history.log") PATH_MAX =
      some h)
    (hnd : fs_find fs h ≠ some .dir) (hc : file_content fs h = history_text entries)
    (hrange : ∀ e ∈ entries, entry_in_range e) :
    storage_load_history fs paths task_id = .ok entries := by
  unfold storage_load_history
  have hl := fmt_llu_length task_id
  simp only
  rw [if_neg (by omega), hpath]
  simp only [sys_read_file]
  cases hf : fs_find fs h with
  | none =>
    simp only [if_true]
    have h0 : history_text entries = [] := by
      rw [← hc]
      unfold file_content
      rw [hf]
    have hlen := history_text_length entries
    rw [h0] at hlen
    have : entries = [] := List.eq_nil_of_length_eq_zero (by simpa using hlen)
    rw [this]
  | some n =>
    cases n with
    | dir => exact absurd hf hnd
    | file data =>
      simp only
      have hdata : data = history_text entries := by
        rw [← hc]
        unfold file_content
        rw [hf]
      have htw : data.takeWhile (fun c => decide (c ≠ 0)) = data := by
        rw [List.takeWhile_eq_self_iff]
        intro c hc1
        rw [hdata] at hc1
        simpa using history_text_plain entries c hc1
      rw [htw, hdata, load_history_loop_text entries _ [] hrange
        (by have := history_text_length entries; omega)]
      rfl

theorem run_entry_ok_in_range (e : task_run_entry_t) (h : run_entry_ok e) : entry_in_range e := by
  obtain ⟨⟨h1, h2⟩, ⟨h3, h4⟩, h5, h6⟩ := h
  refine ⟨⟨h1, h2⟩, ⟨by omega, by omega⟩, by omega, by omega⟩

/-- The file `history.log` after a series of successful appends: its former
content followed by the lines of the entries, in the order of the calls. -/
theorem append_history_runs_content (paths : storage_paths_t) (task_id : Nat) (h : List Nat)
    (hpath : utils_join_path3 paths.logs_dir (fmt_llu task_id) (str "history.log") PATH_MAX =
      some h) :
    ∀ (runs : List (task_run_entry_t × Option (List Nat) × Option (List Nat))) (fs fs1 : fs_t),
      append_history_runs paths task_id runs fs = (.ok (), fs1) →
      appended_to fs fs1 h (history_text (runs.map (fun r => r.1))) := by
  intro runs
  induction runs with
  | nil =>
    intro fs fs1 hr
    simp only [append_history_runs, Prod.mk.injEq, true_and] at hr
    subst hr
    exact appended_to_same fs fs h rfl
  | cons r rest ih =>
    intro fs fs1 hr
    obtain ⟨e, out, err⟩ := r
    rw [append_history_runs] at hr
    have hstep := storage_append_history_ok_content fs paths task_id e out e.stdout_len err
      e.stderr_len h hpath
    cases hs : storage_append_history fs paths task_id e out e.stdout_len err e.stderr_len with
    | mk res fs2 =>
      rw [hs] at hr hstep
      cases res with
      | error x => simp at hr
      | ok u =>
        simp only at hr hstep
        have h1 := hstep trivial
        have h2 := ih fs2 fs1 hr
        exact appended_to_trans fs fs2 fs1 h _ _ h1 h2

/-- C33. History line round trip. (1) For every run entry (an `int64_t` epoch, a
status from -1 to 255, lengths up to 65536), the line that
`storage_append_history` writes is `"<epoch> <status> <stdout_len>
<stderr_len>"` followed by a newline, and `parse_history_entry` applied to the
line without its newline returns the entry with the same four values. (2) When
`history.log` is absent or empty and `k` calls of `storage_append_history`
succeed one after the other, the file holds the `k` lines in the order of the
calls and `storage_load_history` returns exactly the `k` entries, in that
order. -/
theorem history_round_trip (e : task_run_entry_t) (he : run_entry_ok e)
    (paths : storage_paths_t) (task_id : Nat) (h : List Nat)
    (hpath : utils_join_path3 paths.logs_dir (fmt_llu task_id) (str "history.log") PATH_MAX =
      some h)
    (runs : List (task_run_entry_t × Option (List Nat) × Option (List Nat)))
    (hruns : ∀ r ∈ runs, run_entry_ok r.1) (fs fs1 : fs_t)
    (hfresh : fs_find fs h = none ∨ fs_find fs h = some (.file []))
    (happend : append_history_runs paths task_id runs fs = (.ok (), fs1)) :
    history_line e e.stdout_len e.stderr_len =
      (fmt_lld e.epoch ++ [32] ++ fmt_lld e.status ++ [32] ++ fmt_llu e.stdout_len ++ [32] ++
        fmt_llu e.stderr_len) ++ [10] ∧
    parse_history_entry (fmt_lld e.epoch ++ [32] ++ fmt_lld e.status ++ [32] ++
      fmt_llu e.stdout_len ++ [32] ++ fmt_llu e.stderr_len) = some e ∧
    file_content fs1 h = history_text (runs.map (fun r => r.1)) ∧
    storage_load_history fs1 paths task_id = .ok (runs.map (fun r => r.1)) := by
  have hbody : fmt_lld e.epoch ++ [32] ++ fmt_lld e.status ++ [32] ++ fmt_llu e.stdout_len ++
      [32] ++ fmt_llu e.stderr_len =
      fmt_lld e.epoch ++ 32 :: (fmt_lld e.status ++ 32 ::
        (fmt_llu e.stdout_len ++ 32 :: fmt_llu e.stderr_len)) := by
    simp
  have ha := append_history_runs_content paths task_id h hpath runs fs fs1 happend
  obtain ⟨hc, hd⟩ := appended_to_content _ _ h _ ha
  have hc0 : file_content fs h = [] := by
    unfold file_content
    rcases hfresh with h0 | h0 <;> rw [h0]
  have hnd : fs_find fs1 h ≠ some .dir :=
    hd (by rcases hfresh with h0 | h0 <;> rw [h0] <;> simp)
  rw [hc0, List.nil_append] at hc
  refine ⟨rfl, ?_, hc, ?_⟩
  · rw [hbody]
    exact parse_history_entry_line e (run_entry_ok_in_range e he)
  · apply storage_load_history_text fs1 paths task_id h _ hpath hnd hc
    intro x hx
    obtain ⟨r, hr, rfl⟩ := List.mem_map.1 hx
    exact run_entry_ok_in_range _ (hruns r hr)

/-- C33, at a concrete store: three runs of task 1 appended to a fresh store are
read back as the same three entries, and the first line is `-5 -1 0 0`. -/
theorem history_round_trip_witness :
    run_entry_ok { epoch := -5, status := -1, stdout_len := 0, stderr_len := 0 } ∧
    (append_history_runs run_paths 1 three_runs fresh_fs).1 = .ok () ∧
    parse_history_entry (str "-5 -1 0 0") =
      some { epoch := -5, status := -1, stdout_len := 0, stderr_len := 0 } ∧
    file_content (append_history_runs run_paths 1 three_runs fresh_fs).2
        (str "/run/logs/1/history.log") =
      str "-5 -1 0 0\n1700000000 0 2 0\n1700000060 137 0 3\n" ∧
    storage_load_history (append_history_runs run_paths 1 three_runs fresh_fs).2 run_paths 1 =
      .ok [{ epoch := -5, status := -1, stdout_len := 0, stderr_len := 0 },
           { epoch := 1700000000, status := 0, stdout_len := 2, stderr_len := 0 },
           { epoch := 1700000060, status := 137, stdout_len := 0, stderr_len := 3 }] := by
  have hw := history_round_trip { epoch := -5, status := -1, stdout_len := 0, stderr_len := 0 }
    (by decide) run_paths 1 (str "/run/logs/1/history.log") (by decide) three_runs (by decide)
    fresh_fs (append_history_runs run_paths 1 three_runs fresh_fs).2 (by decide)
    (Prod.ext (by decide) rfl)
  refine ⟨by decide, by decide, ?_, ?_, hw.2.2.2⟩
  · have h2 := hw.2.1
    have e : str "-5 -1 0 0" = fmt_lld (-5) ++ [32] ++ fmt_lld (-1) ++ [32] ++ fmt_llu 0 ++
        [32] ++ fmt_llu 0 := by decide
    rw [e]
    exact h2
  · rw [hw.2.2.1]
    decide

/-- C32. Malformed schedule masks are not rejected. `parse_schedule_field`
converts the three values with `strtoull`/`strtoul` in base 16 and checks
neither their lengths nor their digits: for the schedule
`"minutes":"zz","hours":"","weekdays":"1FF"` it returns the masks 0, 0 and
0xFF, for SIMPLE as for SEQUENCE. The creation request goes on: in a store
where the task file can be written the task is created and the reply is
`RSP_CREATE` with `"status":"OK"`; in a fresh store the reply is
`PERSISTENCE_ERROR`. In neither is it `INVALID_REQUEST`. -/
theorem malformed_masks_accepted :
    parse_schedule_field create_malformed_masks_payload .TASK_TYPE_SIMPLE =
      some { minute_mask := 0, hour_mask := 0, weekday_mask := 255, enabled := true } ∧
    parse_schedule_field create_malformed_masks_payload .TASK_TYPE_SEQUENCE =
      some { minute_mask := 0, hour_mask := 0, weekday_mask := 255, enabled := true } ∧
    (handle_create_task idle_ctx (world_of writable_fs 100) MSG_REQ_CREATE_SIMPLE
      create_malformed_masks_payload).1 = 0 ∧
    (handle_create_task idle_ctx (world_of writable_fs 100) MSG_REQ_CREATE_SIMPLE
      create_malformed_masks_payload).2.1.tasks =
        [{ task_id := 1, type := .TASK_TYPE_SIMPLE, commands := [⟨[str "/bin/true"]⟩]
           schedule := { minute_mask := 0, hour_mask := 0, weekday_mask := 255, enabled := true }
           last_run_epoch := -1 }] ∧
    (handle_create_task idle_ctx (world_of writable_fs 100) MSG_REQ_CREATE_SIMPLE
      create_malformed_masks_payload).2.2.reply_pipe.written =
        record_bytes MSG_RSP_CREATE (str "\x7b\"status\":\"OK\",\"task_id\":1\x7d") ∧
    fs_find (handle_create_task idle_ctx (world_of writable_fs 100) MSG_REQ_CREATE_SIMPLE
      create_malformed_masks_payload).2.2.fs (str "/run/tasks/1.task") =
        some (.file (str "1\nSIMPLE\n1\n[\"/bin/true\"]\n000000000000000\n000000\n7F\n0\n-1\n")) ∧
    (handle_create_task idle_ctx (world_of fresh_fs 100) MSG_REQ_CREATE_SEQUENCE
      create_malformed_masks_payload).2.2.reply_pipe.written =
        record_bytes MSG_RSP_ERROR
          (error_payload (str "PERSISTENCE_ERROR")
            (str "\xc3\x89criture de la t\xc3\xa2che impossible")) := by
  decide

/-- The next occurrence after `now` is none (-1) or strictly after `now`. -/
theorem scheduler_next_occurrence_after (lt : Int → Option tm) (s : schedule_t) (now : Int) :
    scheduler_next_occurrence lt s now = -1 ∨ now < scheduler_next_occurrence lt s now := by
  by_cases hne : scheduler_next_occurrence lt s now = -1
  · exact Or.inl hne
  · right
    generalize hr : scheduler_next_occurrence lt s now = r at hne
    unfold scheduler_next_occurrence at hr
    cases hen : s.enabled with
    | false => simp [hen] at hr; omega
    | true =>
      simp only [hen, Bool.not_true, Bool.false_eq_true, if_false] at hr
      obtain ⟨k, _, hk, _⟩ := next_occurrence_loop_sound lt s _ _ r hr hne
      by_cases hneg : now < 0
      · simp only [hneg, if_true] at hk
        simp at hk
        omega
      · simp only [hneg, if_false] at hk
        rw [Int.tmod_eq_emod (by omega) (by omega)] at hk
        omega

/-- A pass over a plan without a due entry does nothing. -/
theorem due_pass_idle (ctx : erraid_context_t) (sys : daemon_sys) (now : Int)
    (h : ∀ i e, i < ctx.plan_count → ctx.plan[i]? = some e → entry_due e now = false) :
    due_pass ctx sys now = (false, ctx, sys) := by
  unfold due_pass
  have key : ∀ k, k ≤ ctx.plan_count →
      (List.range k).foldl (due_step now) (false, ctx, sys) = (false, ctx, sys) := by
    intro k
    induction k with
    | zero => intro _; rfl
    | succ k ih =>
      intro hk
      rw [List.range_succ, List.foldl_append, ih (by omega)]
      simp only [List.foldl_cons, List.foldl_nil]
      unfold due_step
      cases he : ctx.plan[k]? with
      | none => rfl
      | some e =>
        simp only
        have hd := h k e (by omega) he
        unfold entry_due at hd
        rw [if_neg (by simpa using hd)]
  exact key _ (Nat.le_refl _)

/-- After a pass at `now` over an aligned state no entry in use is due at
`now`. -/
theorem entry_after_not_due (ctx : erraid_context_t) (sys : daemon_sys) (now : Int)
    (h : aligned ctx) (i : Nat) (hi : i < ctx.plan_count) (e1 : schedule_entry_t)
    (h1 : entry_after ctx sys now i = some e1) : entry_due e1 now = false := by
  obtain ⟨e, t, he, ht, _, _⟩ := aligned_get ctx h i hi
  unfold entry_after at h1
  simp only [he, ht] at h1
  by_cases hd : entry_due e now = true
  · rw [if_pos hd] at h1
    injection h1 with h1
    subst h1
    unfold entry_due
    simp only [decide_eq_false_iff_not]
    by_cases hf : fireable t = true
    · simp only [hf, if_true]
      rcases scheduler_next_occurrence_after sys.localtime_r t.schedule now with h2 | h2
      · rw [h2]; omega
      · omega
    · simp only [hf, Bool.false_eq_true, if_false]
      omega
  · rw [if_neg hd] at h1
    injection h1 with h1
    subst h1
    simpa using hd

/-- The firings of one pass hold at most one firing for each index: one when
the entry at the index is due and its task passes the guard, none otherwise. -/
theorem fire_count (ctx : erraid_context_t) (sys : daemon_sys) (now : Int) (i : Nat) :
    ∀ n : Nat, (((List.range n).filterMap (fire_of ctx sys now)).filter
        (fun f => decide (f.task_index = i))).length =
      if i < n ∧ (fire_of ctx sys now i).isSome = true then 1 else 0 := by
  intro n
  induction n with
  | zero => simp
  | succ n ih =>
    rw [List.range_succ, List.filterMap_append, List.filter_append, List.length_append, ih]
    cases hf : fire_of ctx sys now n with
    | none =>
      simp only [List.filterMap_cons, hf, List.filterMap_nil, List.filter_nil, List.length_nil,
        Nat.add_zero]
      by_cases hin : i = n
      · subst hin
        simp [hf]
      · by_cases hlt : i < n
        · simp [hlt, Nat.lt_succ_of_lt hlt]
        · have : ¬ i < n + 1 := by omega
          simp [hlt, this]
    | some f =>
      have hidx := (fire_of_index ctx sys now n f hf).1
      simp only [List.filterMap_cons, hf, List.filterMap_nil]
      by_cases hin : i = n
      · subst hin
        simp [hf, hidx]
      · have hne : ¬ f.task_index = i := by rw [hidx]; exact fun h => hin h.symm
        by_cases hlt : i < n
        · simp [hlt, Nat.lt_succ_of_lt hlt, hne]
        · have : ¬ i < n + 1 := by omega
          simp [hlt, this, hne]

/-- After a pass at `now` over an aligned state, a second pass at the same
clock value finds no entry due and changes nothing. -/
theorem due_pass_twice (ctx : erraid_context_t) (sys : daemon_sys) (now : Int)
    (h : aligned ctx) :
    due_pass (due_pass ctx sys now).2.1 (due_pass ctx sys now).2.2 now =
      (false, (due_pass ctx sys now).2) := by
  obtain ⟨_, _, hplan, _, _, _⟩ := due_pass_spec ctx sys now h
  have hcount := (due_pass_aligned ctx sys now h).2.2.1
  apply due_pass_idle
  intro i e hi he
  rw [hcount] at hi
  rw [hplan i, if_pos hi] at he
  exact entry_after_not_due ctx sys now h i hi e he

/-- C40, counterexample. Not every due task is fired by a due-scan at a fixed
clock value. (1) In the aligned state `zero_command_ctx` the only task is
enabled, has no command and its entry is due at 130: the scan returns 0
without a firing and sets the entry to -1. (2) In the aligned state
`quitting_ctx`, where `should_quit` is set, the entry of task 1 is due at 130
and its task is enabled with commands: the scan returns 0 at once, without a
pass and without a firing. -/
theorem due_task_not_fired_by_scan :
    aligned zero_command_ctx ∧
    zero_command_ctx.plan[0]? = some ⟨1, 0, 120⟩ ∧
    zero_command_ctx.tasks.map (fun t => (t.schedule.enabled, t.commands.length)) =
      [(true, 0)] ∧
    zero_command_ctx.should_quit = false ∧
    (process_due_tasks [some 130, some 130] zero_command_ctx
      (world_of zero_command_fs 130)).1 = some 0 ∧
    (process_due_tasks [some 130, some 130] zero_command_ctx
      (world_of zero_command_fs 130)).2.1.plan[0]? = some ⟨1, 0, -1⟩ ∧
    (process_due_tasks [some 130, some 130] zero_command_ctx
      (world_of zero_command_fs 130)).2.2.fired = [] ∧
    aligned quitting_ctx ∧
    quitting_ctx.plan[0]? = some ⟨1, 0, 120⟩ ∧
    quitting_ctx.tasks[0]? = some echo_exit_task ∧
    fireable echo_exit_task = true ∧
    (process_due_tasks [some 130, some 130] quitting_ctx due_world).1 = some 0 ∧
    (process_due_tasks [some 130, some 130] quitting_ctx due_world).2.1 = quitting_ctx ∧
    (process_due_tasks [some 130, some 130] quitting_ctx due_world).2.2.fired = [] := by
  refine ⟨by decide, by decide, by decide, by decide, by decide, by decide, by decide,
    by decide, by decide, by decide, by decide, by decide, by decide, by decide⟩

/-- C40, amended. The due-scan terminates. For every daemon state that
satisfies plan/task alignment and in which `should_quit` is not set, and a
clock that stays at the value `now`: `process_due_tasks` returns 0 after at
most two passes over the plan (two clock readings are enough, whatever
follows them), and the state it leaves is the one after the first pass; a
second pass at `now` finds no entry due and changes nothing. The firings
made are those of the first pass: each task whose entry is due
(`0 <= next_epoch <= now`) and whose schedule is enabled and command list not
empty is fired exactly once, in index order, and no other task is fired.
After a firing the entry's `next_epoch` is either -1 (none) or strictly
greater than `now`, and after the scan no entry in use is due at `now`. -/
theorem due_scan_terminates (ctx : erraid_context_t) (sys : daemon_sys) (now : Int)
    (h : aligned ctx) (hq : ctx.should_quit = false) (rest : List (Option Int)) :
    process_due_tasks (some now :: some now :: rest) ctx sys =
      (some 0, (due_pass ctx sys now).2) ∧
    due_pass (due_pass ctx sys now).2.1 (due_pass ctx sys now).2.2 now =
      (false, (due_pass ctx sys now).2) ∧
    (due_pass ctx sys now).2.2.fired =
      sys.fired ++ (List.range ctx.tasks.length).filterMap (fire_of ctx sys now) ∧
    (∀ i, (((List.range ctx.tasks.length).filterMap (fire_of ctx sys now)).filter
        (fun f => decide (f.task_index = i))).length =
      if i < ctx.tasks.length ∧ (fire_of ctx sys now i).isSome = true then 1 else 0) ∧
    (∀ i e t, ctx.plan[i]? = some e → ctx.tasks[i]? = some t →
      (0 ≤ e.next_epoch ∧ e.next_epoch ≤ now → t.schedule.enabled = true → t.commands ≠ [] →
        fire_of ctx sys now i = some ⟨i, t, run_entry sys t now⟩ ∧
        ∃ n : Int, (n = -1 ∨ now < n) ∧
          (due_pass ctx sys now).2.1.plan[i]? = some { e with next_epoch := n }) ∧
      (¬ (0 ≤ e.next_epoch ∧ e.next_epoch ≤ now ∧ t.schedule.enabled = true ∧ t.commands ≠ []) →
        fire_of ctx sys now i = none)) ∧
    (∀ i e1, i < ctx.plan_count → (due_pass ctx sys now).2.1.plan[i]? = some e1 →
      ¬ (0 ≤ e1.next_epoch ∧ e1.next_epoch ≤ now)) := by
  obtain ⟨_, _, hplan, htasks, hfired, _⟩ := due_pass_spec ctx sys now h
  have hal := due_pass_aligned ctx sys now h
  have htwice := due_pass_twice ctx sys now h
  refine ⟨?_, htwice, ?_, fun i => fire_count ctx sys now i _, ?_, ?_⟩
  · rw [process_due_tasks]
    rw [if_neg (by rw [hq]; simp)]
    simp only
    by_cases hflag : (due_pass ctx sys now).1 = true
    · rw [if_neg (by rw [hflag]; simp)]
      rw [process_due_tasks]
      rw [if_neg (by rw [hal.2.2.2.2, hq]; simp)]
      simp only
      rw [htwice]
      simp
    · rw [if_pos (by simpa using hflag)]
  · rw [hfired, h.1]
  · intro i e t he ht
    have hi : i < ctx.plan_count := by
      rw [h.1]
      exact (List.getElem?_eq_some_iff.mp ht).1
    have hp := hplan i
    rw [if_pos hi] at hp
    constructor
    · intro hdue hen hcmd
      have hd : entry_due e now = true := by unfold entry_due; exact decide_eq_true hdue
      have hf : fireable t = true := by
        unfold fireable
        rw [hen]
        simp only [Bool.true_and, decide_eq_true_eq]
        intro h0
        exact hcmd (List.eq_nil_of_length_eq_zero h0)
      refine ⟨?_, scheduler_next_occurrence sys.localtime_r t.schedule now,
        scheduler_next_occurrence_after _ _ _, ?_⟩
      · unfold fire_of
        simp only [he, ht, hd, hf, Bool.and_self, if_true]
      · rw [hp]
        unfold entry_after
        simp only [he, ht, hd, hf, if_true]
    · intro hnot
      unfold fire_of
      simp only [he, ht]
      have : (entry_due e now && fireable t) = false := by
        by_contra hc
        simp only [Bool.not_eq_false, Bool.and_eq_true] at hc
        obtain ⟨hd, hf⟩ := hc
        unfold entry_due at hd
        unfold fireable at hf
        simp only [decide_eq_true_eq, Bool.and_eq_true] at hd hf
        apply hnot
        refine ⟨hd.1, hd.2, hf.1, ?_⟩
        intro h0
        rw [h0] at hf
        exact hf.2 rfl
      rw [this]
      simp
  · intro i e1 hi he1
    rw [hplan i, if_pos hi] at he1
    have := entry_after_not_due ctx sys now h i hi e1 he1
    unfold entry_due at this
    simpa using this

/-- C40, at a concrete state: the scan of `due_ctx` at the clock value 130
returns 0 with the single firing of task 1, whose entry moves from 120 to
180; the disabled task at index 1 is not fired. -/
theorem due_scan_terminates_witness :
    aligned due_ctx ∧ due_ctx.should_quit = false ∧
    process_due_tasks [some 130, some 130, some 130] due_ctx due_world =
      (some 0, (due_pass due_ctx due_world 130).2) ∧
    (due_pass due_ctx due_world 130).2.2.fired = [⟨0, echo_exit_task, ⟨130, 0, 6, 0⟩⟩] ∧
    (due_pass due_ctx due_world 130).2.1.plan = [⟨1, 0, 180⟩, ⟨2, 1, -1⟩, ⟨3, 2, 180⟩, ⟨0, 0, 0⟩] :=
  ⟨by decide, rfl, (due_scan_terminates due_ctx due_world 130 (by decide) rfl [some 130]).1,
    by decide, by decide⟩

theorem base64_inverse_char : ∀ i, i < 64 → base64_inverse (base64_alphabet i) = (i : Int) := by
  decide

theorem base64_alphabet_symbol : ∀ i, i < 64 → base64_symbol (base64_alphabet i) = true := by
  decide

theorem base64_symbol_inverse (c : Nat) (h : base64_symbol c = true) :
    0 ≤ base64_inverse c ∧ base64_inverse c < 64 ∧ c ≠ 61 ∧ c ≠ 34 ∧ c ≠ 0 := by
  unfold base64_symbol at h
  simp only [Bool.or_eq_true, Bool.and_eq_true, decide_eq_true_eq] at h
  unfold base64_inverse
  split_ifs <;> omega

theorem base64_inverse_neg (c : Nat) (h : base64_symbol c = false) : base64_inverse c = -1 := by
  unfold base64_symbol at h
  simp only [Bool.or_eq_false_iff, Bool.and_eq_false_iff, decide_eq_false_iff_not] at h
  unfold base64_inverse
  split_ifs <;> first | rfl | omega

theorem and_255 (x : Nat) : x &&& 0xFF = x % 256 := Nat.and_pow_two_sub_one_eq_mod x 8

/-- The 24 bits assembled from four 6-bit values. -/
theorem base64_quad (s1 s2 s3 s4 : Nat) (h2 : s2 < 64) (h3 : s3 < 64) (h4 : s4 < 64) :
    (s1 <<< 18 ||| s2 <<< 12 ||| s3 <<< 6 ||| s4) =
      262144 * s1 + 4096 * s2 + 64 * s3 + s4 := by
  have e1 : 2 ^ 6 * s3 ||| s4 = 2 ^ 6 * s3 + s4 := (Nat.mul_add_lt_is_or (by omega) s3).symm
  have e2 : 2 ^ 12 * s2 ||| (2 ^ 6 * s3 + s4) = 2 ^ 12 * s2 + (2 ^ 6 * s3 + s4) :=
    (Nat.mul_add_lt_is_or (by omega) s2).symm
  have e3 : 2 ^ 18 * s1 ||| (2 ^ 12 * s2 + (2 ^ 6 * s3 + s4)) =
      2 ^ 18 * s1 + (2 ^ 12 * s2 + (2 ^ 6 * s3 + s4)) :=
    (Nat.mul_add_lt_is_or (by omega) s1).symm
  rw [Nat.or_assoc, Nat.or_assoc, Nat.shiftLeft_eq, Nat.shiftLeft_eq, Nat.shiftLeft_eq,
    Nat.mul_comm s1, Nat.mul_comm s2, Nat.mul_comm s3, e1, e2, e3]
  omega

theorem base64_pair (s1 s2 : Nat) (h2 : s2 < 64) :
    (s1 <<< 18 ||| s2 <<< 12) = 262144 * s1 + 4096 * s2 := by
  have := base64_quad s1 s2 0 0 h2 (by omega) (by omega)
  simpa using this

theorem base64_triad (s1 s2 s3 : Nat) (h2 : s2 < 64) (h3 : s3 < 64) :
    (s1 <<< 18 ||| s2 <<< 12 ||| s3 <<< 6) = 262144 * s1 + 4096 * s2 + 64 * s3 := by
  have := base64_quad s1 s2 s3 0 h2 h3 (by omega)
  simpa using this

theorem base64_alphabet_ne_pad (i : Nat) (h : i < 64) : base64_alphabet i ≠ 61 :=
  (base64_symbol_inverse _ (base64_alphabet_symbol i h)).2.2.1

/-- The loop of `utils_base64_decode` on a group of four characters of the
alphabet. -/
theorem base64_decode_group4 (s1 s2 s3 s4 : Nat) (h1 : s1 < 64) (h2 : s2 < 64) (h3 : s3 < 64)
    (h4 : s4 < 64) (rest dst : List Nat) :
    base64_decode_loop (base64_alphabet s1 :: base64_alphabet s2 :: base64_alphabet s3 ::
        base64_alphabet s4 :: rest) dst =
      base64_decode_loop rest (dst ++
        [(262144 * s1 + 4096 * s2 + 64 * s3 + s4) / 65536 % 256,
         (262144 * s1 + 4096 * s2 + 64 * s3 + s4) / 256 % 256,
         (262144 * s1 + 4096 * s2 + 64 * s3 + s4) % 256]) := by
  rw [base64_decode_loop]
  simp only [base64_inverse_char _ h1, base64_inverse_char _ h2, base64_inverse_char _ h3,
    base64_inverse_char _ h4, base64_alphabet_ne_pad _ h3, base64_alphabet_ne_pad _ h4,
    if_false, ne_eq, not_false_eq_true, if_true, Int.toNat_ofNat, and_true]
  rw [if_neg (by omega)]
  rw [base64_quad s1 s2 s3 s4 h2 h3 h4]
  simp only [and_255, Nat.shiftRight_eq_div_pow, List.append_assoc, List.singleton_append]
  rfl

/-- The loop of `utils_base64_decode` on a group of three characters of the
alphabet and one `=`. -/
theorem base64_decode_group3 (s1 s2 s3 : Nat) (h1 : s1 < 64) (h2 : s2 < 64) (h3 : s3 < 64)
    (rest dst : List Nat) :
    base64_decode_loop (base64_alphabet s1 :: base64_alphabet s2 :: base64_alphabet s3 ::
        61 :: rest) dst =
      base64_decode_loop rest (dst ++
        [(262144 * s1 + 4096 * s2 + 64 * s3) / 65536 % 256,
         (262144 * s1 + 4096 * s2 + 64 * s3) / 256 % 256]) := by
  rw [base64_decode_loop]
  simp only [base64_inverse_char _ h1, base64_inverse_char _ h2, base64_inverse_char _ h3,
    base64_alphabet_ne_pad _ h3,
    if_false, ne_eq, not_false_eq_true, if_true, Int.toNat_ofNat, and_true, not_true_eq_false,
    and_false, or_false]
  rw [if_neg (by omega)]
  rw [base64_triad s1 s2 s3 h2 h3]
  simp only [and_255, Nat.shiftRight_eq_div_pow, List.append_assoc, List.singleton_append]

/-- The loop of `utils_base64_decode` on a group of two characters of the
alphabet and two `=`. -/
theorem base64_decode_group2 (s1 s2 : Nat) (h1 : s1 < 64) (h2 : s2 < 64)
    (rest dst : List Nat) :
    base64_decode_loop (base64_alphabet s1 :: base64_alphabet s2 :: 61 :: 61 :: rest) dst =
      base64_decode_loop rest (dst ++ [(262144 * s1 + 4096 * s2) / 65536 % 256]) := by
  rw [base64_decode_loop]
  simp only [base64_inverse_char _ h1, base64_inverse_char _ h2,
    if_false, ne_eq, not_false_eq_true, if_true, Int.toNat_ofNat, and_true, not_true_eq_false,
    and_false, or_false]
  rw [if_neg (by omega)]
  rw [base64_pair s1 s2 h2]
  simp only [and_255, Nat.shiftRight_eq_div_pow]

/-- The loop of `utils_base64_decode` gives back the bytes of a Base64 text. -/
theorem base64_decode_loop_base64 :
    ∀ (l dst : List Nat), (∀ x ∈ l, x < 256) →
      base64_decode_loop (base64 l) dst = (true, dst ++ l)
  | [], dst, _ => by simp [base64, base64_decode_loop]
  | [a], dst, h => by
    have ha : a < 256 := h a (by simp)
    rw [base64, base64_decode_group2 _ _ (by omega) (by omega)]
    rw [base64_decode_loop]
    · congr 2
      congr 1
      omega
    · intro a b c d rest e
      cases e
  | [a, b], dst, h => by
    have ha : a < 256 := h a (by simp)
    have hb : b < 256 := h b (by simp)
    rw [base64, base64_decode_group3 _ _ _ (by omega) (by omega) (by omega)]
    rw [base64_decode_loop]
    · congr 2
      congr 1
      · omega
      · congr 1
        omega
    · intro a b c d rest e
      cases e
  | a :: b :: c :: rest, dst, h => by
    have ha : a < 256 := h a (by simp)
    have hb : b < 256 := h b (by simp)
    have hc : c < 256 := h c (by simp)
    rw [base64, base64_decode_group4 _ _ _ _ (by omega) (by omega) (by omega) (by omega)]
    rw [base64_decode_loop_base64 rest _ (fun x hx => h x (by simp [hx]))]
    congr 1
    rw [List.append_assoc]
    congr 1
    have e1 : (262144 * (a / 4) + 4096 * (a % 4 * 16 + b / 16) + 64 * (b % 16 * 4 + c / 64) +
        c % 64) / 65536 % 256 = a := by omega
    have e2 : (262144 * (a / 4) + 4096 * (a % 4 * 16 + b / 16) + 64 * (b % 16 * 4 + c / 64) +
        c % 64) / 256 % 256 = b := by omega
    have e3 : (262144 * (a / 4) + 4096 * (a % 4 * 16 + b / 16) + 64 * (b % 16 * 4 + c / 64) +
        c % 64) % 256 = c := by omega
    rw [e1, e2, e3]
    rfl

/-- The shape of a Base64 text: characters of the alphabet followed by the
padding. -/
theorem base64_shape :
    ∀ l : List Nat, (∀ x ∈ l, x < 256) →
      ∃ body : List Nat, base64 l = body ++ List.replicate (base64_pad l.length) 61 ∧
        ∀ c ∈ body, base64_symbol c = true
  | [], _ => ⟨[], rfl, fun c hc => by cases hc⟩
  | [a], h => by
    have ha : a < 256 := h a (by simp)
    refine ⟨[base64_alphabet (a / 4), base64_alphabet (a % 4 * 16)], rfl, ?_⟩
    intro c hc
    simp only [List.mem_cons, List.mem_singleton, List.not_mem_nil, or_false] at hc
    rcases hc with rfl | rfl <;> exact base64_alphabet_symbol _ (by omega)
  | [a, b], h => by
    have ha : a < 256 := h a (by simp)
    have hb : b < 256 := h b (by simp)
    refine ⟨[base64_alphabet (a / 4), base64_alphabet (a % 4 * 16 + b / 16),
      base64_alphabet (b % 16 * 4)], rfl, ?_⟩
    intro c hc
    simp only [List.mem_cons, List.mem_singleton, List.not_mem_nil, or_false] at hc
    rcases hc with rfl | rfl | rfl <;> exact base64_alphabet_symbol _ (by omega)
  | a :: b :: c :: rest, h => by
    have ha : a < 256 := h a (by simp)
    have hb : b < 256 := h b (by simp)
    have hc : c < 256 := h c (by simp)
    obtain ⟨body, hbody, hsym⟩ := base64_shape rest (fun x hx => h x (by simp [hx]))
    refine ⟨base64_alphabet (a / 4) :: base64_alphabet (a % 4 * 16 + b / 16) ::
      base64_alphabet (b % 16 * 4 + c / 64) :: base64_alphabet (c % 64) :: body, ?_, ?_⟩
    · have hp : base64_pad (a :: b :: c :: rest).length = base64_pad rest.length := by
        unfold base64_pad
        simp only [List.length_cons]
        omega
      rw [hp, base64, hbody]
      rfl
    · intro x hx
      simp only [List.mem_cons] at hx
      rcases hx with rfl | rfl | rfl | rfl | hx
      · exact base64_alphabet_symbol _ (by omega)
      · exact base64_alphabet_symbol _ (by omega)
      · exact base64_alphabet_symbol _ (by omega)
      · exact base64_alphabet_symbol _ (by omega)
      · exact hsym x hx

/-- The padding `utils_base64_decode` counts in a text without `=`. -/
theorem base64_padding_plain (body : List Nat) (h : ∀ c ∈ body, c ≠ 61) :
    base64_padding body = 0 := by
  unfold base64_padding
  have h1 : ¬ (body.length ≥ 1 ∧ body[body.length - 1]? = some 61) := by
    rintro ⟨_, h2⟩
    exact h 61 (List.getElem?_mem h2) rfl
  have h2 : ¬ (body.length ≥ 2 ∧ body[body.length - 2]? = some 61) := by
    rintro ⟨_, h2⟩
    exact h 61 (List.getElem?_mem h2) rfl
  rw [if_neg h1, if_neg h2]

/-- The padding `utils_base64_decode` counts in a text that ends with `k` of
the characters `=`, for `k` up to 2. -/
theorem base64_padding_shape (body : List Nat) (k : Nat) (hk : k ≤ 2)
    (h : ∀ c ∈ body, c ≠ 61) (hlen : 2 ≤ body.length ∨ k = 0) :
    base64_padding (body ++ List.replicate k 61) = k := by
  rcases hlen with hlen | hlen
  · obtain rfl | rfl | rfl : k = 0 ∨ k = 1 ∨ k = 2 := by omega
    · simpa using base64_padding_plain body h
    · unfold base64_padding
      have e1 : (body ++ List.replicate 1 61)[(body ++ List.replicate 1 61).length - 1]? =
          some 61 := by
        rw [List.getElem?_append_right (by simp)]
        simp
      have e2 : ¬ ((body ++ List.replicate 1 61).length ≥ 2 ∧
          (body ++ List.replicate 1 61)[(body ++ List.replicate 1 61).length - 2]? = some 61) := by
        rintro ⟨_, h2⟩
        rw [List.getElem?_append_left (by simp; omega)] at h2
        exact h 61 (List.getElem?_mem h2) rfl
      rw [if_pos ⟨by simp, e1⟩, if_neg e2]
    · unfold base64_padding
      have e1 : (body ++ List.replicate 2 61)[(body ++ List.replicate 2 61).length - 1]? =
          some 61 := by
        rw [List.getElem?_append_right (by simp)]
        simp
      have e2 : (body ++ List.replicate 2 61)[(body ++ List.replicate 2 61).length - 2]? =
          some 61 := by
        rw [List.getElem?_append_right (by simp)]
        simp
      rw [if_pos ⟨by simp, e1⟩, if_pos ⟨by simp, e2⟩]
  · subst hlen
    simpa using base64_padding_plain body h

/-- What `utils_base64_decode` returns for the Base64 text of the bytes `b` and
a capacity of at least `|b|`: the bytes `b`. -/
theorem utils_base64_decode_base64 (b : List Nat) (hb : ∀ x ∈ b, x < 256) (cap : Nat)
    (hcap : b.length ≤ cap) :
    utils_base64_decode (base64 b) cap =
      { rc := 0, errno := none, dst := b, output_len := b.length } := by
  obtain ⟨body, hshape, hsym⟩ := base64_shape b hb
  have hlen := base64_length b
  have hpad : base64_pad b.length ≤ 2 := by unfold base64_pad; omega
  have hbl : body.length + base64_pad b.length = (b.length + 2) / 3 * 4 := by
    rw [← hlen, hshape, List.length_append, List.length_replicate]
  have hpadding : base64_padding (base64 b) = base64_pad b.length := by
    rw [hshape]
    apply base64_padding_shape body _ hpad
      (fun c hc => (base64_symbol_inverse c (hsym c hc)).2.2.1)
    unfold base64_pad at hbl ⊢
    omega
  unfold utils_base64_decode
  simp only [hlen, hpadding]
  rw [if_neg (by omega)]
  rw [if_neg (by unfold base64_pad; omega)]
  rw [base64_decode_loop_base64 b [] hb]
  simp

/-- C37. Base64 round trip. For every byte sequence `b` (the empty one and
those that hold zero bytes included), an encoder capacity of at least
`4 * ceil(|b| / 3) + 1` bytes and a decoder capacity of at least `|b|` bytes:
`utils_base64_encode` succeeds; its output has exactly `4 * ceil(|b| / 3)`
characters, which are characters of the alphabet `A-Z a-z 0-9 + /` followed by
zero, one or two `=` and nothing else; and `utils_base64_decode` applied to
that output returns 0, stores exactly the bytes `b` and reports their
number. -/
theorem base64_round_trip (b : List Nat) (hb : ∀ x ∈ b, x < 256) (enc_cap dec_cap : Nat)
    (henc : 4 * ((b.length + 2) / 3) + 1 ≤ enc_cap) (hdec : b.length ≤ dec_cap) :
    ∃ out body : List Nat,
      utils_base64_encode b enc_cap = some out ∧
      out.length = 4 * ((b.length + 2) / 3) ∧
      out = body ++ List.replicate (base64_pad b.length) 61 ∧
      base64_pad b.length ≤ 2 ∧
      (∀ c ∈ body, base64_symbol c = true) ∧
      utils_base64_decode out dec_cap =
        { rc := 0, errno := none, dst := b, output_len := b.length } := by
  obtain ⟨body, hshape, hsym⟩ := base64_shape b hb
  refine ⟨base64 b, body, ?_, ?_, hshape, ?_, hsym, utils_base64_decode_base64 b hb dec_cap hdec⟩
  · unfold utils_base64_encode
    simp only
    rw [if_neg (by omega), base64_encode_loop_eq b hb]
  · rw [base64_length]; omega
  · unfold base64_pad; omega

/-- C37, at concrete bytes: the four bytes `0, 65, 10, 0` are encoded as
`AEEKAA==` and decoded back, and the empty sequence as the empty text. -/
theorem base64_round_trip_witness :
    (∃ out body : List Nat,
      utils_base64_encode [0, 65, 10, 0] 9 = some out ∧
      out.length = 4 * (([0, 65, 10, 0].length + 2) / 3) ∧
      out = body ++ List.replicate (base64_pad [0, 65, 10, 0].length) 61 ∧
      base64_pad [0, 65, 10, 0].length ≤ 2 ∧
      (∀ c ∈ body, base64_symbol c = true) ∧
      utils_base64_decode out 4 =
        { rc := 0, errno := none, dst := [0, 65, 10, 0], output_len := [0, 65, 10, 0].length }) ∧
    utils_base64_encode [0, 65, 10, 0] 9 = some (str "AEEKAA==") ∧
    utils_base64_decode (str "AEEKAA==") 4 =
      { rc := 0, errno := none, dst := [0, 65, 10, 0], output_len := 4 } ∧
    utils_base64_encode [] 1 = some [] ∧
    utils_base64_decode [] 0 = { rc := 0, errno := none, dst := [], output_len := 0 } :=
  ⟨base64_round_trip [0, 65, 10, 0] (by decide) 9 4 (by decide) (by decide), by decide, by decide,
    by decide, by decide⟩

theorem base64_padding_le (input : List Nat) : base64_padding input ≤ 2 := by
  unfold base64_padding
  split_ifs <;> omega

theorem base64_padding_four (a b c d : Nat) :
    base64_padding [a, b, c, d] = (if d = 61 then 1 else 0) + (if c = 61 then 1 else 0) := by
  simp [base64_padding]

theorem base64_padding_cons4 (a b c d : Nat) (rest : List Nat) (h : 2 ≤ rest.length) :
    base64_padding (a :: b :: c :: d :: rest) = base64_padding rest := by
  unfold base64_padding
  have e1 : (a :: b :: c :: d :: rest)[(a :: b :: c :: d :: rest).length - 1]? =
      rest[rest.length - 1]? := by
    have : (a :: b :: c :: d :: rest).length - 1 = (rest.length - 1) + 4 := by
      simp only [List.length_cons]; omega
    rw [this]
    simp only [List.getElem?_cons_succ]
  have e2 : (a :: b :: c :: d :: rest)[(a :: b :: c :: d :: rest).length - 2]? =
      rest[rest.length - 2]? := by
    have : (a :: b :: c :: d :: rest).length - 2 = (rest.length - 2) + 4 := by
      simp only [List.length_cons]; omega
    rw [this]
    simp only [List.getElem?_cons_succ]
  rw [e1, e2]
  have l1 : (a :: b :: c :: d :: rest).length ≥ 1 ↔ rest.length ≥ 1 := by
    simp only [List.length_cons]; omega
  have l2 : (a :: b :: c :: d :: rest).length ≥ 2 ↔ rest.length ≥ 2 := by
    simp only [List.length_cons]; omega
  simp only [l1, l2]

/-- The bytes stored by one turn of the loop of `utils_base64_decode`. -/
theorem base64_decode_loop_cons (a b c d : Nat) (rest dst : List Nat) :
    ((base64_inverse a < 0 ∨ base64_inverse b < 0 ∨
        (base64_symbol c = false ∧ c ≠ 61) ∨ (base64_symbol d = false ∧ d ≠ 61)) ∧
      base64_decode_loop (a :: b :: c :: d :: rest) dst = (false, dst)) ∨
    (base64_symbol a = true ∧ base64_symbol b = true ∧ (base64_symbol c = true ∨ c = 61) ∧
      (base64_symbol d = true ∨ d = 61) ∧
      ∃ dst3 : List Nat,
        dst3.length = dst.length + 1 + (if c = 61 then 0 else 1) + (if d = 61 then 0 else 1) ∧
        base64_decode_loop (a :: b :: c :: d :: rest) dst = base64_decode_loop rest dst3) := by
  have hsym : ∀ x, ¬ base64_inverse x < 0 → base64_symbol x = true := by
    intro x hx
    by_contra hs
    have := base64_inverse_neg x (by simpa using hs)
    omega
  have hneg : ∀ x, base64_symbol x = false → base64_inverse x < 0 := by
    intro x hx
    rw [base64_inverse_neg x hx]
    decide
  rw [base64_decode_loop]
  simp only
  by_cases hcond : base64_inverse a < 0 ∨ base64_inverse b < 0 ∨
      ((if c = 61 then -1 else base64_inverse c) < 0 ∧ c ≠ 61) ∨
      ((if d = 61 then -1 else base64_inverse d) < 0 ∧ d ≠ 61)
  · left
    rw [if_pos hcond]
    refine ⟨?_, rfl⟩
    rcases hcond with h | h | ⟨h, hc⟩ | ⟨h, hd⟩
    · exact Or.inl h
    · exact Or.inr (Or.inl h)
    · rw [if_neg hc] at h
      refine Or.inr (Or.inr (Or.inl ⟨?_, hc⟩))
      by_contra hs
      have := (base64_symbol_inverse c (by simpa using hs)).1
      omega
    · rw [if_neg hd] at h
      refine Or.inr (Or.inr (Or.inr ⟨?_, hd⟩))
      by_contra hs
      have := (base64_symbol_inverse d (by simpa using hs)).1
      omega
  · right
    rw [if_neg hcond]
    simp only [not_or, not_and, not_not] at hcond
    obtain ⟨ha, hb, hc, hd⟩ := hcond
    refine ⟨hsym a ha, hsym b hb, ?_, ?_, _, ?_, rfl⟩
    · by_cases h61 : c = 61
      · exact Or.inr h61
      · left
        apply hsym
        intro hlt
        exact h61 (hc (by rw [if_neg h61]; exact hlt))
    · by_cases h61 : d = 61
      · exact Or.inr h61
      · left
        apply hsym
        intro hlt
        exact h61 (hd (by rw [if_neg h61]; exact hlt))
    · by_cases h1 : c = 61 <;> by_cases h2 : d = 61 <;> simp [h1, h2]

/-- The loop of `utils_base64_decode` stores at most `(len / 4) * 3 - padding`
bytes, whether it runs to its end or not. -/
theorem base64_decode_loop_bound :
    ∀ (input dst : List Nat), input.length % 4 = 0 →
      (base64_decode_loop input dst).2.length + base64_padding input ≤
        dst.length + (input.length / 4) * 3
  | [], dst, _ => by simp [base64_decode_loop, base64_padding]
  | [_], _, h => by simp at h
  | [_, _], _, h => by simp at h
  | [_, _, _], _, h => by simp at h
  | a :: b :: c :: d :: rest, dst, h => by
    have hrest : rest.length % 4 = 0 := by
      simp only [List.length_cons] at h; omega
    have hlen : (a :: b :: c :: d :: rest).length / 4 = rest.length / 4 + 1 := by
      simp only [List.length_cons]; omega
    have hp := base64_padding_le (a :: b :: c :: d :: rest)
    rcases base64_decode_loop_cons a b c d rest dst with ⟨_, hfail⟩ | ⟨_, _, _, _, dst3, hd3, hgo⟩
    · rw [hfail, hlen]
      simp only
      omega
    · rw [hgo, hlen]
      have ih := base64_decode_loop_bound rest dst3 hrest
      by_cases hnil : rest = []
      · subst hnil
        rw [base64_padding_four]
        simp only [base64_decode_loop, List.length_nil]
        rw [hd3]
        split_ifs <;> omega
      · have h4 : 4 ≤ rest.length := by
          have : rest.length ≠ 0 := fun h0 => hnil (List.eq_nil_of_length_eq_zero h0)
          omega
        rw [base64_padding_cons4 a b c d rest (by omega)]
        have : dst3.length ≤ dst.length + 3 := by
          rw [hd3]; split_ifs <;> omega
        omega

/-- When the loop of `utils_base64_decode` runs to its end, every character is
one of the alphabet, or a `=` in the last two places of its group. -/
theorem base64_decode_loop_accepts :
    ∀ (input dst : List Nat), input.length % 4 = 0 →
      (base64_decode_loop input dst).1 = true →
      ∀ i c, input[i]? = some c → base64_symbol c = true ∨ (c = 61 ∧ 2 ≤ i % 4)
  | [], _, _, _ => by intro i c h; simp at h
  | [_], _, h, _ => by simp at h
  | [_, _], _, h, _ => by simp at h
  | [_, _, _], _, h, _ => by simp at h
  | a :: b :: c :: d :: rest, dst, h, hok => by
    have hrest : rest.length % 4 = 0 := by
      simp only [List.length_cons] at h; omega
    rcases base64_decode_loop_cons a b c d rest dst with ⟨_, hfail⟩ | ⟨ha, hb, hc, hd, dst3, _, hgo⟩
    · rw [hfail] at hok
      cases hok
    · rw [hgo] at hok
      have ih := base64_decode_loop_accepts rest dst3 hrest hok
      intro i x hx
      match i, hx with
      | 0, hx =>
        simp only [List.getElem?_cons_zero, Option.some.injEq] at hx
        subst hx; exact Or.inl ha
      | 1, hx =>
        simp only [List.getElem?_cons_succ, List.getElem?_cons_zero, Option.some.injEq] at hx
        subst hx; exact Or.inl hb
      | 2, hx =>
        simp only [List.getElem?_cons_succ, List.getElem?_cons_zero, Option.some.injEq] at hx
        subst hx
        rcases hc with h1 | h1
        · exact Or.inl h1
        · exact Or.inr ⟨h1, by decide⟩
      | 3, hx =>
        simp only [List.getElem?_cons_succ, List.getElem?_cons_zero, Option.some.injEq] at hx
        subst hx
        rcases hd with h1 | h1
        · exact Or.inl h1
        · exact Or.inr ⟨h1, by decide⟩
      | j + 4, hx =>
        simp only [List.getElem?_cons_succ] at hx
        rcases ih j x hx with h1 | ⟨h1, h2⟩
        · exact Or.inl h1
        · exact Or.inr ⟨h1, by omega⟩

/-- C38. Base64 decode stays within its declared capacity. For every input
string and every capacity `*output_len`: the bytes `utils_base64_decode`
stores, whether it succeeds or fails, number at most
`(len / 4) * 3 - padding`, which is at most the capacity whenever a byte is
stored; it returns 0 or -1; on success the reported `*output_len` is the number
of bytes stored, and on failure `*output_len` is left as it was; an input whose
length is no multiple of 4 is rejected with `EINVAL` before a byte is stored;
and an input that holds a character outside the alphabet other than `=`, or a
`=` in one of the first two places of a group of four, is rejected. -/
theorem base64_decode_within_capacity (input : List Nat) (cap : Nat) :
    (utils_base64_decode input cap).dst.length ≤
      (input.length / 4) * 3 - base64_padding input ∧
    (utils_base64_decode input cap).dst.length ≤ cap ∧
    ((utils_base64_decode input cap).rc = 0 ∨ (utils_base64_decode input cap).rc = -1) ∧
    ((utils_base64_decode input cap).rc = 0 →
      (utils_base64_decode input cap).output_len = (utils_base64_decode input cap).dst.length ∧
      (utils_base64_decode input cap).errno = none) ∧
    ((utils_base64_decode input cap).rc = -1 →
      (utils_base64_decode input cap).output_len = cap) ∧
    (input.length % 4 ≠ 0 →
      utils_base64_decode input cap =
        { rc := -1, errno := some .EINVAL, dst := [], output_len := cap }) ∧
    (∀ i c, input[i]? = some c →
      (base64_symbol c = false ∧ c ≠ 61) ∨ (c = 61 ∧ i % 4 < 2) →
      (utils_base64_decode input cap).rc = -1) := by
  unfold utils_base64_decode
  simp only
  by_cases hlen : input.length % 4 ≠ 0
  · rw [if_pos hlen]
    refine ⟨?_, ?_, ?_, ?_, ?_, ?_, ?_⟩
    · exact Nat.zero_le _
    · exact Nat.zero_le _
    · exact Or.inr rfl
    · intro h; exact absurd h (show ¬ ((-1 : Int) = 0) by decide)
    · intro _; rfl
    · intro _; rfl
    · intro _ _ _ _; rfl
  · rw [if_neg hlen]
    have hlen0 : input.length % 4 = 0 := by omega
    by_cases hcap : cap < input.length / 4 * 3 - base64_padding input
    · rw [if_pos hcap]
      refine ⟨?_, ?_, ?_, ?_, ?_, ?_, ?_⟩
      · exact Nat.zero_le _
      · exact Nat.zero_le _
      · exact Or.inr rfl
      · intro h; exact absurd h (show ¬ ((-1 : Int) = 0) by decide)
      · intro _; rfl
      · intro h; exact absurd h hlen
      · intro _ _ _ _; rfl
    · rw [if_neg hcap]
      have hb := base64_decode_loop_bound input [] hlen0
      have hacc := base64_decode_loop_accepts input [] hlen0
      cases hl : base64_decode_loop input [] with
      | mk ok dst =>
        rw [hl] at hb hacc
        simp only [List.length_nil, Nat.zero_add] at hb
        cases ok with
        | false =>
          refine ⟨?_, ?_, ?_, ?_, ?_, ?_, ?_⟩
          · show dst.length ≤ _
            omega
          · show dst.length ≤ _
            omega
          · exact Or.inr rfl
          · intro h; exact absurd h (show ¬ ((-1 : Int) = 0) by decide)
          · intro _; rfl
          · intro h; exact absurd h hlen
          · intro _ _ _ _; rfl
        | true =>
          refine ⟨?_, ?_, ?_, ?_, ?_, ?_, ?_⟩
          · show dst.length ≤ _
            omega
          · show dst.length ≤ _
            omega
          · exact Or.inl rfl
          · intro _; exact ⟨rfl, rfl⟩
          · intro h; exact absurd h (show ¬ ((0 : Int) = -1) by decide)
          · intro h; exact absurd h hlen
          · intro i c hic hbad
            exfalso
            rcases hacc rfl i c hic with h1 | ⟨h1, h2⟩
            · rcases hbad with ⟨h3, _⟩ | ⟨h3, _⟩
              · rw [h1] at h3; cases h3
              · have := (base64_symbol_inverse c h1).2.2.1
                exact this h3
            · rcases hbad with ⟨_, h3⟩ | ⟨_, h3⟩
              · exact h3 h1
              · omega

theorem strstr_stdout_reply (x : List Nat) :
    strstr (str "\x7b\"status\":\"OK\",\"stdout\":\"" ++ x) (str "\"stdout\":\"") =
      some (str "\"stdout\":\"" ++ x) := by
  simp [str, strstr, List.isPrefixOf]

theorem strstr_stderr_reply (x : List Nat) :
    strstr (str "\x7b\"status\":\"OK\",\"stderr\":\"" ++ x) (str "\"stderr\":\"") =
      some (str "\"stderr\":\"" ++ x) := by
  simp [str, strstr, List.isPrefixOf]

theorem base64_alphabet_ne_quote (i : Nat) : base64_alphabet i ≠ 34 := by
  unfold base64_alphabet
  split_ifs <;> omega

/-- No character of a Base64 text is a double quote. -/
theorem base64_no_quote : ∀ l : List Nat, ∀ c ∈ base64 l, c ≠ 34
  | [], c, hc => by simp [base64] at hc
  | [a], c, hc => by
    simp only [base64, List.mem_cons, List.mem_singleton, List.not_mem_nil, or_false] at hc
    rcases hc with rfl | rfl | rfl | rfl
    · exact base64_alphabet_ne_quote _
    · exact base64_alphabet_ne_quote _
    · decide
    · decide
  | [a, b], c, hc => by
    simp only [base64, List.mem_cons, List.mem_singleton, List.not_mem_nil, or_false] at hc
    rcases hc with rfl | rfl | rfl | rfl
    · exact base64_alphabet_ne_quote _
    · exact base64_alphabet_ne_quote _
    · exact base64_alphabet_ne_quote _
    · decide
  | a :: b :: c :: rest, x, hx => by
    simp only [base64, List.mem_cons] at hx
    rcases hx with rfl | rfl | rfl | rfl | hx
    · exact base64_alphabet_ne_quote _
    · exact base64_alphabet_ne_quote _
    · exact base64_alphabet_ne_quote _
    · exact base64_alphabet_ne_quote _
    · exact base64_no_quote rest x hx

theorem dropWhile_append_all (p : Nat → Bool) :
    ∀ (l r : List Nat), (∀ x ∈ l, p x = true) → (l ++ r).dropWhile p = r.dropWhile p
  | [], _, _ => rfl
  | a :: l, r, h => by
    rw [List.cons_append, List.dropWhile_cons, h a (List.mem_cons_self _ _)]
    simp only [if_true]
    exact dropWhile_append_all p l r (fun x hx => h x (List.mem_cons_of_mem _ hx))

/-- What `decode_base64_field` does with a text that starts at the field and
holds, after it, a Base64 text, the closing quote and the closing brace: the
loop that looks for a quote runs over the Base64 text to the closing quote,
no quote follows, and the function returns -1. -/
theorem decode_base64_field_reply (malloc_ok : Nat → Bool) (json field : List Nat)
    (b : List Nat)
    (hfound : strstr json field = some (field ++ (base64 b ++ str "\"\x7d"))) :
    decode_base64_field malloc_ok json field =
      { rc := -1, written := [], diag := some .malformed } := by
  unfold decode_base64_field
  rw [hfound]
  simp only [List.drop_left]
  rw [dropWhile_append_all _ (base64 b) _
    (fun x hx => by simpa using base64_no_quote b x hx)]
  rfl

/-- C39. The client does not decode the capture replies of the daemon. For
every byte sequence `b`, `decode_base64_field` applied to the reply payload
`{"status":"OK","stdout":"<base64 of b>"}` with the field `"stdout":"`
returns -1 and writes nothing to the output descriptor, and likewise for
`stderr`: after the field the function looks for the next quote, which is the
one that closes the value, and finds no quote after it. At the capture `A\n`:
the payload is `{"status":"OK","stdout":"QQo="}`; with the field as
`tadmor_handle_reply` passes it the result is -1; with the field `"stdout":`
the value is found, but the string handed to `utils_base64_decode` runs on to
the end of the payload (6 characters, not a multiple of 4), and the result is
-1 again. -/
theorem stdio_reply_not_decoded :
    (∀ (malloc_ok : Nat → Bool) (b : List Nat),
      decode_base64_field malloc_ok (stdio_reply true b) (str "\"stdout\":\"") =
        { rc := -1, written := [], diag := some .malformed } ∧
      decode_base64_field malloc_ok (stdio_reply false b) (str "\"stderr\":\"") =
        { rc := -1, written := [], diag := some .malformed }) ∧
    stdio_reply true (str "A\n") = stdout_reply_payload ∧
    decode_base64_field (fun _ => true) stdout_reply_payload (str "\"stdout\":\"") =
      { rc := -1, written := [], diag := some .malformed } ∧
    decode_base64_field (fun _ => true) stdout_reply_payload (str "\"stdout\":") =
      { rc := -1, written := [], diag := some .base64 } ∧
    utils_base64_decode (str "QQo=\"\x7d") 4 =
      { rc := -1, errno := some .EINVAL, dst := [], output_len := 4 } ∧
    utils_base64_decode (str "QQo=") 4 =
      { rc := 0, errno := none, dst := str "A\n", output_len := 2 } := by
  refine ⟨?_, by decide, by decide, by decide, by decide, by decide⟩
  intro malloc_ok b
  constructor
  · apply decode_base64_field_reply malloc_ok _ _ b
    have e : stdio_reply true b =
        str "\x7b\"status\":\"OK\",\"stdout\":\"" ++ (base64 b ++ str "\"\x7d") := by
      unfold stdio_reply
      simp [str]
    rw [e]
    exact strstr_stdout_reply _
  · apply decode_base64_field_reply malloc_ok _ _ b
    have e : stdio_reply false b =
        str "\x7b\"status\":\"OK\",\"stderr\":\"" ++ (base64 b ++ str "\"\x7d") := by
      unfold stdio_reply
      simp [str]
    rw [e]
    exact strstr_stderr_reply _

/-- C35. The last command group is not stored by `tadmor_parse_args`: a group
goes into `opts->commands` only when a `--` follows it, and the words left in
`current` at the end of the arguments are dropped. With the schedule flags
`-m 000000000000001 -H 000001 -w 7F` and every allocation succeeding:
(1) `-c` followed by `/bin/echo hello` returns 0 with `command_count = 0` and
no command; (2) `-s` followed by `/bin/echo a -- /bin/echo b` returns 0 with
`command_count = 1` and the first group only; (3) `-s` followed by the single
group `/bin/echo a` returns -1; (4) `-n` followed by `a -- b -- c` returns 0
with `command_count = 2` and the groups `a` and `b`; (5) only with a `--`
after it is the group of `-c /bin/true --` stored. -/
theorem last_group_dropped :
    (tadmor_parse_args (fun _ => true) ((99, []) :: schedule_flags)
        (join_groups [[str "/bin/echo", str "hello"]])).map
      (fun o => (o.opt_create_simple, o.has_schedule, o.command_count, o.commands)) =
        some (true, true, 0, []) ∧
    (tadmor_parse_args (fun _ => true) ((115, []) :: schedule_flags)
        (join_groups [[str "/bin/echo", str "a"], [str "/bin/echo", str "b"]])).map
      (fun o => (o.opt_create_sequence, o.has_schedule, o.command_count, o.commands)) =
        some (true, true, 1, [⟨[str "/bin/echo", str "a"]⟩]) ∧
    tadmor_parse_args (fun _ => true) ((115, []) :: schedule_flags)
        (join_groups [[str "/bin/echo", str "a"]]) = none ∧
    (tadmor_parse_args (fun _ => true) ((110, []) :: schedule_flags)
        (join_groups [[str "a"], [str "b"], [str "c"]])).map
      (fun o => (o.opt_create_abstract, o.has_schedule, o.command_count, o.commands)) =
        some (true, true, 2, [⟨[str "a"]⟩, ⟨[str "b"]⟩]) ∧
    (tadmor_parse_args (fun _ => true) ((99, []) :: schedule_flags)
        [str "/bin/true", str "--"]).map
      (fun o => (o.command_count, o.commands)) = some (1, [⟨[str "/bin/true"]⟩]) ∧
    join_groups [[str "/bin/echo", str "a"], [str "/bin/echo", str "b"]] =
      [str "/bin/echo", str "a", str "--", str "/bin/echo", str "b"] := by
  refine ⟨by decide, by decide, by decide, by decide, by decide, by decide⟩

/-- The command loop of `tadmor_parse_args` over the words of one group: they
are gathered in `current`. -/
theorem parse_groups_loop_words (ok : Nat → Bool) (hok : ∀ n, ok n = true) (simple : Bool) :
    ∀ (g rest : List (List Nat)) (st : group_state_t), str "--" ∉ g →
      st.current.length + g.length ≤ 16 →
      parse_groups_loop ok simple (g ++ rest) st =
        parse_groups_loop ok simple rest { st with current := st.current ++ g } := by
  intro g
  induction g with
  | nil => intro rest st _ _; simp
  | cons w g ih =>
    intro rest st hno hlen
    have hw : w ≠ str "--" := fun h => hno (by rw [h]; exact List.mem_cons_self _ _)
    have hg : str "--" ∉ g := fun h => hno (List.mem_cons_of_mem _ h)
    simp only [List.length_cons] at hlen
    rw [List.cons_append, parse_groups_loop, if_neg hw,
      if_neg (by unfold ERRAID_MAX_COMMAND_ARGS; omega), hok]
    simp only [Bool.true_eq_false, if_false]
    rw [ih rest _ hg (by simp only [List.length_append, List.length_singleton]; omega)]
    simp [List.append_assoc]

/-- The command loop of `tadmor_parse_args` over `k` groups separated by `--`,
for `-s` and `-n`: the first `k - 1` groups are stored, and the last one is
left in `current`. -/
theorem parse_groups_loop_join (ok : Nat → Bool) (hok : ∀ n, ok n = true) :
    ∀ (groups : List (List (List Nat))) (g : List (List Nat)) (st : group_state_t),
      (∀ x ∈ g :: groups, x ≠ [] ∧ x.length ≤ 16 ∧ str "--" ∉ x) → st.current = [] →
      ∃ cap : Nat,
        parse_groups_loop ok false (join_groups (g :: groups)) st =
          some { commands := st.commands ++ ((g :: groups).dropLast).map (fun x => ⟨x⟩)
                 command_count :=
                   if groups = [] then st.command_count else st.cmd_count + groups.length
                 cmd_count := st.cmd_count + groups.length
                 capacity := cap
                 current := (g :: groups).getLast (List.cons_ne_nil _ _) } := by
  intro groups
  induction groups with
  | nil =>
    intro g st hall hcur
    obtain ⟨_, hlen, hno⟩ := hall g (List.mem_cons_self _ _)
    refine ⟨st.capacity, ?_⟩
    have := parse_groups_loop_words ok hok false g [] st hno (by rw [hcur]; simpa using hlen)
    rw [List.append_nil] at this
    rw [join_groups, this, parse_groups_loop, hcur]
    simp
  | cons g2 gs ih =>
    intro g st hall hcur
    obtain ⟨hne, hlen, hno⟩ := hall g (List.mem_cons_self _ _)
    have hgl : g.length ≠ 0 := fun h => hne (List.eq_nil_of_length_eq_zero h)
    rw [join_groups, parse_groups_loop_words ok hok false g _ st hno
      (by rw [hcur]; simpa using hlen)]
    rw [parse_groups_loop, if_pos rfl]
    simp only [hcur, List.nil_append]
    rw [if_neg hgl, if_neg (by simp)]
    simp only [hok, Bool.true_eq_false, and_false, if_false]
    obtain ⟨cap, hcap⟩ := ih g2
      { commands := st.commands ++ [⟨g⟩], command_count := st.cmd_count + 1
        cmd_count := st.cmd_count + 1
        capacity := if st.cmd_count ≥ st.capacity then st.capacity * 2 else st.capacity
        current := [] }
      (fun x hx => hall x (List.mem_cons_of_mem _ hx)) rfl
    refine ⟨cap, ?_⟩
    rw [hcap]
    simp only [List.dropLast_cons₂, List.map_cons, List.append_assoc, List.singleton_append,
      List.length_cons, List.getLast_cons_cons]
    congr 2
    · by_cases hgs : gs = []
      · subst hgs
        simp
      · rw [if_neg hgs, if_neg (by simp)]
        omega
    · omega
    · simp

/-- C36. The payload the client builds is not always read back by the daemon.
(1) For the command `/bin/echo schedule` the payload of
`build_request_payload` holds the text `"schedule"` inside the commands array,
before the key; `find_field_pointer` stops at this first occurrence, finds no
colon after it, and `parse_schedule_field` fails: the request is answered
`INVALID_REQUEST`. (2) For an argument that is the control byte 0x01,
`json_escape_string` writes `\u0001`, an escape `parse_json_string_token`
does not know: `parse_commands_field` fails. (3) Arguments with quotes,
backslashes, newlines and tabs, and the argument `commands`, are read back as
they were, with the masks of the hexadecimal strings. -/
theorem create_round_trip_breaks :
    build_request_payload (create_options true [⟨[str "/bin/echo", str "schedule"]⟩]) 4096 =
      some (MSG_REQ_CREATE_SIMPLE,
        str "\x7b\"commands\":[[\"/bin/echo\",\"schedule\"]],\"schedule\":\x7b\"minutes\":\"000000000000001\",\"hours\":\"000001\",\"weekdays\":\"7F\"\x7d\x7d") ∧
    parse_schedule_field
      (str "\x7b\"commands\":[[\"/bin/echo\",\"schedule\"]],\"schedule\":\x7b\"minutes\":\"000000000000001\",\"hours\":\"000001\",\"weekdays\":\"7F\"\x7d\x7d")
      .TASK_TYPE_SIMPLE = none ∧
    (handle_create_task idle_ctx (world_of writable_fs 100) MSG_REQ_CREATE_SIMPLE
      (str "\x7b\"commands\":[[\"/bin/echo\",\"schedule\"]],\"schedule\":\x7b\"minutes\":\"000000000000001\",\"hours\":\"000001\",\"weekdays\":\"7F\"\x7d\x7d")).2.2.reply_pipe.written =
        record_bytes MSG_RSP_ERROR schedule_refused ∧
    build_request_payload (create_options true [⟨[str "/bin/echo", [1]]⟩]) 4096 =
      some (MSG_REQ_CREATE_SIMPLE,
        str "\x7b\"commands\":[[\"/bin/echo\",\"\\u0001\"]],\"schedule\":\x7b\"minutes\":\"000000000000001\",\"hours\":\"000001\",\"weekdays\":\"7F\"\x7d\x7d") ∧
    parse_commands_field
      (str "\x7b\"commands\":[[\"/bin/echo\",\"\\u0001\"]],\"schedule\":\x7b\"minutes\":\"000000000000001\",\"hours\":\"000001\",\"weekdays\":\"7F\"\x7d\x7d")
      .TASK_TYPE_SIMPLE = none ∧
    (build_request_payload
        (create_options false [⟨[str "/bin/echo", str "a\"b\\c\n\t"]⟩, ⟨[str "commands"]⟩])
        4096).map
      (fun p => (p.1, parse_schedule_field p.2 .TASK_TYPE_SEQUENCE,
        parse_commands_field p.2 .TASK_TYPE_SEQUENCE)) =
      some (MSG_REQ_CREATE_SEQUENCE,
        some { minute_mask := 1, hour_mask := 1, weekday_mask := 127, enabled := true },
        some [⟨[str "/bin/echo", str "a\"b\\c\n\t"]⟩, ⟨[str "commands"]⟩]) := by
  refine ⟨by decide, by decide, by decide, by decide, by decide, by decide⟩

/-! ## The due-scan pass -/

/-- The store after one turn of the loop of `process_due_tasks` at an index
whose entry points to the task of the same index. -/
theorem due_step_store (now : Int) (x : Bool) (c : erraid_context_t) (s : daemon_sys) (k : Nat)
    (e : schedule_entry_t) (t : task_t) (he : c.plan[k]? = some e) (ht : c.tasks[k]? = some t)
    (hidx : e.task_index = k) :
    (due_step now (x, c, s) k).2.2.fs =
      if (entry_due e now && fireable t) = true then
        store_after_firing s c.paths s.fs ⟨k, t, run_entry s t now⟩
      else s.fs := by
  unfold due_step
  simp only [he]
  by_cases hdue : e.next_epoch ≥ 0 ∧ e.next_epoch ≤ now
  · have hd : entry_due e now = true := by unfold entry_due; exact decide_eq_true hdue
    rw [if_pos hdue]
    unfold run_task_instance
    simp only [he, hidx, ht]
    by_cases hf : fireable t = true
    · have hg : ¬ ((!t.schedule.enabled || decide (t.commands.length = 0)) = true) := by
        unfold fireable at hf
        cases h1 : t.schedule.enabled <;> simp_all
      rw [if_neg hg]
      simp only [hd, hf, Bool.and_self, if_true]
      rfl
    · have hf0 : fireable t = false := by simpa using hf
      have hg : (!t.schedule.enabled || decide (t.commands.length = 0)) = true := by
        unfold fireable at hf0
        cases h1 : t.schedule.enabled <;> simp_all
      rw [if_pos hg]
      simp only [hd, hf0, Bool.and_false, Bool.false_eq_true, if_false]
  · have hd : entry_due e now = false := by unfold entry_due; exact decide_eq_false hdue
    rw [if_neg hdue]
    simp only [hd, Bool.false_and, Bool.false_eq_true, if_false]

/-- The store during a pass: after the indices below `k` it is the store the
firings of these indices leave one after the other. -/
theorem due_pass_store_prefix (ctx : erraid_context_t) (sys : daemon_sys) (now : Int)
    (h : aligned ctx) :
    ∀ k, k ≤ ctx.plan_count →
      ((List.range k).foldl (due_step now) (false, ctx, sys)).2.2.fs =
        ((List.range k).filterMap (fire_of ctx sys now)).foldl
          (store_after_firing sys ctx.paths) sys.fs := by
  intro k
  induction k with
  | zero => intro _; rfl
  | succ k ih =>
    intro hk
    have ihk := ih (by omega)
    have hpre := due_pass_prefix ctx sys now h k (by omega)
    rw [List.range_succ, List.foldl_append, List.filterMap_append, List.foldl_append]
    simp only [List.foldl_cons, List.foldl_nil]
    generalize (List.range k).foldl (due_step now) (false, ctx, sys) = st at ihk hpre ⊢
    obtain ⟨x, c, s⟩ := st
    obtain ⟨hc, hs, hplan, htasks, _, _⟩ := hpre
    simp only at hc hs hplan htasks ihk
    obtain ⟨e, t, he, ht, hidx, _⟩ := aligned_get ctx h k (by omega)
    have hek : c.plan[k]? = some e := by rw [hplan k, if_neg (Nat.lt_irrefl k), he]
    have htk : c.tasks[k]? = some t := by rw [htasks k, if_neg (Nat.lt_irrefl k), ht]
    have hpaths : c.paths = ctx.paths := by rw [hc]
    have h1 : s.spawn = sys.spawn := by rw [hs]
    have h2 : s.realloc_ok = sys.realloc_ok := by rw [hs]
    have hre : run_entry s t now = run_entry sys t now := by
      unfold run_entry
      rw [h1, h2]
    have hstore : ∀ f : fire_t, store_after_firing s c.paths s.fs f =
        store_after_firing sys ctx.paths s.fs f := by
      intro f
      unfold store_after_firing firing_append
      rw [h1, h2, hpaths]
    rw [due_step_store now x c s k e t hek htk hidx, hstore, hre, ihk]
    have hfo : fire_of ctx sys now k =
        if (entry_due e now && fireable t) = true then some ⟨k, t, run_entry sys t now⟩
        else none := by
      unfold fire_of
      simp only [he, ht]
    simp only [List.filterMap_cons, List.filterMap_nil, hfo]
    by_cases hfire : (entry_due e now && fireable t) = true
    · simp only [hfire, if_true, List.foldl_cons, List.foldl_nil]
    · simp only [hfire, Bool.false_eq_true, if_false, List.foldl_nil]

/-- What a firing does to the history of its task when its
`storage_append_history` succeeds: the line of the firing is appended to
`history.log`, and the rewrite of the task file leaves it there. -/
theorem store_after_firing_history (sys : daemon_sys) (paths : storage_paths_t) (fs : fs_t)
    (f : fire_t) (h : List Nat)
    (hpath : utils_join_path3 paths.logs_dir (fmt_llu f.task.task_id) (str "history.log")
      PATH_MAX = some h)
    (hok : (firing_append sys paths fs f).1 = .ok ()) :
    appended_to fs (store_after_firing sys paths fs f) h (firing_line sys f) := by
  have hbase : base_name h = str "history.log" := by
    unfold utils_join_path3 at hpath
    cases hjd : utils_join_path paths.logs_dir (fmt_llu f.task.task_id) PATH_MAX with
    | none => rw [hjd] at hpath; cases hpath
    | some d =>
      rw [hjd] at hpath
      exact base_name_utils_join _ _ _ _ (by decide) hpath
  have ha := storage_append_history_ok_content fs paths f.task.task_id f.entry _ _ _ _ h hpath hok
  have hw : appended_to (firing_append sys paths fs f).2 (store_after_firing sys paths fs f) h
      [] := by
    apply appended_to_same
    apply fs_find_of_filter
    exact filter_storage_write_task_any _ (fun q => decide (q = h)) paths _
      (fun q hq => not_history_path h q _ hbase hq (by decide))
      (fun q hq => not_history_path h q _ hbase hq (fmt_llu_not_history _ _))
  have := appended_to_trans _ _ _ h _ [] ha hw
  simp only [List.append_nil] at this
  exact this

/-- A history line is not empty: it ends with a line feed. -/
theorem history_line_ne_nil (entry : task_run_entry_t) (a b : Nat) :
    history_line entry a b ≠ [] := by
  unfold history_line
  intro h
  have := congrArg List.length h
  simp at this

/-- The file `history.log` of the task after a firing whose
`storage_append_history` succeeds: its former content (nothing when the file
was not there), then the line of the firing. -/
theorem store_after_firing_log (sys : daemon_sys) (paths : storage_paths_t) (fs : fs_t)
    (f : fire_t) (h : List Nat)
    (hpath : utils_join_path3 paths.logs_dir (fmt_llu f.task.task_id) (str "history.log")
      PATH_MAX = some h)
    (hok : (firing_append sys paths fs f).1 = .ok ()) :
    fs_find (store_after_firing sys paths fs f) h =
      some (.file (file_content fs h ++ firing_line sys f)) := by
  rcases store_after_firing_history sys paths fs f h hpath hok with ⟨_, h0⟩ | ⟨_, h1⟩
  · exact absurd h0 (history_line_ne_nil _ _ _)
  · exact h1

/-- C14, as the code has it. One pass of `process_due_tasks` at the clock value
`now` over a state that satisfies plan/task alignment: the firings it makes
are, in increasing index order, those of the indices whose plan entry has
`0 <= next_epoch <= now` and whose task is enabled and has a command; each
firing carries one history entry with `epoch = now`; a fired task gets
`last_run_epoch = now` and its entry
`next_epoch = scheduler_next_occurrence(schedule, now)`; a due entry whose
task is disabled or has no command gets `next_epoch = -1` and its task is
left alone; an entry that is not due is unchanged, and so is its task. The
store after the pass is the one the firings leave one after the other, each
by its `storage_append_history` and its `storage_write_task`; and over any
store, after a firing whose `storage_append_history` succeeds the file
`history.log` of its task holds its former content followed by one line, the
line of an entry with `epoch = now`. -/
theorem due_pass_fires_due (ctx : erraid_context_t) (sys : daemon_sys) (now : Int)
    (h : aligned ctx) :
    (due_pass ctx sys now).2.2.fired =
      sys.fired ++ (List.range ctx.tasks.length).filterMap (fire_of ctx sys now) ∧
    (∀ i f, fire_of ctx sys now i = some f → f.task_index = i ∧ f.entry.epoch = now) ∧
    (∀ i e t, ctx.plan[i]? = some e → ctx.tasks[i]? = some t →
      (0 ≤ e.next_epoch ∧ e.next_epoch ≤ now → t.schedule.enabled = true → t.commands ≠ [] →
        fire_of ctx sys now i = some ⟨i, t, run_entry sys t now⟩ ∧
        (due_pass ctx sys now).2.1.plan[i]? =
          some { e with next_epoch := scheduler_next_occurrence sys.localtime_r t.schedule now } ∧
        (due_pass ctx sys now).2.1.tasks[i]? = some { t with last_run_epoch := now }) ∧
      (0 ≤ e.next_epoch ∧ e.next_epoch ≤ now → (t.schedule.enabled = false ∨ t.commands = []) →
        fire_of ctx sys now i = none ∧
        (due_pass ctx sys now).2.1.plan[i]? = some { e with next_epoch := -1 } ∧
        (due_pass ctx sys now).2.1.tasks[i]? = some t) ∧
      (¬ (0 ≤ e.next_epoch ∧ e.next_epoch ≤ now) →
        fire_of ctx sys now i = none ∧
        (due_pass ctx sys now).2.1.plan[i]? = some e ∧
        (due_pass ctx sys now).2.1.tasks[i]? = some t)) ∧
    (due_pass ctx sys now).2.2.fs =
      ((List.range ctx.tasks.length).filterMap (fire_of ctx sys now)).foldl
        (store_after_firing sys ctx.paths) sys.fs ∧
    ∀ i f, fire_of ctx sys now i = some f →
      (∃ a b, firing_line sys f = history_line { f.entry with epoch := now } a b) ∧
      ∀ fs hist,
        utils_join_path3 ctx.paths.logs_dir (fmt_llu f.task.task_id) (str "history.log")
          PATH_MAX = some hist →
        (firing_append sys ctx.paths fs f).1 = .ok () →
        fs_find (store_after_firing sys ctx.paths fs f) hist =
          some (.file (file_content fs hist ++ firing_line sys f)) := by
  obtain ⟨_, _, hplan, htasks, hfired, _⟩ := due_pass_spec ctx sys now h
  refine ⟨?_, fun i f hf => ⟨(fire_of_index ctx sys now i f hf).1,
    (fire_of_index ctx sys now i f hf).2.1⟩, ?_, ?_, ?_⟩
  · rw [hfired, h.1]
  · intro i e t he ht
    have hi : i < ctx.plan_count := by
      rw [h.1]
      exact (List.getElem?_eq_some_iff.mp ht).1
    have hp := hplan i
    have hq := htasks i
    rw [if_pos hi] at hp hq
    rw [hp, hq]
    unfold entry_after task_after fire_of
    simp only [he, ht]
    refine ⟨?_, ?_, ?_⟩
    · intro hdue hen hcmd
      have hd : entry_due e now = true := by unfold entry_due; exact decide_eq_true hdue
      have hf : fireable t = true := by
        unfold fireable
        rw [hen]
        simp only [Bool.true_and, decide_eq_true_eq]
        intro h0
        exact hcmd (List.eq_nil_of_length_eq_zero h0)
      simp only [hd, hf, Bool.and_self, if_true, and_self]
    · intro hdue hno
      have hd : entry_due e now = true := by unfold entry_due; exact decide_eq_true hdue
      have hf : fireable t = false := by
        unfold fireable
        rcases hno with h1 | h1
        · rw [h1]; rfl
        · rw [h1]; simp
      simp only [hd, hf, Bool.and_false, Bool.false_eq_true, if_false, if_true, and_self]
    · intro hnd
      have hd : entry_due e now = false := by unfold entry_due; exact decide_eq_false hnd
      simp only [hd, Bool.false_and, Bool.false_eq_true, if_false, and_self]
  · have := due_pass_store_prefix ctx sys now h ctx.plan_count (Nat.le_refl _)
    rw [← h.1]
    exact this
  · intro i f hf
    have hep := (fire_of_index ctx sys now i f hf).2.1
    refine ⟨⟨(if (executor_run_task { spawn := sys.spawn, realloc_ok := sys.realloc_ok }
          f.task).1 = true then
        (executor_run_task { spawn := sys.spawn, realloc_ok := sys.realloc_ok }
          f.task).2.stdout_len else 0),
      (if (executor_run_task { spawn := sys.spawn, realloc_ok := sys.realloc_ok }
          f.task).1 = true then
        (executor_run_task { spawn := sys.spawn, realloc_ok := sys.realloc_ok }
          f.task).2.stderr_len else 0), ?_⟩,
      fun fs hist hpath hok => store_after_firing_log sys ctx.paths fs f hist hpath hok⟩
    rw [← hep]
    rfl

/-- C14 on three tasks at the clock value 130: the SEQUENCE task planned for
120 is fired (history entry `130 0 6 0`, capture `A\nB\nC\n`, `last_run_epoch`
130, next epoch 180); the disabled task whose entry shows 60 is not fired and
its entry gets -1; the task planned for 180 is left alone. The store after the
pass is the store after the one firing, whose `storage_append_history`
succeeds: the line `130 0 6 0` is appended to `logs/1/history.log`. -/
theorem due_pass_fires_due_witness :
    aligned due_ctx ∧
    (due_pass due_ctx due_world 130).2.2.fired =
      due_world.fired ++ (List.range due_ctx.tasks.length).filterMap (fire_of due_ctx due_world 130) ∧
    (due_pass due_ctx due_world 130).2.2.fired = [⟨0, echo_exit_task, ⟨130, 0, 6, 0⟩⟩] ∧
    (due_pass due_ctx due_world 130).2.1.plan = [⟨1, 0, 180⟩, ⟨2, 1, -1⟩, ⟨3, 2, 180⟩, ⟨0, 0, 0⟩] ∧
    (due_pass due_ctx due_world 130).2.1.tasks.map (fun t => t.last_run_epoch) = [130, -1, -1] ∧
    fs_find (due_pass due_ctx due_world 130).2.2.fs (str "/run/logs/1/history.log") =
      some (.file (str "130 0 6 0\n")) ∧
    fs_find (due_pass due_ctx due_world 130).2.2.fs (str "/run/logs/1/last.stdout") =
      some (.file (str "A\nB\nC\n")) ∧
    fire_of due_ctx due_world 130 0 = some ⟨0, echo_exit_task, ⟨130, 0, 6, 0⟩⟩ ∧
    (firing_append due_world due_ctx.paths due_world.fs ⟨0, echo_exit_task, ⟨130, 0, 6, 0⟩⟩).1 =
      .ok () ∧
    firing_line due_world ⟨0, echo_exit_task, ⟨130, 0, 6, 0⟩⟩ = str "130 0 6 0\n" ∧
    fs_find
      (store_after_firing due_world due_ctx.paths due_world.fs
        ⟨0, echo_exit_task, ⟨130, 0, 6, 0⟩⟩)
      (str "/run/logs/1/history.log") =
        some (.file (file_content due_world.fs (str "/run/logs/1/history.log") ++
          firing_line due_world ⟨0, echo_exit_task, ⟨130, 0, 6, 0⟩⟩)) ∧
    (due_pass due_ctx due_world 130).2.2.fs =
      ((List.range due_ctx.tasks.length).filterMap (fire_of due_ctx due_world 130)).foldl
        (store_after_firing due_world due_ctx.paths) due_world.fs :=
  ⟨by decide, (due_pass_fires_due due_ctx due_world 130 (by decide)).1, by decide, by decide,
    by decide, by decide, by decide, by decide, by decide, by decide,
    ((due_pass_fires_due due_ctx due_world 130 (by decide)).2.2.2.2 0
      ⟨0, echo_exit_task, ⟨130, 0, 6, 0⟩⟩ (by decide)).2 due_world.fs
      (str "/run/logs/1/history.log") (by decide) (by decide),
    (due_pass_fires_due due_ctx due_world 130 (by decide)).2.2.2.1⟩

/-- C14 fails on a due entry whose task has no command, and on a firing whose
history cannot be written. (1) The store holds one task file, a SIMPLE task at
every minute with no command; after `erraid_reload_tasks` at the epoch 100 the
state is aligned and the entry of the task shows the epoch 120. A pass at the
clock value 130 finds the entry due, makes no firing, leaves the store and
`last_run_epoch` as they are and sets the entry to -1, while
`scheduler_next_occurrence(schedule, 130)` is 180. (2) Over a store in which
`logs/1` is a regular file, the pass at 130 over the aligned state `due_ctx`
fires task 1, sets its `last_run_epoch` to 130 and its entry to 180, but
`storage_append_history` fails with ENOTDIR, its result is not looked at, and
no history entry is written: the store is left as it was. -/
theorem due_entry_without_command_not_fired :
    erraid_reload_tasks idle_ctx (world_of zero_command_fs 100) = (true, zero_command_ctx) ∧
    aligned zero_command_ctx ∧
    zero_command_ctx.plan[0]? = some ⟨1, 0, 120⟩ ∧
    zero_command_ctx.tasks.map (fun t => (t.schedule.enabled, t.commands.length)) =
      [(true, 0)] ∧
    (due_pass zero_command_ctx (world_of zero_command_fs 130) 130).2.2.fired = [] ∧
    (due_pass zero_command_ctx (world_of zero_command_fs 130) 130).2.2.fs = zero_command_fs ∧
    (due_pass zero_command_ctx (world_of zero_command_fs 130) 130).2.1.tasks.map
      (fun t => t.last_run_epoch) = [-1] ∧
    (due_pass zero_command_ctx (world_of zero_command_fs 130) 130).2.1.plan[0]? =
      some ⟨1, 0, -1⟩ ∧
    zero_command_ctx.tasks.map
      (fun t => scheduler_next_occurrence (world_of zero_command_fs 130).localtime_r t.schedule 130) =
      [180] ∧
    (aligned due_ctx ∧
      (due_pass due_ctx blocked_log_world 130).2.2.fired =
        [⟨0, echo_exit_task, ⟨130, 0, 6, 0⟩⟩] ∧
      (firing_append blocked_log_world due_ctx.paths blocked_log_world.fs
        ⟨0, echo_exit_task, ⟨130, 0, 6, 0⟩⟩).1 = .error .ENOTDIR ∧
      (due_pass due_ctx blocked_log_world 130).2.1.tasks.map (fun t => t.last_run_epoch) =
        [130, -1, -1] ∧
      (due_pass due_ctx blocked_log_world 130).2.1.plan[0]? = some ⟨1, 0, 180⟩ ∧
      fs_find (due_pass due_ctx blocked_log_world 130).2.2.fs (str "/run/logs/1/history.log") =
        none ∧
      (due_pass due_ctx blocked_log_world 130).2.2.fs = blocked_log_world.fs) := by
  refine ⟨by decide, by decide, by decide, by decide, by decide, by decide, by decide, by decide,
    by decide, ⟨by decide, by decide, by decide, by decide, by decide, by decide, by decide⟩⟩

end Erraid
